import Mathlib

/-!
# CEGSolver: the counter-example guided enumerative synthesis loop

A shallow embedding of `src/solvers/CEGSolver.cpp`.  The solver object is a record
`CEGSolver`; every member function is a function from the record to an `Outcome`, which
is either a normal return or a thrown exception, in both cases together with the solver
record as the function left it.  The collaborators whose code lives outside this file
(theorem prover, concrete evaluator, decision-tree builder, enumerator, resource manager)
are passed in as a record of functions, `Collaborators`; calls made to them are written
to `CEGSolver.Trace` in program order.  The comparator `SetCompare` of
`src/utils/SetUtils.hpp` is embedded in a section of its own.

Machine integers: the loop counter of `Solve` is a `uint32` and is modelled with its
wrap-around.  The two `uint64` statistics counters and the restart count only feed the
log and are modelled as unbounded naturals.
-/

namespace ESolver

/-! ## Data model -/

/-- Verdict a callback hands back to the enumerator. -/
inductive CallbackStatus where
  | NONE_STATUS
  | DELETE_EXPRESSION
  | STOP_ENUMERATION
  deriving DecidableEq, Repr

/-- Result of `TP->CheckValidity`.  `CheckSymbolicValidity` switches on `SOLVE_VALID`,
`SOLVE_INVALID` and `default`; `SOLVE_UNKNOWN code` stands for every result that lands in
the `default` branch. -/
inductive SolveStatus where
  | SOLVE_VALID
  | SOLVE_INVALID
  | SOLVE_UNKNOWN (code : Nat)
  deriving DecidableEq, Repr

/-- Exceptions that leave a member function.  `UndefinedBehaviour` stands for a null
dereference or an out-of-range access, where the C++ program has no defined result.
`LoopBoundExceeded` is not a C++ exception: it marks that a loop of the program was still
running when the bound up to which the model follows it was reached. -/
inductive ESException where
  | Z3Exception
  | ResourceLimitExceeded
  | UndefinedBehaviour
  | AssertionFailure
  | SpecShapeError
  | LoopBoundExceeded
  deriving DecidableEq, Repr

inductive CEGSolverMode where
  | CEG
  | PBE
  deriving DecidableEq, Repr

inductive PBESolvePhase where
  | BuildTermExprs
  | BuildDecisionTree
  deriving DecidableEq, Repr

/-- A candidate borrowed from the enumerator (`GenExpressionBase const*`), by identity. -/
abbrev GenExpressionBase := Nat

/-- An owned user expression (`Expression`), by identity. -/
abbrev Expression := Nat

abbrev ESFixedTypeBase := Nat

/-- A function symbol to synthesize (`const SynthFuncOperator*`), by identity. -/
abbrev SynthFuncOperator := Nat

/-- A concrete assignment to the relevant variables. -/
abbrev SMTConcreteValueModel := List Int

/-- An interned behaviour signature. -/
abbrev Signature := List Int

/-- A `ConcreteEvaluator*` into `PBEEvalPtrs`: the position of the pointee. -/
abbrev EvalPtr := Nat

/-- The cursor `DTCurLocation` of the decision-tree builder. -/
abbrev DTLocation := Nat

structure ESolverOpts where
  StatsLevel : Nat
  NoDist : Bool
  CostBudget : Nat
  deriving DecidableEq, Repr

/-- Calls to collaborators, in the order the program makes them. -/
inductive Event where
  | CheckResourceLimits
  | CheckValidity (Exps : List GenExpressionBase) (TPRes : SolveStatus)
  | GetConcreteModel (Exps : List GenExpressionBase)
  | AddPoint (EvalId : Nat) (Model : SMTConcreteValueModel)
  | ResetSigStore (EvalId : Nat)
  | InsertDecisionNode (Loc : DTLocation) (Fst Snd : EvalPtr) (DecisionExprs : List Expression)
  | InsertSharedDecisionNode (Loc : DTLocation) (Fst Snd : EvalPtr)
  | CheckExampleValidity (EvalId : Nat) (TreeExpr : Expression) (Result : Bool)
  | GenExpressionInitialize
  | PreSolve
  | EnumerateOfCost (Cost : Nat)
  | EnumeratorReset
  | PostSolve
  | EndSolve
  deriving DecidableEq, Repr

/-- Modelled from the spec: the class `ConcreteEvaluator` (`solverutils/ConcreteEvaluator.hpp`)
is not among the sources.  An evaluator has an identity, a point set that only grows, and
a signature store of its own. -/
structure ConcreteEvaluator where
  Id : Nat
  Points : List SMTConcreteValueModel
  SigStore : List Signature
  deriving DecidableEq, Repr

/-- Modelled from the spec: `ConcreteEvaluator::AddPoint`, "append `p` to the point set";
"duplicates are idempotent in ConcreteEvaluator". -/
def ConcreteEvaluator.AddPoint (ev : ConcreteEvaluator) (p : SMTConcreteValueModel) :
    ConcreteEvaluator :=
  if p ∈ ev.Points then ev else { ev with Points := ev.Points ++ [p] }

/-- Modelled from the spec: `ConcreteEvaluator::ResetSigStore`, "discards entries for that
evaluator without destroying it". -/
def ConcreteEvaluator.ResetSigStore (ev : ConcreteEvaluator) : ConcreteEvaluator :=
  { ev with SigStore := [] }

/-- Modelled from the spec: the class `DecisionTreeBuilder` is not among the sources.  It
holds the queue of unique per-example evaluators, the bag of duplicates, and a partial
tree whose representation is the builder's own business (`Tree`). -/
structure DecisionTreeBuilder where
  UniqQueue : List EvalPtr
  DupExamples : List EvalPtr
  Tree : List Nat
  deriving DecidableEq, Repr

/-- Modelled from the spec: `DecisionTreeBuilder::GetQueueBack`, the unique evaluator added
last. -/
def DecisionTreeBuilder.GetQueueBack (b : DecisionTreeBuilder) : Option EvalPtr :=
  b.UniqQueue.getLast?

/-- Modelled from the spec: `DecisionTreeBuilder::AddUniqTermExprExample`. -/
def DecisionTreeBuilder.AddUniqTermExprExample (b : DecisionTreeBuilder) (p : EvalPtr) :
    DecisionTreeBuilder :=
  { b with UniqQueue := b.UniqQueue ++ [p] }

/-- Modelled from the spec: `DecisionTreeBuilder::AddDupTermExprExample`. -/
def DecisionTreeBuilder.AddDupTermExprExample (b : DecisionTreeBuilder) (p : EvalPtr) :
    DecisionTreeBuilder :=
  { b with DupExamples := b.DupExamples ++ [p] }

/-- Modelled from the spec: `DecisionTreeBuilder::Reset`, "the DecisionTreeBuilder is reset
at each solve and at PBE mode entry". -/
def DecisionTreeBuilder.Reset (_b : DecisionTreeBuilder) (FreshTree : List Nat) :
    DecisionTreeBuilder :=
  { UniqQueue := [], DupExamples := [], Tree := FreshTree }

/-- The members of `CEGSolver` (with those of its base class that the code here touches),
the process-wide sub-expression evaluation points of `ConcreteEvaluator`, the state of the
enumerator object, and the record of collaborator calls. -/
structure CEGSolver where
  Opts : ESolverOpts
  ConcEval : Option ConcreteEvaluator
  ExpEnumerator : Option Nat
  TheMode : CEGSolverMode
  PBEPhase : PBESolvePhase
  DTBuilder : DecisionTreeBuilder
  NumExpressionsTried : Nat
  NumDistExpressions : Nat
  Complete : Bool
  Restart : Bool
  Solutions : List (List (SynthFuncOperator × Expression))
  SynthFuncs : List SynthFuncOperator
  RelevantVars : List String
  PBEEvalPtrs : List ConcreteEvaluator
  PBEEval2TermExpIdxMap : List (Nat × Nat)
  PBETermExprs : List Expression
  DTCurLocation : DTLocation
  DTCurEvalPtrs : EvalPtr × EvalPtr
  SubExprEvalPoints : List (Nat × Int)
  Trace : List Event
  deriving DecidableEq, Repr

/-- What a member function leaves behind: a returned value or a thrown exception, and the
solver as it is at that moment. -/
inductive Outcome (α : Type) where
  | ret (val : α) (s : CEGSolver)
  | throw (e : ESException) (s : CEGSolver)

/-- The solver record an outcome carries. -/
def Outcome.state {α : Type} : Outcome α → CEGSolver
  | .ret _ s => s
  | .throw _ s => s

/-- The returned value, when the function returned. -/
def Outcome.val? {α : Type} : Outcome α → Option α
  | .ret v _ => some v
  | .throw _ _ => none

/-- The exception an outcome carries, when the function threw. -/
def Outcome.exception? {α : Type} : Outcome α → Option ESException
  | .ret _ _ => none
  | .throw e _ => some e

/-- A callback invocation the enumerator makes on its host during `EnumerateOfCost`. -/
inductive CallbackRequest where
  | Expression (Exp : GenExpressionBase) (Ty : ESFixedTypeBase) (ExpansionTypeID : Nat)
      (EnumeratorIndex : Nat)
  | SubExpression (Exp : GenExpressionBase) (Ty : ESFixedTypeBase) (ExpansionTypeID : Nat)
  | ExpressionTuple (Exps : Nat → GenExpressionBase) (Types : Nat → ESFixedTypeBase)
      (ExpansionTypeIDs : Nat → Nat)

/-- One `EnumerateOfCost` call seen from the host: the enumerator either finishes, leaving
its own state behind, or invokes a callback and goes on according to the verdict. -/
inductive EnumRun where
  | done (st : Nat)
  | call (req : CallbackRequest) (k : CallbackStatus → EnumRun)

/-- The behaviour of an enumerator object (`CFGEnumeratorSingle`, `CFGEnumeratorMulti`):
its state after construction, what `EnumerateOfCost` does from a state, and `Reset`. -/
structure CFGEnumerator where
  Init : Nat
  EnumerateOfCost : Nat → Nat → EnumRun
  Reset : Nat → Nat

/-- The behaviour of the code outside `CEGSolver.cpp` that the solver calls. -/
structure Collaborators where
  /-- `CONCRETE_EVAL_DIST`, a flag bit fixed in `ConcreteEvaluator.hpp`. -/
  CONCRETE_EVAL_DIST : Nat
  /-- `CONCRETE_EVAL_PART`, likewise. -/
  CONCRETE_EVAL_PART : Nat
  /-- `GenExpressionBase::ToUserExpression`. -/
  ToUserExpression : GenExpressionBase → Expression
  /-- `TP->CheckValidity` on the rewritten constraint with the given expressions
  substituted for the synth functions (`RewrittenConstraint->ToSMT(TP, Exps, ...)`). -/
  CheckValidity : List GenExpressionBase → SolveStatus
  /-- `TP->GetConcreteModel` after the failed validity query on these expressions. -/
  GetConcreteModel : List GenExpressionBase → SMTConcreteValueModel
  /-- `ConcreteEvaluator::CheckConcreteValidity(Exp, Type, ExpansionTypeID, StatusRet)`:
  the verdict, the new `StatusRet`, and the signature store afterwards. -/
  CheckConcreteValidity : ConcreteEvaluator → GenExpressionBase → ESFixedTypeBase → Nat →
    Nat → Bool × Nat × List Signature
  /-- `ConcreteEvaluator::CheckConcreteValidity(Exps, Types, ExpansionTypeIDs)`. -/
  CheckConcreteValidityTuple : ConcreteEvaluator → List GenExpressionBase →
    List ESFixedTypeBase → List Nat → Bool × List Signature
  /-- `ConcreteEvaluator::CheckSubExpression`: whether distinguishable, the new
  `StatusRet`, the signature store afterwards, and the sub-expression evaluation points
  it leaves behind (by evaluator id). -/
  CheckSubExpression : ConcreteEvaluator → List ConcreteEvaluator → GenExpressionBase →
    ESFixedTypeBase → Nat → Nat → Bool × Nat × List Signature × List (Nat × Int)
  /-- `ConcreteEvaluator::CheckExampleValidity`. -/
  CheckExampleValidity : ConcreteEvaluator → Expression → Bool
  /-- Whether `CheckResourceLimits` finds the limits exceeded, given what happened so
  far. -/
  ResourceLimitExceeded : List Event → Bool
  /-- The empty tree `DecisionTreeBuilder::Reset(n)` starts from. -/
  DTFreshTree : Nat → List Nat
  /-- `DecisionTreeBuilder::Initialize`. -/
  DTInit : DecisionTreeBuilder → ESFixedTypeBase → DecisionTreeBuilder
  /-- `DecisionTreeBuilder::LocateNextEvalNode(DTCurLocation, DTCurEvalPtrs)`: the
  returned flag, the two reference arguments afterwards, and the builder afterwards.  The
  pair afterwards is the located pair when the flag is `true`; when it is `false` no
  pair was located and the code does not read the pair again, except at the phase switch
  of `PBEEnumTermExprs`. -/
  LocateNextEvalNode : DecisionTreeBuilder → DTLocation → EvalPtr × EvalPtr →
    Bool × DTLocation × (EvalPtr × EvalPtr) × DecisionTreeBuilder
  /-- `DecisionTreeBuilder::InsertDecisionNode`. -/
  InsertDecisionNode : DecisionTreeBuilder → DTLocation → EvalPtr × EvalPtr →
    List Expression → DecisionTreeBuilder
  /-- `DecisionTreeBuilder::InsertSharedDecisionNode`. -/
  InsertSharedDecisionNode : DecisionTreeBuilder → DTLocation → EvalPtr × EvalPtr →
    DecisionTreeBuilder
  /-- `DecisionTreeBuilder::Do`. -/
  DTDo : DecisionTreeBuilder → DecisionTreeBuilder
  /-- `DecisionTreeBuilder::GetTreeExpr`. -/
  GetTreeExpr : DecisionTreeBuilder → Expression
  /-- A bound on the number of pending slots of the builder's (finite) tree, which bounds
  the shared-node loop of `PBEEnumDecisionTree`. -/
  PendingSlots : DecisionTreeBuilder → Nat
  /-- `TP->AddConcreteValueToModel(name, value, Model, this)` on an empty model. -/
  AddConcreteValueToModel : String → String → SMTConcreteValueModel
  /-- The enumerator `new CFGEnumeratorSingle(this, SynthGrammars[0])`. -/
  EnumeratorSingle : CFGEnumerator
  /-- The enumerator `new CFGEnumeratorMulti(this, SynthGrammars)`. -/
  EnumeratorMulti : CFGEnumerator

/-! ## Small helpers for `std::map` -/

/-- The call `std::map::find`. -/
def MapFind (m : List (Nat × Nat)) (k : Nat) : Option Nat :=
  (m.find? (fun kv => kv.1 == k)).map Prod.snd

/-- The assignment `m[k] = v`. -/
def MapAssign : List (Nat × Nat) → Nat → Nat → List (Nat × Nat)
  | [], k, v => [(k, v)]
  | (k', v') :: m, k, v => if k' == k then (k', v) :: m else (k', v') :: MapAssign m k v

/-- The read `m[k]`, which inserts a zero under a key that is absent. -/
def MapIndex (m : List (Nat × Nat)) (k : Nat) : List (Nat × Nat) × Nat :=
  match MapFind m k with
  | some v => (m, v)
  | none => (m ++ [(k, 0)], 0)

/-- Record a collaborator call. -/
def CEGSolver.log (s : CEGSolver) (e : Event) : CEGSolver :=
  { s with Trace := s.Trace ++ [e] }

/-! ## `CEGSolver` member functions -/

/-- The probe `CheckResourceLimits()` of the base class: throws when the limits are
exceeded. -/
def CheckResourceLimits (C : Collaborators) (s : CEGSolver) : Outcome Unit :=
  if C.ResourceLimitExceeded s.Trace then
    .throw .ResourceLimitExceeded (s.log .CheckResourceLimits)
  else
    .ret () (s.log .CheckResourceLimits)

/-- Embeds `CEGSolver::CheckSymbolicValidity(GenExpressionBase const* const* Exps)`. -/
def CheckSymbolicValidity (C : Collaborators) (Exps : List GenExpressionBase)
    (s : CEGSolver) : Outcome Bool :=
  let TPRes := C.CheckValidity Exps
  let s1 := s.log (.CheckValidity Exps TPRes)
  match TPRes with
  | .SOLVE_VALID => .ret true s1
  | .SOLVE_INVALID =>
    if s1.Opts.StatsLevel ≥ 4 then
      .ret false (s1.log (.GetConcreteModel Exps))
    else
      .ret false s1
  | .SOLVE_UNKNOWN _ => .throw .Z3Exception s1

/-- Embeds `CEGSolver::SubExpressionCallBack`. -/
def SubExpressionCallBack (C : Collaborators) (Exp : GenExpressionBase)
    (Ty : ESFixedTypeBase) (ExpansionTypeID : Nat) (s : CEGSolver) :
    Outcome CallbackStatus :=
  match CheckResourceLimits C s with
  | .throw e s1 => .throw e s1
  | .ret _ s1 =>
    match s1.ConcEval with
    | none => .throw .UndefinedBehaviour s1
    | some ev =>
      let r := C.CheckSubExpression ev s1.PBEEvalPtrs Exp Ty ExpansionTypeID 0
      let s2 := { s1 with ConcEval := some { ev with SigStore := r.2.2.1 },
                          SubExprEvalPoints := r.2.2.2 }
      if r.1 then
        .ret .NONE_STATUS { s2 with NumDistExpressions := s2.NumDistExpressions + 1 }
      else
        .ret .DELETE_EXPRESSION s2

/-- The static `ConcreteEvaluator::ResetSigStore(Eval)` on an evaluator held in
`PBEEvalPtrs`. -/
def ResetSigStoreAt (p : EvalPtr) (s : CEGSolver) : Outcome Unit :=
  match s.PBEEvalPtrs[p]? with
  | none => .throw .UndefinedBehaviour s
  | some ev =>
    .ret () ({ s with PBEEvalPtrs := s.PBEEvalPtrs.set p ev.ResetSigStore }.log
      (.ResetSigStore ev.Id))

/-- The body of the `for` loop of `PBEEnumTermExprs` that probes the later examples, run
over the indices `i` still to visit.  The accumulator carries the solver, `StatusRet` and
`IsSetFirstInvalidEval`. -/
def PBEProbeLaterExamples (C : Collaborators) (Expr : GenExpressionBase)
    (Ty : ESFixedTypeBase) (ExpansionTypeID : Nat) (TermExprIdx : Nat) :
    List Nat → CEGSolver × Nat × Bool → CEGSolver × Nat × Bool
  | [], acc => acc
  | i :: rest, (s, StatusRet, IsSetFirstInvalidEval) =>
    match s.PBEEvalPtrs[i]? with
    | none => PBEProbeLaterExamples C Expr Ty ExpansionTypeID TermExprIdx rest
        (s, StatusRet, IsSetFirstInvalidEval)
    | some ev =>
      if (MapFind s.PBEEval2TermExpIdxMap ev.Id).isSome then
        PBEProbeLaterExamples C Expr Ty ExpansionTypeID TermExprIdx rest
          (s, StatusRet, IsSetFirstInvalidEval)
      else
        let r := C.CheckConcreteValidity ev Expr Ty ExpansionTypeID StatusRet
        let s1 := { s with PBEEvalPtrs := s.PBEEvalPtrs.set i { ev with SigStore := r.2.2 } }
        if r.1 then
          PBEProbeLaterExamples C Expr Ty ExpansionTypeID TermExprIdx rest
            ({ s1 with
                PBEEval2TermExpIdxMap := MapAssign s1.PBEEval2TermExpIdxMap ev.Id TermExprIdx,
                DTBuilder := s1.DTBuilder.AddDupTermExprExample i },
              r.2.1, IsSetFirstInvalidEval)
        else if !IsSetFirstInvalidEval then
          PBEProbeLaterExamples C Expr Ty ExpansionTypeID TermExprIdx rest
            ({ s1 with DTBuilder := s1.DTBuilder.AddUniqTermExprExample i }, r.2.1, true)
        else
          PBEProbeLaterExamples C Expr Ty ExpansionTypeID TermExprIdx rest
            (s1, r.2.1, IsSetFirstInvalidEval)

/-- Embeds `CEGSolver::PBEEnumTermExprs`.

The phase switch at the end calls `DTBuilder.LocateNextEvalNode(DTCurLocation,
DTCurEvalPtrs)`, ignores what it returns, and passes `DTCurEvalPtrs.first` to
`ConcreteEvaluator::ResetSigStore`.  `DTCurEvalPtrs` is written by `LocateNextEvalNode`
(here and in `PBEEnumDecisionTree`) and by the swap in `PBEEnumDecisionTree` only, and
`PBEEnumDecisionTree` runs only once the phase switch below has been made; so when this
call is reached the pair still holds the two null pointers the constructor leaves.  A
position in `PBEEvalPtrs` cannot be null: what the model keeps of this is that a call
which returns `false`, having located no pair, is followed by the dereference of a null
pointer. -/
def PBEEnumTermExprs (C : Collaborators) (Expr : GenExpressionBase)
    (Ty : ESFixedTypeBase) (ExpansionTypeID : Nat) (s : CEGSolver) :
    Outcome CallbackStatus :=
  match CheckResourceLimits C s with
  | .throw e s0 => .throw e s0
  | .ret _ s0 =>
    let s1 := { s0 with NumExpressionsTried := s0.NumExpressionsTried + 1 }
    match s1.DTBuilder.GetQueueBack with
    | none => .throw .UndefinedBehaviour s1
    | some CurEval =>
      match s1.PBEEvalPtrs[CurEval]? with
      | none => .throw .UndefinedBehaviour s1
      | some ev =>
        let CurEvalIdx := ev.Id
        let r := C.CheckConcreteValidity ev Expr Ty ExpansionTypeID 0
        let s2 := { s1 with
          PBEEvalPtrs := s1.PBEEvalPtrs.set CurEval { ev with SigStore := r.2.2 } }
        if !r.1 then
          if (r.2.1 &&& C.CONCRETE_EVAL_DIST) == 0 then
            .ret .DELETE_EXPRESSION s2
          else
            .ret .NONE_STATUS { s2 with NumDistExpressions := s2.NumDistExpressions + 1 }
        else
          let TermExprIdx := s2.PBETermExprs.length
          let s3 := { s2 with
            PBEEval2TermExpIdxMap := MapAssign s2.PBEEval2TermExpIdxMap CurEvalIdx TermExprIdx,
            PBETermExprs := s2.PBETermExprs ++ [C.ToUserExpression Expr],
            NumDistExpressions := s2.NumDistExpressions + 1 }
          let s4 := (PBEProbeLaterExamples C Expr Ty ExpansionTypeID TermExprIdx
            (List.range' (CurEvalIdx + 1) (s3.PBEEvalPtrs.length - (CurEvalIdx + 1)))
            (s3, r.2.1, false)).1
          if s4.PBEEval2TermExpIdxMap.length != s4.PBEEvalPtrs.length then
            match s4.DTBuilder.GetQueueBack with
            | none => .throw .UndefinedBehaviour s4
            | some back =>
              match ResetSigStoreAt back s4 with
              | .throw e s5 => .throw e s5
              | .ret _ s5 => .ret .STOP_ENUMERATION { s5 with Restart := true }
          else if s4.PBETermExprs.length == 1 then
            match s4.SynthFuncs[0]?, s4.PBETermExprs.getLast? with
            | some f, some t =>
              .ret .STOP_ENUMERATION
                { s4 with Complete := true, Solutions := s4.Solutions ++ [[(f, t)]] }
            | _, _ =>
              .throw .UndefinedBehaviour
                { s4 with Complete := true, Solutions := s4.Solutions ++ [[]] }
          else
            let s5 := { s4 with DTBuilder := C.DTInit s4.DTBuilder Ty }
            let l := C.LocateNextEvalNode s5.DTBuilder s5.DTCurLocation s5.DTCurEvalPtrs
            let s6 := { s5 with
              DTBuilder := l.2.2.2, DTCurLocation := l.2.1, DTCurEvalPtrs := l.2.2.1 }
            if l.1 then
              match ResetSigStoreAt s6.DTCurEvalPtrs.1 s6 with
              | .throw e s7 => .throw e s7
              | .ret _ s7 =>
                .ret .STOP_ENUMERATION
                  { s7 with PBEPhase := .BuildDecisionTree, Restart := true }
            else
              .throw .UndefinedBehaviour s6

/-- The `while (DTBuilder.LocateNextEvalNode(...))` loop of `PBEEnumDecisionTree`.  Returns
`true` when the loop body executed `return STOP_ENUMERATION` (a pair needing a predicate
was found), `false` when the loop condition failed. -/
def PBENextWorkItem (C : Collaborators) : Nat → CEGSolver → Outcome Bool
  | 0, s => .throw .LoopBoundExceeded s
  | fuel + 1, s =>
    let l := C.LocateNextEvalNode s.DTBuilder s.DTCurLocation s.DTCurEvalPtrs
    let s1 := { s with
      DTBuilder := l.2.2.2, DTCurLocation := l.2.1, DTCurEvalPtrs := l.2.2.1 }
    if l.1 then
      match s1.PBEEvalPtrs[s1.DTCurEvalPtrs.1]?, s1.PBEEvalPtrs[s1.DTCurEvalPtrs.2]? with
      | some e1, some e2 =>
        let m1 := MapIndex s1.PBEEval2TermExpIdxMap e1.Id
        let m2 := MapIndex m1.1 e2.Id
        let s2 := { s1 with PBEEval2TermExpIdxMap := m2.1 }
        if m1.2 == m2.2 then
          PBENextWorkItem C fuel
            ({ s2 with DTBuilder :=
                C.InsertSharedDecisionNode s2.DTBuilder s2.DTCurLocation s2.DTCurEvalPtrs }.log
              (.InsertSharedDecisionNode s2.DTCurLocation s2.DTCurEvalPtrs.1
                s2.DTCurEvalPtrs.2))
        else
          match ResetSigStoreAt s2.DTCurEvalPtrs.1 s2 with
          | .throw e s3 => .throw e s3
          | .ret _ s3 => .ret true { s3 with Restart := true }
      | _, _ => .throw .UndefinedBehaviour s1
    else
      .ret false s1

/-- The validation loop of `PBEEnumDecisionTree` at `StatsLevel >= 2`: one
`CheckExampleValidity` call per evaluator, in order. -/
def PBEValidateTree (C : Collaborators) (TreeExpr : Expression) :
    List ConcreteEvaluator → CEGSolver → CEGSolver
  | [], s => s
  | ev :: rest, s =>
    PBEValidateTree C TreeExpr rest
      (s.log (.CheckExampleValidity ev.Id TreeExpr (C.CheckExampleValidity ev TreeExpr)))

/-- Embeds `CEGSolver::PBEEnumDecisionTree`. -/
def PBEEnumDecisionTree (C : Collaborators) (Exp : GenExpressionBase)
    (Ty : ESFixedTypeBase) (ExpansionTypeID : Nat) (s : CEGSolver) :
    Outcome CallbackStatus :=
  match CheckResourceLimits C s with
  | .throw e s0 => .throw e s0
  | .ret _ s0 =>
    let s1 := { s0 with NumExpressionsTried := s0.NumExpressionsTried + 1 }
    match s1.PBEEvalPtrs[s1.DTCurEvalPtrs.1]? with
    | none => .throw .UndefinedBehaviour s1
    | some ev1 =>
      let r := C.CheckSubExpression ev1 s1.PBEEvalPtrs Exp Ty ExpansionTypeID 0
      let StatusRet :=
        if !r.1 then r.2.1 &&& (0xFFFFFFFF ^^^ C.CONCRETE_EVAL_DIST) else r.2.1
      let s2 := { s1 with
        PBEEvalPtrs := s1.PBEEvalPtrs.set s1.DTCurEvalPtrs.1 { ev1 with SigStore := r.2.2.1 },
        SubExprEvalPoints := r.2.2.2 }
      match s2.PBEEvalPtrs[s2.DTCurEvalPtrs.2]? with
      | none => .throw .UndefinedBehaviour s2
      | some ev2 =>
        let FstEvalId := ev1.Id
        let SndEvalId := ev2.Id
        match s2.SubExprEvalPoints.lookup FstEvalId, s2.SubExprEvalPoints.lookup SndEvalId with
        | some ThenValue, some ElseValue =>
          let ValidCondition :=
            (ThenValue != ElseValue) && (ThenValue == 1 || ElseValue == 1)
          if !ValidCondition then
            if (StatusRet &&& C.CONCRETE_EVAL_DIST) == 0 then
              .ret .DELETE_EXPRESSION s2
            else
              .ret .NONE_STATUS { s2 with NumDistExpressions := s2.NumDistExpressions + 1 }
          else
            let m1 := MapIndex s2.PBEEval2TermExpIdxMap FstEvalId
            let m2 := MapIndex m1.1 SndEvalId
            let ThenExprIdx := if ThenValue != 1 then m2.2 else m1.2
            let ElseExprIdx := if ThenValue != 1 then m1.2 else m2.2
            let s3 := { s2 with
              NumDistExpressions := s2.NumDistExpressions + 1,
              PBEEval2TermExpIdxMap := m2.1,
              DTCurEvalPtrs :=
                if ThenValue != 1 then (s2.DTCurEvalPtrs.2, s2.DTCurEvalPtrs.1)
                else s2.DTCurEvalPtrs }
            match s3.PBETermExprs[ThenExprIdx]?, s3.PBETermExprs[ElseExprIdx]? with
            | some ThenExpr, some ElseExpr =>
              let DecisionExprs := [C.ToUserExpression Exp, ThenExpr, ElseExpr]
              let b := C.InsertDecisionNode s3.DTBuilder s3.DTCurLocation s3.DTCurEvalPtrs
                DecisionExprs
              let s4 := { s3 with DTBuilder := b }.log
                (.InsertDecisionNode s3.DTCurLocation s3.DTCurEvalPtrs.1 s3.DTCurEvalPtrs.2
                  DecisionExprs)
              match PBENextWorkItem C (C.PendingSlots s4.DTBuilder + 1) s4 with
              | .throw e s5 => .throw e s5
              | .ret true s5 => .ret .STOP_ENUMERATION s5
              | .ret false s5 =>
                let s6 := { s5 with DTBuilder := C.DTDo s5.DTBuilder }
                let s7 :=
                  if s6.Opts.StatsLevel ≥ 2 then
                    PBEValidateTree C (C.GetTreeExpr s6.DTBuilder) s6.PBEEvalPtrs s6
                  else s6
                match s7.SynthFuncs[0]? with
                | none =>
                  .throw .UndefinedBehaviour { s7 with Solutions := s7.Solutions ++ [[]] }
                | some f =>
                  .ret .STOP_ENUMERATION
                    { s7 with
                      Solutions := s7.Solutions ++ [[(f, C.GetTreeExpr s7.DTBuilder)]],
                      Complete := true }
            | _, _ => .throw .UndefinedBehaviour s3
        | _, _ => .throw .UndefinedBehaviour s2

/-- Embeds the single-function `CEGSolver::ExpressionCallBack(Exp, Type, ExpansionTypeID,
EnumeratorIndex)`. -/
def ExpressionCallBack (C : Collaborators) (Exp : GenExpressionBase)
    (Ty : ESFixedTypeBase) (ExpansionTypeID : Nat) (_EnumeratorIndex : Nat)
    (s : CEGSolver) : Outcome CallbackStatus :=
  if s.TheMode = .PBE then
    if s.PBEPhase = .BuildTermExprs then
      PBEEnumTermExprs C Exp Ty ExpansionTypeID s
    else
      PBEEnumDecisionTree C Exp Ty ExpansionTypeID s
  else
    let s1 := { s with NumExpressionsTried := s.NumExpressionsTried + 1 }
    match s1.ConcEval with
    | none => .throw .UndefinedBehaviour s1
    | some ev =>
      let r := C.CheckConcreteValidity ev Exp Ty ExpansionTypeID 0
      let ev1 := { ev with SigStore := r.2.2 }
      let s2 := { s1 with ConcEval := some ev1 }
      if !r.1 && (r.2.1 &&& C.CONCRETE_EVAL_DIST) == 0 then
        .ret .DELETE_EXPRESSION s2
      else if !r.1 then
        .ret .NONE_STATUS { s2 with NumDistExpressions := s2.NumDistExpressions + 1 }
      else
        let s3 := { s2 with NumDistExpressions := s2.NumDistExpressions + 1 }
        match CheckSymbolicValidity C [Exp] s3 with
        | .throw e s4 => .throw e s4
        | .ret true s4 =>
          match s4.SynthFuncs[0]? with
          | none =>
            .throw .UndefinedBehaviour
              { s4 with Complete := true, Solutions := s4.Solutions ++ [[]] }
          | some f =>
            .ret .STOP_ENUMERATION
              { s4 with Complete := true,
                        Solutions := s4.Solutions ++ [[(f, C.ToUserExpression Exp)]] }
        | .ret false s4 =>
          let ConcSMTModel := C.GetConcreteModel [Exp]
          let s5 := ({ (s4.log (.GetConcreteModel [Exp])) with
            ConcEval := some (ev1.AddPoint ConcSMTModel).ResetSigStore }.log
              (.AddPoint ev1.Id ConcSMTModel)).log (.ResetSigStore ev1.Id)
          if !s5.Opts.NoDist then
            .ret .STOP_ENUMERATION { s5 with Restart := true }
          else
            .ret .NONE_STATUS s5

/-- Embeds the multi-function `CEGSolver::ExpressionCallBack(Exps, Types,
ExpansionTypeIDs)`.  The three arguments are C arrays; the code reads their first
`SynthFuncs.size()` entries. -/
def ExpressionCallBackTuple (C : Collaborators) (Exps : Nat → GenExpressionBase)
    (Types : Nat → ESFixedTypeBase) (ExpansionTypeIDs : Nat → Nat) (s : CEGSolver) :
    Outcome CallbackStatus :=
  let s0 := { s with NumExpressionsTried := s.NumExpressionsTried + 1,
                     NumDistExpressions := s.NumDistExpressions + 1 }
  match CheckResourceLimits C s0 with
  | .throw e s1 => .throw e s1
  | .ret _ s1 =>
    match s1.ConcEval with
    | none => .throw .UndefinedBehaviour s1
    | some ev =>
      let n := s1.SynthFuncs.length
      let ExpList := (List.range n).map Exps
      let r := C.CheckConcreteValidityTuple ev ExpList ((List.range n).map Types)
        ((List.range n).map ExpansionTypeIDs)
      let ev1 := { ev with SigStore := r.2 }
      let s2 := { s1 with ConcEval := some ev1 }
      if !r.1 then
        .ret .NONE_STATUS s2
      else
        match CheckSymbolicValidity C ExpList s2 with
        | .throw e s3 => .throw e s3
        | .ret true s3 =>
          .ret .STOP_ENUMERATION
            { s3 with Complete := true,
                      Solutions := s3.Solutions ++
                        [(List.range s3.SynthFuncs.length).map
                          (fun i => (s3.SynthFuncs.getD i 0, C.ToUserExpression (Exps i)))] }
        | .ret false s3 =>
          let ConcSMTModel := C.GetConcreteModel ExpList
          .ret .NONE_STATUS
            (({ (s3.log (.GetConcreteModel ExpList)) with
              ConcEval := some (ev1.AddPoint ConcSMTModel).ResetSigStore }.log
                (.AddPoint ev1.Id ConcSMTModel)).log (.ResetSigStore ev1.Id))

/-! ## The enumeration loop -/

/-- The host's answer to a callback invocation. -/
def CallBack (C : Collaborators) : CallbackRequest → CEGSolver → Outcome CallbackStatus
  | .Expression Exp Ty ExpansionTypeID EnumeratorIndex, s =>
    ExpressionCallBack C Exp Ty ExpansionTypeID EnumeratorIndex s
  | .SubExpression Exp Ty ExpansionTypeID, s =>
    SubExpressionCallBack C Exp Ty ExpansionTypeID s
  | .ExpressionTuple Exps Types ExpansionTypeIDs, s =>
    ExpressionCallBackTuple C Exps Types ExpansionTypeIDs s

/-- One `ExpEnumerator->EnumerateOfCost(i)` call: the callbacks run in the order the
enumerator invokes them; an exception thrown by a callback leaves the call. -/
def RunEnumeration (C : Collaborators) : EnumRun → CEGSolver → Outcome Unit
  | .done st, s => .ret () { s with ExpEnumerator := some st }
  | .call req k, s =>
    match CallBack C req s with
    | .throw e s1 => .throw e s1
    | .ret status s1 => RunEnumeration C (k status) s1

/-- The `for (uint32 i = ...; i <= Opts.CostBudget && !Complete; ++i)` loop of `Solve`,
entered with the counter at `i`; the counter is a `uint32`.  The returned value is
`NumRestarts`.  The first argument bounds the number of rounds the model follows; when it
runs out the outcome is `throw LoopBoundExceeded` with the solver as it is at that
moment. -/
def SolveForLoop (C : Collaborators) (E : CFGEnumerator) :
    Nat → Nat → Nat → CEGSolver → Outcome Nat
  | 0, _, _, s => .throw .LoopBoundExceeded s
  | fuel + 1, i, NumRestarts, s =>
    if i ≤ s.Opts.CostBudget && !s.Complete then
      match s.ExpEnumerator with
      | none => .throw .UndefinedBehaviour s
      | some st =>
        match RunEnumeration C (E.EnumerateOfCost st i) (s.log (.EnumerateOfCost i)) with
        | .throw e s1 => .throw e s1
        | .ret _ s1 =>
          if s1.Restart then
            .ret (NumRestarts + 1)
              ({ s1 with ExpEnumerator := s1.ExpEnumerator.map E.Reset }.log .EnumeratorReset)
          else
            SolveForLoop C E fuel ((i + 1) % 2 ^ 32) NumRestarts s1
    else
      .ret NumRestarts s

/-- The `do { Restart = false; for ... } while (Restart && !Complete)` loop of `Solve`.
The first argument bounds the number of passes (and the rounds of each pass) the model
follows. -/
def SolveDoWhile (C : Collaborators) (E : CFGEnumerator) (NumSynthFuncs : Nat) :
    Nat → Nat → CEGSolver → Outcome Nat
  | 0, _, s => .throw .LoopBoundExceeded s
  | fuel + 1, NumRestarts, s =>
    match SolveForLoop C E (fuel + 1) NumSynthFuncs NumRestarts { s with Restart := false } with
    | .throw e s1 => .throw e s1
    | .ret n s1 =>
      if s1.Restart && !s1.Complete then
        SolveDoWhile C E NumSynthFuncs fuel n s1
      else
        .ret n s1

/-- What the visitors that `Solve` runs on the constraint before the loop report
(`SynthFuncGatherer`, `LetBindingChecker`, `SpecRewriter`, `PBEConsequentsInitializer`). -/
structure SolveInput where
  SFSet : List SynthFuncOperator
  LetBindingError : Bool
  BaseAuxVars : List String
  DerivedAuxVars : List String
  SynthFunAppMaps : List (List (List Nat × Nat))
  ConstRelevantVars : List (String × String)
  PBEAntecedentExprs : List Expression
  PBEConsequentExprs : List Expression

/-- The second loop of `PBEInitializeEvals`: one evaluator per constant relevant variable,
with identity `i`, seeded with one point. -/
def PBEMakeEvals (C : Collaborators) : Nat → List (String × String) → List ConcreteEvaluator
  | _, [] => []
  | i, (name, value) :: rest =>
    { Id := i, Points := [C.AddConcreteValueToModel name value], SigStore := [] } ::
      PBEMakeEvals C (i + 1) rest

/-- Embeds `CEGSolver::PBEInitializeEvals`. -/
def PBEInitializeEvals (C : Collaborators) (inp : SolveInput) (s : CEGSolver) :
    Outcome Unit :=
  let n := inp.PBEAntecedentExprs.length
  let s1 := { s with DTBuilder := s.DTBuilder.Reset (C.DTFreshTree n) }
  if !(inp.SynthFunAppMaps.length == 1 &&
      (inp.SynthFunAppMaps.getLast?.map List.length) == some n) then
    .throw .AssertionFailure s1
  else if inp.ConstRelevantVars.length > inp.PBEConsequentExprs.length ||
      inp.ConstRelevantVars.length > inp.BaseAuxVars.length ||
      inp.ConstRelevantVars.length > inp.DerivedAuxVars.length then
    .throw .UndefinedBehaviour s1
  else
    let s2 := { s1 with
      PBEEvalPtrs := s1.PBEEvalPtrs ++ PBEMakeEvals C 0 inp.ConstRelevantVars }
    match s2.PBEEvalPtrs.head? with
    | none => .throw .UndefinedBehaviour s2
    | some _ =>
      ResetSigStoreAt 0 { s2 with DTBuilder := s2.DTBuilder.AddUniqTermExprExample 0 }

/-- Embeds `CEGSolver::EndSolve`. -/
def EndSolve (s : CEGSolver) : CEGSolver :=
  { s with ConcEval := none, ExpEnumerator := none }.log .EndSolve

/-- The `set::insert` of the names of the base auxiliary variables into `RelevantVars`. -/
def InsertRelevantVars : List String → List String → List String
  | vars, [] => vars
  | vars, name :: rest =>
    InsertRelevantVars (if name ∈ vars then vars else vars ++ [name]) rest

/-- The enumerator `Solve` creates: `CFGEnumeratorSingle` for one synth function,
`CFGEnumeratorMulti` otherwise. -/
def SolveEnumerator (C : Collaborators) (NumSynthFuncs : Nat) : CFGEnumerator :=
  if NumSynthFuncs == 1 then C.EnumeratorSingle else C.EnumeratorMulti

/-- The part of `CEGSolver::Solve` before `uint32 NumRestarts = 0`: counters and solutions
cleared, synth functions gathered, spec checked and rewritten, enumerator created, mode
chosen and the evaluators created, expression scratch initialised. -/
def SolveSetup (C : Collaborators) (inp : SolveInput) (s : CEGSolver) : Outcome Unit :=
  let s1 := { s with NumExpressionsTried := 0, NumDistExpressions := 0, Solutions := [],
                     Complete := false, SynthFuncs := inp.SFSet }
  if inp.LetBindingError then
    .throw .SpecShapeError s1
  else
    let s2 := { s1 with RelevantVars := InsertRelevantVars s1.RelevantVars inp.BaseAuxVars }
    let NumSynthFuncs := s2.SynthFuncs.length % 2 ^ 32
    let s3 := { s2 with ExpEnumerator := some (SolveEnumerator C NumSynthFuncs).Init }
    let init : Outcome Unit :=
      if inp.ConstRelevantVars.length == s3.RelevantVars.length &&
          inp.ConstRelevantVars.length == inp.PBEAntecedentExprs.length then
        let s4 := { s3 with TheMode := .PBE }
        match inp.SynthFunAppMaps.getLast? with
        | none => .throw .UndefinedBehaviour s4
        | some m =>
          match m.head? with
          | none => .throw .UndefinedBehaviour s4
          | some _ => PBEInitializeEvals C inp s4
      else
        .ret () { s3 with ConcEval := some { Id := 0, Points := [], SigStore := [] } }
    match init with
    | .throw e s5 => .throw e s5
    | .ret _ s5 => .ret () (s5.log .GenExpressionInitialize)

/-- The statistics report of `Solve`, between `PostSolve()` and `EndSolve()`
(`if (Opts.StatsLevel >= 1) { ... }`).  It writes the counters, the usage reported by
`ResourceLimitManager::GetUsage` and, when `Solutions.size() > 0`, the size of
`Solutions[0][0].second` to the log.  The log is not part of the state, so what the model
keeps of the block is the read `Solutions[0][0]`, which is out of range when the first
solution is the empty vector (the solution of a tuple of zero synth functions). -/
def SolveStatistics (s : CEGSolver) : Outcome Unit :=
  if s.Opts.StatsLevel ≥ 1 then
    match s.Solutions with
    | [] => .ret () s
    | [] :: _ => .throw .UndefinedBehaviour s
    | (_ :: _) :: _ => .ret () s
  else
    .ret () s

/-- Embeds `CEGSolver::Solve`.  `fuel` bounds the number of enumeration rounds the model
follows (see `SolveForLoop`). -/
def Solve (C : Collaborators) (inp : SolveInput) (fuel : Nat) (s : CEGSolver) :
    Outcome (List (List (SynthFuncOperator × Expression))) :=
  match SolveSetup C inp s with
  | .throw e s1 => .throw e s1
  | .ret _ s1 =>
    let NumSynthFuncs := s1.SynthFuncs.length % 2 ^ 32
    match SolveDoWhile C (SolveEnumerator C NumSynthFuncs) NumSynthFuncs fuel 0
        (s1.log .PreSolve) with
    | .throw e s2 => .throw e s2
    | .ret _ s2 =>
      match SolveStatistics (s2.log .PostSolve) with
      | .throw e s3 => .throw e s3
      | .ret _ s3 =>
        let s4 := EndSolve s3
        .ret s4.Solutions s4

/-! ## The comparator of `SetUtils.hpp` -/

/-- The `for` loop of `SetCompare::operator()`, with `NumElems - i` rounds to go and the
two iterators at the heads of the lists.  The loop is entered with sets of equal size and
`NumElems` no larger than that size, so neither iterator is at the end when it is
dereferenced. -/
def SetCompareLoop {T : Type} [LinearOrder T] : Nat → List T → List T → Bool
  | 0, _, _ => false
  | n + 1, a :: it1, b :: it2 => if a < b then true else SetCompareLoop n it1 it2
  | _ + 1, _, _ => false

/-- Embeds `SetCompare<T>::operator()` of `SetUtils.hpp`.  A `set<T>` is given by the list
of its elements in iteration order (ascending, without duplicates); `NumElems` is a
`uint32`. -/
def SetCompare {T : Type} [LinearOrder T] (Set1 Set2 : List T) : Bool :=
  if Set1.length < Set2.length then true
  else if Set2.length < Set1.length then false
  else SetCompareLoop (Set1.length % 2 ^ 32) Set1 Set2

/-! ## Reading the record of collaborator calls -/

/-- The costs of the `EnumerateOfCost` calls in a trace, in order. -/
def EnumCosts : List Event → List Nat
  | [] => []
  | .EnumerateOfCost c :: t => c :: EnumCosts t
  | _ :: t => EnumCosts t

/-- The number of `ExpEnumerator->Reset()` calls in a trace. -/
def ResetCount (t : List Event) : Nat :=
  t.count .EnumeratorReset

/-- The oracle queries in a trace with their answers, in order. -/
def OracleQueries : List Event → List (List GenExpressionBase × SolveStatus)
  | [] => []
  | .CheckValidity Exps r :: t => (Exps, r) :: OracleQueries t
  | _ :: t => OracleQueries t

/-- The `PostSolve` and `EndSolve` calls in a trace, in order. -/
def TeardownCalls (t : List Event) : List Event :=
  t.filter (fun e => e == .PostSolve || e == .EndSolve)

/-! ## Properties of enumeration runs -/

/-- The enumerator ends the `EnumerateOfCost` call as soon as a callback answers
`STOP_ENUMERATION`. -/
def StopsOnStop : EnumRun → Prop
  | .done _ => True
  | .call _ k => (∃ st, k .STOP_ENUMERATION = .done st) ∧ ∀ status, StopsOnStop (k status)

/-- Whether every callback of an `EnumerateOfCost` call returned and left `Complete` and
`Restart` clear. -/
def QuietRun (C : Collaborators) : EnumRun → CEGSolver → Bool
  | .done _, _ => true
  | .call req k, s =>
    match CallBack C req s with
    | .throw _ _ => false
    | .ret status s1 => !s1.Complete && !s1.Restart && QuietRun C (k status) s1

/-- Whether the given number of rounds of the `for` loop of `Solve`, entered with the
counter at `i`, are all quiet. -/
def QuietRounds (C : Collaborators) (E : CFGEnumerator) : Nat → Nat → CEGSolver → Bool
  | 0, _, _ => true
  | k + 1, i, s =>
    match s.ExpEnumerator with
    | none => false
    | some st =>
      QuietRun C (E.EnumerateOfCost st i) (s.log (.EnumerateOfCost i)) &&
        QuietRounds C E k (i + 1)
          (RunEnumeration C (E.EnumerateOfCost st i) (s.log (.EnumerateOfCost i))).state

/-! ## Relations between solver states used in the proofs -/

/-- What no callback and no loop of `Solve` changes (options, synth functions, mode,
enumerator object), and the trace only grows. -/
def Steps (s s' : CEGSolver) : Prop :=
  s'.Opts = s.Opts ∧ s'.SynthFuncs = s.SynthFuncs ∧ s'.TheMode = s.TheMode ∧
    s'.ExpEnumerator = s.ExpEnumerator ∧ s.Trace <+: s'.Trace ∧
    EnumCosts s'.Trace = EnumCosts s.Trace ∧ ResetCount s'.Trace = ResetCount s.Trace

/-- A step that also leaves `Complete` and `Solutions` alone. -/
def Keeps (s s' : CEGSolver) : Prop :=
  Steps s s' ∧ s'.Complete = s.Complete ∧ s'.Solutions = s.Solutions

/-- The discipline of a callback that returned `st`: either `Complete` and `Solutions`
are as before, or the callback stopped the enumeration, set `Complete` and appended one
solution. -/
def Discipline (s : CEGSolver) (st : CallbackStatus) (s' : CEGSolver) : Prop :=
  (s'.Complete = s.Complete ∧ s'.Solutions = s.Solutions) ∨
    (st = .STOP_ENUMERATION ∧ s'.Complete = true ∧ ∃ sol, s'.Solutions = s.Solutions ++ [sol])

/-- The part of the specification of a callback that the loop of `Solve` relies on. -/
def CallbackOK (s : CEGSolver) (o : Outcome CallbackStatus) : Prop :=
  Steps s o.state ∧ ∀ st s', o = .ret st s' → Discipline s st s'

/-- What the loops of `Solve` leave alone: options, synth functions, mode; the trace only
grows. -/
def Advances (s s' : CEGSolver) : Prop :=
  s'.Opts = s.Opts ∧ s'.SynthFuncs = s.SynthFuncs ∧ s'.TheMode = s.TheMode ∧
    s.Trace <+: s'.Trace

/-- What a callback does in CEG mode, read off the oracle queries it makes. -/
def CEGDiscipline (C : Collaborators) (s : CEGSolver) (st : CallbackStatus)
    (s' : CEGSolver) : Prop :=
  ∃ t, s'.Trace = s.Trace ++ t ∧
    ((s'.Complete = s.Complete ∧ s'.Solutions = s.Solutions ∧
        ∀ q ∈ OracleQueries t, q.2 ≠ .SOLVE_VALID) ∨
      (st = .STOP_ENUMERATION ∧ s'.Complete = true ∧
        ∃ Exps, OracleQueries t = [(Exps, .SOLVE_VALID)] ∧
          C.CheckValidity Exps = .SOLVE_VALID ∧
          s'.Solutions = s.Solutions ++
            [List.zip s.SynthFuncs (Exps.map C.ToUserExpression)]))

/-- The solution `sol` is backed by an oracle query recorded in `t` that was answered
`SOLVE_VALID`: it pairs the synth functions with the expressions of that query. -/
def Validated (C : Collaborators) (funcs : List SynthFuncOperator) (t : List Event)
    (sol : List (SynthFuncOperator × Expression)) : Prop :=
  ∃ Exps, (Exps, SolveStatus.SOLVE_VALID) ∈ OracleQueries t ∧
    C.CheckValidity Exps = .SOLVE_VALID ∧
    sol = List.zip funcs (Exps.map C.ToUserExpression)

/-- From `s` to `s'` every solution that was added is backed by an oracle query made in
between. -/
def Sound (C : Collaborators) (s s' : CEGSolver) : Prop :=
  s'.TheMode = s.TheMode ∧ s'.SynthFuncs = s.SynthFuncs ∧
    ∃ t, s'.Trace = s.Trace ++ t ∧
      ∀ sol ∈ s'.Solutions, sol ∈ s.Solutions ∨ Validated C s.SynthFuncs t sol

/-- From `s` to `a` nothing was decided: `Complete` and `Solutions` are as they were, and
in CEG mode no oracle query made in between was answered `SOLVE_VALID`. -/
def Pending (s a : CEGSolver) : Prop :=
  a.TheMode = s.TheMode ∧ a.SynthFuncs = s.SynthFuncs ∧ a.Complete = s.Complete ∧
    a.Solutions = s.Solutions ∧
    ∃ t, a.Trace = s.Trace ++ t ∧
      (s.TheMode = .CEG → ∀ q ∈ OracleQueries t, q.2 ≠ SolveStatus.SOLVE_VALID)

/-- From `s` to `b` exactly one solution was recorded and `Complete` set; in CEG mode
the solution pairs the synth functions with the expressions of the first oracle query
made in between that was answered `SOLVE_VALID`, and no query came after it. -/
def Finished (C : Collaborators) (s b : CEGSolver) : Prop :=
  b.TheMode = s.TheMode ∧ b.SynthFuncs = s.SynthFuncs ∧ b.Complete = true ∧
    ∃ t sol, b.Trace = s.Trace ++ t ∧ b.Solutions = s.Solutions ++ [sol] ∧
      (s.TheMode = .CEG → ∃ Exps pre,
        OracleQueries t = pre ++ [(Exps, SolveStatus.SOLVE_VALID)] ∧
        (∀ q ∈ pre, q.2 ≠ SolveStatus.SOLVE_VALID) ∧
        C.CheckValidity Exps = .SOLVE_VALID ∧
        sol = List.zip s.SynthFuncs (Exps.map C.ToUserExpression))

/-- What a callback that returned `st` did to `Restart`, `Complete` and `Solutions`:
nothing, with a status other than `STOP_ENUMERATION`; or it stopped the enumeration and
set `Restart`; or it stopped the enumeration, set `Complete` and appended one solution. -/
def StopDiscipline (s : CEGSolver) (st : CallbackStatus) (s' : CEGSolver) : Prop :=
  (st ≠ .STOP_ENUMERATION ∧ s'.Restart = s.Restart ∧ s'.Complete = s.Complete ∧
    s'.Solutions = s.Solutions) ∨
  (st = .STOP_ENUMERATION ∧ s'.Restart = true ∧ s'.Complete = s.Complete ∧
    s'.Solutions = s.Solutions) ∨
  (st = .STOP_ENUMERATION ∧ s'.Restart = s.Restart ∧ s'.Complete = true ∧
    ∃ sol, s'.Solutions = s.Solutions ++ [sol])

/-- The statistics of a single-function callback that returned `st`: one more expression
tried, and one more distinguishable expression unless the status is
`DELETE_EXPRESSION`. -/
def CountsCandidate (s : CEGSolver) (st : CallbackStatus) (s' : CEGSolver) : Prop :=
  s'.NumExpressionsTried = s.NumExpressionsTried + 1 ∧
    s'.NumDistExpressions = s.NumDistExpressions +
      (if st = .DELETE_EXPRESSION then 0 else 1)

/-- The two solvers agree on everything but the statistics level and the record of
collaborator calls. -/
def SameButDiagnostics (s1 s2 : CEGSolver) : Prop :=
  s2 = { s1 with
    Opts := { s1.Opts with StatsLevel := s2.Opts.StatsLevel }, Trace := s2.Trace }

/-- The two outcomes agree on how the function ended (the value returned or the exception
thrown) and leave solvers that agree on everything but the statistics level and the
record of collaborator calls. -/
def SameOutcome {α : Type} : Outcome α → Outcome α → Prop
  | .ret v1 s1, .ret v2 s2 => v1 = v2 ∧ SameButDiagnostics s1 s2
  | .throw e1 s1, .throw e2 s2 => e1 = e2 ∧ SameButDiagnostics s1 s2
  | _, _ => False

/-! ## Worked examples -/

/-- Collaborators for the worked examples: the evaluator gives every candidate the same
verdict and flags, the oracle the same answer; the single-function enumerator delivers one
candidate per cost and ends the call whatever the verdict, the multi-function enumerator
one tuple. -/
def demoCollaborators (valid : Bool) (flags : Nat) (answer : SolveStatus) : Collaborators where
  CONCRETE_EVAL_DIST := 1
  CONCRETE_EVAL_PART := 2
  ToUserExpression := fun e => e + 100
  CheckValidity := fun _ => answer
  GetConcreteModel := fun _ => [42]
  CheckConcreteValidity := fun _ _ _ _ _ => (valid, flags, [])
  CheckConcreteValidityTuple := fun _ _ _ _ => (valid, [])
  CheckSubExpression := fun _ _ _ _ _ _ => (true, flags, [], [])
  CheckExampleValidity := fun _ _ => true
  ResourceLimitExceeded := fun _ => false
  DTFreshTree := fun _ => []
  DTInit := fun b _ => b
  LocateNextEvalNode := fun b l p => (false, l, p, b)
  InsertDecisionNode := fun b _ _ _ => b
  InsertSharedDecisionNode := fun b _ _ => b
  DTDo := fun b => b
  GetTreeExpr := fun _ => 0
  PendingSlots := fun _ => 0
  AddConcreteValueToModel := fun _ _ => [0]
  EnumeratorSingle :=
    { Init := 0
      EnumerateOfCost := fun st _ => .call (.Expression 5 0 0 0) (fun _ => .done st)
      Reset := fun st => st }
  EnumeratorMulti :=
    { Init := 0
      EnumerateOfCost := fun st _ =>
        .call (.ExpressionTuple (fun i => 5 + i) (fun _ => 0) (fun _ => 0)) (fun _ => .done st)
      Reset := fun st => st }

/-- A freshly constructed solver (`CEGSolver::CEGSolver`) with the given options.  The
constructor leaves `DTCurEvalPtrs` a pair of null pointers; `(0, 0)` stands in for it
here and is overwritten by `LocateNextEvalNode` before the code reads the pair (see
`PBEEnumTermExprs`). -/
def freshSolver (Opts : ESolverOpts) : CEGSolver where
  Opts := Opts
  ConcEval := none
  ExpEnumerator := none
  TheMode := .CEG
  PBEPhase := .BuildTermExprs
  DTBuilder := { UniqQueue := [], DupExamples := [], Tree := [] }
  NumExpressionsTried := 0
  NumDistExpressions := 0
  Complete := false
  Restart := false
  Solutions := []
  SynthFuncs := []
  RelevantVars := []
  PBEEvalPtrs := []
  PBEEval2TermExpIdxMap := []
  PBETermExprs := []
  DTCurLocation := 0
  DTCurEvalPtrs := (0, 0)
  SubExprEvalPoints := []
  Trace := []

/-- A solver in CEG mode in the middle of a solve for two synth functions, with an
evaluator that holds no point yet. -/
def demoSolverCEG (NoDist : Bool) (funcs : List SynthFuncOperator) : CEGSolver :=
  { freshSolver { StatsLevel := 0, NoDist := NoDist, CostBudget := 3 } with
    ConcEval := some { Id := 0, Points := [], SigStore := [] }
    ExpEnumerator := some 0
    SynthFuncs := funcs }

/-- A constraint with one synth function and one universally quantified variable that
is not pinned to a constant: no PBE shape. -/
def demoInputCEG : SolveInput where
  SFSet := [7]
  LetBindingError := false
  BaseAuxVars := ["x"]
  DerivedAuxVars := ["d"]
  SynthFunAppMaps := [[([0], 0)]]
  ConstRelevantVars := []
  PBEAntecedentExprs := []
  PBEConsequentExprs := []

/-- A constraint with two synth functions and no PBE shape. -/
def demoInputCEG2 : SolveInput := { demoInputCEG with SFSet := [7, 8] }

/-- A constraint of PBE shape with a single example. -/
def demoInputPBE : SolveInput where
  SFSet := [7]
  LetBindingError := false
  BaseAuxVars := ["x"]
  DerivedAuxVars := ["d"]
  SynthFunAppMaps := [[([0], 0)]]
  ConstRelevantVars := [("x", "0")]
  PBEAntecedentExprs := [10]
  PBEConsequentExprs := [11]

/-- A constraint of PBE shape with two examples. -/
def demoInputPBE2 : SolveInput where
  SFSet := [7]
  LetBindingError := false
  BaseAuxVars := ["x", "y"]
  DerivedAuxVars := ["d", "e"]
  SynthFunAppMaps := [[([0], 0), ([1], 1)]]
  ConstRelevantVars := [("x", "0"), ("y", "1")]
  PBEAntecedentExprs := [10, 12]
  PBEConsequentExprs := [11, 13]

/-- The state of the loop of `Solve` on `demoInputCEG` at the largest budget while no
candidate has been accepted. -/
def StuckAtMaxBudget (s : CEGSolver) : Prop :=
  s.TheMode = .CEG ∧ (∃ ev, s.ConcEval = some ev) ∧ s.Complete = false ∧
    s.Restart = false ∧ s.Opts.CostBudget = 4294967295 ∧ (∃ st, s.ExpEnumerator = some st) ∧
    s.Solutions = [] ∧ ResetCount s.Trace = 0

/-- Collaborators whose evaluator reports every candidate concretely invalid with no flag
set and every sub-expression not distinguishable. -/
def demoCollaboratorsIndist : Collaborators :=
  { demoCollaborators false 0 .SOLVE_VALID with
    CheckSubExpression := fun _ _ _ _ _ _ => (false, 0, [], []) }

/-! ## The PBE phases -/

/-- The keys of a `std::map` in the order the model holds them. -/
def MapKeys (m : List (Nat × Nat)) : List Nat := m.map Prod.fst

/-- Whether the example at index `i` has no terminal expression yet. -/
def PBEUnmapped (s : CEGSolver) (i : Nat) : Bool :=
  (MapFind s.PBEEval2TermExpIdxMap i).isNone

/-- Whether the candidate is concretely valid on the example at index `i`. -/
def PBEValidOn (C : Collaborators) (Expr : GenExpressionBase) (Ty : ESFixedTypeBase)
    (ExpansionTypeID : Nat) (s : CEGSolver) (i : Nat) : Bool :=
  match s.PBEEvalPtrs[i]? with
  | some ev => (C.CheckConcreteValidity ev Expr Ty ExpansionTypeID 0).1
  | none => false

/-- The identities and the points of the evaluators, which no callback changes. -/
def EvalCores (s : CEGSolver) : List (Nat × List SMTConcreteValueModel) :=
  s.PBEEvalPtrs.map (fun ev => (ev.Id, ev.Points))

/-- The solver in `PBEEnumTermExprs` at the end of the probing loop, when the resource
probe passed and the candidate is concretely valid on the front evaluator `ev`, held at
position `CurEval`: the terminal is recorded and the later examples are probed. -/
def PBEAfterProbe (C : Collaborators) (Expr : GenExpressionBase) (Ty : ESFixedTypeBase)
    (ExpansionTypeID : Nat) (s : CEGSolver) (CurEval : EvalPtr) (ev : ConcreteEvaluator) :
    CEGSolver :=
  let s0 := s.log .CheckResourceLimits
  let s1 := { s0 with NumExpressionsTried := s0.NumExpressionsTried + 1 }
  let r := C.CheckConcreteValidity ev Expr Ty ExpansionTypeID 0
  let s2 := { s1 with
    PBEEvalPtrs := s1.PBEEvalPtrs.set CurEval { ev with SigStore := r.2.2 } }
  let TermExprIdx := s2.PBETermExprs.length
  let s3 := { s2 with
    PBEEval2TermExpIdxMap := MapAssign s2.PBEEval2TermExpIdxMap ev.Id TermExprIdx,
    PBETermExprs := s2.PBETermExprs ++ [C.ToUserExpression Expr],
    NumDistExpressions := s2.NumDistExpressions + 1 }
  (PBEProbeLaterExamples C Expr Ty ExpansionTypeID TermExprIdx
    (List.range' (ev.Id + 1) (s3.PBEEvalPtrs.length - (ev.Id + 1)))
    (s3, r.2.1, false)).1

/-- The part of `PBEEnumTermExprs` after the probing loop, from the test
`PBEEval2TermExpIdxMap.size() != PBEEvalPtrs.size()` on. -/
def PBEEnumTermExprsFinish (C : Collaborators) (Ty : ESFixedTypeBase) (s4 : CEGSolver) :
    Outcome CallbackStatus :=
  if s4.PBEEval2TermExpIdxMap.length != s4.PBEEvalPtrs.length then
    match s4.DTBuilder.GetQueueBack with
    | none => .throw .UndefinedBehaviour s4
    | some back =>
      match ResetSigStoreAt back s4 with
      | .throw e s5 => .throw e s5
      | .ret _ s5 => .ret .STOP_ENUMERATION { s5 with Restart := true }
  else if s4.PBETermExprs.length == 1 then
    match s4.SynthFuncs[0]?, s4.PBETermExprs.getLast? with
    | some f, some t =>
      .ret .STOP_ENUMERATION
        { s4 with Complete := true, Solutions := s4.Solutions ++ [[(f, t)]] }
    | _, _ =>
      .throw .UndefinedBehaviour
        { s4 with Complete := true, Solutions := s4.Solutions ++ [[]] }
  else
    let s5 := { s4 with DTBuilder := C.DTInit s4.DTBuilder Ty }
    let l := C.LocateNextEvalNode s5.DTBuilder s5.DTCurLocation s5.DTCurEvalPtrs
    let s6 := { s5 with
      DTBuilder := l.2.2.2, DTCurLocation := l.2.1, DTCurEvalPtrs := l.2.2.1 }
    if l.1 then
      match ResetSigStoreAt s6.DTCurEvalPtrs.1 s6 with
      | .throw e s7 => .throw e s7
      | .ret _ s7 =>
        .ret .STOP_ENUMERATION
          { s7 with PBEPhase := .BuildDecisionTree, Restart := true }
    else
      .throw .UndefinedBehaviour s6

/-- The fields of the solver that the probing loop of `PBEEnumTermExprs` and the recording
of a terminal leave alone. -/
def PBEFrame (s : CEGSolver) :=
  (s.Opts, s.ConcEval, s.ExpEnumerator, s.TheMode, s.PBEPhase, s.Complete, s.Restart,
    s.Solutions, s.SynthFuncs, s.RelevantVars, s.DTCurLocation, s.DTCurEvalPtrs,
    s.SubExprEvalPoints)

/-- Every evaluator in `PBEEvalPtrs` has its position as identity. -/
def PBEIdsAreIndices (s : CEGSolver) : Prop :=
  ∀ (i : Nat) (ev : ConcreteEvaluator), s.PBEEvalPtrs[i]? = some ev → ev.Id = i

/-- The bookkeeping of the PBE terminals: evaluator identities are positions, no example
has two entries in `PBEEval2TermExpIdxMap`, every entry maps an example of the solver to
an index into `PBETermExprs`, and there are no more terminals than examples. -/
def PBETermInv (s : CEGSolver) : Prop :=
  PBEIdsAreIndices s ∧ (MapKeys s.PBEEval2TermExpIdxMap).Nodup ∧
    (∀ e t, MapFind s.PBEEval2TermExpIdxMap e = some t →
      e < s.PBEEvalPtrs.length ∧ t < s.PBETermExprs.length) ∧
    s.PBETermExprs.length ≤ s.PBEEvalPtrs.length

/-- The front evaluator (the unique evaluator added last) exists and every example with a
smaller index has a terminal. -/
def PBEFrontInv (s : CEGSolver) : Prop :=
  ∃ c, s.DTBuilder.GetQueueBack = some c ∧ c < s.PBEEvalPtrs.length ∧
    ∀ i, i < c → MapFind s.PBEEval2TermExpIdxMap i ≠ none

/-- The front evaluator has no terminal yet, and no terminal was recorded for an example
behind it. -/
def PBEFrontOpen (s : CEGSolver) : Prop :=
  ∃ c, s.DTBuilder.GetQueueBack = some c ∧ MapFind s.PBEEval2TermExpIdxMap c = none ∧
    s.PBETermExprs.length ≤ c

/-- What the loops of `Solve` change between two callbacks: `Restart`, the enumerator
object and the record of calls. -/
def LoopBookkeeping (s s' : CEGSolver) : Prop :=
  s' = { s with Restart := s'.Restart, ExpEnumerator := s'.ExpEnumerator, Trace := s'.Trace }

/-- The solver states that a PBE solve on a freshly constructed solver passes through
while it builds the terminal expressions: the state `SolveSetup` leaves, and from there
the bookkeeping of the loops of `Solve` and the callbacks that the enumerator makes while
the phase is `BuildTermExprs` and `Complete` is clear. -/
inductive PBETermReachable (C : Collaborators) (inp : SolveInput) (Opts : ESolverOpts) :
    CEGSolver → Prop
  | init (s : CEGSolver) :
      SolveSetup C inp (freshSolver Opts) = .ret () s → s.TheMode = .PBE →
      PBETermReachable C inp Opts s
  | loop (s s' : CEGSolver) :
      PBETermReachable C inp Opts s → LoopBookkeeping s s' → PBETermReachable C inp Opts s'
  | callback (s s' : CEGSolver) (Exp : GenExpressionBase) (Ty : ESFixedTypeBase)
      (ExpansionTypeID EnumeratorIndex : Nat) (st : CallbackStatus) :
      PBETermReachable C inp Opts s → s.PBEPhase = .BuildTermExprs → s.Complete = false →
      ExpressionCallBack C Exp Ty ExpansionTypeID EnumeratorIndex s = .ret st s' →
      PBETermReachable C inp Opts s'

/-- Collaborators for the worked PBE examples.  A candidate is a bit mask: it is
concretely valid on the example with identity `i`, and as a predicate it takes the value 1
there, exactly when bit `i` is set.  The builder keeps in `Tree` the evaluators still to be
separated, pairs the first two of them, and drops the first when a node is inserted. -/
def demoCollaboratorsPBE : Collaborators :=
  { demoCollaborators true 0 .SOLVE_VALID with
    CheckConcreteValidity := fun ev e _ _ _ => (e.testBit ev.Id, 1, [])
    CheckSubExpression := fun _ evs e _ _ _ =>
      (true, 1, [], evs.map (fun ev => (ev.Id, if e.testBit ev.Id then 1 else 0)))
    DTInit := fun b _ => { b with Tree := b.UniqQueue ++ b.DupExamples ++ b.UniqQueue.take 1 }
    LocateNextEvalNode := fun b l p =>
      match b.Tree with
      | a :: c :: _ => (true, l + 1, (a, c), b)
      | _ => (false, l, p, b)
    InsertDecisionNode := fun b _ _ _ => { b with Tree := b.Tree.tail }
    InsertSharedDecisionNode := fun b _ _ => { b with Tree := b.Tree.tail }
    PendingSlots := fun b => b.Tree.length
    GetTreeExpr := fun _ => 1000 }

/-- A constraint of PBE shape with three examples. -/
def demoInputPBE3 : SolveInput where
  SFSet := [7]
  LetBindingError := false
  BaseAuxVars := ["x", "y", "z"]
  DerivedAuxVars := ["d", "e", "f"]
  SynthFunAppMaps := [[([0], 0), ([1], 1), ([2], 2)]]
  ConstRelevantVars := [("x", "0"), ("y", "1"), ("z", "2")]
  PBEAntecedentExprs := [10, 12, 14]
  PBEConsequentExprs := [11, 13, 15]

/-- The solver at the start of the enumeration of a PBE solve on `demoInputPBE3`. -/
def demoSolverPBE : CEGSolver :=
  (SolveSetup demoCollaboratorsPBE demoInputPBE3
    (freshSolver { StatsLevel := 0, NoDist := false, CostBudget := 3 })).state

/-- The `InsertDecisionNode` calls in a trace with their arguments, in order. -/
def DecisionNodes : List Event → List (DTLocation × EvalPtr × EvalPtr × List Expression)
  | [] => []
  | .InsertDecisionNode Loc Fst Snd DecisionExprs :: t =>
    (Loc, Fst, Snd, DecisionExprs) :: DecisionNodes t
  | _ :: t => DecisionNodes t

/-- The part of `PBEEnumDecisionTree` after the call of `InsertDecisionNode`: the search
for the next work item, and the completion of the tree when there is none. -/
def PBEEnumDecisionTreeFinish (C : Collaborators) (s4 : CEGSolver) : Outcome CallbackStatus :=
  match PBENextWorkItem C (C.PendingSlots s4.DTBuilder + 1) s4 with
  | .throw e s5 => .throw e s5
  | .ret true s5 => .ret .STOP_ENUMERATION s5
  | .ret false s5 =>
    let s6 := { s5 with DTBuilder := C.DTDo s5.DTBuilder }
    let s7 :=
      if s6.Opts.StatsLevel ≥ 2 then
        PBEValidateTree C (C.GetTreeExpr s6.DTBuilder) s6.PBEEvalPtrs s6
      else s6
    match s7.SynthFuncs[0]? with
    | none =>
      .throw .UndefinedBehaviour { s7 with Solutions := s7.Solutions ++ [[]] }
    | some f =>
      .ret .STOP_ENUMERATION
        { s7 with
          Solutions := s7.Solutions ++ [[(f, C.GetTreeExpr s7.DTBuilder)]],
          Complete := true }

/-- The solver in `PBEEnumDecisionTree` right after the call of `InsertDecisionNode`, for
a candidate that separates the current pair; `e1` is the first evaluator of the pair on
entry, `swap` tells whether the pair was swapped (`ThenValue != 1`). -/
def PBEAfterInsert (C : Collaborators) (Exp : GenExpressionBase) (Ty : ESFixedTypeBase)
    (ExpansionTypeID : Nat) (s : CEGSolver) (e1 : ConcreteEvaluator) (swap : Bool)
    (ThenExpr ElseExpr : Expression) : CEGSolver :=
  let r := C.CheckSubExpression e1 s.PBEEvalPtrs Exp Ty ExpansionTypeID 0
  let pair := if swap then (s.DTCurEvalPtrs.2, s.DTCurEvalPtrs.1) else s.DTCurEvalPtrs
  let DecisionExprs := [C.ToUserExpression Exp, ThenExpr, ElseExpr]
  { s with
    Trace := s.Trace ++ [.CheckResourceLimits] ++
      [.InsertDecisionNode s.DTCurLocation pair.1 pair.2 DecisionExprs],
    NumExpressionsTried := s.NumExpressionsTried + 1,
    NumDistExpressions := s.NumDistExpressions + 1,
    PBEEvalPtrs := s.PBEEvalPtrs.set s.DTCurEvalPtrs.1 { e1 with SigStore := r.2.2.1 },
    SubExprEvalPoints := r.2.2.2,
    DTCurEvalPtrs := pair,
    DTBuilder := C.InsertDecisionNode s.DTBuilder s.DTCurLocation pair DecisionExprs }

/-- The consumption of frontier pairs as the specification describes it, as a relation
between the solver before the search for the next work item, the answer (`true`: a pair
needs a predicate, `false`: no pair remains) and the solver afterwards.  A pair whose two
evaluators map to the same terminal index is collapsed with `InsertSharedDecisionNode`
and the search goes on; at the first pair whose terminal indices differ the signature
store of the pair's first evaluator is reset and `Restart` is set; when the builder
reports no pair the search ends. -/
inductive FrontierPairsConsumed (C : Collaborators) : CEGSolver → Bool → CEGSolver → Prop
  | complete (s : CEGSolver) :
      (C.LocateNextEvalNode s.DTBuilder s.DTCurLocation s.DTCurEvalPtrs).1 = false →
      FrontierPairsConsumed C s false
        { s with
          DTBuilder := (C.LocateNextEvalNode s.DTBuilder s.DTCurLocation s.DTCurEvalPtrs).2.2.2,
          DTCurLocation :=
            (C.LocateNextEvalNode s.DTBuilder s.DTCurLocation s.DTCurEvalPtrs).2.1,
          DTCurEvalPtrs :=
            (C.LocateNextEvalNode s.DTBuilder s.DTCurLocation s.DTCurEvalPtrs).2.2.1 }
  | restart (s : CEGSolver) (e1 e2 : ConcreteEvaluator) (t1 t2 : Nat) :
      (C.LocateNextEvalNode s.DTBuilder s.DTCurLocation s.DTCurEvalPtrs).1 = true →
      s.PBEEvalPtrs[(C.LocateNextEvalNode s.DTBuilder s.DTCurLocation
        s.DTCurEvalPtrs).2.2.1.1]? = some e1 →
      s.PBEEvalPtrs[(C.LocateNextEvalNode s.DTBuilder s.DTCurLocation
        s.DTCurEvalPtrs).2.2.1.2]? = some e2 →
      MapFind s.PBEEval2TermExpIdxMap e1.Id = some t1 →
      MapFind s.PBEEval2TermExpIdxMap e2.Id = some t2 →
      t1 ≠ t2 →
      FrontierPairsConsumed C s true
        { s with
          DTBuilder := (C.LocateNextEvalNode s.DTBuilder s.DTCurLocation s.DTCurEvalPtrs).2.2.2,
          DTCurLocation :=
            (C.LocateNextEvalNode s.DTBuilder s.DTCurLocation s.DTCurEvalPtrs).2.1,
          DTCurEvalPtrs :=
            (C.LocateNextEvalNode s.DTBuilder s.DTCurLocation s.DTCurEvalPtrs).2.2.1,
          PBEEvalPtrs := s.PBEEvalPtrs.set
            (C.LocateNextEvalNode s.DTBuilder s.DTCurLocation s.DTCurEvalPtrs).2.2.1.1
            e1.ResetSigStore,
          Restart := true,
          Trace := s.Trace ++ [.ResetSigStore e1.Id] }
  | shared (s : CEGSolver) (e1 e2 : ConcreteEvaluator) (t : Nat) (b : Bool) (s' : CEGSolver) :
      (C.LocateNextEvalNode s.DTBuilder s.DTCurLocation s.DTCurEvalPtrs).1 = true →
      s.PBEEvalPtrs[(C.LocateNextEvalNode s.DTBuilder s.DTCurLocation
        s.DTCurEvalPtrs).2.2.1.1]? = some e1 →
      s.PBEEvalPtrs[(C.LocateNextEvalNode s.DTBuilder s.DTCurLocation
        s.DTCurEvalPtrs).2.2.1.2]? = some e2 →
      MapFind s.PBEEval2TermExpIdxMap e1.Id = some t →
      MapFind s.PBEEval2TermExpIdxMap e2.Id = some t →
      FrontierPairsConsumed C
        { s with
          DTBuilder := C.InsertSharedDecisionNode
            (C.LocateNextEvalNode s.DTBuilder s.DTCurLocation s.DTCurEvalPtrs).2.2.2
            (C.LocateNextEvalNode s.DTBuilder s.DTCurLocation s.DTCurEvalPtrs).2.1
            (C.LocateNextEvalNode s.DTBuilder s.DTCurLocation s.DTCurEvalPtrs).2.2.1,
          DTCurLocation :=
            (C.LocateNextEvalNode s.DTBuilder s.DTCurLocation s.DTCurEvalPtrs).2.1,
          DTCurEvalPtrs :=
            (C.LocateNextEvalNode s.DTBuilder s.DTCurLocation s.DTCurEvalPtrs).2.2.1,
          Trace := s.Trace ++ [.InsertSharedDecisionNode
            (C.LocateNextEvalNode s.DTBuilder s.DTCurLocation s.DTCurEvalPtrs).2.1
            (C.LocateNextEvalNode s.DTBuilder s.DTCurLocation s.DTCurEvalPtrs).2.2.1.1
            (C.LocateNextEvalNode s.DTBuilder s.DTCurLocation s.DTCurEvalPtrs).2.2.1.2] }
        b s' →
      FrontierPairsConsumed C s b s'

/-- The solver of the worked PBE example at the start of the `BuildDecisionTree` phase:
candidate 5 gave the terminal of examples 0 and 2, candidate 2 the terminal of example 1,
and the current pair is (0, 1).  `Restart` is cleared as the loop of `Solve` clears it
before the next pass. -/
def demoSolverPBETree : CEGSolver :=
  { (PBEEnumTermExprs demoCollaboratorsPBE 2 0 0
      (PBEEnumTermExprs demoCollaboratorsPBE 5 0 0 demoSolverPBE).state).state with
    Restart := false }

/-- The solver of the worked PBE example after candidate 1 separated the pair (0, 1): the
current pair is (1, 2), and the pair after it, (2, 0), shares its terminal. -/
def demoSolverPBETree2 : CEGSolver :=
  { (PBEEnumDecisionTree demoCollaboratorsPBE 1 0 0 demoSolverPBETree).state with
    Restart := false }

/-- Collaborators of the worked examples whose resource limits are exceeded from the
start. -/
def demoCollaboratorsExhausted : Collaborators :=
  { demoCollaborators true 0 .SOLVE_VALID with ResourceLimitExceeded := fun _ => true }

/-- The collaborators of the worked PBE examples with an enumerator that, as the
specification describes `enumerateOfCost`, invokes `SubExpressionCallBack` for a
sub-expression before it offers the full candidate. -/
def demoCollaboratorsPBESub : Collaborators :=
  { demoCollaboratorsPBE with
    EnumeratorSingle :=
      { Init := 0
        EnumerateOfCost := fun st _ =>
          .call (.SubExpression 1 0 0) (fun _ => .call (.Expression 5 0 0 0) (fun _ => .done st))
        Reset := fun st => st } }

/-! ## Lemmas -/

theorem EnumCosts_append (t u : List Event) :
    EnumCosts (t ++ u) = EnumCosts t ++ EnumCosts u := by
  induction t with
  | nil => rfl
  | cons e t ih => cases e <;> simp [EnumCosts, ih]

theorem OracleQueries_append (t u : List Event) :
    OracleQueries (t ++ u) = OracleQueries t ++ OracleQueries u := by
  induction t with
  | nil => rfl
  | cons e t ih => cases e <;> simp [OracleQueries, ih]

theorem ResetCount_append (t u : List Event) :
    ResetCount (t ++ u) = ResetCount t + ResetCount u := by
  simp [ResetCount]

theorem Steps.refl (s : CEGSolver) : Steps s s :=
  ⟨rfl, rfl, rfl, rfl, List.prefix_refl _, rfl, rfl⟩

theorem Steps.trans {a b c : CEGSolver} (h1 : Steps a b) (h2 : Steps b c) : Steps a c :=
  ⟨h2.1.trans h1.1, h2.2.1.trans h1.2.1, h2.2.2.1.trans h1.2.2.1,
    h2.2.2.2.1.trans h1.2.2.2.1, h1.2.2.2.2.1.trans h2.2.2.2.2.1,
    h2.2.2.2.2.2.1.trans h1.2.2.2.2.2.1, h2.2.2.2.2.2.2.trans h1.2.2.2.2.2.2⟩

theorem Keeps.same (s : CEGSolver) : Keeps s s := ⟨Steps.refl s, rfl, rfl⟩

theorem Keeps.chain {a b c : CEGSolver} (h1 : Keeps a b) (h2 : Keeps b c) : Keeps a c :=
  ⟨h1.1.trans h2.1, h2.2.1.trans h1.2.1, h2.2.2.trans h1.2.2⟩

/-- Logging a call that is neither `EnumerateOfCost` nor the enumerator's `Reset`. -/
theorem Keeps_log (s : CEGSolver) (e : Event) (h1 : EnumCosts [e] = [])
    (h2 : ResetCount [e] = 0) : Keeps s (s.log e) :=
  ⟨⟨rfl, rfl, rfl, rfl, by simp [CEGSolver.log],
    by simp [CEGSolver.log, EnumCosts_append, h1],
    by simp only [CEGSolver.log, ResetCount_append, h2, Nat.add_zero]⟩, rfl, rfl⟩

/-- Prefix a chain with the logging of a call that is neither `EnumerateOfCost` nor the
enumerator's `Reset`. -/
theorem Keeps.of_log {s c : CEGSolver} {e : Event} (h : Keeps (s.log e) c)
    (h1 : EnumCosts [e] = []) (h2 : ResetCount [e] = 0) : Keeps s c :=
  (Keeps_log s e h1 h2).chain h

/-- A record update that touches none of the fields `Keeps` speaks about. -/
theorem Keeps_of_fields {s s' : CEGSolver} (h1 : s'.Opts = s.Opts)
    (h2 : s'.SynthFuncs = s.SynthFuncs) (h3 : s'.TheMode = s.TheMode)
    (h4 : s'.ExpEnumerator = s.ExpEnumerator) (h5 : s'.Trace = s.Trace)
    (h6 : s'.Complete = s.Complete) (h7 : s'.Solutions = s.Solutions) : Keeps s s' :=
  ⟨⟨h1, h2, h3, h4, h5 ▸ List.prefix_refl _, by rw [h5], by rw [h5]⟩, h6, h7⟩

/-- Prefix a chain with a record update that touches none of the fields `Keeps` speaks
about. -/
theorem Keeps.after {a b c : CEGSolver} (h : Keeps b c) (h1 : b.Opts = a.Opts)
    (h2 : b.SynthFuncs = a.SynthFuncs) (h3 : b.TheMode = a.TheMode)
    (h4 : b.ExpEnumerator = a.ExpEnumerator) (h5 : b.Trace = a.Trace)
    (h6 : b.Complete = a.Complete) (h7 : b.Solutions = a.Solutions) : Keeps a c :=
  (Keeps_of_fields h1 h2 h3 h4 h5 h6 h7).chain h

/-- Extend a chain with a record update that touches none of the fields `Keeps` speaks
about. -/
theorem Keeps.before {a b c : CEGSolver} (h : Keeps a b) (h1 : c.Opts = b.Opts)
    (h2 : c.SynthFuncs = b.SynthFuncs) (h3 : c.TheMode = b.TheMode)
    (h4 : c.ExpEnumerator = b.ExpEnumerator) (h5 : c.Trace = b.Trace)
    (h6 : c.Complete = b.Complete) (h7 : c.Solutions = b.Solutions) : Keeps a c :=
  h.chain (Keeps_of_fields h1 h2 h3 h4 h5 h6 h7)

/-- Extend a chain with a step that only appends three calls to the trace. -/
theorem Keeps.logged {a b c : CEGSolver} {e1 e2 e3 : Event} (h : Keeps a b)
    (h1 : c.Opts = b.Opts)
    (h2 : c.SynthFuncs = b.SynthFuncs) (h3 : c.TheMode = b.TheMode)
    (h4 : c.ExpEnumerator = b.ExpEnumerator)
    (h5 : c.Trace = b.Trace ++ [e1] ++ [e2] ++ [e3])
    (h6 : c.Complete = b.Complete) (h7 : c.Solutions = b.Solutions)
    (h8 : EnumCosts [e1, e2, e3] = []) (h9 : ResetCount [e1, e2, e3] = 0) : Keeps a c :=
  h.chain ⟨⟨h1, h2, h3, h4, by simp [h5],
    by
      have : c.Trace = b.Trace ++ [e1, e2, e3] := by simp [h5]
      rw [this, EnumCosts_append, h8, List.append_nil],
    by
      have : c.Trace = b.Trace ++ [e1, e2, e3] := by simp [h5]
      rw [this, ResetCount_append, h9, Nat.add_zero]⟩, h6, h7⟩

theorem CheckResourceLimits_keeps (C : Collaborators) (s : CEGSolver) :
    Keeps s (CheckResourceLimits C s).state := by
  unfold CheckResourceLimits
  split <;> exact Keeps_log s _ (by rfl) (by rfl)

theorem CheckSymbolicValidity_keeps (C : Collaborators) (Exps : List GenExpressionBase)
    (s : CEGSolver) : Keeps s (CheckSymbolicValidity C Exps s).state := by
  unfold CheckSymbolicValidity
  simp only
  split
  · exact Keeps_log s _ (by rfl) (by rfl)
  · split
    · exact (Keeps_log s _ (by rfl) (by rfl)).chain (Keeps_log _ _ (by rfl) (by rfl))
    · exact Keeps_log s _ (by rfl) (by rfl)
  · exact Keeps_log s _ (by rfl) (by rfl)

theorem ResetSigStoreAt_keeps (p : EvalPtr) (s : CEGSolver) :
    Keeps s (ResetSigStoreAt p s).state := by
  unfold ResetSigStoreAt
  split
  · exact Keeps.same s
  · exact (Keeps_of_fields rfl rfl rfl rfl rfl rfl rfl).chain (Keeps_log _ _ (by rfl) (by rfl))

theorem PBEProbeLaterExamples_proj {α : Type} (proj : CEGSolver → α)
    (hproj : ∀ (s : CEGSolver) ptrs map dtb,
      proj { s with PBEEvalPtrs := ptrs, PBEEval2TermExpIdxMap := map, DTBuilder := dtb }
        = proj s)
    (C : Collaborators) (Expr : GenExpressionBase)
    (Ty : ESFixedTypeBase) (ExpansionTypeID TermExprIdx : Nat) (l : List Nat) :
    ∀ (acc : CEGSolver × Nat × Bool),
      proj (PBEProbeLaterExamples C Expr Ty ExpansionTypeID TermExprIdx l acc).1
        = proj acc.1 := by
  induction l with
  | nil => intro acc; rfl
  | cons i rest ih =>
    rintro ⟨s, StatusRet, isSet⟩
    simp only [PBEProbeLaterExamples]
    repeat' split
    all_goals first
      | exact ih _
      | exact (ih _).trans (hproj s _ _ _)

theorem PBEProbeLaterExamples_keeps (C : Collaborators) (Expr : GenExpressionBase)
    (Ty : ESFixedTypeBase) (ExpansionTypeID TermExprIdx : Nat) (l : List Nat)
    (acc : CEGSolver × Nat × Bool) :
    Keeps acc.1 (PBEProbeLaterExamples C Expr Ty ExpansionTypeID TermExprIdx l acc).1 :=
  Keeps_of_fields
    (PBEProbeLaterExamples_proj (fun s => s.Opts) (fun _ _ _ _ => rfl) C _ _ _ _ l acc)
    (PBEProbeLaterExamples_proj (fun s => s.SynthFuncs) (fun _ _ _ _ => rfl) C _ _ _ _ l acc)
    (PBEProbeLaterExamples_proj (fun s => s.TheMode) (fun _ _ _ _ => rfl) C _ _ _ _ l acc)
    (PBEProbeLaterExamples_proj (fun s => s.ExpEnumerator) (fun _ _ _ _ => rfl) C _ _ _ _ l acc)
    (PBEProbeLaterExamples_proj (fun s => s.Trace) (fun _ _ _ _ => rfl) C _ _ _ _ l acc)
    (PBEProbeLaterExamples_proj (fun s => s.Complete) (fun _ _ _ _ => rfl) C _ _ _ _ l acc)
    (PBEProbeLaterExamples_proj (fun s => s.Solutions) (fun _ _ _ _ => rfl) C _ _ _ _ l acc)

theorem ResetSigStoreAt_ret {p : EvalPtr} {s s' : CEGSolver} {u : Unit}
    (h : ResetSigStoreAt p s = .ret u s') : Keeps s s' := by
  have := ResetSigStoreAt_keeps p s
  rwa [h] at this

theorem ResetSigStoreAt_throw {p : EvalPtr} {s s' : CEGSolver} {e : ESException}
    (h : ResetSigStoreAt p s = .throw e s') : Keeps s s' := by
  have := ResetSigStoreAt_keeps p s
  rwa [h] at this

theorem PBENextWorkItem_keeps (C : Collaborators) :
    ∀ (fuel : Nat) (s : CEGSolver), Keeps s (PBENextWorkItem C fuel s).state := by
  intro fuel
  induction fuel with
  | zero => intro s; exact Keeps.same s
  | succ n ih =>
    intro s
    simp only [PBENextWorkItem]
    split
    · split
      · split
        · exact Keeps.chain (b := CEGSolver.log _ _)
            ((Keeps_of_fields rfl rfl rfl rfl rfl rfl rfl).chain (Keeps_log _ _ (by rfl) (by rfl))) (ih _)
        · split
          · rename_i heq
            have h1 := ResetSigStoreAt_throw heq
            exact Keeps.chain (Keeps_of_fields rfl rfl rfl rfl rfl rfl rfl) h1
          · rename_i heq
            have h1 := ResetSigStoreAt_ret heq
            exact Keeps.chain (Keeps_of_fields rfl rfl rfl rfl rfl rfl rfl)
              (h1.chain (Keeps_of_fields rfl rfl rfl rfl rfl rfl rfl))
      · exact Keeps_of_fields rfl rfl rfl rfl rfl rfl rfl
    · exact Keeps_of_fields rfl rfl rfl rfl rfl rfl rfl

theorem PBENextWorkItem_ret {C : Collaborators} {fuel : Nat} {s s' : CEGSolver} {b : Bool}
    (h : PBENextWorkItem C fuel s = .ret b s') : Keeps s s' := by
  have := PBENextWorkItem_keeps C fuel s
  rwa [h] at this

theorem PBENextWorkItem_throw {C : Collaborators} {fuel : Nat} {s s' : CEGSolver}
    {e : ESException} (h : PBENextWorkItem C fuel s = .throw e s') : Keeps s s' := by
  have := PBENextWorkItem_keeps C fuel s
  rwa [h] at this

theorem CheckResourceLimits_ret {C : Collaborators} {s s' : CEGSolver} {u : Unit}
    (h : CheckResourceLimits C s = .ret u s') : Keeps s s' := by
  have := CheckResourceLimits_keeps C s
  rwa [h] at this

theorem CheckResourceLimits_throw {C : Collaborators} {s s' : CEGSolver} {e : ESException}
    (h : CheckResourceLimits C s = .throw e s') : Keeps s s' := by
  have := CheckResourceLimits_keeps C s
  rwa [h] at this

theorem CheckSymbolicValidity_ret {C : Collaborators} {Exps : List GenExpressionBase}
    {s s' : CEGSolver} {b : Bool}
    (h : CheckSymbolicValidity C Exps s = .ret b s') : Keeps s s' := by
  have := CheckSymbolicValidity_keeps C Exps s
  rwa [h] at this

theorem CheckSymbolicValidity_throw {C : Collaborators} {Exps : List GenExpressionBase}
    {s s' : CEGSolver} {e : ESException}
    (h : CheckSymbolicValidity C Exps s = .throw e s') : Keeps s s' := by
  have := CheckSymbolicValidity_keeps C Exps s
  rwa [h] at this

theorem PBEValidateTree_keeps (C : Collaborators) (TreeExpr : Expression)
    (l : List ConcreteEvaluator) :
    ∀ s : CEGSolver, Keeps s (PBEValidateTree C TreeExpr l s) := by
  induction l with
  | nil => intro s; exact Keeps.same s
  | cons ev rest ih =>
    intro s
    simp only [PBEValidateTree]
    exact (Keeps_log s _ (by rfl) (by rfl)).chain (ih _)

theorem PBEValidateTree_keeps_builder (C : Collaborators) (TreeExpr : Expression)
    (l : List ConcreteEvaluator) (s : CEGSolver) (b : DecisionTreeBuilder) :
    Keeps s (PBEValidateTree C TreeExpr l { s with DTBuilder := b }) :=
  (PBEValidateTree_keeps C TreeExpr l _).after rfl rfl rfl rfl rfl rfl rfl

theorem CallbackOK_throw {s s' : CEGSolver} (e : ESException) (h : Keeps s s') :
    CallbackOK s (.throw e s') :=
  ⟨h.1, fun _ _ h' => by cases h'⟩

theorem CallbackOK_throw_fields {s s0 s' : CEGSolver} (e : ESException) (h : Keeps s s0)
    (h1 : s'.Opts = s0.Opts) (h2 : s'.SynthFuncs = s0.SynthFuncs)
    (h3 : s'.TheMode = s0.TheMode) (h4 : s'.ExpEnumerator = s0.ExpEnumerator)
    (h5 : s'.Trace = s0.Trace) : CallbackOK s (.throw e s') :=
  ⟨h.1.trans (Keeps_of_fields h1 h2 h3 h4 h5 rfl rfl : Keeps s0 { s' with
      Complete := s0.Complete, Solutions := s0.Solutions }).1, fun _ _ h' => by cases h'⟩

theorem CallbackOK_ret {s s' : CEGSolver} (st : CallbackStatus) (h : Keeps s s') :
    CallbackOK s (.ret st s') :=
  ⟨h.1, fun _ _ h' => by cases h'; exact Or.inl h.2⟩

theorem CallbackOK_stop {s s' : CEGSolver} (sol : List (SynthFuncOperator × Expression))
    (h : Keeps s s') :
    CallbackOK s (.ret .STOP_ENUMERATION
      { s' with Complete := true, Solutions := s'.Solutions ++ [sol] }) :=
  ⟨h.1, fun _ _ h' => by
    cases h'
    exact Or.inr ⟨rfl, rfl, sol, by simp [h.2.2]⟩⟩

theorem PBEEnumTermExprs_ok (C : Collaborators) (Expr : GenExpressionBase)
    (Ty : ESFixedTypeBase) (ExpansionTypeID : Nat) (s : CEGSolver) :
    CallbackOK s (PBEEnumTermExprs C Expr Ty ExpansionTypeID s) := by
  simp only [PBEEnumTermExprs]
  split
  · rename_i h0
    exact CallbackOK_throw _ (CheckResourceLimits_throw h0)
  · rename_i u s0 h0
    have k0 := CheckResourceLimits_ret h0
    split
    · exact CallbackOK_throw _ (k0.chain (Keeps_of_fields rfl rfl rfl rfl rfl rfl rfl))
    · split
      · exact CallbackOK_throw _ (k0.chain (Keeps_of_fields rfl rfl rfl rfl rfl rfl rfl))
      · split
        · split
          · exact CallbackOK_ret _ (k0.chain (Keeps_of_fields rfl rfl rfl rfl rfl rfl rfl))
          · exact CallbackOK_ret _ (k0.chain (Keeps_of_fields rfl rfl rfl rfl rfl rfl rfl))
        · have kp := fun l acc =>
            PBEProbeLaterExamples_keeps C Expr Ty ExpansionTypeID
              (List.length s0.PBETermExprs) l acc
          split
          · split
            · exact CallbackOK_throw _ (k0.chain ((kp _ _).after rfl rfl rfl rfl rfl rfl rfl))
            · split
              · rename_i h5
                have k5 := (kp _ _).chain (ResetSigStoreAt_throw h5)
                exact CallbackOK_throw _ (k0.chain (k5.after rfl rfl rfl rfl rfl rfl rfl))
              · rename_i h5
                have k5 := (kp _ _).chain (ResetSigStoreAt_ret h5)
                exact CallbackOK_ret _ (k0.chain
                  ((k5.after rfl rfl rfl rfl rfl rfl rfl).before rfl rfl rfl rfl rfl rfl rfl))
          · split
            · split
              · exact CallbackOK_stop _ (k0.chain ((kp _ _).after rfl rfl rfl rfl rfl rfl rfl))
              · exact CallbackOK_throw_fields _
                  (k0.chain ((kp _ _).after rfl rfl rfl rfl rfl rfl rfl)) rfl rfl rfl rfl rfl
            · split
              · split
                · rename_i h7
                  have k7 := ResetSigStoreAt_throw h7
                  exact CallbackOK_throw _ (k0.chain
                    (((kp _ _).after rfl rfl rfl rfl rfl rfl rfl).chain
                      (k7.after rfl rfl rfl rfl rfl rfl rfl)))
                · rename_i h7
                  have k7 := ResetSigStoreAt_ret h7
                  exact CallbackOK_ret _ (k0.chain
                    (((kp _ _).after rfl rfl rfl rfl rfl rfl rfl).chain
                      ((k7.after rfl rfl rfl rfl rfl rfl rfl).before rfl rfl rfl rfl rfl rfl rfl)))
              · exact CallbackOK_throw _ (k0.chain ((kp _ _).after rfl rfl rfl rfl rfl rfl rfl))

theorem PBEEnumDecisionTree_ok (C : Collaborators) (Exp : GenExpressionBase)
    (Ty : ESFixedTypeBase) (ExpansionTypeID : Nat) (s : CEGSolver) :
    CallbackOK s (PBEEnumDecisionTree C Exp Ty ExpansionTypeID s) := by
  simp only [PBEEnumDecisionTree]
  split
  · rename_i h0
    exact CallbackOK_throw _ (CheckResourceLimits_throw h0)
  · rename_i u s0 h0
    have k0 := CheckResourceLimits_ret h0
    repeat' split
    all_goals first
      | exact CallbackOK_throw _ (k0.before rfl rfl rfl rfl rfl rfl rfl)
      | exact CallbackOK_ret _ (k0.before rfl rfl rfl rfl rfl rfl rfl)
      | (have k5 := (PBENextWorkItem_throw (by assumption)).of_log (by rfl) (by rfl)
         exact CallbackOK_throw _ (k0.chain (k5.after rfl rfl rfl rfl rfl rfl rfl)))
      | (have k5 := (PBENextWorkItem_ret (by assumption)).of_log (by rfl) (by rfl)
         have k6 := k0.chain (k5.after rfl rfl rfl rfl rfl rfl rfl)
         first
          | exact CallbackOK_ret _ k6
          | exact CallbackOK_throw_fields _
              (k6.chain (PBEValidateTree_keeps_builder C _ _ _ _)) rfl rfl rfl rfl rfl
          | exact CallbackOK_throw_fields _
              (k6.before rfl rfl rfl rfl rfl rfl rfl) rfl rfl rfl rfl rfl
          | exact CallbackOK_stop _ (k6.chain (PBEValidateTree_keeps_builder C _ _ _ _))
          | exact CallbackOK_stop _ (k6.before rfl rfl rfl rfl rfl rfl rfl))

theorem SubExpressionCallBack_ok (C : Collaborators) (Exp : GenExpressionBase)
    (Ty : ESFixedTypeBase) (ExpansionTypeID : Nat) (s : CEGSolver) :
    CallbackOK s (SubExpressionCallBack C Exp Ty ExpansionTypeID s) := by
  simp only [SubExpressionCallBack]
  split
  · rename_i h0
    exact CallbackOK_throw _ (CheckResourceLimits_throw h0)
  · rename_i u s0 h0
    have k0 := CheckResourceLimits_ret h0
    repeat' split
    all_goals first
      | exact CallbackOK_throw _ k0
      | exact CallbackOK_ret _ (k0.before rfl rfl rfl rfl rfl rfl rfl)

theorem ExpressionCallBack_ok (C : Collaborators) (Exp : GenExpressionBase)
    (Ty : ESFixedTypeBase) (ExpansionTypeID EnumeratorIndex : Nat) (s : CEGSolver) :
    CallbackOK s (ExpressionCallBack C Exp Ty ExpansionTypeID EnumeratorIndex s) := by
  simp only [ExpressionCallBack]
  split
  · split
    · exact PBEEnumTermExprs_ok C Exp Ty ExpansionTypeID s
    · exact PBEEnumDecisionTree_ok C Exp Ty ExpansionTypeID s
  · repeat' split
    all_goals first
      | exact CallbackOK_throw _ (Keeps_of_fields rfl rfl rfl rfl rfl rfl rfl)
      | exact CallbackOK_ret _ (Keeps_of_fields rfl rfl rfl rfl rfl rfl rfl)
      | (have k := CheckSymbolicValidity_throw (by assumption)
         exact CallbackOK_throw _ (k.after rfl rfl rfl rfl rfl rfl rfl))
      | (have k := CheckSymbolicValidity_ret (by assumption)
         have k1 := k.after (a := s) rfl rfl rfl rfl rfl rfl rfl
         first
          | exact CallbackOK_throw_fields _ k1 rfl rfl rfl rfl rfl
          | exact CallbackOK_stop _ k1
          | exact CallbackOK_ret _
              (k1.logged rfl rfl rfl rfl rfl rfl rfl rfl rfl))

theorem ExpressionCallBackTuple_ok (C : Collaborators) (Exps : Nat → GenExpressionBase)
    (Types : Nat → ESFixedTypeBase) (ExpansionTypeIDs : Nat → Nat) (s : CEGSolver) :
    CallbackOK s (ExpressionCallBackTuple C Exps Types ExpansionTypeIDs s) := by
  simp only [ExpressionCallBackTuple]
  split
  · rename_i h0
    have k0 := CheckResourceLimits_throw h0
    exact CallbackOK_throw _ (k0.after rfl rfl rfl rfl rfl rfl rfl)
  · rename_i u s0 h0
    have k0 := (CheckResourceLimits_ret h0).after (a := s) rfl rfl rfl rfl rfl rfl rfl
    repeat' split
    all_goals first
      | exact CallbackOK_throw _ k0
      | exact CallbackOK_ret _ (k0.before rfl rfl rfl rfl rfl rfl rfl)
      | (have k := CheckSymbolicValidity_throw (by assumption)
         exact CallbackOK_throw _ (k0.chain (k.after rfl rfl rfl rfl rfl rfl rfl)))
      | (have k := CheckSymbolicValidity_ret (by assumption)
         have k1 := k0.chain (k.after rfl rfl rfl rfl rfl rfl rfl)
         first
          | exact CallbackOK_stop _ k1
          | exact CallbackOK_ret _
              (k1.logged rfl rfl rfl rfl rfl rfl rfl rfl rfl))

theorem CallBack_ok (C : Collaborators) (req : CallbackRequest) (s : CEGSolver) :
    CallbackOK s (CallBack C req s) := by
  cases req with
  | Expression Exp Ty X EI => exact ExpressionCallBack_ok C Exp Ty X EI s
  | SubExpression Exp Ty X => exact SubExpressionCallBack_ok C Exp Ty X s
  | ExpressionTuple Exps Types IDs => exact ExpressionCallBackTuple_ok C Exps Types IDs s

/-- Every callback that sets `Complete` returns `STOP_ENUMERATION`. -/
theorem CallBack_ret {C : Collaborators} {req : CallbackRequest} {s s' : CEGSolver}
    {st : CallbackStatus} (h : CallBack C req s = .ret st s') :
    Steps s s' ∧ Discipline s st s' := by
  have := CallBack_ok C req s
  rw [h] at this
  exact ⟨this.1, this.2 st s' rfl⟩

theorem CallBack_throw {C : Collaborators} {req : CallbackRequest} {s s' : CEGSolver}
    {e : ESException} (h : CallBack C req s = .throw e s') : Steps s s' := by
  have := CallBack_ok C req s
  rw [h] at this
  exact this.1

theorem Advances.stay (s : CEGSolver) : Advances s s :=
  ⟨rfl, rfl, rfl, List.prefix_refl _⟩

theorem Advances.compose {a b c : CEGSolver} (h1 : Advances a b) (h2 : Advances b c) :
    Advances a c :=
  ⟨h2.1.trans h1.1, h2.2.1.trans h1.2.1, h2.2.2.1.trans h1.2.2.1, h1.2.2.2.trans h2.2.2.2⟩

theorem Steps.advances {s s' : CEGSolver} (h : Steps s s') : Advances s s' :=
  ⟨h.1, h.2.1, h.2.2.1, h.2.2.2.2.1⟩

theorem Advances_log (s : CEGSolver) (e : Event) : Advances s (s.log e) :=
  ⟨rfl, rfl, rfl, by simp [CEGSolver.log]⟩

theorem RunEnumeration_advances (C : Collaborators) (run : EnumRun) :
    ∀ s : CEGSolver, Advances s (RunEnumeration C run s).state := by
  induction run with
  | done st => intro s; exact ⟨rfl, rfl, rfl, List.prefix_refl _⟩
  | call req k ih =>
    intro s
    simp only [RunEnumeration]
    split
    · rename_i h
      exact (CallBack_throw h).advances
    · rename_i h
      exact (CallBack_ret h).1.advances.compose (ih _ _)

theorem RunEnumeration_ret {C : Collaborators} {run : EnumRun} {s s' : CEGSolver} {u : Unit}
    (h : RunEnumeration C run s = .ret u s') : Advances s s' := by
  have := RunEnumeration_advances C run s
  rwa [h] at this

theorem RunEnumeration_throw {C : Collaborators} {run : EnumRun} {s s' : CEGSolver}
    {e : ESException} (h : RunEnumeration C run s = .throw e s') : Advances s s' := by
  have := RunEnumeration_advances C run s
  rwa [h] at this

theorem RunEnumeration_ret_enumerator (C : Collaborators) (run : EnumRun) :
    ∀ (s s' : CEGSolver) (u : Unit), RunEnumeration C run s = .ret u s' →
      ∃ st, s'.ExpEnumerator = some st := by
  induction run with
  | done st =>
    intro s s' u h
    simp only [RunEnumeration, Outcome.ret.injEq] at h
    exact ⟨st, by rw [← h.2]⟩
  | call req k ih =>
    intro s s' u h
    simp only [RunEnumeration] at h
    split at h
    · cases h
    · exact ih _ _ _ _ h

theorem SolveForLoop_advances (C : Collaborators) (E : CFGEnumerator) :
    ∀ (fuel i n : Nat) (s : CEGSolver), Advances s (SolveForLoop C E fuel i n s).state := by
  intro fuel
  induction fuel with
  | zero => intro i n s; exact Advances.stay s
  | succ f ih =>
    intro i n s
    simp only [SolveForLoop]
    split
    · split
      · exact Advances.stay s
      · split
        · rename_i h
          exact (Advances_log s _).compose (RunEnumeration_throw h)
        · rename_i h
          have k := (Advances_log s _).compose (RunEnumeration_ret h)
          split
          · exact k.compose ⟨rfl, rfl, rfl, by simp [CEGSolver.log, Outcome.state]⟩
          · exact k.compose (ih _ _ _)
    · exact Advances.stay s

theorem SolveForLoop_ret {C : Collaborators} {E : CFGEnumerator} {fuel i n n' : Nat}
    {s s' : CEGSolver} (h : SolveForLoop C E fuel i n s = .ret n' s') : Advances s s' := by
  have := SolveForLoop_advances C E fuel i n s
  rwa [h] at this

theorem SolveForLoop_throw {C : Collaborators} {E : CFGEnumerator} {fuel i n : Nat}
    {s s' : CEGSolver} {e : ESException}
    (h : SolveForLoop C E fuel i n s = .throw e s') : Advances s s' := by
  have := SolveForLoop_advances C E fuel i n s
  rwa [h] at this

theorem SolveDoWhile_advances (C : Collaborators) (E : CFGEnumerator) (N : Nat) :
    ∀ (fuel n : Nat) (s : CEGSolver), Advances s (SolveDoWhile C E N fuel n s).state := by
  intro fuel
  induction fuel with
  | zero => intro n s; exact Advances.stay s
  | succ f ih =>
    intro n s
    simp only [SolveDoWhile]
    have k0 : Advances s { s with Restart := false } := ⟨rfl, rfl, rfl, List.prefix_refl _⟩
    split
    · rename_i h
      exact k0.compose (SolveForLoop_throw h)
    · rename_i h
      have k := k0.compose (SolveForLoop_ret h)
      split
      · exact k.compose (ih _ _)
      · exact k

/-- The first thing a round of the `for` loop does, when its condition holds, is to call
`EnumerateOfCost` with the current counter. -/
theorem SolveForLoop_first_call (C : Collaborators) (E : CFGEnumerator) (fuel i n : Nat)
    (s : CEGSolver) (st : Nat) (hi : i ≤ s.Opts.CostBudget) (hc : s.Complete = false)
    (he : s.ExpEnumerator = some st) :
    ∃ t, (SolveForLoop C E (fuel + 1) i n s).state.Trace
      = s.Trace ++ .EnumerateOfCost i :: t := by
  have key : (s.log (.EnumerateOfCost i)).Trace <+:
      (SolveForLoop C E (fuel + 1) i n s).state.Trace := by
    simp only [SolveForLoop, hi, hc, he]
    simp only [decide_True, Bool.not_false, Bool.and_self, ↓reduceIte]
    split
    · rename_i h
      exact (RunEnumeration_throw h).2.2.2
    · rename_i h
      have k := RunEnumeration_ret h
      split
      · exact k.2.2.2.trans (by simp [CEGSolver.log, Outcome.state])
      · exact k.2.2.2.trans (SolveForLoop_advances C E _ _ _ _).2.2.2
  obtain ⟨t, ht⟩ := key
  exact ⟨t, by rw [← ht]; simp [CEGSolver.log]⟩

theorem zip_range_map (l : List SynthFuncOperator) (g : Nat → Expression) :
    (List.range l.length).map (fun i => (l.getD i 0, g i))
      = List.zip l ((List.range l.length).map g) := by
  apply List.ext_getElem
  · simp
  · intro i h1 h2
    simp at h1
    simp [List.getD_eq_getElem?_getD, h1]

theorem ExpressionCallBack_ceg (C : Collaborators) (Exp : GenExpressionBase)
    (Ty : ESFixedTypeBase) (ExpansionTypeID EnumeratorIndex : Nat) (s s' : CEGSolver)
    (st : CallbackStatus) (hmode : s.TheMode = .CEG)
    (h : ExpressionCallBack C Exp Ty ExpansionTypeID EnumeratorIndex s = .ret st s') :
    CEGDiscipline C s st s' := by
  rcases hev : s.ConcEval with _ | ev
  · simp [ExpressionCallBack, hmode, hev] at h
  rcases hv : (C.CheckConcreteValidity ev Exp Ty ExpansionTypeID 0).1 with _ | _
  · by_cases hd : (C.CheckConcreteValidity ev Exp Ty ExpansionTypeID 0).2.1 &&&
        C.CONCRETE_EVAL_DIST = 0
    · simp [ExpressionCallBack, hmode, hev, hv, hd] at h
      obtain ⟨rfl, rfl⟩ := h
      exact ⟨[], by simp, Or.inl ⟨rfl, rfl, by simp [OracleQueries]⟩⟩
    · simp [ExpressionCallBack, hmode, hev, hv, hd] at h
      obtain ⟨rfl, rfl⟩ := h
      exact ⟨[], by simp, Or.inl ⟨rfl, rfl, by simp [OracleQueries]⟩⟩
  · rcases ho : C.CheckValidity [Exp] with _ | _ | code
    · rcases hf : s.SynthFuncs with _ | ⟨f, fs⟩
      · simp [ExpressionCallBack, hmode, hev, hv, CheckSymbolicValidity, ho, hf,
          CEGSolver.log] at h
      · simp [ExpressionCallBack, hmode, hev, hv, CheckSymbolicValidity, ho, hf,
          CEGSolver.log] at h
        obtain ⟨rfl, rfl⟩ := h
        exact ⟨[.CheckValidity [Exp] .SOLVE_VALID], rfl, Or.inr ⟨rfl, rfl, [Exp], rfl, ho,
          by simp [hf]⟩⟩
    · by_cases hst : s.Opts.StatsLevel ≥ 4 <;> by_cases hnd : s.Opts.NoDist = true <;>
        simp [ExpressionCallBack, hmode, hev, hv, CheckSymbolicValidity, ho,
          CEGSolver.log, hst, hnd] at h <;>
        obtain ⟨rfl, rfl⟩ := h <;>
        exact ⟨_, rfl, Or.inl ⟨rfl, rfl, by simp [OracleQueries]⟩⟩
    · simp [ExpressionCallBack, hmode, hev, hv, CheckSymbolicValidity, ho,
          CEGSolver.log] at h

theorem ExpressionCallBackTuple_ceg (C : Collaborators) (Exps : Nat → GenExpressionBase)
    (Types : Nat → ESFixedTypeBase) (ExpansionTypeIDs : Nat → Nat) (s s' : CEGSolver)
    (st : CallbackStatus)
    (h : ExpressionCallBackTuple C Exps Types ExpansionTypeIDs s = .ret st s') :
    CEGDiscipline C s st s' := by
  by_cases hr : C.ResourceLimitExceeded s.Trace = true
  · simp [ExpressionCallBackTuple, CheckResourceLimits, hr, CEGSolver.log] at h
  rcases hev : s.ConcEval with _ | ev
  · simp [ExpressionCallBackTuple, CheckResourceLimits, hr, CEGSolver.log, hev] at h
  rcases hv : (C.CheckConcreteValidityTuple ev ((List.range s.SynthFuncs.length).map Exps)
    ((List.range s.SynthFuncs.length).map Types)
    ((List.range s.SynthFuncs.length).map ExpansionTypeIDs)).1 with _ | _
  · simp [ExpressionCallBackTuple, CheckResourceLimits, hr, CEGSolver.log, hev, hv] at h
    obtain ⟨rfl, rfl⟩ := h
    exact ⟨_, rfl, Or.inl ⟨rfl, rfl, by simp [OracleQueries]⟩⟩
  · rcases ho : C.CheckValidity ((List.range s.SynthFuncs.length).map Exps) with _ | _ | code
    · simp [ExpressionCallBackTuple, CheckResourceLimits, hr, CEGSolver.log, hev, hv,
        CheckSymbolicValidity, ho] at h
      obtain ⟨rfl, rfl⟩ := h
      refine ⟨_, rfl, Or.inr ⟨rfl, rfl, (List.range s.SynthFuncs.length).map Exps,
        by simp [OracleQueries], ho, ?_⟩⟩
      have := zip_range_map s.SynthFuncs (fun i => C.ToUserExpression (Exps i))
      simpa [Function.comp_def] using this
    · by_cases hst : s.Opts.StatsLevel ≥ 4 <;>
        simp [ExpressionCallBackTuple, CheckResourceLimits, hr, CEGSolver.log, hev, hv,
          CheckSymbolicValidity, ho, hst] at h <;>
        obtain ⟨rfl, rfl⟩ := h <;>
        exact ⟨_, rfl, Or.inl ⟨rfl, rfl, by simp [OracleQueries]⟩⟩
    · simp [ExpressionCallBackTuple, CheckResourceLimits, hr, CEGSolver.log, hev, hv,
        CheckSymbolicValidity, ho] at h

theorem SubExpressionCallBack_ceg (C : Collaborators) (Exp : GenExpressionBase)
    (Ty : ESFixedTypeBase) (ExpansionTypeID : Nat) (s s' : CEGSolver)
    (st : CallbackStatus)
    (h : SubExpressionCallBack C Exp Ty ExpansionTypeID s = .ret st s') :
    CEGDiscipline C s st s' := by
  by_cases hr : C.ResourceLimitExceeded s.Trace = true
  · simp [SubExpressionCallBack, CheckResourceLimits, hr, CEGSolver.log] at h
  rcases hev : s.ConcEval with _ | ev
  · simp [SubExpressionCallBack, CheckResourceLimits, hr, CEGSolver.log, hev] at h
  rcases hv : (C.CheckSubExpression ev s.PBEEvalPtrs Exp Ty ExpansionTypeID 0).1 with _ | _ <;>
    simp [SubExpressionCallBack, CheckResourceLimits, hr, CEGSolver.log, hev, hv] at h <;>
    obtain ⟨rfl, rfl⟩ := h <;>
    exact ⟨_, rfl, Or.inl ⟨rfl, rfl, by simp [OracleQueries]⟩⟩

theorem CallBack_ceg {C : Collaborators} {req : CallbackRequest} {s s' : CEGSolver}
    {st : CallbackStatus} (hmode : s.TheMode = .CEG) (h : CallBack C req s = .ret st s') :
    CEGDiscipline C s st s' := by
  cases req with
  | Expression Exp Ty X EI => exact ExpressionCallBack_ceg C Exp Ty X EI s s' st hmode h
  | SubExpression Exp Ty X => exact SubExpressionCallBack_ceg C Exp Ty X s s' st h
  | ExpressionTuple Exps Types IDs => exact ExpressionCallBackTuple_ceg C Exps Types IDs s s' st h

theorem Validated.mono {C : Collaborators} {funcs : List SynthFuncOperator}
    {t : List Event} {sol : List (SynthFuncOperator × Expression)}
    (h : Validated C funcs t sol) (pre post : List Event) :
    Validated C funcs (pre ++ t ++ post) sol := by
  obtain ⟨Exps, h1, h2, h3⟩ := h
  exact ⟨Exps, by simp [OracleQueries_append, h1], h2, h3⟩

theorem Sound.idle (C : Collaborators) (s : CEGSolver) : Sound C s s :=
  ⟨rfl, rfl, [], by simp, fun _ h => Or.inl h⟩

theorem Sound.seq {C : Collaborators} {a b c : CEGSolver} (h1 : Sound C a b)
    (h2 : Sound C b c) : Sound C a c := by
  obtain ⟨m1, f1, t1, e1, v1⟩ := h1
  obtain ⟨m2, f2, t2, e2, v2⟩ := h2
  refine ⟨m2.trans m1, f2.trans f1, t1 ++ t2, by rw [e2, e1, List.append_assoc], ?_⟩
  intro sol hsol
  rcases v2 sol hsol with hb | hv
  · rcases v1 sol hb with ha | hv
    · exact Or.inl ha
    · exact Or.inr (by simpa using hv.mono [] t2)
  · rw [f1] at hv
    exact Or.inr (by simpa using hv.mono t1 [])

theorem Sound_of_advances {C : Collaborators} {s s' : CEGSolver} (h : Advances s s')
    (hsol : s'.Solutions = s.Solutions) : Sound C s s' := by
  obtain ⟨t, ht⟩ := h.2.2.2
  exact ⟨h.2.2.1, h.2.1, t, ht.symm, fun sol hs => Or.inl (hsol ▸ hs)⟩

theorem CallBack_sound {C : Collaborators} {req : CallbackRequest} {s s' : CEGSolver}
    {st : CallbackStatus} (hmode : s.TheMode = .CEG) (h : CallBack C req s = .ret st s') :
    Sound C s s' := by
  have hs := (CallBack_ret h).1
  obtain ⟨t, ht, hd⟩ := CallBack_ceg hmode h
  refine ⟨hs.2.2.1, hs.2.1, t, ht, ?_⟩
  intro sol hsol
  rcases hd with ⟨_, h2, _⟩ | ⟨_, _, Exps, hq, hv, h2⟩
  · exact Or.inl (h2 ▸ hsol)
  · rw [h2] at hsol
    rcases List.mem_append.mp hsol with h | h
    · exact Or.inl h
    · simp only [List.mem_singleton] at h
      exact Or.inr ⟨Exps, by simp [hq], hv, h⟩

theorem RunEnumeration_sound (C : Collaborators) (run : EnumRun) :
    ∀ (s s' : CEGSolver) (u : Unit), s.TheMode = .CEG →
      RunEnumeration C run s = .ret u s' → Sound C s s' := by
  induction run with
  | done st =>
    intro s s' u _ h
    simp only [RunEnumeration, Outcome.ret.injEq] at h
    rw [← h.2]
    exact ⟨rfl, rfl, [], by simp, fun _ hs => Or.inl hs⟩
  | call req k ih =>
    intro s s' u hmode h
    simp only [RunEnumeration] at h
    split at h
    · cases h
    · rename_i status s1 hcb
      have h1 := CallBack_sound hmode hcb
      exact h1.seq (ih _ _ _ _ (h1.1.trans hmode) h)

theorem SolveForLoop_sound (C : Collaborators) (E : CFGEnumerator) :
    ∀ (fuel i n n' : Nat) (s s' : CEGSolver), s.TheMode = .CEG →
      SolveForLoop C E fuel i n s = .ret n' s' → Sound C s s' := by
  intro fuel
  induction fuel with
  | zero => intro i n n' s s' _ h; simp [SolveForLoop] at h
  | succ f ih =>
    intro i n n' s s' hmode h
    simp only [SolveForLoop] at h
    split at h
    · split at h
      · cases h
      · split at h
        · cases h
        · rename_i u s1 hrun
          have h1 : Sound C s s1 :=
            Sound.seq (Sound_of_advances (Advances_log s _) rfl)
              (RunEnumeration_sound C _ _ _ _ hmode hrun)
          split at h
          · simp only [Outcome.ret.injEq] at h
            rw [← h.2]
            exact h1.seq (Sound_of_advances
              ⟨rfl, rfl, rfl, by simp [CEGSolver.log]⟩ rfl)
          · exact h1.seq (ih _ _ _ _ _ (h1.1.trans hmode) h)
    · simp only [Outcome.ret.injEq] at h
      rw [← h.2]
      exact Sound.idle C s

theorem SolveDoWhile_sound (C : Collaborators) (E : CFGEnumerator) (N : Nat) :
    ∀ (fuel n n' : Nat) (s s' : CEGSolver), s.TheMode = .CEG →
      SolveDoWhile C E N fuel n s = .ret n' s' → Sound C s s' := by
  intro fuel
  induction fuel with
  | zero => intro n n' s s' _ h; simp [SolveDoWhile] at h
  | succ f ih =>
    intro n n' s s' hmode h
    simp only [SolveDoWhile] at h
    split at h
    · cases h
    · rename_i n1 s1 hfor
      have h1 : Sound C s s1 :=
        Sound.seq (@Sound_of_advances C s { s with Restart := false }
          ⟨rfl, rfl, rfl, List.prefix_refl _⟩ rfl)
          (SolveForLoop_sound C E _ _ _ _ _ _ hmode hfor)
      split at h
      · exact h1.seq (ih _ _ _ _ (h1.1.trans hmode) h)
      · simp only [Outcome.ret.injEq] at h
        rw [← h.2]
        exact h1

theorem Pending.still (s : CEGSolver) : Pending s s :=
  ⟨rfl, rfl, rfl, rfl, [], by simp, fun _ => by simp [OracleQueries]⟩

theorem Pending.step {a b c : CEGSolver} (h1 : Pending a b) (h2 : Pending b c) :
    Pending a c := by
  obtain ⟨m1, f1, c1, s1, t1, e1, q1⟩ := h1
  obtain ⟨m2, f2, c2, s2, t2, e2, q2⟩ := h2
  refine ⟨m2.trans m1, f2.trans f1, c2.trans c1, s2.trans s1, t1 ++ t2,
    by rw [e2, e1, List.append_assoc], ?_⟩
  intro hm q hq
  rw [OracleQueries_append] at hq
  rcases List.mem_append.mp hq with h | h
  · exact q1 hm q h
  · exact q2 (m1.trans hm) q h

theorem Pending.finished {C : Collaborators} {a b c : CEGSolver} (h1 : Pending a b)
    (h2 : Finished C b c) : Finished C a c := by
  obtain ⟨m1, f1, c1, s1, t1, e1, q1⟩ := h1
  obtain ⟨m2, f2, c2, t2, sol, e2, s2, q2⟩ := h2
  refine ⟨m2.trans m1, f2.trans f1, c2, t1 ++ t2, sol,
    by rw [e2, e1, List.append_assoc], by rw [s2, s1], ?_⟩
  intro hm
  obtain ⟨Exps, pre, hq, hpre, hv, hsol⟩ := q2 (m1.trans hm)
  refine ⟨Exps, OracleQueries t1 ++ pre, by rw [OracleQueries_append, hq, List.append_assoc],
    ?_, hv, by rw [hsol, f1]⟩
  intro q hq'
  rcases List.mem_append.mp hq' with h | h
  · exact q1 hm q h
  · exact hpre q h

/-- A step after the solution was recorded that makes no oracle query and leaves
`Complete` and `Solutions` alone. -/
theorem Finished.followed {C : Collaborators} {a b c : CEGSolver} (h1 : Finished C a b)
    (hm : c.TheMode = b.TheMode) (hf : c.SynthFuncs = b.SynthFuncs)
    (hc : c.Complete = b.Complete) (hs : c.Solutions = b.Solutions)
    (t : List Event) (ht : c.Trace = b.Trace ++ t) (hq : OracleQueries t = []) :
    Finished C a c := by
  obtain ⟨m1, f1, c1, t1, sol, e1, s1, q1⟩ := h1
  refine ⟨hm.trans m1, hf.trans f1, hc.trans c1, t1 ++ t, sol,
    by rw [ht, e1, List.append_assoc], hs.trans s1, ?_⟩
  intro hmode
  obtain ⟨Exps, pre, hq1, hpre, hv, hsol⟩ := q1 hmode
  exact ⟨Exps, pre, by rw [OracleQueries_append, hq, hq1, List.append_nil], hpre, hv, hsol⟩

theorem Pending.of_fields {a b : CEGSolver} (hm : b.TheMode = a.TheMode)
    (hf : b.SynthFuncs = a.SynthFuncs) (hc : b.Complete = a.Complete)
    (hs : b.Solutions = a.Solutions) (t : List Event) (ht : b.Trace = a.Trace ++ t)
    (hq : OracleQueries t = []) : Pending a b :=
  ⟨hm, hf, hc, hs, t, ht, fun _ q h => by simp [hq] at h⟩

/-- What a callback that returned leaves behind: nothing decided, or enumeration stopped
with one solution recorded. -/
theorem CallBack_pending_or_finished {C : Collaborators} {req : CallbackRequest}
    {a b : CEGSolver} {st : CallbackStatus} (h : CallBack C req a = .ret st b) :
    Pending a b ∨ (st = .STOP_ENUMERATION ∧ Finished C a b) := by
  obtain ⟨hs, hd⟩ := CallBack_ret h
  by_cases hmode : a.TheMode = .CEG
  · obtain ⟨t, ht, hc⟩ := CallBack_ceg hmode h
    rcases hc with ⟨c1, s1, q1⟩ | ⟨rfl, c1, Exps, hq, hv, s1⟩
    · exact Or.inl ⟨hs.2.2.1, hs.2.1, c1, s1, t, ht, fun _ => q1⟩
    · exact Or.inr ⟨rfl, hs.2.2.1, hs.2.1, c1, t, _, ht, s1,
        fun _ => ⟨Exps, [], by simp [hq], by simp, hv, rfl⟩⟩
  · obtain ⟨t, ht⟩ := hs.2.2.2.2.1
    rcases hd with ⟨c1, s1⟩ | ⟨rfl, c1, sol, s1⟩
    · exact Or.inl ⟨hs.2.2.1, hs.2.1, c1, s1, t, ht.symm, fun hm => absurd hm hmode⟩
    · exact Or.inr ⟨rfl, hs.2.2.1, hs.2.1, c1, t, sol, ht.symm, s1,
        fun hm => absurd hm hmode⟩

theorem RunEnumeration_pending_or_finished (C : Collaborators) (run : EnumRun) :
    ∀ (a b : CEGSolver) (u : Unit), StopsOnStop run →
      RunEnumeration C run a = .ret u b → Pending a b ∨ Finished C a b := by
  induction run with
  | done st =>
    intro a b u _ h
    simp only [RunEnumeration, Outcome.ret.injEq] at h
    rw [← h.2]
    exact Or.inl (Pending.of_fields rfl rfl rfl rfl [] (by simp) rfl)
  | call req k ih =>
    intro a b u hstop h
    simp only [RunEnumeration] at h
    split at h
    · cases h
    · rename_i status s1 hcb
      rcases CallBack_pending_or_finished hcb with hp | ⟨rfl, hf⟩
      · rcases ih _ _ _ _ (hstop.2 status) h with h2 | h2
        · exact Or.inl (hp.step h2)
        · exact Or.inr (hp.finished h2)
      · obtain ⟨st', hst'⟩ := hstop.1
        rw [hst'] at h
        simp only [RunEnumeration, Outcome.ret.injEq] at h
        rw [← h.2]
        exact Or.inr (hf.followed rfl rfl rfl rfl [] (by simp) rfl)

/-- Once `Complete` is set the `for` loop makes no further round. -/
theorem SolveForLoop_complete (C : Collaborators) (E : CFGEnumerator) (fuel i n : Nat)
    (s : CEGSolver) (hc : s.Complete = true) :
    SolveForLoop C E (fuel + 1) i n s = .ret n s := by
  simp [SolveForLoop, hc]

theorem SolveForLoop_pending_or_finished (C : Collaborators) (E : CFGEnumerator)
    (hstop : ∀ st cost, StopsOnStop (E.EnumerateOfCost st cost)) :
    ∀ (fuel i n n' : Nat) (a b : CEGSolver),
      SolveForLoop C E fuel i n a = .ret n' b → Pending a b ∨ Finished C a b := by
  intro fuel
  induction fuel with
  | zero => intro i n n' a b h; simp [SolveForLoop] at h
  | succ f ih =>
    intro i n n' a b h
    simp only [SolveForLoop] at h
    split at h
    · split at h
      · cases h
      · rename_i st hst
        split at h
        · cases h
        · rename_i u s1 hrun
          have h0 : Pending a (a.log (.EnumerateOfCost i)) :=
            Pending.of_fields rfl rfl rfl rfl [.EnumerateOfCost i] rfl rfl
          have h1 := RunEnumeration_pending_or_finished C _ _ _ _ (hstop st i) hrun
          split at h
          · simp only [Outcome.ret.injEq] at h
            rw [← h.2]
            rcases h1 with h1 | h1
            · exact Or.inl ((h0.step h1).step
                (Pending.of_fields rfl rfl rfl rfl [.EnumeratorReset] rfl rfl))
            · exact Or.inr ((h0.finished h1).followed rfl rfl rfl rfl [.EnumeratorReset] rfl rfl)
          · rcases h1 with h1 | h1
            · rcases ih _ _ _ _ _ h with h2 | h2
              · exact Or.inl ((h0.step h1).step h2)
              · exact Or.inr ((h0.step h1).finished h2)
            · cases f with
              | zero => simp [SolveForLoop] at h
              | succ f' =>
                rw [SolveForLoop_complete C E f' _ _ _ h1.2.2.1] at h
                simp only [Outcome.ret.injEq] at h
                rw [← h.2]
                exact Or.inr (h0.finished h1)
    · simp only [Outcome.ret.injEq] at h
      rw [← h.2]
      exact Or.inl (Pending.still a)

theorem SolveDoWhile_pending_or_finished (C : Collaborators) (E : CFGEnumerator) (N : Nat)
    (hstop : ∀ st cost, StopsOnStop (E.EnumerateOfCost st cost)) :
    ∀ (fuel n n' : Nat) (a b : CEGSolver),
      SolveDoWhile C E N fuel n a = .ret n' b → Pending a b ∨ Finished C a b := by
  intro fuel
  induction fuel with
  | zero => intro n n' a b h; simp [SolveDoWhile] at h
  | succ f ih =>
    intro n n' a b h
    simp only [SolveDoWhile] at h
    split at h
    · cases h
    · rename_i n1 s1 hfor
      have h0 : Pending a { a with Restart := false } :=
        Pending.of_fields rfl rfl rfl rfl [] (by simp) rfl
      have h1 := SolveForLoop_pending_or_finished C E hstop _ _ _ _ _ _ hfor
      split at h
      · rename_i hcond
        rcases h1 with h1 | h1
        · rcases ih _ _ _ _ h with h2 | h2
          · exact Or.inl ((h0.step h1).step h2)
          · exact Or.inr ((h0.step h1).finished h2)
        · simp [h1.2.2.1] at hcond
      · simp only [Outcome.ret.injEq] at h
        rw [← h.2]
        rcases h1 with h1 | h1
        · exact Or.inl (h0.step h1)
        · exact Or.inr (h0.finished h1)

theorem RunEnumeration_quiet (C : Collaborators) (run : EnumRun) :
    ∀ s : CEGSolver, QuietRun C run s = true → s.Complete = false → s.Restart = false →
      ∃ s', RunEnumeration C run s = .ret () s' ∧ s'.Complete = false ∧
        s'.Restart = false ∧ s'.Solutions = s.Solutions ∧ s'.Opts = s.Opts ∧
        EnumCosts s'.Trace = EnumCosts s.Trace ∧ ResetCount s'.Trace = ResetCount s.Trace ∧
        ∃ st, s'.ExpEnumerator = some st := by
  induction run with
  | done st =>
    intro s _ hc hr
    exact ⟨_, rfl, hc, hr, rfl, rfl, rfl, rfl, st, rfl⟩
  | call req k ih =>
    intro s hq hc hr
    simp only [QuietRun] at hq
    split at hq
    · cases hq
    · rename_i status s1 hcb
      simp only [Bool.and_eq_true, Bool.not_eq_true'] at hq
      obtain ⟨⟨hc1, hr1⟩, hq1⟩ := hq
      obtain ⟨hs, hd⟩ := CallBack_ret hcb
      have hsol : s1.Solutions = s.Solutions := by
        rcases hd with ⟨_, h⟩ | ⟨_, h, _⟩
        · exact h
        · rw [hc1] at h; cases h
      obtain ⟨s', h1, h2, h3, h4, h5, h6, h7, h8⟩ := ih status s1 hq1 hc1 hr1
      refine ⟨s', ?_, h2, h3, h4.trans hsol, h5.trans hs.1, h6.trans hs.2.2.2.2.2.1,
        h7.trans hs.2.2.2.2.2.2, h8⟩
      simp only [RunEnumeration, hcb]
      exact h1

/-- When no callback sets `Complete` or `Restart` and the budget is below the largest
`uint32`, the `for` loop calls `EnumerateOfCost` once for each cost from the counter up to
the budget, in order, and ends without a restart. -/
theorem SolveForLoop_quiet (C : Collaborators) (E : CFGEnumerator) :
    ∀ (k i n : Nat) (s : CEGSolver), s.Complete = false → s.Restart = false →
      k = s.Opts.CostBudget + 1 - i → s.Opts.CostBudget + 1 < 2 ^ 32 →
      QuietRounds C E k i s = true → ∀ extra : Nat,
      ∃ s', SolveForLoop C E (k + 1 + extra) i n s = .ret n s' ∧ s'.Complete = false ∧
        s'.Restart = false ∧ s'.Solutions = s.Solutions ∧ s'.Opts = s.Opts ∧
        EnumCosts s'.Trace = EnumCosts s.Trace ++ List.range' i k ∧
        ResetCount s'.Trace = ResetCount s.Trace := by
  intro k
  induction k with
  | zero =>
    intro i n s hc hr hk hB _ extra
    have hi : ¬ i ≤ s.Opts.CostBudget := by omega
    refine ⟨s, ?_, hc, hr, rfl, rfl, by simp, rfl⟩
    rw [show 0 + 1 + extra = extra + 1 by omega]
    simp [SolveForLoop, hi]
  | succ k ih =>
    intro i n s hc hr hk hB hq extra
    have hi : i ≤ s.Opts.CostBudget := by omega
    simp only [QuietRounds] at hq
    split at hq
    · cases hq
    · rename_i st hst
      simp only [Bool.and_eq_true] at hq
      obtain ⟨hq1, hq2⟩ := hq
      obtain ⟨s1, h1, h2, h3, h4, h5, h6, h7, h8⟩ :=
        RunEnumeration_quiet C _ (s.log (.EnumerateOfCost i)) hq1 hc hr
      rw [h1] at hq2
      have hmod : (i + 1) % 2 ^ 32 = i + 1 := Nat.mod_eq_of_lt (by omega)
      have hopts : s1.Opts = s.Opts := h5
      obtain ⟨s', g1, g2, g3, g4, g5, g6, g7⟩ :=
        ih (i + 1) n s1 h2 h3 (by rw [hopts]; omega) (by rw [hopts]; exact hB) hq2 extra
      have h7' : ResetCount s1.Trace = ResetCount s.Trace := by
        rw [h7]; simp [CEGSolver.log, ResetCount]
      refine ⟨s', ?_, g2, g3, g4.trans h4, g5.trans hopts, ?_, g7.trans h7'⟩
      · rw [show k + 1 + 1 + extra = (k + 1 + extra) + 1 by omega]
        simp only [SolveForLoop, hi, hc, hst, h1, h3, hmod]
        simpa using g1
      · rw [g6, h6]
        simp [CEGSolver.log, EnumCosts_append, EnumCosts, List.range'_succ]

theorem SolveForLoop_stuck (answer : SolveStatus) :
    ∀ (fuel i n : Nat) (s : CEGSolver), StuckAtMaxBudget s → i < 2 ^ 32 →
      ∃ s', SolveForLoop (demoCollaborators false 0 answer)
          (demoCollaborators false 0 answer).EnumeratorSingle fuel i n s
        = .throw .LoopBoundExceeded s' ∧ StuckAtMaxBudget s' := by
  intro fuel
  induction fuel with
  | zero => intro i n s hs _; exact ⟨s, rfl, hs⟩
  | succ f ih =>
    intro i n s hs hi
    obtain ⟨hm, ⟨ev, hev⟩, hc, hr, hb, ⟨st, hst⟩, hsol, hrc⟩ := hs
    have hle : i ≤ s.Opts.CostBudget := by rw [hb]; omega
    have hstep : SolveForLoop (demoCollaborators false 0 answer)
        (demoCollaborators false 0 answer).EnumeratorSingle (f + 1) i n s
        = SolveForLoop (demoCollaborators false 0 answer)
          (demoCollaborators false 0 answer).EnumeratorSingle f ((i + 1) % 2 ^ 32) n
          { (s.log (.EnumerateOfCost i)) with
            NumExpressionsTried := s.NumExpressionsTried + 1,
            ConcEval := some { ev with SigStore := [] } } := by
      simp [SolveForLoop, hle, hc, hst, demoCollaborators, RunEnumeration, CallBack,
        ExpressionCallBack, hm, hev, CEGSolver.log, hr]
    rw [hstep]
    refine ih _ _ _ ⟨hm, ⟨_, rfl⟩, hc, hr, hb, ⟨st, hst⟩, hsol, ?_⟩ (Nat.mod_lt _ (by norm_num))
    simp [CEGSolver.log, ResetCount] at hrc ⊢
    exact hrc

theorem PBEInitializeEvals_ret (C : Collaborators) (inp : SolveInput) (s s1 : CEGSolver)
    (u : Unit) (h : PBEInitializeEvals C inp s = .ret u s1) :
    s1.Solutions = s.Solutions ∧ s1.Complete = s.Complete ∧ s1.SynthFuncs = s.SynthFuncs ∧
      s1.TheMode = s.TheMode ∧ s1.Opts = s.Opts ∧
      ∃ t0, s1.Trace = s.Trace ++ t0 ∧ OracleQueries t0 = [] ∧ EnumCosts t0 = [] ∧
        ResetCount t0 = 0 := by
  simp only [PBEInitializeEvals] at h
  split at h
  · cases h
  · split at h
    · cases h
    · split at h
      · cases h
      · simp only [ResetSigStoreAt] at h
        split at h
        · cases h
        · simp only [Outcome.ret.injEq] at h
          rw [← h.2]
          exact ⟨rfl, rfl, rfl, rfl, rfl, [_], rfl, rfl, rfl, rfl⟩

/-- The solver as `SolveSetup` leaves it, in either mode. -/
theorem SolveSetup_ret (C : Collaborators) (inp : SolveInput) (s s1 : CEGSolver)
    (u : Unit) (h : SolveSetup C inp s = .ret u s1) :
    s1.Solutions = [] ∧ s1.Complete = false ∧ s1.SynthFuncs = inp.SFSet ∧
      s1.Opts = s.Opts ∧
      ∃ t0, s1.Trace = s.Trace ++ t0 ∧ OracleQueries t0 = [] ∧ EnumCosts t0 = [] ∧
        ResetCount t0 = 0 := by
  simp only [SolveSetup] at h
  split at h
  · cases h
  · split at h
    · cases h
    · rename_i u' s5 hinit
      simp only [Outcome.ret.injEq] at h
      rw [← h.2]
      split at hinit
      · split at hinit
        · cases hinit
        · split at hinit
          · cases hinit
          · obtain ⟨h1, h2, h3, -, ho, t0, h4, h5, h6, h7⟩ :=
              PBEInitializeEvals_ret C inp _ _ _ hinit
            refine ⟨by simpa [CEGSolver.log] using h1, by simpa [CEGSolver.log] using h2,
              by simpa [CEGSolver.log] using h3, by simpa [CEGSolver.log] using ho,
              t0 ++ [.GenExpressionInitialize], ?_, ?_, ?_, ?_⟩
            · simp [CEGSolver.log, h4]
            · simp [OracleQueries_append, h5, OracleQueries]
            · simp [EnumCosts_append, h6, EnumCosts]
            · rw [ResetCount_append, h7]; rfl
      · simp only [Outcome.ret.injEq] at hinit
        rw [← hinit.2]
        exact ⟨rfl, rfl, rfl, rfl, [.GenExpressionInitialize], rfl, rfl, rfl, rfl⟩

theorem SolveDoWhile_first_call (C : Collaborators) (E : CFGEnumerator) (N fuel n : Nat)
    (s : CEGSolver) (st : Nat) (hi : N ≤ s.Opts.CostBudget) (hc : s.Complete = false)
    (he : s.ExpEnumerator = some st) :
    ∃ t, (SolveDoWhile C E N (fuel + 1) n s).state.Trace
      = s.Trace ++ .EnumerateOfCost N :: t := by
  obtain ⟨t, ht⟩ := SolveForLoop_first_call C E fuel N n { s with Restart := false } st hi hc he
  simp only [SolveDoWhile]
  split
  · rename_i h
    rw [h] at ht
    exact ⟨t, ht⟩
  · rename_i h
    rw [h] at ht
    split
    · obtain ⟨t', ht'⟩ := (SolveDoWhile_advances C E N fuel _ _).2.2.2
      refine ⟨t ++ t', ?_⟩
      rw [← ht']
      simp only [Outcome.state] at ht
      rw [ht]
      simp
    · exact ⟨t, ht⟩

/-- The solver as `SolveSetup` leaves it when the constraint does not have the PBE
shape. -/
theorem SolveSetup_ceg (C : Collaborators) (inp : SolveInput) (s s1 : CEGSolver)
    (hceg : (inp.ConstRelevantVars.length ==
        (InsertRelevantVars s.RelevantVars inp.BaseAuxVars).length &&
      inp.ConstRelevantVars.length == inp.PBEAntecedentExprs.length) = false)
    (h : SolveSetup C inp s = .ret () s1) :
    s1.TheMode = s.TheMode ∧ s1.SynthFuncs = inp.SFSet ∧ s1.Solutions = [] ∧
      s1.Complete = false ∧ s1.Opts = s.Opts ∧
      s1.Trace = s.Trace ++ [.GenExpressionInitialize] ∧
      s1.ConcEval = some { Id := 0, Points := [], SigStore := [] } ∧
      s1.ExpEnumerator = some (SolveEnumerator C (inp.SFSet.length % 2 ^ 32)).Init := by
  simp only [SolveSetup] at h
  split at h
  · cases h
  · simp only [hceg] at h
    simp only [Bool.false_eq_true, ↓reduceIte, Outcome.ret.injEq, true_and] at h
    subst h
    simp [CEGSolver.log]

/-- The statistics report leaves the solver as it is when it returns. -/
theorem SolveStatistics_ret (s s' : CEGSolver) (u : Unit)
    (h : SolveStatistics s = .ret u s') : s' = s := by
  simp only [SolveStatistics] at h
  repeat' split at h
  all_goals first | (cases h; rfl) | simp at h

/-- The statistics report fails only at `StatsLevel >= 1` on a first solution that is the
empty vector, and then the solver is as it was after `PostSolve`. -/
theorem SolveStatistics_throw (s s' : CEGSolver) (e : ESException)
    (h : SolveStatistics s = .throw e s') :
    s' = s ∧ e = .UndefinedBehaviour ∧ 1 ≤ s.Opts.StatsLevel ∧ s.Solutions.head? = some [] := by
  simp only [SolveStatistics] at h
  repeat' split at h
  all_goals first
    | (simp at h; done)
    | (cases h; refine ⟨rfl, rfl, by assumption, ?_⟩; simp [*])

/-- Without a solution the statistics report has nothing to read. -/
theorem SolveStatistics_nil (s : CEGSolver) (h : s.Solutions = []) :
    SolveStatistics s = .ret () s := by
  simp only [SolveStatistics, h]
  split <;> rfl

/-- A first solution that has a first pair is read without harm. -/
theorem SolveStatistics_cons (s : CEGSolver) (p : SynthFuncOperator × Expression)
    (sol : List (SynthFuncOperator × Expression))
    (rest : List (List (SynthFuncOperator × Expression)))
    (h : s.Solutions = (p :: sol) :: rest) :
    SolveStatistics s = .ret () s := by
  simp only [SolveStatistics, h]
  split <;> rfl

/-- At statistics level 0 the statistics report is skipped. -/
theorem SolveStatistics_level_zero (s : CEGSolver) (h : s.Opts.StatsLevel = 0) :
    SolveStatistics s = .ret () s := by
  simp [SolveStatistics, h]

/-- When no callback sets `Complete` or `Restart` and the budget is below the largest
`uint32`, `Solve` calls `EnumerateOfCost` once for each cost from the number of synth
functions up to the budget, in order, never restarts, and returns no solution. -/
theorem Solve_quiet_within_budget (C : Collaborators) (inp : SolveInput) (s s1 : CEGSolver)
    (hsetup : SolveSetup C inp s = .ret () s1)
    (hB : s1.Opts.CostBudget + 1 < 2 ^ 32)
    (hq : QuietRounds C (SolveEnumerator C (s1.SynthFuncs.length % 2 ^ 32))
      (s1.Opts.CostBudget + 1 - s1.SynthFuncs.length % 2 ^ 32)
      (s1.SynthFuncs.length % 2 ^ 32) { (s1.log .PreSolve) with Restart := false } = true)
    (extra : Nat) :
    ∃ s', Solve C inp
        (s1.Opts.CostBudget + 1 - s1.SynthFuncs.length % 2 ^ 32 + 1 + extra) s
        = .ret [] s' ∧
      EnumCosts s'.Trace = EnumCosts s.Trace ++
        List.range' (s1.SynthFuncs.length % 2 ^ 32)
          (s1.Opts.CostBudget + 1 - s1.SynthFuncs.length % 2 ^ 32) ∧
      ResetCount s'.Trace = ResetCount s.Trace := by
  obtain ⟨hsol, hc, -, -, t0, ht0, -, he0, hr0⟩ := SolveSetup_ret C inp s s1 () hsetup
  obtain ⟨s2, h1, h2, h3, h4, h5, h6, h7⟩ :=
    SolveForLoop_quiet C (SolveEnumerator C (s1.SynthFuncs.length % 2 ^ 32))
      (s1.Opts.CostBudget + 1 - s1.SynthFuncs.length % 2 ^ 32)
      (s1.SynthFuncs.length % 2 ^ 32) 0 { (s1.log .PreSolve) with Restart := false }
      hc rfl rfl hB hq extra
  dsimp only [CEGSolver.log] at h1 h4 h6 h7
  have hfuel : s1.Opts.CostBudget + 1 - s1.SynthFuncs.length % 2 ^ 32 + 1 + extra
      = (s1.Opts.CostBudget + 1 - s1.SynthFuncs.length % 2 ^ 32 + extra) + 1 := by omega
  refine ⟨EndSolve (s2.log .PostSolve), ?_, ?_, ?_⟩
  · rw [hfuel] at h1 ⊢
    simp only [Solve, hsetup, SolveDoWhile, CEGSolver.log, h1, h3, h2]
    simp only [Bool.false_and, Bool.false_eq_true, ↓reduceIte]
    rw [SolveStatistics_nil _ (show ({ s2 with Trace := s2.Trace ++ [Event.PostSolve] }
      : CEGSolver).Solutions = [] from h4.trans hsol)]
    simp only [EndSolve, CEGSolver.log, h4, hsol]
    rw [h2, h3]
  · simp only [EndSolve, CEGSolver.log, EnumCosts_append, h6, ht0, he0]
    simp [EnumCosts]
  · simp only [EndSolve, CEGSolver.log, ResetCount_append, h7, ht0, hr0]
    simp [ResetCount]

/-- The round of the `for` loop in which `Restart` was set: the enumerator is reset once,
the restart count goes up by one, the pass ends, and the next pass begins with cost
`N`. -/
theorem SolveForLoop_restart_step (C : Collaborators) (E : CFGEnumerator)
    (N fuel i n : Nat) (s s1 : CEGSolver) (st : Nat)
    (hi : i ≤ s.Opts.CostBudget) (hc : s.Complete = false)
    (he : s.ExpEnumerator = some st)
    (hrun : RunEnumeration C (E.EnumerateOfCost st i) (s.log (.EnumerateOfCost i))
      = .ret () s1)
    (hc1 : s1.Complete = false) (hr : s1.Restart = true) :
    SolveForLoop C E (fuel + 1) i n s = .ret (n + 1)
        ({ s1 with ExpEnumerator := s1.ExpEnumerator.map E.Reset }.log .EnumeratorReset) ∧
      (∀ (s0 : CEGSolver) (n0 : Nat),
        SolveForLoop C E (fuel + 1) N n0 { s0 with Restart := false } = .ret (n + 1)
          ({ s1 with ExpEnumerator := s1.ExpEnumerator.map E.Reset }.log .EnumeratorReset) →
        SolveDoWhile C E N (fuel + 1) n0 s0 = SolveDoWhile C E N fuel (n + 1)
          ({ s1 with ExpEnumerator := s1.ExpEnumerator.map E.Reset }.log .EnumeratorReset)) ∧
      (N ≤ s.Opts.CostBudget → ∀ fuel' : Nat, ∃ t,
        (SolveDoWhile C E N (fuel' + 1) (n + 1)
          ({ s1 with ExpEnumerator := s1.ExpEnumerator.map E.Reset }.log
            .EnumeratorReset)).state.Trace
          = s1.Trace ++ .EnumeratorReset :: .EnumerateOfCost N :: t) := by
  have hadv := RunEnumeration_ret hrun
  obtain ⟨st1, hst1⟩ := RunEnumeration_ret_enumerator C _ _ _ _ hrun
  have hopts : s1.Opts = s.Opts := hadv.1
  refine ⟨?_, ?_, ?_⟩
  · simp [SolveForLoop, hi, hc, he, hrun, hr]
  · intro s0 n0 hpass
    simp [SolveDoWhile, hpass, CEGSolver.log, hr, hc1]
  · intro hN fuel'
    obtain ⟨t, ht⟩ := SolveDoWhile_first_call C E N fuel' (n + 1)
      ({ s1 with ExpEnumerator := s1.ExpEnumerator.map E.Reset }.log .EnumeratorReset)
      (E.Reset st1) (by simpa [CEGSolver.log, hopts] using hN)
      (by simpa [CEGSolver.log] using hc1) (by simp [CEGSolver.log, hst1])
    exact ⟨t, by rw [ht]; simp [CEGSolver.log]⟩

/-- The round of the `for` loop in which neither `Restart` nor `Complete` was set: the
loop goes on with the next cost. -/
theorem SolveForLoop_next_step (C : Collaborators) (E : CFGEnumerator)
    (fuel i n : Nat) (s s1 : CEGSolver) (st : Nat)
    (hB : s.Opts.CostBudget < 2 ^ 32)
    (hi : i ≤ s.Opts.CostBudget) (hc : s.Complete = false)
    (he : s.ExpEnumerator = some st)
    (hrun : RunEnumeration C (E.EnumerateOfCost st i) (s.log (.EnumerateOfCost i))
      = .ret () s1)
    (hc1 : s1.Complete = false) (hr : s1.Restart = false) :
    SolveForLoop C E (fuel + 1) i n s = SolveForLoop C E fuel ((i + 1) % 2 ^ 32) n s1 ∧
      (i + 1 ≤ s.Opts.CostBudget → ∀ fuel' : Nat, ∃ t,
        (SolveForLoop C E (fuel' + 1) ((i + 1) % 2 ^ 32) n s1).state.Trace
          = s1.Trace ++ .EnumerateOfCost (i + 1) :: t) := by
  have hadv := RunEnumeration_ret hrun
  obtain ⟨st1, hst1⟩ := RunEnumeration_ret_enumerator C _ _ _ _ hrun
  have hopts : s1.Opts = s.Opts := hadv.1
  refine ⟨?_, ?_⟩
  · simp [SolveForLoop, hi, hc, he, hrun, hr]
  · intro hnext fuel'
    have hlt : i + 1 < 2 ^ 32 := lt_of_le_of_lt hnext hB
    rw [Nat.mod_eq_of_lt hlt]
    exact SolveForLoop_first_call C E fuel' (i + 1) n s1 st1 (by rw [hopts]; exact hnext)
      hc1 hst1

/-- Adding a point keeps the earlier points, holds the new one, and makes the point set
larger by one when the point is new. -/
theorem AddPoint_points (ev : ConcreteEvaluator) (p : SMTConcreteValueModel) :
    (∀ q ∈ ev.Points, q ∈ (ev.AddPoint p).Points) ∧ p ∈ (ev.AddPoint p).Points ∧
      (p ∉ ev.Points → (ev.AddPoint p).Points.length = ev.Points.length + 1) ∧
      (ev.AddPoint p).Id = ev.Id := by
  unfold ConcreteEvaluator.AddPoint
  split
  · rename_i h
    exact ⟨fun q hq => hq, h, fun h' => absurd h h', rfl⟩
  · exact ⟨fun q hq => by simp [hq], by simp, fun _ => by simp, rfl⟩

theorem PBEMakeEvals_length (C : Collaborators) (l : List (String × String)) :
    ∀ k, (PBEMakeEvals C k l).length = l.length := by
  induction l with
  | nil => intro k; rfl
  | cons a rest ih => intro k; obtain ⟨name, value⟩ := a; simp [PBEMakeEvals, ih]

theorem PBEMakeEvals_get (C : Collaborators) (l : List (String × String)) :
    ∀ k i ev, (PBEMakeEvals C k l)[i]? = some ev →
      ev.Id = k + i ∧ ev.Points.length = 1 ∧ ev.SigStore = [] := by
  induction l with
  | nil => intro k i ev h; simp [PBEMakeEvals] at h
  | cons a rest ih =>
    intro k i ev h
    obtain ⟨name, value⟩ := a
    cases i with
    | zero =>
      simp [PBEMakeEvals] at h
      subst h
      simp
    | succ i =>
      simp [PBEMakeEvals] at h
      have := ih (k + 1) i ev h
      refine ⟨by omega, this.2⟩

/-- The solver as `PBEInitializeEvals` leaves it when no evaluator existed before. -/
theorem PBEInitializeEvals_fresh (C : Collaborators) (inp : SolveInput) (s s1 : CEGSolver)
    (u : Unit) (hp : s.PBEEvalPtrs = []) (h : PBEInitializeEvals C inp s = .ret u s1) :
    s1.PBEEvalPtrs = PBEMakeEvals C 0 inp.ConstRelevantVars ∧
      s1.DTBuilder.UniqQueue = [0] ∧ s1.DTBuilder.DupExamples = [] ∧
      s1.PBEEval2TermExpIdxMap = s.PBEEval2TermExpIdxMap ∧
      s1.PBETermExprs = s.PBETermExprs ∧ s1.PBEPhase = s.PBEPhase ∧
      s1.ConcEval = s.ConcEval ∧ s1.RelevantVars = s.RelevantVars ∧
      s1.TheMode = s.TheMode ∧ s1.Complete = s.Complete ∧ inp.ConstRelevantVars ≠ [] := by
  simp only [PBEInitializeEvals] at h
  split at h
  · cases h
  · split at h
    · cases h
    · split at h
      · cases h
      · rename_i ev0 hhead
        simp only [ResetSigStoreAt] at h
        split at h
        · cases h
        · rename_i ev hev
          simp only [Outcome.ret.injEq] at h
          rw [← h.2]
          simp only [hp, List.nil_append] at hev hhead ⊢
          refine ⟨?_, rfl, rfl, rfl, rfl, rfl, rfl, rfl, rfl, rfl, ?_⟩
          · rcases hl : inp.ConstRelevantVars with _ | ⟨⟨name, value⟩, rest⟩
            · simp [hl, PBEMakeEvals] at hev
            · simp [hl, PBEMakeEvals] at hev
              subst hev
              simp [CEGSolver.log, hl, PBEMakeEvals,
                DecisionTreeBuilder.AddUniqTermExprExample,
                DecisionTreeBuilder.Reset, ConcreteEvaluator.ResetSigStore]
          · intro hl
            simp [hl, PBEMakeEvals] at hev

/-- Whatever way `PBEInitializeEvals` ends, it leaves the mode and the relevant variables
alone. -/
theorem PBEInitializeEvals_state (C : Collaborators) (inp : SolveInput) (s : CEGSolver) :
    (PBEInitializeEvals C inp s).state.TheMode = s.TheMode ∧
      (PBEInitializeEvals C inp s).state.RelevantVars = s.RelevantVars := by
  simp only [PBEInitializeEvals, ResetSigStoreAt]
  repeat' split
  all_goals exact ⟨rfl, rfl⟩

/-- The way `SolveSetup` goes when the constraint has the PBE shape. -/
theorem SolveSetup_pbe (C : Collaborators) (inp : SolveInput) (s : CEGSolver)
    (hlet : inp.LetBindingError = false)
    (hc : (inp.ConstRelevantVars.length ==
        (InsertRelevantVars s.RelevantVars inp.BaseAuxVars).length &&
      inp.ConstRelevantVars.length == inp.PBEAntecedentExprs.length) = true) :
    (SolveSetup C inp s).state.TheMode = .PBE ∧
    (SolveSetup C inp s).state.RelevantVars
      = InsertRelevantVars s.RelevantVars inp.BaseAuxVars ∧
    ∀ s' u, SolveSetup C inp s = .ret u s' →
      ∃ s5, PBEInitializeEvals C inp
          { s with NumExpressionsTried := 0, NumDistExpressions := 0, Solutions := [],
                   Complete := false, SynthFuncs := inp.SFSet,
                   RelevantVars := InsertRelevantVars s.RelevantVars inp.BaseAuxVars,
                   ExpEnumerator := some (SolveEnumerator C (inp.SFSet.length % 2 ^ 32)).Init,
                   TheMode := .PBE } = .ret () s5 ∧
        s' = s5.log .GenExpressionInitialize := by
  simp only [SolveSetup, hlet, hc, ↓reduceIte, Bool.false_eq_true]
  rcases h1 : inp.SynthFunAppMaps.getLast? with _ | m
  · exact ⟨rfl, rfl, fun s' u h => by cases h⟩
  · simp only
    rcases h2 : m.head? with _ | a
    · exact ⟨rfl, rfl, fun s' u h => by cases h⟩
    · simp only
      have hst := PBEInitializeEvals_state C inp
          { s with NumExpressionsTried := 0, NumDistExpressions := 0, Solutions := [],
                   Complete := false, SynthFuncs := inp.SFSet,
                   RelevantVars := InsertRelevantVars s.RelevantVars inp.BaseAuxVars,
                   ExpEnumerator := some (SolveEnumerator C (inp.SFSet.length % 2 ^ 32)).Init,
                   TheMode := .PBE }
      rcases h3 : PBEInitializeEvals C inp
          { s with NumExpressionsTried := 0, NumDistExpressions := 0, Solutions := [],
                   Complete := false, SynthFuncs := inp.SFSet,
                   RelevantVars := InsertRelevantVars s.RelevantVars inp.BaseAuxVars,
                   ExpEnumerator := some (SolveEnumerator C (inp.SFSet.length % 2 ^ 32)).Init,
                   TheMode := .PBE } with ⟨u5, s5⟩ | ⟨e, s5⟩
      · rw [h3] at hst
        refine ⟨hst.1, hst.2, ?_⟩
        intro s' u h
        simp only [Outcome.ret.injEq] at h
        exact ⟨s5, rfl, h.2.symm⟩
      · rw [h3] at hst
        exact ⟨hst.1, hst.2, fun s' u h => by cases h⟩

theorem MapFind_cons (k' v' : Nat) (m : List (Nat × Nat)) (k : Nat) :
    MapFind ((k', v') :: m) k = if k' = k then some v' else MapFind m k := by
  by_cases h : k' = k
  · subst h; simp [MapFind, List.find?_cons]
  · have hb : (k' == k) = false := by simpa using h
    simp [MapFind, List.find?_cons, h, hb]

theorem MapFind_eq_none_iff (m : List (Nat × Nat)) (k : Nat) :
    MapFind m k = none ↔ k ∉ MapKeys m := by
  induction m with
  | nil => simp [MapFind, MapKeys]
  | cons a m ih =>
    obtain ⟨k', v'⟩ := a
    rw [MapFind_cons]
    by_cases h : k' = k
    · subst h; simp [MapKeys]
    · have h' : ¬ k = k' := fun e => h e.symm
      simp only [MapKeys] at ih
      simp [MapKeys, h, h', ih]

theorem MapFind_MapAssign_same (m : List (Nat × Nat)) (k v : Nat) :
    MapFind (MapAssign m k v) k = some v := by
  induction m with
  | nil => simp [MapAssign, MapFind_cons]
  | cons a m ih =>
    obtain ⟨k', v'⟩ := a
    by_cases h : k' = k
    · subst h; simp [MapAssign, MapFind_cons]
    · simp [MapAssign, MapFind_cons, h, ih]

theorem MapFind_MapAssign_other (m : List (Nat × Nat)) (k v j : Nat) (hj : j ≠ k) :
    MapFind (MapAssign m k v) j = MapFind m j := by
  induction m with
  | nil =>
    have : ¬ k = j := fun e => hj e.symm
    simp [MapAssign, MapFind_cons, this, MapFind]
  | cons a m ih =>
    obtain ⟨k', v'⟩ := a
    by_cases h : k' = k
    · subst h
      have : ¬ k' = j := fun e => hj e.symm
      simp [MapAssign, MapFind_cons, this]
    · by_cases h2 : k' = j
      · subst h2; simp [MapAssign, MapFind_cons, h]
      · simp [MapAssign, MapFind_cons, h, h2, ih]

theorem MapKeys_MapAssign (m : List (Nat × Nat)) (k v : Nat) :
    MapKeys (MapAssign m k v) = if k ∈ MapKeys m then MapKeys m else MapKeys m ++ [k] := by
  induction m with
  | nil => simp [MapKeys, MapAssign]
  | cons a m ih =>
    obtain ⟨k', v'⟩ := a
    by_cases h : k' = k
    · subst h; simp [MapKeys, MapAssign]
    · have h' : ¬ k = k' := fun e => h e.symm
      simp only [MapKeys] at ih
      by_cases hm : k ∈ List.map Prod.fst m
      · simp [MapKeys, MapAssign, h, h', hm, ih]
      · simp [MapKeys, MapAssign, h, h', hm, ih]

theorem MapKeys_length (m : List (Nat × Nat)) : (MapKeys m).length = m.length := by
  simp [MapKeys]

/-- A map whose keys are distinct and below `n` has at most `n` entries, and exactly `n`
when every number below `n` is a key. -/
theorem MapKeys_card (l : List Nat) (n : Nat) (hnd : l.Nodup) (hlt : ∀ k ∈ l, k < n) :
    l.length ≤ n ∧ (l.length = n ↔ ∀ i, i < n → i ∈ l) := by
  have hsub : l.toFinset ⊆ Finset.range n := by
    intro k hk
    simp only [List.mem_toFinset] at hk
    simpa using hlt k hk
  have hcard : l.toFinset.card = l.length := List.toFinset_card_of_nodup hnd
  have hle : l.length ≤ n := by
    have := Finset.card_le_card hsub
    simpa [hcard] using this
  refine ⟨hle, ?_, ?_⟩
  · intro h i hi
    have heq : l.toFinset = Finset.range n := by
      apply Finset.eq_of_subset_of_card_le hsub
      simp [hcard, h]
    have : i ∈ Finset.range n := by simpa using hi
    rw [← heq] at this
    simpa using this
  · intro h
    apply le_antisymm hle
    have : Finset.range n ⊆ l.toFinset := by
      intro i hi
      simp only [Finset.mem_range] at hi
      simpa using h i hi
    have := Finset.card_le_card this
    simpa [hcard] using this

theorem PBEProbeLaterExamples_cons (C : Collaborators) (Expr : GenExpressionBase)
    (Ty : ESFixedTypeBase) (ExpansionTypeID TermExprIdx : Nat) (i : Nat) (rest : List Nat)
    (acc : CEGSolver × Nat × Bool) :
    PBEProbeLaterExamples C Expr Ty ExpansionTypeID TermExprIdx (i :: rest) acc =
      PBEProbeLaterExamples C Expr Ty ExpansionTypeID TermExprIdx rest
        (PBEProbeLaterExamples C Expr Ty ExpansionTypeID TermExprIdx [i] acc) := by
  obtain ⟨s, st, flag⟩ := acc
  simp only [PBEProbeLaterExamples]
  repeat' split
  all_goals rfl

/-- One round of the probing loop of `PBEEnumTermExprs`, at an index that holds an
evaluator whose identity is its index; `v` is the verdict of the validity check the round
runs when the example has no terminal yet. -/
theorem PBEProbeLaterExamples_one (C : Collaborators) (Expr : GenExpressionBase)
    (Ty : ESFixedTypeBase) (ExpansionTypeID TermExprIdx : Nat)
    (i : Nat) (s : CEGSolver) (st : Nat) (flag : Bool) (ev : ConcreteEvaluator)
    (hev : s.PBEEvalPtrs[i]? = some ev) (hid : ev.Id = i) (v : Bool)
    (hv : v = (C.CheckConcreteValidity ev Expr Ty ExpansionTypeID st).1) :
    ∃ (sig : List Signature) (st' : Nat),
      PBEProbeLaterExamples C Expr Ty ExpansionTypeID TermExprIdx [i] (s, st, flag) =
        (if PBEUnmapped s i then
          { s with
            PBEEvalPtrs := s.PBEEvalPtrs.set i { ev with SigStore := sig },
            PBEEval2TermExpIdxMap :=
              if v then MapAssign s.PBEEval2TermExpIdxMap i TermExprIdx
              else s.PBEEval2TermExpIdxMap,
            DTBuilder :=
              if v then s.DTBuilder.AddDupTermExprExample i
              else if flag then s.DTBuilder else s.DTBuilder.AddUniqTermExprExample i }
         else s,
         st',
         if PBEUnmapped s i && !v then true else flag) := by
  rcases hm : MapFind s.PBEEval2TermExpIdxMap i with _ | t
  · rcases hr : (C.CheckConcreteValidity ev Expr Ty ExpansionTypeID st).1 with _ | _
    · rw [hr] at hv
      rcases flag with _ | _
      · refine ⟨(C.CheckConcreteValidity ev Expr Ty ExpansionTypeID st).2.2,
          (C.CheckConcreteValidity ev Expr Ty ExpansionTypeID st).2.1, ?_⟩
        simp [PBEProbeLaterExamples, hev, hid, hm, hr, hv, PBEUnmapped]
      · refine ⟨(C.CheckConcreteValidity ev Expr Ty ExpansionTypeID st).2.2,
          (C.CheckConcreteValidity ev Expr Ty ExpansionTypeID st).2.1, ?_⟩
        simp [PBEProbeLaterExamples, hev, hid, hm, hr, hv, PBEUnmapped]
    · rw [hr] at hv
      refine ⟨(C.CheckConcreteValidity ev Expr Ty ExpansionTypeID st).2.2,
        (C.CheckConcreteValidity ev Expr Ty ExpansionTypeID st).2.1, ?_⟩
      simp [PBEProbeLaterExamples, hev, hid, hm, hr, hv, PBEUnmapped]
  · refine ⟨[], st, ?_⟩
    simp [PBEProbeLaterExamples, hev, hid, hm, PBEUnmapped]

theorem EvalCores_set (s : CEGSolver) (i : Nat) (ev : ConcreteEvaluator)
    (sig : List Signature) (hev : s.PBEEvalPtrs[i]? = some ev) :
    (s.PBEEvalPtrs.set i { ev with SigStore := sig }).map (fun e => (e.Id, e.Points))
      = s.PBEEvalPtrs.map (fun e => (e.Id, e.Points)) := by
  apply List.ext_getElem?
  intro j
  by_cases hj : i = j
  · subst hj
    have hlt : i < s.PBEEvalPtrs.length := by
      rcases Nat.lt_or_ge i s.PBEEvalPtrs.length with h | h
      · exact h
      · rw [List.getElem?_eq_none h] at hev; cases hev
    have hget : s.PBEEvalPtrs[i] = ev := by
      have := List.getElem?_eq_getElem hlt
      rw [hev] at this
      exact (Option.some.inj this).symm
    simp [List.getElem?_map, List.getElem?_set_self, hlt, hget]
  · simp [List.getElem?_map, List.getElem?_set_ne hj]

/-- The frame of one round: what it leaves alone at the other indices. -/
theorem PBEProbe_frame (s s1 : CEGSolver) (i j : Nat) (hji : j ≠ i)
    (hm : ∀ j, j ≠ i → MapFind s1.PBEEval2TermExpIdxMap j = MapFind s.PBEEval2TermExpIdxMap j) :
    PBEUnmapped s1 j = PBEUnmapped s j := by
  simp [PBEUnmapped, hm j hji]

/-- One round of the probing loop of `PBEEnumTermExprs`, read off field by field. -/
theorem PBEProbeLaterExamples_round (C : Collaborators) (Expr : GenExpressionBase)
    (Ty : ESFixedTypeBase) (ExpansionTypeID TermExprIdx : Nat)
    (i : Nat) (s : CEGSolver) (st : Nat) (flag : Bool) (ev : ConcreteEvaluator)
    (hev : s.PBEEvalPtrs[i]? = some ev) (hid : ev.Id = i) :
    ∃ (s1 : CEGSolver) (st' : Nat) (v : Bool),
      v = (C.CheckConcreteValidity ev Expr Ty ExpansionTypeID st).1 ∧
      PBEProbeLaterExamples C Expr Ty ExpansionTypeID TermExprIdx [i] (s, st, flag) =
        (s1, st', flag || (PBEUnmapped s i && !v)) ∧
      EvalCores s1 = EvalCores s ∧
      (∀ j, j ≠ i → s1.PBEEvalPtrs[j]? = s.PBEEvalPtrs[j]?) ∧
      (∀ e, MapFind s1.PBEEval2TermExpIdxMap e =
        if e = i ∧ PBEUnmapped s i = true ∧ v = true
        then some TermExprIdx else MapFind s.PBEEval2TermExpIdxMap e) ∧
      MapKeys s1.PBEEval2TermExpIdxMap = MapKeys s.PBEEval2TermExpIdxMap ++
        (if PBEUnmapped s i && v then [i] else []) ∧
      s1.DTBuilder = { s.DTBuilder with
        UniqQueue := s.DTBuilder.UniqQueue ++
          (if !flag && (PBEUnmapped s i && !v) then [i] else []),
        DupExamples := s.DTBuilder.DupExamples ++
          (if PBEUnmapped s i && v then [i] else []) } := by
  obtain ⟨sig, st', h⟩ := PBEProbeLaterExamples_one C Expr Ty ExpansionTypeID TermExprIdx
    i s st flag ev hev hid _ rfl
  refine ⟨(PBEProbeLaterExamples C Expr Ty ExpansionTypeID TermExprIdx [i] (s, st, flag)).1,
    (PBEProbeLaterExamples C Expr Ty ExpansionTypeID TermExprIdx [i] (s, st, flag)).2.1,
    _, rfl, ?_, ?_, ?_, ?_, ?_, ?_⟩
  all_goals rw [h]
  · rcases PBEUnmapped s i with _ | _ <;>
      rcases (C.CheckConcreteValidity ev Expr Ty ExpansionTypeID st).1 with _ | _ <;>
      rcases flag with _ | _ <;> rfl
  · rcases hU : PBEUnmapped s i with _ | _
    · simp
    · simp [EvalCores, EvalCores_set s i ev sig hev]
  · intro j hj
    rcases hU : PBEUnmapped s i with _ | _
    · simp
    · simp [List.getElem?_set_ne (Ne.symm hj)]
  · intro e
    rcases hU : PBEUnmapped s i with _ | _
    · simp
    · rcases hV : (C.CheckConcreteValidity ev Expr Ty ExpansionTypeID st).1 with _ | _
      · simp
      · by_cases he : e = i
        · subst he; simp [MapFind_MapAssign_same]
        · simp [he, MapFind_MapAssign_other _ _ _ _ he]
  · rcases hU : PBEUnmapped s i with _ | _
    · simp
    · rcases hV : (C.CheckConcreteValidity ev Expr Ty ExpansionTypeID st).1 with _ | _
      · simp
      · have : i ∉ MapKeys s.PBEEval2TermExpIdxMap := by
          rw [← MapFind_eq_none_iff]
          simpa [PBEUnmapped] using hU
        simp [MapKeys_MapAssign, this]
  · rcases hU : PBEUnmapped s i with _ | _
    · simp
    · rcases hV : (C.CheckConcreteValidity ev Expr Ty ExpansionTypeID st).1 with _ | _ <;>
        rcases flag with _ | _ <;>
        simp [DecisionTreeBuilder.AddDupTermExprExample,
          DecisionTreeBuilder.AddUniqTermExprExample]

/-- Evaluators keep their identity under a step that keeps `EvalCores`. -/
theorem EvalCores_ids {s s1 : CEGSolver} (h : EvalCores s1 = EvalCores s)
    (hid : ∀ (i : Nat) (ev : ConcreteEvaluator), s.PBEEvalPtrs[i]? = some ev → ev.Id = i) :
    ∀ (i : Nat) (ev : ConcreteEvaluator), s1.PBEEvalPtrs[i]? = some ev → ev.Id = i := by
  intro i ev hev
  have h1 : (EvalCores s1)[i]? = some (ev.Id, ev.Points) := by
    simp [EvalCores, List.getElem?_map, hev]
  rw [h] at h1
  simp only [EvalCores, List.getElem?_map, Option.map_eq_some'] at h1
  obtain ⟨ev0, h0, h2⟩ := h1
  have := hid i ev0 h0
  simp only [Prod.mk.injEq] at h2
  omega

theorem EvalCores_length {s s1 : CEGSolver} (h : EvalCores s1 = EvalCores s) :
    s1.PBEEvalPtrs.length = s.PBEEvalPtrs.length := by
  have := congrArg List.length h
  simpa [EvalCores] using this

/-- What the probing loop of `PBEEnumTermExprs` does, over the indices in `l`; `V i` is
the verdict of the validity check the loop runs on the example at `i`. -/
theorem PBEProbeLaterExamples_spec (C : Collaborators) (Expr : GenExpressionBase)
    (Ty : ESFixedTypeBase) (ExpansionTypeID TermExprIdx : Nat) :
    ∀ (l : List Nat) (s : CEGSolver) (st : Nat) (flag : Bool),
      l.Nodup →
      (∀ (i : Nat) (ev : ConcreteEvaluator), s.PBEEvalPtrs[i]? = some ev → ev.Id = i) →
      (∀ i ∈ l, i < s.PBEEvalPtrs.length) →
      ∃ V : Nat → Bool,
      (∀ i ∈ l, ∀ ev, s.PBEEvalPtrs[i]? = some ev →
        ∃ st', V i = (C.CheckConcreteValidity ev Expr Ty ExpansionTypeID st').1) ∧
      EvalCores (PBEProbeLaterExamples C Expr Ty ExpansionTypeID TermExprIdx l
        (s, st, flag)).1 = EvalCores s ∧
      (∀ e, MapFind (PBEProbeLaterExamples C Expr Ty ExpansionTypeID TermExprIdx l
          (s, st, flag)).1.PBEEval2TermExpIdxMap e =
        if e ∈ l ∧ PBEUnmapped s e = true ∧ V e = true
        then some TermExprIdx else MapFind s.PBEEval2TermExpIdxMap e) ∧
      MapKeys (PBEProbeLaterExamples C Expr Ty ExpansionTypeID TermExprIdx l
          (s, st, flag)).1.PBEEval2TermExpIdxMap =
        MapKeys s.PBEEval2TermExpIdxMap ++ l.filter (fun i => PBEUnmapped s i && V i) ∧
      (PBEProbeLaterExamples C Expr Ty ExpansionTypeID TermExprIdx l
          (s, st, flag)).1.DTBuilder = { s.DTBuilder with
        UniqQueue := s.DTBuilder.UniqQueue ++
          (if flag then [] else
            (l.filter (fun i => PBEUnmapped s i && !V i)).head?.toList),
        DupExamples := s.DTBuilder.DupExamples ++
          l.filter (fun i => PBEUnmapped s i && V i) } := by
  intro l
  induction l with
  | nil =>
    intro s st flag _ _ _
    refine ⟨fun _ => false, ?_, rfl, ?_, ?_, ?_⟩
    · intro i hi; cases hi
    · intro e; simp [PBEProbeLaterExamples]
    · simp [PBEProbeLaterExamples]
    · rcases flag with _ | _ <;> simp [PBEProbeLaterExamples]
  | cons i rest ih =>
    intro s st flag hnd hid hlt
    have hi : i < s.PBEEvalPtrs.length := hlt i (List.mem_cons_self _ _)
    obtain ⟨ev, hev⟩ : ∃ ev, s.PBEEvalPtrs[i]? = some ev :=
      ⟨s.PBEEvalPtrs[i], List.getElem?_eq_getElem hi⟩
    obtain ⟨s1, st', v, hv, hrun, c1, c2, c3, c4, c5⟩ :=
      PBEProbeLaterExamples_round C Expr Ty ExpansionTypeID TermExprIdx i s st flag ev hev
        (hid i ev hev)
    have hnd' := List.nodup_cons.mp hnd
    have hframe : ∀ j ∈ rest, PBEUnmapped s1 j = PBEUnmapped s j := by
      intro j hj
      have hji : j ≠ i := fun e => hnd'.1 (e ▸ hj)
      refine PBEProbe_frame s s1 i j hji ?_
      intro j' hj'
      rw [c3 j']
      simp [hj']
    obtain ⟨V', d0, d1, d2, d3, d4⟩ := ih s1 st' (flag || (PBEUnmapped s i && !v)) hnd'.2
      (EvalCores_ids c1 hid)
      (fun j hj => by rw [EvalCores_length c1]; exact hlt j (List.mem_cons_of_mem _ hj))
    have hVr : ∀ j ∈ rest, (if j = i then v else V' j) = V' j := by
      intro j hj
      have hji : j ≠ i := fun e => hnd'.1 (e ▸ hj)
      simp [hji]
    have hf1 : rest.filter (fun j => PBEUnmapped s1 j && V' j)
        = rest.filter (fun j => PBEUnmapped s j && (if j = i then v else V' j)) := by
      apply List.filter_congr
      intro j hj
      rw [hframe j hj, hVr j hj]
    have hf2 : rest.filter (fun j => PBEUnmapped s1 j && !V' j)
        = rest.filter (fun j => PBEUnmapped s j && !(if j = i then v else V' j)) := by
      apply List.filter_congr
      intro j hj
      rw [hframe j hj, hVr j hj]
    refine ⟨fun j => if j = i then v else V' j, ?_, ?_, ?_, ?_, ?_⟩
    · intro j hj ev' hev'
      by_cases hji : j = i
      · subst hji
        rw [hev] at hev'
        cases hev'
        exact ⟨st, by simp [hv]⟩
      · have hjr : j ∈ rest := by
          rcases List.mem_cons.mp hj with h | h
          · exact absurd h hji
          · exact h
        have := d0 j hjr ev' (by rw [c2 j hji]; exact hev')
        simpa [hji] using this
    · rw [PBEProbeLaterExamples_cons, hrun]
      exact d1.trans c1
    · intro e
      rw [PBEProbeLaterExamples_cons, hrun, d2 e, c3 e]
      by_cases he : e = i
      · subst he
        simp [hnd'.1]
      · by_cases her : e ∈ rest
        · simp [he, her, hframe e her]
        · simp [he, her]
    · rw [PBEProbeLaterExamples_cons, hrun, d3, c4, hf1]
      rcases hU : PBEUnmapped s i with _ | _ <;> rcases v with _ | _ <;>
        simp [List.filter_cons, hU]
    · rw [PBEProbeLaterExamples_cons, hrun, d4, c5, hf1, hf2]
      rcases hU : PBEUnmapped s i with _ | _ <;> rcases v with _ | _ <;>
        rcases flag with _ | _ <;>
        simp [List.filter_cons, hU]

/-- `PBEEnumTermExprs` on a candidate that is concretely valid on the front evaluator. -/
theorem PBEEnumTermExprs_recorded (C : Collaborators) (Expr : GenExpressionBase)
    (Ty : ESFixedTypeBase) (ExpansionTypeID : Nat) (s : CEGSolver) (c : Nat)
    (ev : ConcreteEvaluator)
    (hres : C.ResourceLimitExceeded s.Trace = false)
    (hback : s.DTBuilder.GetQueueBack = some c) (hev : s.PBEEvalPtrs[c]? = some ev)
    (hvalid : (C.CheckConcreteValidity ev Expr Ty ExpansionTypeID 0).1 = true) :
    PBEEnumTermExprs C Expr Ty ExpansionTypeID s =
      PBEEnumTermExprsFinish C Ty (PBEAfterProbe C Expr Ty ExpansionTypeID s c ev) := by
  simp only [PBEEnumTermExprs, CheckResourceLimits, hres, CEGSolver.log, hback, hev, hvalid,
    PBEEnumTermExprsFinish, PBEAfterProbe, Bool.false_eq_true, ↓reduceIte, Bool.not_true]
  try rfl

/-- `PBEEnumTermExprs` on a candidate that is not concretely valid on the front
evaluator: nothing but the statistics and the signature store of the front evaluator
changes. -/
theorem PBEEnumTermExprs_rejected (C : Collaborators) (Expr : GenExpressionBase)
    (Ty : ESFixedTypeBase) (ExpansionTypeID : Nat) (s : CEGSolver) (c : Nat)
    (ev : ConcreteEvaluator)
    (hres : C.ResourceLimitExceeded s.Trace = false)
    (hback : s.DTBuilder.GetQueueBack = some c) (hev : s.PBEEvalPtrs[c]? = some ev)
    (hvalid : (C.CheckConcreteValidity ev Expr Ty ExpansionTypeID 0).1 = false) :
    ∃ st n, PBEEnumTermExprs C Expr Ty ExpansionTypeID s = .ret st
      { s with
        Trace := s.Trace ++ [.CheckResourceLimits],
        NumExpressionsTried := s.NumExpressionsTried + 1,
        NumDistExpressions := n,
        PBEEvalPtrs := s.PBEEvalPtrs.set c
          { ev with SigStore := (C.CheckConcreteValidity ev Expr Ty ExpansionTypeID 0).2.2 } } ∧
      st ≠ .STOP_ENUMERATION := by
  by_cases hd : ((C.CheckConcreteValidity ev Expr Ty ExpansionTypeID 0).2.1 &&&
      C.CONCRETE_EVAL_DIST) = 0
  · exact ⟨.DELETE_EXPRESSION, s.NumDistExpressions, by
      simp [PBEEnumTermExprs, CheckResourceLimits, hres, CEGSolver.log, hback, hev, hvalid, hd],
      by decide⟩
  · exact ⟨.NONE_STATUS, s.NumDistExpressions + 1, by
      simp [PBEEnumTermExprs, CheckResourceLimits, hres, CEGSolver.log, hback, hev, hvalid, hd],
      by decide⟩

theorem PBEAfterProbe_spec (C : Collaborators) (Expr : GenExpressionBase)
    (Ty : ESFixedTypeBase) (ExpansionTypeID : Nat) (s : CEGSolver) (c : Nat)
    (ev : ConcreteEvaluator)
    (hid : ∀ (i : Nat) (e : ConcreteEvaluator), s.PBEEvalPtrs[i]? = some e → e.Id = i)
    (hev : s.PBEEvalPtrs[c]? = some ev) :
    ∃ V : Nat → Bool,
      (∀ i, c < i → ∀ evi, s.PBEEvalPtrs[i]? = some evi →
        ∃ st, V i = (C.CheckConcreteValidity evi Expr Ty ExpansionTypeID st).1) ∧
      EvalCores (PBEAfterProbe C Expr Ty ExpansionTypeID s c ev) = EvalCores s ∧
      (PBEAfterProbe C Expr Ty ExpansionTypeID s c ev).PBETermExprs
        = s.PBETermExprs ++ [C.ToUserExpression Expr] ∧
      (∀ e, MapFind (PBEAfterProbe C Expr Ty ExpansionTypeID s c ev).PBEEval2TermExpIdxMap e =
        if e = c ∨ (c < e ∧ e < s.PBEEvalPtrs.length ∧ PBEUnmapped s e = true ∧ V e = true)
        then some s.PBETermExprs.length else MapFind s.PBEEval2TermExpIdxMap e) ∧
      MapKeys (PBEAfterProbe C Expr Ty ExpansionTypeID s c ev).PBEEval2TermExpIdxMap =
        MapKeys (MapAssign s.PBEEval2TermExpIdxMap c s.PBETermExprs.length) ++
          (List.range' (c + 1) (s.PBEEvalPtrs.length - (c + 1))).filter
            (fun i => PBEUnmapped s i && V i) ∧
      (PBEAfterProbe C Expr Ty ExpansionTypeID s c ev).DTBuilder = { s.DTBuilder with
        UniqQueue := s.DTBuilder.UniqQueue ++
          ((List.range' (c + 1) (s.PBEEvalPtrs.length - (c + 1))).filter
            (fun i => PBEUnmapped s i && !V i)).head?.toList,
        DupExamples := s.DTBuilder.DupExamples ++
          (List.range' (c + 1) (s.PBEEvalPtrs.length - (c + 1))).filter
            (fun i => PBEUnmapped s i && V i) } ∧
      PBEFrame (PBEAfterProbe C Expr Ty ExpansionTypeID s c ev) = PBEFrame s ∧
      (PBEAfterProbe C Expr Ty ExpansionTypeID s c ev).Trace
        = s.Trace ++ [.CheckResourceLimits] := by
  have hc : ev.Id = c := hid c ev hev
  have hclt : c < s.PBEEvalPtrs.length := by
    rcases Nat.lt_or_ge c s.PBEEvalPtrs.length with h | h
    · exact h
    · rw [List.getElem?_eq_none h] at hev; cases hev
  -- the solver at loop entry
  obtain ⟨s3, hs3⟩ : ∃ s3 : CEGSolver, s3 =
      { s with
        Trace := s.Trace ++ [.CheckResourceLimits],
        NumExpressionsTried := s.NumExpressionsTried + 1,
        PBEEvalPtrs := s.PBEEvalPtrs.set c
          { ev with SigStore := (C.CheckConcreteValidity ev Expr Ty ExpansionTypeID 0).2.2 },
        PBEEval2TermExpIdxMap := MapAssign s.PBEEval2TermExpIdxMap c s.PBETermExprs.length,
        PBETermExprs := s.PBETermExprs ++ [C.ToUserExpression Expr],
        NumDistExpressions := s.NumDistExpressions + 1 } := ⟨_, rfl⟩
  have hrun : PBEAfterProbe C Expr Ty ExpansionTypeID s c ev =
      (PBEProbeLaterExamples C Expr Ty ExpansionTypeID s.PBETermExprs.length
        (List.range' (c + 1) (s.PBEEvalPtrs.length - (c + 1)))
        (s3, (C.CheckConcreteValidity ev Expr Ty ExpansionTypeID 0).2.1, false)).1 := by
    simp [PBEAfterProbe, CEGSolver.log, hc, hs3]
  have hcore3 : EvalCores s3 = EvalCores s := by
    rw [hs3]
    exact EvalCores_set s c ev _ hev
  have hp3 : ∀ j, j ≠ c → s3.PBEEvalPtrs[j]? = s.PBEEvalPtrs[j]? := by
    intro j hj
    rw [hs3]
    simp [List.getElem?_set_ne (Ne.symm hj)]
  have hm3 : ∀ j, j ≠ c → MapFind s3.PBEEval2TermExpIdxMap j
      = MapFind s.PBEEval2TermExpIdxMap j := by
    intro j hj
    rw [hs3]
    exact MapFind_MapAssign_other _ _ _ _ hj
  have hlen3 : s3.PBEEvalPtrs.length = s.PBEEvalPtrs.length := EvalCores_length hcore3
  have hmem : ∀ i, i ∈ List.range' (c + 1) (s.PBEEvalPtrs.length - (c + 1)) ↔
      (c < i ∧ i < s.PBEEvalPtrs.length) := by
    intro i
    rw [List.mem_range'_1]
    omega
  obtain ⟨V, v0, v1, v2, v3, v4⟩ := PBEProbeLaterExamples_spec C Expr Ty ExpansionTypeID
    s.PBETermExprs.length (List.range' (c + 1) (s.PBEEvalPtrs.length - (c + 1))) s3
    (C.CheckConcreteValidity ev Expr Ty ExpansionTypeID 0).2.1 false
    (List.nodup_range' _ _) (EvalCores_ids hcore3 hid)
    (fun i hi => by rw [hlen3]; exact ((hmem i).mp hi).2)
  have hU : ∀ i ∈ List.range' (c + 1) (s.PBEEvalPtrs.length - (c + 1)),
      PBEUnmapped s3 i = PBEUnmapped s i := by
    intro i hi
    have : i ≠ c := by have := (hmem i).mp hi; omega
    simp [PBEUnmapped, hm3 i this]
  have hf1 : (List.range' (c + 1) (s.PBEEvalPtrs.length - (c + 1))).filter
        (fun i => PBEUnmapped s3 i && V i)
      = (List.range' (c + 1) (s.PBEEvalPtrs.length - (c + 1))).filter
        (fun i => PBEUnmapped s i && V i) :=
    List.filter_congr (fun i hi => by rw [hU i hi])
  have hf2 : (List.range' (c + 1) (s.PBEEvalPtrs.length - (c + 1))).filter
        (fun i => PBEUnmapped s3 i && !V i)
      = (List.range' (c + 1) (s.PBEEvalPtrs.length - (c + 1))).filter
        (fun i => PBEUnmapped s i && !V i) :=
    List.filter_congr (fun i hi => by rw [hU i hi])
  refine ⟨V, ?_, ?_, ?_, ?_, ?_, ?_, ?_, ?_⟩
  · intro i hi evi hevi
    have hilt : i < s.PBEEvalPtrs.length := by
      rcases Nat.lt_or_ge i s.PBEEvalPtrs.length with h | h
      · exact h
      · rw [List.getElem?_eq_none h] at hevi; cases hevi
    exact v0 i ((hmem i).mpr ⟨hi, hilt⟩) evi (by rw [hp3 i (by omega)]; exact hevi)
  · rw [hrun]; exact v1.trans hcore3
  · rw [hrun]
    have := PBEProbeLaterExamples_proj (fun s => s.PBETermExprs) (fun _ _ _ _ => rfl) C Expr Ty
      ExpansionTypeID s.PBETermExprs.length
      (List.range' (c + 1) (s.PBEEvalPtrs.length - (c + 1)))
      (s3, (C.CheckConcreteValidity ev Expr Ty ExpansionTypeID 0).2.1, false)
    rw [this, hs3]
  · intro e
    rw [hrun, v2 e]
    by_cases hec : e = c
    · subst hec
      have : e ∉ List.range' (e + 1) (s.PBEEvalPtrs.length - (e + 1)) := by
        rw [hmem]; omega
      simp [this, hs3, MapFind_MapAssign_same]
    · by_cases her : e ∈ List.range' (c + 1) (s.PBEEvalPtrs.length - (c + 1))
      · have h2 := (hmem e).mp her
        simp [her, hec, hU e her, hm3 e hec, h2.1, h2.2]
      · have h2 : ¬ (c < e ∧ e < s.PBEEvalPtrs.length) := fun h => her ((hmem e).mpr h)
        simp only [her, false_and, if_false, hec, false_or, hm3 e hec]
        rw [if_neg]
        intro h
        exact h2 ⟨h.1, h.2.1⟩
  · rw [hrun, v3, hf1, hs3]
  · rw [hrun, v4, hf1, hf2, hs3]
    simp
  · rw [hrun]
    have := PBEProbeLaterExamples_proj PBEFrame (fun _ _ _ _ => rfl) C Expr Ty
      ExpansionTypeID s.PBETermExprs.length
      (List.range' (c + 1) (s.PBEEvalPtrs.length - (c + 1)))
      (s3, (C.CheckConcreteValidity ev Expr Ty ExpansionTypeID 0).2.1, false)
    rw [this, hs3]
    rfl
  · rw [hrun]
    have := PBEProbeLaterExamples_proj (fun s => s.Trace) (fun _ _ _ _ => rfl) C Expr Ty
      ExpansionTypeID s.PBETermExprs.length
      (List.range' (c + 1) (s.PBEEvalPtrs.length - (c + 1)))
      (s3, (C.CheckConcreteValidity ev Expr Ty ExpansionTypeID 0).2.1, false)
    rw [this, hs3]

theorem filter_head_eq_find (p : Nat → Bool) (l : List Nat) :
    (l.filter p).head? = l.find? p := by
  induction l with
  | nil => rfl
  | cons a l ih =>
    rcases h : p a with _ | _
    · simp [List.filter_cons, List.find?_cons, h, ih]
    · simp [List.filter_cons, List.find?_cons, h]

/-- The first index of a range that satisfies `p`: it is in the range, satisfies `p`, and
no smaller index of the range does. -/
theorem range_find_some (p : Nat → Bool) :
    ∀ (len a j : Nat), (List.range' a len).find? p = some j →
      a ≤ j ∧ j < a + len ∧ p j = true ∧ ∀ i, a ≤ i → i < j → p i = false := by
  intro len
  induction len with
  | zero => intro a j h; simp at h
  | succ len ih =>
    intro a j h
    rw [List.range'_succ, List.find?_cons] at h
    rcases hp : p a with _ | _
    · rw [hp] at h
      obtain ⟨h1, h2, h3, h4⟩ := ih (a + 1) j h
      refine ⟨by omega, by omega, h3, ?_⟩
      intro i hi hij
      by_cases hia : i = a
      · subst hia; exact hp
      · exact h4 i (by omega) hij
    · rw [hp] at h
      simp only [Option.some.injEq] at h
      subst h
      exact ⟨le_refl _, by omega, hp, fun i hi hij => by omega⟩

theorem range_find_none (p : Nat → Bool) :
    ∀ (len a : Nat), (List.range' a len).find? p = none →
      ∀ i, a ≤ i → i < a + len → p i = false := by
  intro len a h i h1 h2
  rw [List.find?_eq_none] at h
  have := h i (by rw [List.mem_range'_1]; omega)
  simpa using this

theorem ResetSigStoreAt_fields (p : EvalPtr) (s : CEGSolver) :
    EvalCores (ResetSigStoreAt p s).state = EvalCores s ∧
    (ResetSigStoreAt p s).state.PBEEval2TermExpIdxMap = s.PBEEval2TermExpIdxMap ∧
    (ResetSigStoreAt p s).state.PBETermExprs = s.PBETermExprs ∧
    (ResetSigStoreAt p s).state.DTBuilder = s.DTBuilder ∧
    PBEFrame (ResetSigStoreAt p s).state = PBEFrame s := by
  simp only [ResetSigStoreAt]
  split
  · exact ⟨rfl, rfl, rfl, rfl, rfl⟩
  · rename_i ev hev
    refine ⟨?_, rfl, rfl, rfl, rfl⟩
    exact EvalCores_set s p ev [] hev

theorem ResetSigStoreAt_returns (p : EvalPtr) (s : CEGSolver)
    (hp : p < s.PBEEvalPtrs.length) :
    ∃ s', ResetSigStoreAt p s = .ret () s' := by
  simp only [ResetSigStoreAt]
  rw [List.getElem?_eq_getElem hp]
  exact ⟨_, rfl⟩

/-- Whatever way the last part of `PBEEnumTermExprs` ends, it leaves the terminals, the
map to them and the identities and points of the evaluators alone. -/
theorem PBEEnumTermExprsFinish_fields (C : Collaborators) (Ty : ESFixedTypeBase)
    (s4 : CEGSolver) :
    EvalCores (PBEEnumTermExprsFinish C Ty s4).state = EvalCores s4 ∧
    (PBEEnumTermExprsFinish C Ty s4).state.PBEEval2TermExpIdxMap = s4.PBEEval2TermExpIdxMap ∧
    (PBEEnumTermExprsFinish C Ty s4).state.PBETermExprs = s4.PBETermExprs := by
  simp only [PBEEnumTermExprsFinish]
  split
  · split
    · exact ⟨rfl, rfl, rfl⟩
    · rename_i back hback
      have h := ResetSigStoreAt_fields back s4
      split
      · rename_i e s5 h5
        rw [h5] at h
        exact ⟨h.1, h.2.1, h.2.2.1⟩
      · rename_i u s5 h5
        rw [h5] at h
        exact ⟨h.1, h.2.1, h.2.2.1⟩
  · split
    · split
      · exact ⟨rfl, rfl, rfl⟩
      · exact ⟨rfl, rfl, rfl⟩
    · have h := ResetSigStoreAt_fields
        (C.LocateNextEvalNode (C.DTInit s4.DTBuilder Ty) s4.DTCurLocation
          s4.DTCurEvalPtrs).2.2.1.1
        { s4 with
          DTBuilder := (C.LocateNextEvalNode (C.DTInit s4.DTBuilder Ty) s4.DTCurLocation
            s4.DTCurEvalPtrs).2.2.2,
          DTCurLocation := (C.LocateNextEvalNode (C.DTInit s4.DTBuilder Ty) s4.DTCurLocation
            s4.DTCurEvalPtrs).2.1,
          DTCurEvalPtrs := (C.LocateNextEvalNode (C.DTInit s4.DTBuilder Ty) s4.DTCurLocation
            s4.DTCurEvalPtrs).2.2.1 }
      split
      · split
        · rename_i e s7 h7
          rw [h7] at h
          exact ⟨h.1, h.2.1, h.2.2.1⟩
        · rename_i u s7 h7
          rw [h7] at h
          exact ⟨h.1, h.2.1, h.2.2.1⟩
      · exact ⟨rfl, rfl, rfl⟩

/-- The bookkeeping of the terminals after a terminal was recorded for the front
evaluator and the later examples were probed. -/
theorem PBEAfterProbe_inv (C : Collaborators) (Expr : GenExpressionBase)
    (Ty : ESFixedTypeBase) (ExpansionTypeID : Nat) (s : CEGSolver) (c : Nat)
    (ev : ConcreteEvaluator)
    (hinv : PBETermInv s) (hback : s.DTBuilder.GetQueueBack = some c)
    (hev : s.PBEEvalPtrs[c]? = some ev)
    (hsmall : ∀ i, i < c → MapFind s.PBEEval2TermExpIdxMap i ≠ none)
    (hopen : MapFind s.PBEEval2TermExpIdxMap c = none) (hk : s.PBETermExprs.length ≤ c) :
    PBETermInv (PBEAfterProbe C Expr Ty ExpansionTypeID s c ev) ∧
    ((PBEAfterProbe C Expr Ty ExpansionTypeID s c ev).PBEEval2TermExpIdxMap.length ≠
        (PBEAfterProbe C Expr Ty ExpansionTypeID s c ev).PBEEvalPtrs.length ↔
      ∃ i, i < s.PBEEvalPtrs.length ∧
        MapFind (PBEAfterProbe C Expr Ty ExpansionTypeID s c ev).PBEEval2TermExpIdxMap i
          = none) ∧
    ((∃ i, i < s.PBEEvalPtrs.length ∧
        MapFind (PBEAfterProbe C Expr Ty ExpansionTypeID s c ev).PBEEval2TermExpIdxMap i
          = none) →
      ∃ j, (PBEAfterProbe C Expr Ty ExpansionTypeID s c ev).DTBuilder.GetQueueBack = some j ∧
        c < j ∧ j < s.PBEEvalPtrs.length ∧
        MapFind (PBEAfterProbe C Expr Ty ExpansionTypeID s c ev).PBEEval2TermExpIdxMap j
          = none ∧
        ∀ i, i < j →
          MapFind (PBEAfterProbe C Expr Ty ExpansionTypeID s c ev).PBEEval2TermExpIdxMap i
            ≠ none) ∧
    (∃ j, (PBEAfterProbe C Expr Ty ExpansionTypeID s c ev).DTBuilder.GetQueueBack = some j ∧
      j < s.PBEEvalPtrs.length) := by
  obtain ⟨hids, hnd, hent, hle⟩ := hinv
  obtain ⟨V, -, v1, v2, v3, v4, v5, -, -⟩ :=
    PBEAfterProbe_spec C Expr Ty ExpansionTypeID s c ev hids hev
  generalize PBEAfterProbe C Expr Ty ExpansionTypeID s c ev = s4 at *
  have hclt : c < s.PBEEvalPtrs.length := by
    rcases Nat.lt_or_ge c s.PBEEvalPtrs.length with h | h
    · exact h
    · rw [List.getElem?_eq_none h] at hev; cases hev
  have hlen4 : s4.PBEEvalPtrs.length = s.PBEEvalPtrs.length := EvalCores_length v1
  have hmono : ∀ e, MapFind s.PBEEval2TermExpIdxMap e ≠ none →
      MapFind s4.PBEEval2TermExpIdxMap e ≠ none := by
    intro e he
    rw [v3 e]
    split
    · simp
    · exact he
  have hent4 : ∀ e t, MapFind s4.PBEEval2TermExpIdxMap e = some t →
      e < s.PBEEvalPtrs.length ∧ t < s.PBETermExprs.length + 1 := by
    intro e t h
    rw [v3 e] at h
    split at h
    · rename_i hcond
      simp only [Option.some.injEq] at h
      subst h
      rcases hcond with h1 | h1
      · subst h1; exact ⟨hclt, Nat.lt_succ_self _⟩
      · exact ⟨h1.2.1, Nat.lt_succ_self _⟩
    · have := hent e t h
      exact ⟨this.1, Nat.lt_succ_of_lt this.2⟩
  have hcnot : c ∉ MapKeys s.PBEEval2TermExpIdxMap := (MapFind_eq_none_iff _ _).mp hopen
  have hkeys : MapKeys s4.PBEEval2TermExpIdxMap = MapKeys s.PBEEval2TermExpIdxMap ++ [c] ++
      (List.range' (c + 1) (s.PBEEvalPtrs.length - (c + 1))).filter
        (fun i => PBEUnmapped s i && V i) := by
    rw [v4, MapKeys_MapAssign, if_neg hcnot]
  have hF : ∀ i ∈ (List.range' (c + 1) (s.PBEEvalPtrs.length - (c + 1))).filter
      (fun i => PBEUnmapped s i && V i), c < i ∧ i ∉ MapKeys s.PBEEval2TermExpIdxMap := by
    intro i hi
    rw [List.mem_filter, List.mem_range'_1] at hi
    refine ⟨by omega, ?_⟩
    rw [← MapFind_eq_none_iff]
    have := hi.2
    simp only [Bool.and_eq_true, PBEUnmapped, Option.isNone_iff_eq_none] at this
    exact this.1
  have hnd4 : (MapKeys s4.PBEEval2TermExpIdxMap).Nodup := by
    rw [hkeys, List.nodup_append]
    refine ⟨?_, (List.nodup_range' _ _).filter _, ?_⟩
    · rw [List.nodup_append]
      refine ⟨hnd, List.nodup_singleton _, ?_⟩
      intro a ha hb
      simp only [List.mem_singleton] at hb
      subst hb
      exact hcnot ha
    · intro a ha hb
      have := hF a hb
      rcases List.mem_append.mp ha with h | h
      · exact this.2 h
      · simp only [List.mem_singleton] at h
        omega
  have hkeylt : ∀ key ∈ MapKeys s4.PBEEval2TermExpIdxMap, key < s.PBEEvalPtrs.length := by
    intro key hkey
    have : MapFind s4.PBEEval2TermExpIdxMap key ≠ none := by
      rw [Ne, MapFind_eq_none_iff]
      exact fun h => h hkey
    obtain ⟨t, ht⟩ := Option.ne_none_iff_exists'.mp this
    exact (hent4 key t ht).1
  have hcard := MapKeys_card _ _ hnd4 hkeylt
  have hiff : s4.PBEEval2TermExpIdxMap.length ≠ s4.PBEEvalPtrs.length ↔
      ∃ i, i < s.PBEEvalPtrs.length ∧ MapFind s4.PBEEval2TermExpIdxMap i = none := by
    rw [hlen4, ← MapKeys_length, Ne, hcard.2]
    constructor
    · intro h
      by_contra hcon
      apply h
      intro i hi
      by_contra hni
      exact hcon ⟨i, hi, (MapFind_eq_none_iff _ _).mpr hni⟩
    · rintro ⟨i, hi, hnone⟩ h
      exact (MapFind_eq_none_iff _ _).mp hnone (h i hi)
  have hq : s4.DTBuilder.GetQueueBack =
      (s.DTBuilder.UniqQueue ++
        ((List.range' (c + 1) (s.PBEEvalPtrs.length - (c + 1))).find?
          (fun i => PBEUnmapped s i && !V i)).toList).getLast? := by
    rw [v5, ← filter_head_eq_find]
    rfl
  refine ⟨⟨EvalCores_ids v1 hids, hnd4, ?_, ?_⟩, hiff, ?_, ?_⟩
  · intro e t h
    rw [hlen4, v2]
    simpa using hent4 e t h
  · rw [hlen4, v2]
    simp only [List.length_append, List.length_singleton]
    omega
  · rintro ⟨i, hi, hnone⟩
    have hci : c < i := by
      rcases Nat.lt_trichotomy i c with h | h | h
      · exact absurd hnone (hmono i (hsmall i h))
      · subst h
        rw [v3 i] at hnone
        simp at hnone
      · exact h
    have hpi : (PBEUnmapped s i && !V i) = true := by
      rw [v3 i] at hnone
      split at hnone
      · cases hnone
      · rename_i hcond
        have hU : PBEUnmapped s i = true := by simp [PBEUnmapped, hnone]
        rcases hV : V i with _ | _
        · simp [hU]
        · exact absurd (Or.inr ⟨hci, hi, hU, hV⟩) hcond
    rcases hfind : (List.range' (c + 1) (s.PBEEvalPtrs.length - (c + 1))).find?
        (fun i => PBEUnmapped s i && !V i) with _ | j
    · have := range_find_none _ _ _ hfind i (by omega) (by omega)
      rw [hpi] at this
      cases this
    · obtain ⟨j1, j2, j3, j4⟩ := range_find_some _ _ _ j hfind
      have hjU : PBEUnmapped s j = true := by
        simp only [Bool.and_eq_true] at j3; exact j3.1
      have hjV : V j = false := by
        simp only [Bool.and_eq_true, Bool.not_eq_true'] at j3; exact j3.2
      have hcj : c < j := by clear hiff hcard; omega
      have hjn : j < s.PBEEvalPtrs.length := by clear hiff hcard; omega
      refine ⟨j, ?_, hcj, hjn, ?_, ?_⟩
      · rw [hq, hfind]
        simp
      · rw [v3 j]
        have hjc : ¬ j = c := by omega
        simp only [hjc, hjV, false_or, Bool.false_eq_true, and_false, if_false]
        simpa [PBEUnmapped] using hjU
      · intro i' hi'
        rcases Nat.lt_trichotomy i' c with h | h | h
        · exact hmono i' (hsmall i' h)
        · subst h
          rw [v3 i']
          simp
        · have hp := j4 i' (by omega) hi'
          rw [v3 i']
          rcases hU : PBEUnmapped s i' with _ | _
          · have : MapFind s.PBEEval2TermExpIdxMap i' ≠ none := by
              intro hn
              simp [PBEUnmapped, hn] at hU
            split
            · simp
            · exact this
          · have hVi : V i' = true := by
              rw [hU] at hp
              simpa using hp
            have hlt : i' < s.PBEEvalPtrs.length := Nat.lt_trans hi' hjn
            simp [h, hlt, hU, hVi]
  · rcases hfind : (List.range' (c + 1) (s.PBEEvalPtrs.length - (c + 1))).find?
        (fun i => PBEUnmapped s i && !V i) with _ | j
    · refine ⟨c, ?_, hclt⟩
      rw [hq, hfind]
      simpa [DecisionTreeBuilder.GetQueueBack] using hback
    · obtain ⟨j1, j2, -, -⟩ := range_find_some _ _ _ j hfind
      rw [Nat.add_sub_cancel' hclt] at j2
      refine ⟨j, ?_, j2⟩
      rw [hq, hfind]
      simp

/-- The three ways the last part of `PBEEnumTermExprs` returns. -/
theorem PBEEnumTermExprsFinish_ret (C : Collaborators) (Ty : ESFixedTypeBase)
    (s4 s' : CEGSolver) (st : CallbackStatus)
    (h : PBEEnumTermExprsFinish C Ty s4 = .ret st s') :
    st = .STOP_ENUMERATION ∧
    ((s4.PBEEval2TermExpIdxMap.length ≠ s4.PBEEvalPtrs.length ∧
        s'.DTBuilder = s4.DTBuilder ∧ s'.Restart = true ∧ s'.PBEPhase = s4.PBEPhase ∧
        s'.Complete = s4.Complete ∧ s'.Solutions = s4.Solutions) ∨
      (s4.PBEEval2TermExpIdxMap.length = s4.PBEEvalPtrs.length ∧
        s4.PBETermExprs.length = 1 ∧
        s'.DTBuilder = s4.DTBuilder ∧ s'.Restart = s4.Restart ∧ s'.PBEPhase = s4.PBEPhase ∧
        s'.Complete = true ∧
        ∃ f t, s4.SynthFuncs[0]? = some f ∧ s4.PBETermExprs.getLast? = some t ∧
          s'.Solutions = s4.Solutions ++ [[(f, t)]]) ∨
      (s4.PBEEval2TermExpIdxMap.length = s4.PBEEvalPtrs.length ∧
        s4.PBETermExprs.length ≠ 1 ∧
        s'.Restart = true ∧ s'.PBEPhase = .BuildDecisionTree ∧
        s'.Complete = s4.Complete ∧ s'.Solutions = s4.Solutions)) := by
  simp only [PBEEnumTermExprsFinish] at h
  split at h
  · rename_i hne
    have hne' : s4.PBEEval2TermExpIdxMap.length ≠ s4.PBEEvalPtrs.length := by
      simpa using hne
    split at h
    · cases h
    · rename_i back hback
      have hf := ResetSigStoreAt_fields back s4
      split at h
      · cases h
      · rename_i u s5 h5
        rw [h5] at hf
        obtain ⟨-, -, -, f4, f5⟩ := hf
        simp only [Outcome.ret.injEq] at h
        obtain ⟨rfl, rfl⟩ := h
        simp only [PBEFrame, Prod.mk.injEq] at f5
        refine ⟨rfl, Or.inl ⟨hne', f4, rfl, f5.2.2.2.2.1, f5.2.2.2.2.2.1,
          f5.2.2.2.2.2.2.2.1⟩⟩
  · rename_i hne
    have heq : s4.PBEEval2TermExpIdxMap.length = s4.PBEEvalPtrs.length := by
      simpa using hne
    split at h
    · rename_i h1
      have h1' : s4.PBETermExprs.length = 1 := by simpa using h1
      split at h
      · rename_i f t hf ht
        simp only [Outcome.ret.injEq] at h
        obtain ⟨rfl, rfl⟩ := h
        exact ⟨rfl, Or.inr (Or.inl ⟨heq, h1', rfl, rfl, rfl, rfl, f, t, hf, ht, rfl⟩)⟩
      · cases h
    · rename_i h1
      have h1' : s4.PBETermExprs.length ≠ 1 := by simpa using h1
      have hf := ResetSigStoreAt_fields
        (C.LocateNextEvalNode (C.DTInit s4.DTBuilder Ty) s4.DTCurLocation
          s4.DTCurEvalPtrs).2.2.1.1
        { s4 with
          DTBuilder := (C.LocateNextEvalNode (C.DTInit s4.DTBuilder Ty) s4.DTCurLocation
            s4.DTCurEvalPtrs).2.2.2,
          DTCurLocation := (C.LocateNextEvalNode (C.DTInit s4.DTBuilder Ty) s4.DTCurLocation
            s4.DTCurEvalPtrs).2.1,
          DTCurEvalPtrs := (C.LocateNextEvalNode (C.DTInit s4.DTBuilder Ty) s4.DTCurLocation
            s4.DTCurEvalPtrs).2.2.1 }
      split at h
      · split at h
        · cases h
        · rename_i u s7 h7
          rw [h7] at hf
          obtain ⟨-, -, -, -, f5⟩ := hf
          simp only [Outcome.ret.injEq] at h
          obtain ⟨rfl, rfl⟩ := h
          simp only [PBEFrame, Prod.mk.injEq] at f5
          exact ⟨rfl, Or.inr (Or.inr ⟨heq, h1', rfl, rfl, f5.2.2.2.2.2.1,
            f5.2.2.2.2.2.2.2.1⟩)⟩
      · cases h

/-- The last part of `PBEEnumTermExprs` returns when the front evaluator, the first synth
function and the last terminal exist, and the initialised builder locates a pair whose
first evaluator exists. -/
theorem PBEEnumTermExprsFinish_returns (C : Collaborators) (Ty : ESFixedTypeBase)
    (s4 : CEGSolver) (j : Nat) (f : SynthFuncOperator)
    (hback : s4.DTBuilder.GetQueueBack = some j) (hj : j < s4.PBEEvalPtrs.length)
    (hf : s4.SynthFuncs[0]? = some f) (ht : s4.PBETermExprs ≠ [])
    (hloc : s4.PBEEval2TermExpIdxMap.length = s4.PBEEvalPtrs.length →
      s4.PBETermExprs.length ≠ 1 →
      (C.LocateNextEvalNode (C.DTInit s4.DTBuilder Ty) s4.DTCurLocation
        s4.DTCurEvalPtrs).1 = true ∧
      (C.LocateNextEvalNode (C.DTInit s4.DTBuilder Ty) s4.DTCurLocation
        s4.DTCurEvalPtrs).2.2.1.1 < s4.PBEEvalPtrs.length) :
    ∃ s', PBEEnumTermExprsFinish C Ty s4 = .ret .STOP_ENUMERATION s' := by
  simp only [PBEEnumTermExprsFinish]
  split
  · rw [hback]
    obtain ⟨s5, h5⟩ := ResetSigStoreAt_returns j s4 hj
    simp only [h5]
    exact ⟨_, rfl⟩
  · split
    · obtain ⟨t, ht'⟩ : ∃ t, s4.PBETermExprs.getLast? = some t := by
        rcases h : s4.PBETermExprs.getLast? with _ | t
        · rw [List.getLast?_eq_none_iff] at h
          exact absurd h ht
        · exact ⟨t, rfl⟩
      simp only [hf, ht']
      exact ⟨_, rfl⟩
    · rename_i hall hmany
      obtain ⟨hflag, hloc⟩ := hloc (by simpa using hall) (by simpa using hmany)
      obtain ⟨s7, h7⟩ := ResetSigStoreAt_returns
        (C.LocateNextEvalNode (C.DTInit s4.DTBuilder Ty) s4.DTCurLocation
          s4.DTCurEvalPtrs).2.2.1.1
        { s4 with
          DTBuilder := (C.LocateNextEvalNode (C.DTInit s4.DTBuilder Ty) s4.DTCurLocation
            s4.DTCurEvalPtrs).2.2.2,
          DTCurLocation := (C.LocateNextEvalNode (C.DTInit s4.DTBuilder Ty) s4.DTCurLocation
            s4.DTCurEvalPtrs).2.1,
          DTCurEvalPtrs := (C.LocateNextEvalNode (C.DTInit s4.DTBuilder Ty) s4.DTCurLocation
            s4.DTCurEvalPtrs).2.2.1 } hloc
      simp only [hflag, ↓reduceIte, h7]
      exact ⟨_, rfl⟩

/-- At the phase switch of `PBEEnumTermExprs` (every example has a terminal, more than
one terminal) a builder that locates no pair leaves the pair null, and the callback ends
in the dereference of it: the phase and `Restart` are as they were and no call is
recorded. -/
theorem PBEEnumTermExprsFinish_without_pair (C : Collaborators) (Ty : ESFixedTypeBase)
    (s4 : CEGSolver)
    (hall : s4.PBEEval2TermExpIdxMap.length = s4.PBEEvalPtrs.length)
    (hmany : s4.PBETermExprs.length ≠ 1)
    (hflag : (C.LocateNextEvalNode (C.DTInit s4.DTBuilder Ty) s4.DTCurLocation
      s4.DTCurEvalPtrs).1 = false) :
    ∃ s', PBEEnumTermExprsFinish C Ty s4 = .throw .UndefinedBehaviour s' ∧
      s'.PBEPhase = s4.PBEPhase ∧ s'.Restart = s4.Restart ∧ s'.Trace = s4.Trace := by
  simp only [PBEEnumTermExprsFinish, hall, bne_self_eq_false, Bool.false_eq_true, ↓reduceIte,
    beq_iff_eq, hmany, hflag]
  exact ⟨_, rfl, rfl, rfl, rfl⟩

theorem PBETermInv_congr {s s' : CEGSolver} (h1 : EvalCores s' = EvalCores s)
    (h2 : s'.PBEEval2TermExpIdxMap = s.PBEEval2TermExpIdxMap)
    (h3 : s'.PBETermExprs = s.PBETermExprs) (h : PBETermInv s) : PBETermInv s' := by
  obtain ⟨a, b, c, d⟩ := h
  refine ⟨EvalCores_ids h1 a, by rw [h2]; exact b, ?_, ?_⟩
  · intro e t he
    rw [h2] at he
    rw [EvalCores_length h1, h3]
    exact c e t he
  · rw [EvalCores_length h1, h3]
    exact d

/-- One `PBEEnumTermExprs` callback from a state whose front evaluator has no terminal
yet keeps the bookkeeping of the terminals, never overwrites an entry of the map, and
records a terminal only for a candidate that is concretely valid on the front
evaluator. -/
theorem PBEEnumTermExprs_step (C : Collaborators) (Expr : GenExpressionBase)
    (Ty : ESFixedTypeBase) (ExpansionTypeID : Nat) (s s' : CEGSolver) (st : CallbackStatus)
    (hinv : PBETermInv s) (hfront : PBEFrontInv s) (hopen : PBEFrontOpen s)
    (h : PBEEnumTermExprs C Expr Ty ExpansionTypeID s = .ret st s') :
    PBETermInv s' ∧
    (s'.PBEPhase = .BuildTermExprs → PBEFrontInv s') ∧
    (s'.PBEPhase = .BuildTermExprs → s'.Complete = false → PBEFrontOpen s') ∧
    (∀ e t, MapFind s.PBEEval2TermExpIdxMap e = some t →
      MapFind s'.PBEEval2TermExpIdxMap e = some t) ∧
    (s'.PBETermExprs = s.PBETermExprs ∨
      ∃ c ev, s.DTBuilder.GetQueueBack = some c ∧ s.PBEEvalPtrs[c]? = some ev ∧
        MapFind s.PBEEval2TermExpIdxMap c = none ∧
        (C.CheckConcreteValidity ev Expr Ty ExpansionTypeID 0).1 = true ∧
        s'.PBETermExprs = s.PBETermExprs ++ [C.ToUserExpression Expr] ∧
        MapFind s'.PBEEval2TermExpIdxMap c = some s.PBETermExprs.length) := by
  obtain ⟨c, hback, hclt, hsmall⟩ := hfront
  obtain ⟨c', hback', hcopen, hk⟩ := hopen
  rw [hback] at hback'
  cases hback'
  obtain ⟨ev, hev⟩ : ∃ ev, s.PBEEvalPtrs[c]? = some ev :=
    ⟨s.PBEEvalPtrs[c], List.getElem?_eq_getElem hclt⟩
  have hres : C.ResourceLimitExceeded s.Trace = false := by
    rcases hr : C.ResourceLimitExceeded s.Trace with _ | _
    · rfl
    · simp [PBEEnumTermExprs, CheckResourceLimits, hr] at h
  rcases hv : (C.CheckConcreteValidity ev Expr Ty ExpansionTypeID 0).1 with _ | _
  · -- rejected
    obtain ⟨st0, n0, hrej, -⟩ :=
      PBEEnumTermExprs_rejected C Expr Ty ExpansionTypeID s c ev hres hback hev hv
    rw [hrej] at h
    simp only [Outcome.ret.injEq] at h
    obtain ⟨-, rfl⟩ := h
    have hcore : EvalCores { s with
        Trace := s.Trace ++ [.CheckResourceLimits],
        NumExpressionsTried := s.NumExpressionsTried + 1,
        NumDistExpressions := n0,
        PBEEvalPtrs := s.PBEEvalPtrs.set c
          { ev with SigStore := (C.CheckConcreteValidity ev Expr Ty ExpansionTypeID 0).2.2 } }
        = EvalCores s := EvalCores_set s c ev _ hev
    refine ⟨PBETermInv_congr hcore rfl rfl hinv, ?_, ?_, fun e t he => he, Or.inl rfl⟩
    · intro _
      exact ⟨c, hback, by rw [EvalCores_length hcore]; exact hclt, hsmall⟩
    · intro _ _
      exact ⟨c, hback, hcopen, hk⟩
  · -- recorded
    rw [PBEEnumTermExprs_recorded C Expr Ty ExpansionTypeID s c ev hres hback hev hv] at h
    obtain ⟨i4, hiff, hnext, hback4⟩ :=
      PBEAfterProbe_inv C Expr Ty ExpansionTypeID s c ev hinv hback hev hsmall hcopen hk
    obtain ⟨V, -, v1, v2, v3, -, -, -, -⟩ :=
      PBEAfterProbe_spec C Expr Ty ExpansionTypeID s c ev hinv.1 hev
    have hfields := PBEEnumTermExprsFinish_fields C Ty
      (PBEAfterProbe C Expr Ty ExpansionTypeID s c ev)
    rw [h] at hfields
    obtain ⟨f1, f2, f3⟩ := hfields
    obtain ⟨-, hcases⟩ := PBEEnumTermExprsFinish_ret C Ty _ s' st h
    simp only [Outcome.state] at f1 f2 f3
    have hlen' : s'.PBEEvalPtrs.length = s.PBEEvalPtrs.length :=
      (EvalCores_length f1).trans (EvalCores_length v1)
    have hkeep : ∀ e t, MapFind s.PBEEval2TermExpIdxMap e = some t →
        MapFind s'.PBEEval2TermExpIdxMap e = some t := by
      intro e t he
      rw [f2, v3 e]
      have hec : e ≠ c := by
        intro hec
        subst hec
        rw [hcopen] at he
        cases he
      have hU : PBEUnmapped s e = false := by simp [PBEUnmapped, he]
      simp [hec, hU, he]
    refine ⟨PBETermInv_congr f1 f2 f3 i4, ?_, ?_, hkeep, Or.inr ⟨c, ev, hback, hev, hcopen, hv,
      by rw [f3, v2], by rw [f2, v3 c]; simp⟩⟩
    · intro hphase
      rcases hcases with ⟨hne, hd, -⟩ | ⟨heq, -, hd, -⟩ | ⟨-, -, -, hp, -⟩
      · obtain ⟨j, j1, j2, j3, j4, j5⟩ := hnext (hiff.mp hne)
        refine ⟨j, by rw [hd]; exact j1, by rw [hlen']; exact j3, ?_⟩
        intro i hi
        rw [f2]
        exact j5 i hi
      · obtain ⟨j, j1, j2⟩ := hback4
        refine ⟨j, by rw [hd]; exact j1, by rw [hlen']; exact j2, ?_⟩
        intro i hi hnone
        rw [f2] at hnone
        have : ¬ (PBEAfterProbe C Expr Ty ExpansionTypeID s c ev).PBEEval2TermExpIdxMap.length
            ≠ (PBEAfterProbe C Expr Ty ExpansionTypeID s c ev).PBEEvalPtrs.length :=
          fun hn => hn heq
        exact this (hiff.mpr ⟨i, Nat.lt_trans hi j2, hnone⟩)
      · rw [hp] at hphase
        cases hphase
    · intro hphase hcomp
      rcases hcases with ⟨hne, hd, -⟩ | ⟨-, -, -, -, -, hc, -⟩ | ⟨-, -, -, hp, -⟩
      · obtain ⟨j, j1, j2, j3, j4, j5⟩ := hnext (hiff.mp hne)
        refine ⟨j, by rw [hd]; exact j1, by rw [f2]; exact j4, ?_⟩
        rw [f3, v2]
        simp only [List.length_append, List.length_singleton]
        omega
      · rw [hc] at hcomp
        cases hcomp
      · rw [hp] at hphase
        cases hphase

/-- The solver that `SolveSetup` leaves on a freshly constructed solver when it chose PBE
mode. -/
theorem SolveSetup_fresh_pbe (C : Collaborators) (inp : SolveInput) (Opts : ESolverOpts)
    (s : CEGSolver) (h : SolveSetup C inp (freshSolver Opts) = .ret () s)
    (hm : s.TheMode = .PBE) :
    s.PBEEvalPtrs = PBEMakeEvals C 0 inp.ConstRelevantVars ∧ inp.ConstRelevantVars ≠ [] ∧
      s.PBEEval2TermExpIdxMap = [] ∧ s.PBETermExprs = [] ∧ s.DTBuilder.UniqQueue = [0] ∧
      s.PBEPhase = .BuildTermExprs ∧ s.Complete = false := by
  have hlet : inp.LetBindingError = false := by
    rcases hl : inp.LetBindingError with _ | _
    · rfl
    · simp [SolveSetup, hl] at h
  rcases hc : (inp.ConstRelevantVars.length ==
      (InsertRelevantVars (freshSolver Opts).RelevantVars inp.BaseAuxVars).length &&
      inp.ConstRelevantVars.length == inp.PBEAntecedentExprs.length) with _ | _
  · have := (SolveSetup_ceg C inp _ s hc h).1
    rw [hm] at this
    cases this
  · obtain ⟨s5, h5, rfl⟩ := (SolveSetup_pbe C inp (freshSolver Opts) hlet hc).2.2 s () h
    obtain ⟨p1, p2, -, p4, p5, p6, -, -, -, p10, p11⟩ :=
      PBEInitializeEvals_fresh C inp _ s5 () rfl h5
    exact ⟨p1, p11, p4, p5, p2, p6, p10⟩

/-- In every state of `PBETermReachable` the mode is PBE and the bookkeeping of the
terminals holds; while the phase is `BuildTermExprs` the front evaluator exists and all
examples before it have a terminal; and while, in addition, `Complete` is clear, the front
evaluator has none. -/
theorem PBETermReachable_inv (C : Collaborators) (inp : SolveInput) (Opts : ESolverOpts)
    (s : CEGSolver) (h : PBETermReachable C inp Opts s) :
    s.TheMode = .PBE ∧ PBETermInv s ∧
      (s.PBEPhase = .BuildTermExprs → PBEFrontInv s) ∧
      (s.PBEPhase = .BuildTermExprs → s.Complete = false → PBEFrontOpen s) := by
  induction h with
  | init s hs hm =>
    obtain ⟨p1, p2, p3, p4, p5, -, -⟩ := SolveSetup_fresh_pbe C inp Opts s hs hm
    have hlen : 0 < s.PBEEvalPtrs.length := by
      rw [p1, PBEMakeEvals_length]
      exact List.length_pos.mpr p2
    refine ⟨hm, ⟨?_, ?_, ?_, ?_⟩, ?_, ?_⟩
    · intro i ev hi
      rw [p1] at hi
      have := PBEMakeEvals_get C _ 0 i ev hi
      omega
    · rw [p3]; exact List.nodup_nil
    · intro e t he
      rw [p3] at he
      simp [MapFind] at he
    · rw [p4]; exact Nat.zero_le _
    · intro _
      exact ⟨0, by simp [DecisionTreeBuilder.GetQueueBack, p5], hlen,
        fun i hi => absurd hi (Nat.not_lt_zero i)⟩
    · intro _ _
      exact ⟨0, by simp [DecisionTreeBuilder.GetQueueBack, p5], by rw [p3]; rfl,
        by rw [p4]; exact Nat.le_refl _⟩
  | loop s s' _ hb ih =>
    rw [LoopBookkeeping] at hb
    rw [hb]
    exact ih
  | callback s s' Exp Ty ExpansionTypeID EnumeratorIndex st _ hphase hcomp hcall ih =>
    obtain ⟨hm, hinv, hfront, hopen⟩ := ih
    have hmode : s'.TheMode = .PBE := by
      have := (ExpressionCallBack_ok C Exp Ty ExpansionTypeID EnumeratorIndex s).1
      rw [hcall] at this
      exact this.2.2.1.trans hm
    have hcall' : PBEEnumTermExprs C Exp Ty ExpansionTypeID s = .ret st s' := by
      simpa [ExpressionCallBack, hm, hphase] using hcall
    obtain ⟨q1, q2, q3, -, -⟩ := PBEEnumTermExprs_step C Exp Ty ExpansionTypeID s s' st hinv
      (hfront hphase) (hopen hphase hcomp) hcall'
    exact ⟨hmode, q1, q2, q3⟩

/-- The state after the probing loop, when the verdict of `CheckConcreteValidity` does
not depend on the value `StatusRet` holds on entry. -/
theorem PBEAfterProbe_pure (C : Collaborators) (Expr : GenExpressionBase)
    (Ty : ESFixedTypeBase) (ExpansionTypeID : Nat) (s : CEGSolver) (c : Nat)
    (ev : ConcreteEvaluator)
    (hid : PBEIdsAreIndices s) (hev : s.PBEEvalPtrs[c]? = some ev)
    (hpure : ∀ e st, (C.CheckConcreteValidity e Expr Ty ExpansionTypeID st).1
      = (C.CheckConcreteValidity e Expr Ty ExpansionTypeID 0).1) :
    (PBEAfterProbe C Expr Ty ExpansionTypeID s c ev).PBETermExprs
        = s.PBETermExprs ++ [C.ToUserExpression Expr] ∧
    (∀ e, MapFind (PBEAfterProbe C Expr Ty ExpansionTypeID s c ev).PBEEval2TermExpIdxMap e =
      if e = c ∨ (c < e ∧ e < s.PBEEvalPtrs.length ∧ PBEUnmapped s e = true ∧
          PBEValidOn C Expr Ty ExpansionTypeID s e = true)
      then some s.PBETermExprs.length else MapFind s.PBEEval2TermExpIdxMap e) ∧
    (PBEAfterProbe C Expr Ty ExpansionTypeID s c ev).DTBuilder = { s.DTBuilder with
      UniqQueue := s.DTBuilder.UniqQueue ++
        ((List.range' (c + 1) (s.PBEEvalPtrs.length - (c + 1))).find?
          (fun i => PBEUnmapped s i && !PBEValidOn C Expr Ty ExpansionTypeID s i)).toList,
      DupExamples := s.DTBuilder.DupExamples ++
        (List.range' (c + 1) (s.PBEEvalPtrs.length - (c + 1))).filter
          (fun i => PBEUnmapped s i && PBEValidOn C Expr Ty ExpansionTypeID s i) } := by
  obtain ⟨V, v0, -, v2, v3, -, v5, -, -⟩ :=
    PBEAfterProbe_spec C Expr Ty ExpansionTypeID s c ev hid hev
  have hV : ∀ i, c < i → i < s.PBEEvalPtrs.length →
      V i = PBEValidOn C Expr Ty ExpansionTypeID s i := by
    intro i hci hin
    obtain ⟨st, hst⟩ := v0 i hci s.PBEEvalPtrs[i] (List.getElem?_eq_getElem hin)
    rw [hst, hpure]
    simp [PBEValidOn, List.getElem?_eq_getElem hin]
  have hmem : ∀ i ∈ List.range' (c + 1) (s.PBEEvalPtrs.length - (c + 1)),
      V i = PBEValidOn C Expr Ty ExpansionTypeID s i := by
    intro i hi
    rw [List.mem_range'_1] at hi
    exact hV i (by omega) (by omega)
  refine ⟨v2, ?_, ?_⟩
  · intro e
    rw [v3 e]
    by_cases hc : c < e ∧ e < s.PBEEvalPtrs.length
    · rw [hV e hc.1 hc.2]
    · have h1 : ¬ (c < e ∧ e < s.PBEEvalPtrs.length ∧ PBEUnmapped s e = true ∧ V e = true) :=
        fun h => hc ⟨h.1, h.2.1⟩
      have h2 : ¬ (c < e ∧ e < s.PBEEvalPtrs.length ∧ PBEUnmapped s e = true ∧
          PBEValidOn C Expr Ty ExpansionTypeID s e = true) := fun h => hc ⟨h.1, h.2.1⟩
      simp only [h1, h2]
  · rw [v5, filter_head_eq_find]
    have e1 : (List.range' (c + 1) (s.PBEEvalPtrs.length - (c + 1))).filter
        (fun i => PBEUnmapped s i && V i)
        = (List.range' (c + 1) (s.PBEEvalPtrs.length - (c + 1))).filter
        (fun i => PBEUnmapped s i && PBEValidOn C Expr Ty ExpansionTypeID s i) :=
      List.filter_congr (fun i hi => by rw [hmem i hi])
    have e2 : (List.range' (c + 1) (s.PBEEvalPtrs.length - (c + 1))).find?
        (fun i => PBEUnmapped s i && !V i)
        = (List.range' (c + 1) (s.PBEEvalPtrs.length - (c + 1))).find?
        (fun i => PBEUnmapped s i && !PBEValidOn C Expr Ty ExpansionTypeID s i) := by
      rw [← filter_head_eq_find, ← filter_head_eq_find]
      exact congrArg List.head? (List.filter_congr (fun i hi => by rw [hmem i hi]))
    rw [e1, e2]

theorem demoSolverPBE_reachable :
    PBETermReachable demoCollaboratorsPBE demoInputPBE3
      { StatsLevel := 0, NoDist := false, CostBudget := 3 } demoSolverPBE :=
  PBETermReachable.init _ rfl rfl

/-- Clearing the bits of a 32-bit mask `D` with `&= ~D` leaves none of them set. -/
theorem and_not_mask_and (x D : Nat) (hD : D < 2 ^ 32) :
    (x &&& (0xFFFFFFFF ^^^ D)) &&& D = 0 := by
  apply Nat.eq_of_testBit_eq
  intro i
  simp only [Nat.testBit_and, Nat.testBit_xor, Nat.zero_testBit]
  have hF : (0xFFFFFFFF : Nat) = 2 ^ 32 - 1 := by norm_num
  rw [hF, Nat.testBit_two_pow_sub_one]
  by_cases hi : i < 32
  · rcases hd : D.testBit i with _ | _ <;> simp [hi]
  · have : D.testBit i = false := by
      apply Nat.testBit_lt_two_pow
      exact lt_of_lt_of_le hD (Nat.pow_le_pow_right (by norm_num) (by omega))
    simp [this]

theorem DecisionNodes_append (t u : List Event) :
    DecisionNodes (t ++ u) = DecisionNodes t ++ DecisionNodes u := by
  induction t with
  | nil => rfl
  | cons e t ih => cases e <;> simp [DecisionNodes, ih]

theorem MapIndex_of_find {m : List (Nat × Nat)} {k v : Nat} (h : MapFind m k = some v) :
    MapIndex m k = (m, v) := by
  simp [MapIndex, h]

/-- `PBEEnumDecisionTree` on a candidate that separates the two evaluators of the current
pair. -/
theorem PBEEnumDecisionTree_inserted (C : Collaborators) (Exp : GenExpressionBase)
    (Ty : ESFixedTypeBase) (ExpansionTypeID : Nat) (s : CEGSolver)
    (e1 e2 : ConcreteEvaluator) (v1 v2 : Int) (t1 t2 : Nat) (x1 x2 : Expression)
    (hres : C.ResourceLimitExceeded s.Trace = false)
    (he1 : s.PBEEvalPtrs[s.DTCurEvalPtrs.1]? = some e1)
    (he2 : s.PBEEvalPtrs[s.DTCurEvalPtrs.2]? = some e2)
    (hv1 : List.lookup e1.Id
      (C.CheckSubExpression e1 s.PBEEvalPtrs Exp Ty ExpansionTypeID 0).2.2.2 = some v1)
    (hv2 : List.lookup e2.Id
      (C.CheckSubExpression e1 s.PBEEvalPtrs Exp Ty ExpansionTypeID 0).2.2.2 = some v2)
    (hm1 : MapFind s.PBEEval2TermExpIdxMap e1.Id = some t1)
    (hm2 : MapFind s.PBEEval2TermExpIdxMap e2.Id = some t2)
    (hx1 : s.PBETermExprs[t1]? = some x1) (hx2 : s.PBETermExprs[t2]? = some x2)
    (hvalid : v1 ≠ v2 ∧ (v1 = 1 ∨ v2 = 1)) :
    PBEEnumDecisionTree C Exp Ty ExpansionTypeID s = PBEEnumDecisionTreeFinish C
      (PBEAfterInsert C Exp Ty ExpansionTypeID s e1 (v1 != 1)
        (if v1 = 1 then x1 else x2) (if v1 = 1 then x2 else x1)) := by
  have he2' : ∃ e2', (s.PBEEvalPtrs.set s.DTCurEvalPtrs.1
      { e1 with SigStore :=
        (C.CheckSubExpression e1 s.PBEEvalPtrs Exp Ty ExpansionTypeID 0).2.2.1 })[s.DTCurEvalPtrs.2]?
        = some e2' ∧ e2'.Id = e2.Id := by
    by_cases hp : s.DTCurEvalPtrs.1 = s.DTCurEvalPtrs.2
    · rw [← hp] at he2 ⊢
      rw [he1] at he2
      cases he2
      exact absurd (Option.some.inj (hv1.symm.trans hv2)) hvalid.1
    · exact ⟨e2, by rw [List.getElem?_set_ne hp]; exact he2, rfl⟩
  obtain ⟨e2', he2s, hid2⟩ := he2'
  have hc : ((v1 != v2) && (v1 == 1 || v2 == 1)) = true := by
    simp only [Bool.and_eq_true, bne_iff_ne, Bool.or_eq_true, beq_iff_eq]
    exact hvalid
  by_cases h1 : v1 = 1
  · subst h1
    simp only [PBEEnumDecisionTree, CheckResourceLimits, hres, CEGSolver.log,
      Bool.false_eq_true, ↓reduceIte, he1, he2s, hid2, hv1, hv2, hc, Bool.not_true,
      MapIndex_of_find hm1, MapIndex_of_find hm2, bne_self_eq_false, hx1, hx2,
      PBEEnumDecisionTreeFinish, PBEAfterInsert]
    try rfl
  · have hb : (v1 != 1) = true := by simpa using h1
    simp only [PBEEnumDecisionTree, CheckResourceLimits, hres, CEGSolver.log,
      Bool.false_eq_true, ↓reduceIte, he1, he2s, hid2, hv1, hv2, hc, Bool.not_true,
      MapIndex_of_find hm1, MapIndex_of_find hm2, hb, h1, hx1, hx2,
      PBEEnumDecisionTreeFinish, PBEAfterInsert]
    try rfl

/-- `PBEEnumDecisionTree` on a candidate that does not separate the two evaluators of the
current pair. -/
theorem PBEEnumDecisionTree_not_inserted (C : Collaborators) (Exp : GenExpressionBase)
    (Ty : ESFixedTypeBase) (ExpansionTypeID : Nat) (s : CEGSolver)
    (e1 e2 : ConcreteEvaluator) (v1 v2 : Int)
    (hres : C.ResourceLimitExceeded s.Trace = false)
    (he1 : s.PBEEvalPtrs[s.DTCurEvalPtrs.1]? = some e1)
    (he2 : s.PBEEvalPtrs[s.DTCurEvalPtrs.2]? = some e2)
    (hv1 : List.lookup e1.Id
      (C.CheckSubExpression e1 s.PBEEvalPtrs Exp Ty ExpansionTypeID 0).2.2.2 = some v1)
    (hv2 : List.lookup e2.Id
      (C.CheckSubExpression e1 s.PBEEvalPtrs Exp Ty ExpansionTypeID 0).2.2.2 = some v2)
    (hD : C.CONCRETE_EVAL_DIST < 2 ^ 32)
    (hinvalid : ¬ (v1 ≠ v2 ∧ (v1 = 1 ∨ v2 = 1))) :
    ∃ n, PBEEnumDecisionTree C Exp Ty ExpansionTypeID s = .ret
        (if (C.CheckSubExpression e1 s.PBEEvalPtrs Exp Ty ExpansionTypeID 0).1 = false ∨
            (C.CheckSubExpression e1 s.PBEEvalPtrs Exp Ty ExpansionTypeID 0).2.1 &&&
              C.CONCRETE_EVAL_DIST = 0
          then .DELETE_EXPRESSION else .NONE_STATUS)
        { s with
          Trace := s.Trace ++ [.CheckResourceLimits],
          NumExpressionsTried := s.NumExpressionsTried + 1,
          NumDistExpressions := n,
          PBEEvalPtrs := s.PBEEvalPtrs.set s.DTCurEvalPtrs.1
            { e1 with SigStore :=
              (C.CheckSubExpression e1 s.PBEEvalPtrs Exp Ty ExpansionTypeID 0).2.2.1 },
          SubExprEvalPoints :=
            (C.CheckSubExpression e1 s.PBEEvalPtrs Exp Ty ExpansionTypeID 0).2.2.2 } := by
  have he2' : ∃ e2', (s.PBEEvalPtrs.set s.DTCurEvalPtrs.1
      { e1 with SigStore :=
        (C.CheckSubExpression e1 s.PBEEvalPtrs Exp Ty ExpansionTypeID 0).2.2.1 })[s.DTCurEvalPtrs.2]?
        = some e2' ∧ e2'.Id = e2.Id := by
    by_cases hp : s.DTCurEvalPtrs.1 = s.DTCurEvalPtrs.2
    · rw [← hp] at he2 ⊢
      rw [he1] at he2
      cases he2
      have hlt : s.DTCurEvalPtrs.1 < s.PBEEvalPtrs.length := by
        rcases Nat.lt_or_ge s.DTCurEvalPtrs.1 s.PBEEvalPtrs.length with h | h
        · exact h
        · rw [List.getElem?_eq_none h] at he1; cases he1
      exact ⟨{ e1 with SigStore :=
          (C.CheckSubExpression e1 s.PBEEvalPtrs Exp Ty ExpansionTypeID 0).2.2.1 },
        by simp [List.getElem?_set_self, hlt], rfl⟩
    · exact ⟨e2, by rw [List.getElem?_set_ne hp]; exact he2, rfl⟩
  obtain ⟨e2', he2s, hid2⟩ := he2'
  have hc : ((v1 != v2) && (v1 == 1 || v2 == 1)) = false := by
    rw [Bool.eq_false_iff]
    intro h
    apply hinvalid
    simpa only [Bool.and_eq_true, bne_iff_ne, Bool.or_eq_true, beq_iff_eq] using h
  rcases hd : (C.CheckSubExpression e1 s.PBEEvalPtrs Exp Ty ExpansionTypeID 0).1 with _ | _
  · refine ⟨s.NumDistExpressions, ?_⟩
    simp only [PBEEnumDecisionTree, CheckResourceLimits, hres, CEGSolver.log,
      Bool.false_eq_true, ↓reduceIte, he1, he2s, hid2, hv1, hv2, hc, hd, Bool.not_false,
      and_not_mask_and _ _ hD, beq_self_eq_true, true_or]
  · by_cases hz : (C.CheckSubExpression e1 s.PBEEvalPtrs Exp Ty ExpansionTypeID 0).2.1 &&&
        C.CONCRETE_EVAL_DIST = 0
    · refine ⟨s.NumDistExpressions, ?_⟩
      simp only [PBEEnumDecisionTree, CheckResourceLimits, hres, CEGSolver.log,
        Bool.false_eq_true, ↓reduceIte, he1, he2s, hid2, hv1, hv2, hc, hd, Bool.not_false,
        Bool.not_true, hz, beq_self_eq_true, or_true]
    · have hz' : ((C.CheckSubExpression e1 s.PBEEvalPtrs Exp Ty ExpansionTypeID 0).2.1 &&&
          C.CONCRETE_EVAL_DIST == 0) = false := by simpa using hz
      refine ⟨s.NumDistExpressions + 1, ?_⟩
      simp only [PBEEnumDecisionTree, CheckResourceLimits, hres, CEGSolver.log,
        Bool.false_eq_true, ↓reduceIte, he1, he2s, hid2, hv1, hv2, hc, hd, Bool.not_false,
        Bool.not_true, hz, hz', or_self, Bool.true_eq_false]

/-- The validation loop only records one `CheckExampleValidity` call per evaluator, in
order. -/
theorem PBEValidateTree_eq (C : Collaborators) (TreeExpr : Expression)
    (l : List ConcreteEvaluator) :
    ∀ s : CEGSolver, PBEValidateTree C TreeExpr l s =
      { s with Trace := s.Trace ++ l.map (fun ev =>
          Event.CheckExampleValidity ev.Id TreeExpr (C.CheckExampleValidity ev TreeExpr)) } := by
  induction l with
  | nil => intro s; simp [PBEValidateTree]
  | cons ev rest ih =>
    intro s
    simp [PBEValidateTree, ih, CEGSolver.log]

theorem DecisionNodes_validation (C : Collaborators) (TreeExpr : Expression)
    (l : List ConcreteEvaluator) :
    DecisionNodes (l.map (fun ev =>
      Event.CheckExampleValidity ev.Id TreeExpr (C.CheckExampleValidity ev TreeExpr))) = [] := by
  induction l with
  | nil => rfl
  | cons ev rest ih => simp [DecisionNodes, ih]

/-- A round of the loop of `PBEEnumDecisionTree` when the builder reports no pending
pair. -/
theorem PBENextWorkItem_none (C : Collaborators) (fuel : Nat) (s : CEGSolver)
    (hl : (C.LocateNextEvalNode s.DTBuilder s.DTCurLocation s.DTCurEvalPtrs).1 = false) :
    PBENextWorkItem C (fuel + 1) s = .ret false
      { s with
        DTBuilder := (C.LocateNextEvalNode s.DTBuilder s.DTCurLocation s.DTCurEvalPtrs).2.2.2,
        DTCurLocation := (C.LocateNextEvalNode s.DTBuilder s.DTCurLocation s.DTCurEvalPtrs).2.1,
        DTCurEvalPtrs :=
          (C.LocateNextEvalNode s.DTBuilder s.DTCurLocation s.DTCurEvalPtrs).2.2.1 } := by
  simp [PBENextWorkItem, hl]

/-- A round of the loop of `PBEEnumDecisionTree` at a pair whose evaluators have the same
terminal. -/
theorem PBENextWorkItem_shared (C : Collaborators) (fuel : Nat) (s : CEGSolver)
    (e1 e2 : ConcreteEvaluator) (t : Nat)
    (hl : (C.LocateNextEvalNode s.DTBuilder s.DTCurLocation s.DTCurEvalPtrs).1 = true)
    (he1 : s.PBEEvalPtrs[(C.LocateNextEvalNode s.DTBuilder s.DTCurLocation
      s.DTCurEvalPtrs).2.2.1.1]? = some e1)
    (he2 : s.PBEEvalPtrs[(C.LocateNextEvalNode s.DTBuilder s.DTCurLocation
      s.DTCurEvalPtrs).2.2.1.2]? = some e2)
    (hm1 : MapFind s.PBEEval2TermExpIdxMap e1.Id = some t)
    (hm2 : MapFind s.PBEEval2TermExpIdxMap e2.Id = some t) :
    PBENextWorkItem C (fuel + 1) s = PBENextWorkItem C fuel
      ({ s with
        DTBuilder := C.InsertSharedDecisionNode
          (C.LocateNextEvalNode s.DTBuilder s.DTCurLocation s.DTCurEvalPtrs).2.2.2
          (C.LocateNextEvalNode s.DTBuilder s.DTCurLocation s.DTCurEvalPtrs).2.1
          (C.LocateNextEvalNode s.DTBuilder s.DTCurLocation s.DTCurEvalPtrs).2.2.1,
        DTCurLocation := (C.LocateNextEvalNode s.DTBuilder s.DTCurLocation s.DTCurEvalPtrs).2.1,
        DTCurEvalPtrs :=
          (C.LocateNextEvalNode s.DTBuilder s.DTCurLocation s.DTCurEvalPtrs).2.2.1 }.log
        (.InsertSharedDecisionNode
          (C.LocateNextEvalNode s.DTBuilder s.DTCurLocation s.DTCurEvalPtrs).2.1
          (C.LocateNextEvalNode s.DTBuilder s.DTCurLocation s.DTCurEvalPtrs).2.2.1.1
          (C.LocateNextEvalNode s.DTBuilder s.DTCurLocation s.DTCurEvalPtrs).2.2.1.2)) := by
  simp [PBENextWorkItem, hl, he1, he2, MapIndex_of_find hm1, MapIndex_of_find hm2]

/-- A round of the loop of `PBEEnumDecisionTree` at a pair whose evaluators have different
terminals. -/
theorem PBENextWorkItem_differ (C : Collaborators) (fuel : Nat) (s : CEGSolver)
    (e1 e2 : ConcreteEvaluator) (t1 t2 : Nat)
    (hl : (C.LocateNextEvalNode s.DTBuilder s.DTCurLocation s.DTCurEvalPtrs).1 = true)
    (he1 : s.PBEEvalPtrs[(C.LocateNextEvalNode s.DTBuilder s.DTCurLocation
      s.DTCurEvalPtrs).2.2.1.1]? = some e1)
    (he2 : s.PBEEvalPtrs[(C.LocateNextEvalNode s.DTBuilder s.DTCurLocation
      s.DTCurEvalPtrs).2.2.1.2]? = some e2)
    (hm1 : MapFind s.PBEEval2TermExpIdxMap e1.Id = some t1)
    (hm2 : MapFind s.PBEEval2TermExpIdxMap e2.Id = some t2) (hne : t1 ≠ t2) :
    PBENextWorkItem C (fuel + 1) s = .ret true
      ({ s with
        DTBuilder := (C.LocateNextEvalNode s.DTBuilder s.DTCurLocation s.DTCurEvalPtrs).2.2.2,
        DTCurLocation := (C.LocateNextEvalNode s.DTBuilder s.DTCurLocation s.DTCurEvalPtrs).2.1,
        DTCurEvalPtrs :=
          (C.LocateNextEvalNode s.DTBuilder s.DTCurLocation s.DTCurEvalPtrs).2.2.1,
        PBEEvalPtrs := s.PBEEvalPtrs.set
          (C.LocateNextEvalNode s.DTBuilder s.DTCurLocation s.DTCurEvalPtrs).2.2.1.1
          e1.ResetSigStore,
        Restart := true }.log (.ResetSigStore e1.Id)) := by
  simp [PBENextWorkItem, hl, he1, he2, MapIndex_of_find hm1, MapIndex_of_find hm2, hne,
    ResetSigStoreAt, CEGSolver.log]

/-- What the consumption of frontier pairs leaves alone, and what it does to `Restart`. -/
theorem FrontierPairsConsumed_fields (C : Collaborators) (s : CEGSolver) (b : Bool)
    (s' : CEGSolver) (h : FrontierPairsConsumed C s b s') :
    s'.Solutions = s.Solutions ∧ s'.Complete = s.Complete ∧ s'.SynthFuncs = s.SynthFuncs ∧
      s'.Opts = s.Opts ∧ s'.PBEEval2TermExpIdxMap = s.PBEEval2TermExpIdxMap ∧
      s'.PBETermExprs = s.PBETermExprs ∧ s'.PBEPhase = s.PBEPhase ∧
      s'.TheMode = s.TheMode ∧
      (b = true → s'.Restart = true) ∧ (b = false → s'.Restart = s.Restart) ∧
      (b = false → s'.PBEEvalPtrs = s.PBEEvalPtrs) := by
  induction h with
  | complete s hl => simp
  | restart s e1 e2 t1 t2 hl he1 he2 hm1 hm2 hne => simp
  | shared s e1 e2 t b s' hl he1 he2 hm1 hm2 _ ih => simpa using ih

/-- The search for the next work item records no `InsertDecisionNode` call. -/
theorem PBENextWorkItem_trace (C : Collaborators) :
    ∀ (fuel : Nat) (s : CEGSolver), ∃ t,
      (PBENextWorkItem C fuel s).state.Trace = s.Trace ++ t ∧ DecisionNodes t = [] := by
  intro fuel
  induction fuel with
  | zero => intro s; exact ⟨[], by simp [PBENextWorkItem, Outcome.state], rfl⟩
  | succ fuel ih =>
    intro s
    rcases hl : (C.LocateNextEvalNode s.DTBuilder s.DTCurLocation s.DTCurEvalPtrs).1 with _ | _
    · exact ⟨[], by simp [PBENextWorkItem, hl, Outcome.state], rfl⟩
    · rcases he1 : s.PBEEvalPtrs[(C.LocateNextEvalNode s.DTBuilder s.DTCurLocation
          s.DTCurEvalPtrs).2.2.1.1]? with _ | e1
      · exact ⟨[], by simp [PBENextWorkItem, hl, he1, Outcome.state], rfl⟩
      · rcases he2 : s.PBEEvalPtrs[(C.LocateNextEvalNode s.DTBuilder s.DTCurLocation
            s.DTCurEvalPtrs).2.2.1.2]? with _ | e2
        · exact ⟨[], by simp [PBENextWorkItem, hl, he1, he2, Outcome.state], rfl⟩
        · by_cases hm : (MapIndex s.PBEEval2TermExpIdxMap e1.Id).2 =
              (MapIndex (MapIndex s.PBEEval2TermExpIdxMap e1.Id).1 e2.Id).2
          · obtain ⟨t, ht, hn⟩ := ih
              ({ s with
                DTBuilder := C.InsertSharedDecisionNode
                  (C.LocateNextEvalNode s.DTBuilder s.DTCurLocation s.DTCurEvalPtrs).2.2.2
                  (C.LocateNextEvalNode s.DTBuilder s.DTCurLocation s.DTCurEvalPtrs).2.1
                  (C.LocateNextEvalNode s.DTBuilder s.DTCurLocation s.DTCurEvalPtrs).2.2.1,
                DTCurLocation :=
                  (C.LocateNextEvalNode s.DTBuilder s.DTCurLocation s.DTCurEvalPtrs).2.1,
                DTCurEvalPtrs :=
                  (C.LocateNextEvalNode s.DTBuilder s.DTCurLocation s.DTCurEvalPtrs).2.2.1,
                PBEEval2TermExpIdxMap :=
                  (MapIndex (MapIndex s.PBEEval2TermExpIdxMap e1.Id).1 e2.Id).1 }.log
                (.InsertSharedDecisionNode
                  (C.LocateNextEvalNode s.DTBuilder s.DTCurLocation s.DTCurEvalPtrs).2.1
                  (C.LocateNextEvalNode s.DTBuilder s.DTCurLocation s.DTCurEvalPtrs).2.2.1.1
                  (C.LocateNextEvalNode s.DTBuilder s.DTCurLocation s.DTCurEvalPtrs).2.2.1.2))
            refine ⟨Event.InsertSharedDecisionNode
              (C.LocateNextEvalNode s.DTBuilder s.DTCurLocation s.DTCurEvalPtrs).2.1
              (C.LocateNextEvalNode s.DTBuilder s.DTCurLocation s.DTCurEvalPtrs).2.2.1.1
              (C.LocateNextEvalNode s.DTBuilder s.DTCurLocation s.DTCurEvalPtrs).2.2.1.2 :: t,
              ?_, ?_⟩
            · simp only [PBENextWorkItem, hl, he1, he2, hm, ↓reduceIte, beq_self_eq_true]
              rw [ht]
              simp [CEGSolver.log]
            · simpa [DecisionNodes] using hn
          · refine ⟨[.ResetSigStore e1.Id], ?_, rfl⟩
            simp [PBENextWorkItem, hl, he1, he2, hm, ResetSigStoreAt, CEGSolver.log,
              Outcome.state]

/-- With a builder whose pairs point into the example list and whose pending slots
decrease with every shared node, and with every example mapped to a terminal, the search
for the next work item returns within the fuel `PBEEnumDecisionTree` gives it, and does
what `FrontierPairsConsumed` says. -/
theorem PBENextWorkItem_consumes (C : Collaborators) (I : DecisionTreeBuilder → Prop)
    (n : Nat)
    (hstep : ∀ b l p, I b → (C.LocateNextEvalNode b l p).1 = true →
      (C.LocateNextEvalNode b l p).2.2.1.1 < n ∧ (C.LocateNextEvalNode b l p).2.2.1.2 < n ∧
      I (C.InsertSharedDecisionNode (C.LocateNextEvalNode b l p).2.2.2
        (C.LocateNextEvalNode b l p).2.1 (C.LocateNextEvalNode b l p).2.2.1) ∧
      C.PendingSlots (C.InsertSharedDecisionNode (C.LocateNextEvalNode b l p).2.2.2
        (C.LocateNextEvalNode b l p).2.1 (C.LocateNextEvalNode b l p).2.2.1) <
        C.PendingSlots b) :
    ∀ (fuel : Nat) (s : CEGSolver), I s.DTBuilder → s.PBEEvalPtrs.length = n →
      (∀ ev ∈ s.PBEEvalPtrs, MapFind s.PBEEval2TermExpIdxMap ev.Id ≠ none) →
      C.PendingSlots s.DTBuilder < fuel →
      ∃ b s', PBENextWorkItem C fuel s = .ret b s' ∧ FrontierPairsConsumed C s b s' := by
  intro fuel
  induction fuel with
  | zero => intro s _ _ _ hf; exact absurd hf (Nat.not_lt_zero _)
  | succ fuel ih =>
    intro s hI hn hmap hf
    rcases hl : (C.LocateNextEvalNode s.DTBuilder s.DTCurLocation s.DTCurEvalPtrs).1 with _ | _
    · exact ⟨false, _, PBENextWorkItem_none C fuel s hl, FrontierPairsConsumed.complete s hl⟩
    · obtain ⟨h1, h2, hI', hdec⟩ := hstep s.DTBuilder s.DTCurLocation s.DTCurEvalPtrs hI hl
      rw [← hn] at h1 h2
      have he1 := List.getElem?_eq_getElem h1
      have he2 := List.getElem?_eq_getElem h2
      obtain ⟨t1, hm1⟩ := Option.ne_none_iff_exists'.mp (hmap _ (List.getElem_mem h1))
      obtain ⟨t2, hm2⟩ := Option.ne_none_iff_exists'.mp (hmap _ (List.getElem_mem h2))
      by_cases ht : t1 = t2
      · subst ht
        obtain ⟨b, s', hr, hc⟩ := ih
          ({ s with
            DTBuilder := C.InsertSharedDecisionNode
              (C.LocateNextEvalNode s.DTBuilder s.DTCurLocation s.DTCurEvalPtrs).2.2.2
              (C.LocateNextEvalNode s.DTBuilder s.DTCurLocation s.DTCurEvalPtrs).2.1
              (C.LocateNextEvalNode s.DTBuilder s.DTCurLocation s.DTCurEvalPtrs).2.2.1,
            DTCurLocation :=
              (C.LocateNextEvalNode s.DTBuilder s.DTCurLocation s.DTCurEvalPtrs).2.1,
            DTCurEvalPtrs :=
              (C.LocateNextEvalNode s.DTBuilder s.DTCurLocation s.DTCurEvalPtrs).2.2.1 }.log
            (.InsertSharedDecisionNode
              (C.LocateNextEvalNode s.DTBuilder s.DTCurLocation s.DTCurEvalPtrs).2.1
              (C.LocateNextEvalNode s.DTBuilder s.DTCurLocation s.DTCurEvalPtrs).2.2.1.1
              (C.LocateNextEvalNode s.DTBuilder s.DTCurLocation s.DTCurEvalPtrs).2.2.1.2))
          hI' hn hmap (Nat.lt_of_lt_of_le hdec (Nat.le_of_lt_succ hf))
        exact ⟨b, s', (PBENextWorkItem_shared C fuel s _ _ t1 hl he1 he2 hm1 hm2).trans hr,
          FrontierPairsConsumed.shared s _ _ t1 b s' hl he1 he2 hm1 hm2 hc⟩
      · exact ⟨true, _, PBENextWorkItem_differ C fuel s _ _ t1 t2 hl he1 he2 hm1 hm2 ht,
          FrontierPairsConsumed.restart s _ _ t1 t2 hl he1 he2 hm1 hm2 ht⟩

/-- The completion of the tree: when the search finds no pending pair, `Do` is called,
the tree is validated at `StatsLevel >= 2`, with the results recorded and nothing else
depending on them, and the solution is emitted. -/
theorem PBEEnumDecisionTreeFinish_complete (C : Collaborators) (s4 s5 : CEGSolver)
    (f : SynthFuncOperator)
    (hloop : PBENextWorkItem C (C.PendingSlots s4.DTBuilder + 1) s4 = .ret false s5)
    (hf : s5.SynthFuncs[0]? = some f) :
    PBEEnumDecisionTreeFinish C s4 = .ret .STOP_ENUMERATION
      { s5 with
        DTBuilder := C.DTDo s5.DTBuilder,
        Trace := s5.Trace ++
          (if s5.Opts.StatsLevel ≥ 2 then
            s5.PBEEvalPtrs.map (fun ev => Event.CheckExampleValidity ev.Id
              (C.GetTreeExpr (C.DTDo s5.DTBuilder))
              (C.CheckExampleValidity ev (C.GetTreeExpr (C.DTDo s5.DTBuilder))))
          else []),
        Solutions := s5.Solutions ++ [[(f, C.GetTreeExpr (C.DTDo s5.DTBuilder))]],
        Complete := true } := by
  by_cases hs : s5.Opts.StatsLevel ≥ 2
  · simp [PBEEnumDecisionTreeFinish, hloop, hs, PBEValidateTree_eq, hf]
  · simp [PBEEnumDecisionTreeFinish, hloop, hs, hf]

/-- The part of `PBEEnumDecisionTree` after the insertion records no further
`InsertDecisionNode` call. -/
theorem PBEEnumDecisionTreeFinish_trace (C : Collaborators) (s4 : CEGSolver) :
    ∃ t, (PBEEnumDecisionTreeFinish C s4).state.Trace = s4.Trace ++ t ∧
      DecisionNodes t = [] := by
  obtain ⟨t, ht, hn⟩ := PBENextWorkItem_trace C (C.PendingSlots s4.DTBuilder + 1) s4
  rcases hloop : PBENextWorkItem C (C.PendingSlots s4.DTBuilder + 1) s4 with ⟨b, s5⟩ | ⟨e, s5⟩
  · rw [hloop] at ht
    simp only [Outcome.state] at ht
    rcases b with _ | _
    · by_cases hs : s5.Opts.StatsLevel ≥ 2
      · refine ⟨t ++ s5.PBEEvalPtrs.map (fun ev => Event.CheckExampleValidity ev.Id
            (C.GetTreeExpr (C.DTDo s5.DTBuilder))
            (C.CheckExampleValidity ev (C.GetTreeExpr (C.DTDo s5.DTBuilder)))), ?_, ?_⟩
        · rcases hf : s5.SynthFuncs[0]? with _ | f <;>
            simp [PBEEnumDecisionTreeFinish, hloop, hs, PBEValidateTree_eq, hf, Outcome.state,
              ht]
        · rw [DecisionNodes_append, hn, DecisionNodes_validation]; rfl
      · refine ⟨t, ?_, hn⟩
        rcases hf : s5.SynthFuncs[0]? with _ | f <;>
          simp [PBEEnumDecisionTreeFinish, hloop, hs, hf, Outcome.state, ht]
    · exact ⟨t, by simp [PBEEnumDecisionTreeFinish, hloop, Outcome.state, ht], hn⟩
  · rw [hloop] at ht
    simp only [Outcome.state] at ht
    exact ⟨t, by simp [PBEEnumDecisionTreeFinish, hloop, Outcome.state, ht], hn⟩

theorem SetCompareLoop_self {T : Type} [LinearOrder T] (n : Nat) (l : List T) :
    SetCompareLoop n l l = false := by
  induction n generalizing l with
  | zero => rfl
  | succ n ih =>
    cases l with
    | nil => rfl
    | cons a l => simp [SetCompareLoop, ih]

/-- The comparator is irreflexive. -/
theorem SetCompare_self {T : Type} [LinearOrder T] (l : List T) : SetCompare l l = false := by
  simp [SetCompare, SetCompareLoop_self]

theorem PBENextWorkItem_report (C : Collaborators) :
    ∀ (fuel : Nat) (s : CEGSolver) (b : Bool) (s' : CEGSolver),
      PBENextWorkItem C fuel s = .ret b s' →
      s'.NumExpressionsTried = s.NumExpressionsTried ∧
      s'.NumDistExpressions = s.NumDistExpressions ∧
      s'.Complete = s.Complete ∧ s'.Solutions = s.Solutions ∧
      (b = true → s'.Restart = true) ∧ (b = false → s'.Restart = s.Restart) := by
  intro fuel
  induction fuel with
  | zero => intro s b s' h; simp [PBENextWorkItem] at h
  | succ fuel ih =>
    intro s b s' h
    simp only [PBENextWorkItem, ResetSigStoreAt, CEGSolver.log] at h
    repeat' split at h
    all_goals first
      | (have k := ih _ _ _ h; simpa using k)
      | (cases h; simp; done)
      | (simp at h; done)
      | (cases h
         rename_i heq
         simp only [*] at heq
         cases heq
         simp)

theorem ResetSigStoreAt_report {p : EvalPtr} {s s' : CEGSolver} {u : Unit}
    (h : ResetSigStoreAt p s = .ret u s') :
    s'.NumExpressionsTried = s.NumExpressionsTried ∧
    s'.NumDistExpressions = s.NumDistExpressions ∧
    s'.Restart = s.Restart ∧ s'.Complete = s.Complete ∧ s'.Solutions = s.Solutions := by
  simp only [ResetSigStoreAt, CEGSolver.log] at h
  split at h
  · simp at h
  · cases h; simp

theorem PBEEnumTermExprs_report (C : Collaborators) (Expr : GenExpressionBase)
    (Ty : ESFixedTypeBase) (ExpansionTypeID : Nat) (s : CEGSolver) (st : CallbackStatus)
    (s' : CEGSolver) (h : PBEEnumTermExprs C Expr Ty ExpansionTypeID s = .ret st s') :
    CountsCandidate s st s' ∧ StopDiscipline s st s' := by
  have hp := fun (α : Type) (proj : CEGSolver → α) hproj l acc =>
    PBEProbeLaterExamples_proj proj hproj C Expr Ty ExpansionTypeID s.PBETermExprs.length l acc
  rcases hres : C.ResourceLimitExceeded s.Trace with _ | _
  · simp only [PBEEnumTermExprs, CheckResourceLimits, hres, CEGSolver.log,
      Bool.false_eq_true, ↓reduceIte] at h
    repeat' split at h
    all_goals first
      | (simp at h; done)
      | (cases h; simp [CountsCandidate, StopDiscipline]; done)
      | (cases h
         simp [CountsCandidate, StopDiscipline,
           hp _ (fun s => s.NumExpressionsTried) (fun _ _ _ _ => rfl),
           hp _ (fun s => s.NumDistExpressions) (fun _ _ _ _ => rfl),
           hp _ (fun s => s.Restart) (fun _ _ _ _ => rfl),
           hp _ (fun s => s.Complete) (fun _ _ _ _ => rfl),
           hp _ (fun s => s.Solutions) (fun _ _ _ _ => rfl)]
         done)
      | (obtain ⟨k1, k2, k3, k4, k5⟩ := ResetSigStoreAt_report (by assumption)
         cases h
         simp [CountsCandidate, StopDiscipline, k1, k2, k3, k4, k5,
           hp _ (fun s => s.NumExpressionsTried) (fun _ _ _ _ => rfl),
           hp _ (fun s => s.NumDistExpressions) (fun _ _ _ _ => rfl),
           hp _ (fun s => s.Restart) (fun _ _ _ _ => rfl),
           hp _ (fun s => s.Complete) (fun _ _ _ _ => rfl),
           hp _ (fun s => s.Solutions) (fun _ _ _ _ => rfl)])
  · simp [PBEEnumTermExprs, CheckResourceLimits, hres] at h

theorem PBEEnumDecisionTree_report (C : Collaborators) (Exp : GenExpressionBase)
    (Ty : ESFixedTypeBase) (ExpansionTypeID : Nat) (s : CEGSolver) (st : CallbackStatus)
    (s' : CEGSolver) (h : PBEEnumDecisionTree C Exp Ty ExpansionTypeID s = .ret st s') :
    CountsCandidate s st s' ∧ StopDiscipline s st s' := by
  rcases hres : C.ResourceLimitExceeded s.Trace with _ | _
  · simp only [PBEEnumDecisionTree, CheckResourceLimits, hres, CEGSolver.log,
      Bool.false_eq_true, ↓reduceIte, PBEValidateTree_eq] at h
    repeat' split at h
    all_goals first
      | (simp at h; done)
      | (cases h; simp [CountsCandidate, StopDiscipline]; done)
      | (obtain ⟨k1, k2, k3, k4, k5, k6⟩ := PBENextWorkItem_report C _ _ _ _ (by assumption)
         cases h
         simp [CountsCandidate, StopDiscipline, k1, k2, k3, k4, k5, k6])
  · simp [PBEEnumDecisionTree, CheckResourceLimits, hres] at h

theorem SubExpressionCallBack_report (C : Collaborators) (Exp : GenExpressionBase)
    (Ty : ESFixedTypeBase) (ExpansionTypeID : Nat) (s : CEGSolver) (st : CallbackStatus)
    (s' : CEGSolver) (h : SubExpressionCallBack C Exp Ty ExpansionTypeID s = .ret st s') :
    StopDiscipline s st s' := by
  rcases hres : C.ResourceLimitExceeded s.Trace with _ | _
  · simp only [SubExpressionCallBack, CheckResourceLimits, hres, CEGSolver.log,
      Bool.false_eq_true, ↓reduceIte] at h
    repeat' split at h
    all_goals first
      | (simp at h; done)
      | (cases h; simp [StopDiscipline])
  · simp [SubExpressionCallBack, CheckResourceLimits, hres] at h

theorem CheckSymbolicValidity_report {C : Collaborators} {Exps : List GenExpressionBase}
    {s s' : CEGSolver} {b : Bool} (h : CheckSymbolicValidity C Exps s = .ret b s') :
    s'.NumExpressionsTried = s.NumExpressionsTried ∧
    s'.NumDistExpressions = s.NumDistExpressions ∧
    s'.Restart = s.Restart ∧ s'.Complete = s.Complete ∧ s'.Solutions = s.Solutions := by
  simp only [CheckSymbolicValidity, CEGSolver.log] at h
  repeat' split at h
  all_goals first
    | (simp at h; done)
    | (cases h; simp)

theorem ExpressionCallBackTuple_report (C : Collaborators) (Exps : Nat → GenExpressionBase)
    (Types : Nat → ESFixedTypeBase) (ExpansionTypeIDs : Nat → Nat) (s : CEGSolver)
    (st : CallbackStatus) (s' : CEGSolver)
    (h : ExpressionCallBackTuple C Exps Types ExpansionTypeIDs s = .ret st s') :
    StopDiscipline s st s' := by
  rcases hres : C.ResourceLimitExceeded s.Trace with _ | _
  · simp only [ExpressionCallBackTuple, CheckResourceLimits, hres, CEGSolver.log,
      Bool.false_eq_true, ↓reduceIte] at h
    repeat' split at h
    all_goals first
      | (simp at h; done)
      | (cases h; simp [StopDiscipline]; done)
      | (obtain ⟨k1, k2, k3, k4, k5⟩ := CheckSymbolicValidity_report (by assumption)
         cases h
         simp [StopDiscipline, k1, k2, k3, k4, k5])
  · simp [ExpressionCallBackTuple, CheckResourceLimits, hres] at h

theorem ExpressionCallBack_report (C : Collaborators) (Exp : GenExpressionBase)
    (Ty : ESFixedTypeBase) (ExpansionTypeID EnumeratorIndex : Nat) (s : CEGSolver)
    (st : CallbackStatus) (s' : CEGSolver)
    (h : ExpressionCallBack C Exp Ty ExpansionTypeID EnumeratorIndex s = .ret st s') :
    CountsCandidate s st s' ∧ StopDiscipline s st s' := by
  simp only [ExpressionCallBack] at h
  split at h
  · split at h
    · exact PBEEnumTermExprs_report C Exp Ty ExpansionTypeID s st s' h
    · exact PBEEnumDecisionTree_report C Exp Ty ExpansionTypeID s st s' h
  · simp only [CEGSolver.log] at h
    repeat' split at h
    all_goals first
      | (simp at h; done)
      | (cases h; simp [CountsCandidate, StopDiscipline]; done)
      | (obtain ⟨k1, k2, k3, k4, k5⟩ := CheckSymbolicValidity_report (by assumption)
         cases h
         simp [CountsCandidate, StopDiscipline, k1, k2, k3, k4, k5])

theorem CallBack_report (C : Collaborators) (req : CallbackRequest) (s : CEGSolver)
    (st : CallbackStatus) (s' : CEGSolver) (h : CallBack C req s = .ret st s') :
    StopDiscipline s st s' := by
  cases req with
  | Expression Exp Ty ExpansionTypeID EnumeratorIndex =>
    exact (ExpressionCallBack_report C Exp Ty ExpansionTypeID EnumeratorIndex s st s' h).2
  | SubExpression Exp Ty ExpansionTypeID =>
    exact SubExpressionCallBack_report C Exp Ty ExpansionTypeID s st s' h
  | ExpressionTuple Exps Types ExpansionTypeIDs =>
    exact ExpressionCallBackTuple_report C Exps Types ExpansionTypeIDs s st s' h

theorem TeardownCalls_append (t u : List Event) :
    TeardownCalls (t ++ u) = TeardownCalls t ++ TeardownCalls u := by
  simp [TeardownCalls]

theorem TeardownCalls_validation (C : Collaborators) (TreeExpr : Expression)
    (l : List ConcreteEvaluator) :
    TeardownCalls (l.map (fun ev =>
      Event.CheckExampleValidity ev.Id TreeExpr (C.CheckExampleValidity ev TreeExpr))) = [] := by
  induction l with
  | nil => rfl
  | cons ev rest ih => simp [TeardownCalls]

theorem ResetSigStoreAt_teardown (p : EvalPtr) (s : CEGSolver) :
    TeardownCalls (ResetSigStoreAt p s).state.Trace = TeardownCalls s.Trace := by
  simp only [ResetSigStoreAt, CEGSolver.log]
  split <;> simp [Outcome.state, TeardownCalls]

theorem CheckSymbolicValidity_teardown (C : Collaborators) (Exps : List GenExpressionBase)
    (s : CEGSolver) :
    TeardownCalls (CheckSymbolicValidity C Exps s).state.Trace = TeardownCalls s.Trace := by
  simp only [CheckSymbolicValidity, CEGSolver.log]
  repeat' split
  all_goals simp [Outcome.state, TeardownCalls]

/-- Read a fact about the state of an outcome off an equation that names the outcome. -/
theorem teardown_of_eq {α : Type} {o o' : Outcome α} {t : List Event} (h : o = o')
    (k : TeardownCalls o.state.Trace = t) : TeardownCalls o'.state.Trace = t :=
  h ▸ k

theorem PBENextWorkItem_teardown (C : Collaborators) :
    ∀ (fuel : Nat) (s : CEGSolver),
      TeardownCalls (PBENextWorkItem C fuel s).state.Trace = TeardownCalls s.Trace := by
  intro fuel
  induction fuel with
  | zero => intro s; rfl
  | succ fuel ih =>
    intro s
    simp only [PBENextWorkItem, CEGSolver.log]
    repeat' split
    all_goals first
      | (rw [ih]; simp [TeardownCalls])
      | (simp [Outcome.state, TeardownCalls]; done)
      | (have k := teardown_of_eq (by assumption) (ResetSigStoreAt_teardown _ _)
         simpa [Outcome.state] using k)

theorem PBEEnumDecisionTree_teardown (C : Collaborators) (Exp : GenExpressionBase)
    (Ty : ESFixedTypeBase) (ExpansionTypeID : Nat) (s : CEGSolver) :
    TeardownCalls (PBEEnumDecisionTree C Exp Ty ExpansionTypeID s).state.Trace
      = TeardownCalls s.Trace := by
  rcases hres : C.ResourceLimitExceeded s.Trace with _ | _
  · simp only [PBEEnumDecisionTree, CheckResourceLimits, hres, Bool.false_eq_true, ↓reduceIte, CEGSolver.log, PBEValidateTree_eq]
    repeat' split
    all_goals first
      | (simp [Outcome.state, TeardownCalls]; done)
      | (have k := teardown_of_eq (by assumption) (PBENextWorkItem_teardown C _ _)
         simp only [Outcome.state, TeardownCalls_append, TeardownCalls_validation,
           List.append_nil] at k ⊢
         simpa [TeardownCalls] using k)
  · simp [PBEEnumDecisionTree, CheckResourceLimits, hres, Outcome.state, CEGSolver.log, TeardownCalls]

theorem PBEEnumTermExprs_teardown (C : Collaborators) (Expr : GenExpressionBase)
    (Ty : ESFixedTypeBase) (ExpansionTypeID : Nat) (s : CEGSolver) :
    TeardownCalls (PBEEnumTermExprs C Expr Ty ExpansionTypeID s).state.Trace
      = TeardownCalls s.Trace := by
  have hp := fun l acc =>
    PBEProbeLaterExamples_proj (fun s => s.Trace) (fun _ _ _ _ => rfl) C Expr Ty
      ExpansionTypeID s.PBETermExprs.length l acc
  rcases hres : C.ResourceLimitExceeded s.Trace with _ | _
  · simp only [PBEEnumTermExprs, CheckResourceLimits, hres, Bool.false_eq_true, ↓reduceIte, CEGSolver.log]
    repeat' split
    all_goals first
      | (simp [Outcome.state, TeardownCalls, hp]; done)
      | (have k := teardown_of_eq (by assumption) (ResetSigStoreAt_teardown _ _)
         simpa [Outcome.state, TeardownCalls_append, TeardownCalls, hp] using k)
  · simp [PBEEnumTermExprs, CheckResourceLimits, hres, Outcome.state, CEGSolver.log, TeardownCalls]

theorem SubExpressionCallBack_teardown (C : Collaborators) (Exp : GenExpressionBase)
    (Ty : ESFixedTypeBase) (ExpansionTypeID : Nat) (s : CEGSolver) :
    TeardownCalls (SubExpressionCallBack C Exp Ty ExpansionTypeID s).state.Trace
      = TeardownCalls s.Trace := by
  rcases hres : C.ResourceLimitExceeded s.Trace with _ | _
  · simp only [SubExpressionCallBack, CheckResourceLimits, hres, Bool.false_eq_true, ↓reduceIte, CEGSolver.log]
    repeat' split
    all_goals simp [Outcome.state, TeardownCalls]
  · simp [SubExpressionCallBack, CheckResourceLimits, hres, Outcome.state, CEGSolver.log, TeardownCalls]

theorem ExpressionCallBackTuple_teardown (C : Collaborators)
    (Exps : Nat → GenExpressionBase) (Types : Nat → ESFixedTypeBase)
    (ExpansionTypeIDs : Nat → Nat) (s : CEGSolver) :
    TeardownCalls (ExpressionCallBackTuple C Exps Types ExpansionTypeIDs s).state.Trace
      = TeardownCalls s.Trace := by
  rcases hres : C.ResourceLimitExceeded s.Trace with _ | _
  · simp only [ExpressionCallBackTuple, CheckResourceLimits, hres, Bool.false_eq_true, ↓reduceIte, CEGSolver.log]
    repeat' split
    all_goals first
      | (simp [Outcome.state, TeardownCalls]; done)
      | (have k := teardown_of_eq (by assumption) (CheckSymbolicValidity_teardown C _ _)
         simpa [Outcome.state, TeardownCalls_append, TeardownCalls] using k)
  · simp [ExpressionCallBackTuple, CheckResourceLimits, hres, Outcome.state, CEGSolver.log, TeardownCalls]

theorem ExpressionCallBack_teardown (C : Collaborators) (Exp : GenExpressionBase)
    (Ty : ESFixedTypeBase) (ExpansionTypeID EnumeratorIndex : Nat) (s : CEGSolver) :
    TeardownCalls
        (ExpressionCallBack C Exp Ty ExpansionTypeID EnumeratorIndex s).state.Trace
      = TeardownCalls s.Trace := by
  simp only [ExpressionCallBack]
  split
  · split
    · exact PBEEnumTermExprs_teardown C Exp Ty ExpansionTypeID s
    · exact PBEEnumDecisionTree_teardown C Exp Ty ExpansionTypeID s
  · simp only [CEGSolver.log]
    repeat' split
    all_goals first
      | (simp [Outcome.state, TeardownCalls]; done)
      | (have k := teardown_of_eq (by assumption) (CheckSymbolicValidity_teardown C _ _)
         simpa [Outcome.state, TeardownCalls_append, TeardownCalls] using k)

theorem CallBack_teardown (C : Collaborators) (req : CallbackRequest) (s : CEGSolver) :
    TeardownCalls (CallBack C req s).state.Trace = TeardownCalls s.Trace := by
  cases req with
  | Expression Exp Ty ExpansionTypeID EnumeratorIndex =>
    exact ExpressionCallBack_teardown C Exp Ty ExpansionTypeID EnumeratorIndex s
  | SubExpression Exp Ty ExpansionTypeID =>
    exact SubExpressionCallBack_teardown C Exp Ty ExpansionTypeID s
  | ExpressionTuple Exps Types ExpansionTypeIDs =>
    exact ExpressionCallBackTuple_teardown C Exps Types ExpansionTypeIDs s

theorem RunEnumeration_teardown (C : Collaborators) (r : EnumRun) :
    ∀ s : CEGSolver,
      TeardownCalls (RunEnumeration C r s).state.Trace = TeardownCalls s.Trace := by
  induction r with
  | done st => intro s; rfl
  | call req k ih =>
    intro s
    have hc := CallBack_teardown C req s
    simp only [RunEnumeration]
    split
    · rename_i h; rw [h] at hc; exact hc
    · rename_i h; rw [h] at hc; exact (ih _ _).trans hc

theorem SolveForLoop_teardown (C : Collaborators) (E : CFGEnumerator) :
    ∀ (fuel i n : Nat) (s : CEGSolver),
      TeardownCalls (SolveForLoop C E fuel i n s).state.Trace = TeardownCalls s.Trace := by
  intro fuel
  induction fuel with
  | zero => intro i n s; rfl
  | succ fuel ih =>
    intro i n s
    simp only [SolveForLoop]
    repeat' split
    all_goals first
      | rfl
      | (have k := teardown_of_eq (by assumption) (RunEnumeration_teardown C _ _)
         first
          | (simpa [Outcome.state, CEGSolver.log, TeardownCalls_append, TeardownCalls] using k)
          | (rw [ih]
             simpa [Outcome.state, CEGSolver.log, TeardownCalls_append, TeardownCalls]
               using k))

theorem SolveDoWhile_teardown (C : Collaborators) (E : CFGEnumerator) (NumSynthFuncs : Nat) :
    ∀ (fuel n : Nat) (s : CEGSolver),
      TeardownCalls (SolveDoWhile C E NumSynthFuncs fuel n s).state.Trace
        = TeardownCalls s.Trace := by
  intro fuel
  induction fuel with
  | zero => intro n s; rfl
  | succ fuel ih =>
    intro n s
    simp only [SolveDoWhile]
    repeat' split
    all_goals
      have k := teardown_of_eq (by assumption) (SolveForLoop_teardown C E _ _ _ _)
      first
        | (simpa [Outcome.state] using k)
        | (rw [ih]; simpa [Outcome.state] using k)

theorem SolveSetup_teardown (C : Collaborators) (inp : SolveInput) (s : CEGSolver) :
    TeardownCalls (SolveSetup C inp s).state.Trace = TeardownCalls s.Trace := by
  simp only [SolveSetup, PBEInitializeEvals, ResetSigStoreAt, CEGSolver.log]
  repeat' split
  all_goals first
    | (simp [Outcome.state, TeardownCalls]; done)
    | (rename_i h
       repeat' split at h
       all_goals first
        | (simp at h; done)
        | (cases h; simp [Outcome.state, TeardownCalls, DecisionTreeBuilder.Reset,
            DecisionTreeBuilder.AddUniqTermExprExample]))

theorem SameButDiagnostics_mk (s : CEGSolver) (l : Nat) (t : List Event) :
    SameButDiagnostics s { s with Opts := { s.Opts with StatsLevel := l }, Trace := t } := by
  simp [SameButDiagnostics]

theorem SameButDiagnostics_elim {s1 s2 : CEGSolver} (h : SameButDiagnostics s1 s2) :
    ∃ l t, s2 = { s1 with Opts := { s1.Opts with StatsLevel := l }, Trace := t } :=
  ⟨_, _, h⟩

theorem ExpressionCallBack_ceg_diag (C : Collaborators)
    (chk : ConcreteEvaluator → Expression → Bool) (Exp : GenExpressionBase)
    (Ty : ESFixedTypeBase) (ExpansionTypeID EnumeratorIndex : Nat) (s : CEGSolver) (l : Nat)
    (hm : s.TheMode ≠ .PBE) :
    SameOutcome (ExpressionCallBack C Exp Ty ExpansionTypeID EnumeratorIndex s)
      (ExpressionCallBack { C with CheckExampleValidity := chk } Exp Ty ExpansionTypeID
        EnumeratorIndex { s with Opts := { s.Opts with StatsLevel := l } }) := by
  simp only [ExpressionCallBack, hm, ↓reduceIte, CheckSymbolicValidity, CEGSolver.log]
  rcases hq : C.CheckValidity [Exp] with _ | _ | code <;>
    by_cases h4 : 4 ≤ s.Opts.StatsLevel <;> by_cases h4' : 4 ≤ l <;>
    simp only [hq, h4, h4', ↓reduceIte] <;>
    repeat' split
  all_goals simp_all [SameOutcome, SameButDiagnostics]

theorem PBEProbeLaterExamples_diag (C : Collaborators)
    (chk : ConcreteEvaluator → Expression → Bool) (Expr : GenExpressionBase)
    (Ty : ESFixedTypeBase) (ExpansionTypeID TermExprIdx : Nat) (o : ESolverOpts)
    (t : List Event) (l : List Nat) :
    ∀ (s : CEGSolver) (StatusRet : Nat) (b : Bool),
      PBEProbeLaterExamples { C with CheckExampleValidity := chk } Expr Ty ExpansionTypeID
          TermExprIdx l ({ s with Opts := o, Trace := t }, StatusRet, b)
        = ({ (PBEProbeLaterExamples C Expr Ty ExpansionTypeID TermExprIdx l
              (s, StatusRet, b)).1 with Opts := o, Trace := t },
            (PBEProbeLaterExamples C Expr Ty ExpansionTypeID TermExprIdx l
              (s, StatusRet, b)).2) := by
  induction l with
  | nil => intro s StatusRet b; rfl
  | cons i rest ih =>
    intro s StatusRet b
    simp only [PBEProbeLaterExamples]
    rcases hev : s.PBEEvalPtrs[i]? with _ | ev
    · exact ih s StatusRet b
    · by_cases hm : (MapFind s.PBEEval2TermExpIdxMap ev.Id).isSome = true
      · simp only [hm, ↓reduceIte]
        exact ih s StatusRet b
      · simp only [hm, Bool.false_eq_true, ↓reduceIte]
        rcases hr : (C.CheckConcreteValidity ev Expr Ty ExpansionTypeID StatusRet).1 with _ | _
        · rcases b with _ | _
          · simp only [Bool.false_eq_true, ↓reduceIte, Bool.not_false]
            exact ih { s with
              PBEEvalPtrs := s.PBEEvalPtrs.set i { ev with SigStore :=
                (C.CheckConcreteValidity ev Expr Ty ExpansionTypeID StatusRet).2.2 },
              DTBuilder := s.DTBuilder.AddUniqTermExprExample i } _ true
          · simp only [Bool.false_eq_true, ↓reduceIte, Bool.not_true]
            exact ih { s with
              PBEEvalPtrs := s.PBEEvalPtrs.set i { ev with SigStore :=
                (C.CheckConcreteValidity ev Expr Ty ExpansionTypeID StatusRet).2.2 } } _ true
        · simp only [↓reduceIte]
          exact ih { s with
            PBEEvalPtrs := s.PBEEvalPtrs.set i { ev with SigStore :=
              (C.CheckConcreteValidity ev Expr Ty ExpansionTypeID StatusRet).2.2 },
            PBEEval2TermExpIdxMap := MapAssign s.PBEEval2TermExpIdxMap ev.Id TermExprIdx,
            DTBuilder := s.DTBuilder.AddDupTermExprExample i } _ b

theorem PBENextWorkItem_diag (C : Collaborators)
    (chk : ConcreteEvaluator → Expression → Bool) :
    ∀ (fuel : Nat) (s1 s2 : CEGSolver), SameButDiagnostics s1 s2 →
      SameOutcome (PBENextWorkItem C fuel s1)
        (PBENextWorkItem { C with CheckExampleValidity := chk } fuel s2) := by
  intro fuel
  induction fuel with
  | zero =>
    intro s1 s2 h
    simpa [PBENextWorkItem, SameOutcome] using h
  | succ fuel ih =>
    intro s h2 h
    obtain ⟨l, t, rfl⟩ := SameButDiagnostics_elim h
    simp only [PBENextWorkItem, ResetSigStoreAt, CEGSolver.log]
    rcases hl : (C.LocateNextEvalNode s.DTBuilder s.DTCurLocation s.DTCurEvalPtrs).1 with _ | _
    · simp [SameOutcome, SameButDiagnostics]
    · rcases h1 : s.PBEEvalPtrs[(C.LocateNextEvalNode s.DTBuilder s.DTCurLocation
          s.DTCurEvalPtrs).2.2.1.1]? with _ | e1
      · simp [SameOutcome, SameButDiagnostics]
      · rcases h2 : s.PBEEvalPtrs[(C.LocateNextEvalNode s.DTBuilder s.DTCurLocation
            s.DTCurEvalPtrs).2.2.1.2]? with _ | e2
        · simp [SameOutcome, SameButDiagnostics]
        · by_cases hm : (MapIndex s.PBEEval2TermExpIdxMap e1.Id).2 =
              (MapIndex (MapIndex s.PBEEval2TermExpIdxMap e1.Id).1 e2.Id).2
          · simp only [hm, beq_self_eq_true, ↓reduceIte]
            apply ih
            simp [SameButDiagnostics]
          · simp [hm, h1, SameOutcome, SameButDiagnostics]

theorem PBENextWorkItem_diag_of (C : Collaborators)
    (chk : ConcreteEvaluator → Expression → Bool) {fuel : Nat} {s1 s2 : CEGSolver}
    {o1 o2 : Outcome Bool} (h1 : PBENextWorkItem C fuel s1 = o1)
    (h2 : PBENextWorkItem { C with CheckExampleValidity := chk } fuel s2 = o2)
    (h : SameButDiagnostics s1 s2) : SameOutcome o1 o2 :=
  h1 ▸ h2 ▸ PBENextWorkItem_diag C chk fuel s1 s2 h

theorem SubExpressionCallBack_diag (C : Collaborators)
    (chk : ConcreteEvaluator → Expression → Bool) (Exp : GenExpressionBase)
    (Ty : ESFixedTypeBase) (ExpansionTypeID : Nat) (s : CEGSolver) (l : Nat) :
    SameOutcome (SubExpressionCallBack C Exp Ty ExpansionTypeID s)
      (SubExpressionCallBack { C with CheckExampleValidity := chk } Exp Ty ExpansionTypeID
        { s with Opts := { s.Opts with StatsLevel := l } }) := by
  simp only [SubExpressionCallBack, CheckResourceLimits, CEGSolver.log]
  rcases hres : C.ResourceLimitExceeded s.Trace with _ | _ <;>
    simp only [hres, Bool.false_eq_true, ↓reduceIte] <;>
    repeat' split
  all_goals simp_all [SameOutcome, SameButDiagnostics]

theorem ExpressionCallBackTuple_diag (C : Collaborators)
    (chk : ConcreteEvaluator → Expression → Bool) (Exps : Nat → GenExpressionBase)
    (Types : Nat → ESFixedTypeBase) (ExpansionTypeIDs : Nat → Nat) (s : CEGSolver)
    (l : Nat) :
    SameOutcome (ExpressionCallBackTuple C Exps Types ExpansionTypeIDs s)
      (ExpressionCallBackTuple { C with CheckExampleValidity := chk } Exps Types
        ExpansionTypeIDs { s with Opts := { s.Opts with StatsLevel := l } }) := by
  simp only [ExpressionCallBackTuple, CheckResourceLimits, CheckSymbolicValidity,
    CEGSolver.log]
  rcases hres : C.ResourceLimitExceeded s.Trace with _ | _ <;>
    rcases hq : C.CheckValidity ((List.range s.SynthFuncs.length).map Exps)
      with _ | _ | code <;>
    by_cases h4 : 4 ≤ s.Opts.StatsLevel <;> by_cases h4' : 4 ≤ l <;>
    simp only [hres, hq, h4, h4', Bool.false_eq_true, ↓reduceIte] <;>
    repeat' split
  all_goals simp_all [SameOutcome, SameButDiagnostics]

theorem PBEEnumTermExprsFinish_diag (C : Collaborators)
    (chk : ConcreteEvaluator → Expression → Bool) (Ty : ESFixedTypeBase)
    (s1 s2 : CEGSolver) (h : SameButDiagnostics s1 s2) :
    SameOutcome (PBEEnumTermExprsFinish C Ty s1)
      (PBEEnumTermExprsFinish { C with CheckExampleValidity := chk } Ty s2) := by
  obtain ⟨l, t, rfl⟩ := SameButDiagnostics_elim h
  simp only [PBEEnumTermExprsFinish, ResetSigStoreAt, CEGSolver.log]
  by_cases h1 : (s1.PBEEval2TermExpIdxMap.length != s1.PBEEvalPtrs.length) = true
  · simp only [h1, ↓reduceIte]
    rcases hb : s1.DTBuilder.GetQueueBack with _ | back
    · simp [SameOutcome, SameButDiagnostics]
    · rcases hev : s1.PBEEvalPtrs[back]? with _ | ev <;>
        simp [hev, SameOutcome, SameButDiagnostics]
  · simp only [h1, Bool.false_eq_true, ↓reduceIte]
    by_cases h2 : (s1.PBETermExprs.length == 1) = true
    · simp only [h2, ↓reduceIte]
      rcases hf : s1.SynthFuncs[0]? with _ | f <;>
        rcases hl : s1.PBETermExprs.getLast? with _ | x <;>
        simp [SameOutcome, SameButDiagnostics]
    · simp only [h2, Bool.false_eq_true, ↓reduceIte]
      rcases hl : (C.LocateNextEvalNode (C.DTInit s1.DTBuilder Ty)
          s1.DTCurLocation s1.DTCurEvalPtrs).1 with _ | _
      · simp [SameOutcome, SameButDiagnostics]
      · rcases hev : s1.PBEEvalPtrs[(C.LocateNextEvalNode (C.DTInit s1.DTBuilder Ty)
            s1.DTCurLocation s1.DTCurEvalPtrs).2.2.1.1]? with _ | ev <;>
          simp [hev, SameOutcome, SameButDiagnostics]

theorem PBEAfterProbe_diag (C : Collaborators)
    (chk : ConcreteEvaluator → Expression → Bool) (Expr : GenExpressionBase)
    (Ty : ESFixedTypeBase) (ExpansionTypeID : Nat) (s : CEGSolver) (l : Nat) (c : EvalPtr)
    (ev : ConcreteEvaluator) :
    SameButDiagnostics (PBEAfterProbe C Expr Ty ExpansionTypeID s c ev)
      (PBEAfterProbe { C with CheckExampleValidity := chk } Expr Ty ExpansionTypeID
        { s with Opts := { s.Opts with StatsLevel := l } } c ev) := by
  have k := PBEProbeLaterExamples_diag C chk Expr Ty ExpansionTypeID s.PBETermExprs.length
    { s.Opts with StatsLevel := l } (s.Trace ++ [.CheckResourceLimits])
    (List.range' (ev.Id + 1) ((s.PBEEvalPtrs.set c { ev with SigStore :=
      (C.CheckConcreteValidity ev Expr Ty ExpansionTypeID 0).2.2 }).length - (ev.Id + 1)))
    { s with
      Trace := s.Trace ++ [.CheckResourceLimits],
      NumExpressionsTried := s.NumExpressionsTried + 1,
      PBEEvalPtrs := s.PBEEvalPtrs.set c { ev with SigStore :=
        (C.CheckConcreteValidity ev Expr Ty ExpansionTypeID 0).2.2 },
      PBEEval2TermExpIdxMap := MapAssign s.PBEEval2TermExpIdxMap ev.Id s.PBETermExprs.length,
      PBETermExprs := s.PBETermExprs ++ [C.ToUserExpression Expr],
      NumDistExpressions := s.NumDistExpressions + 1 }
    (C.CheckConcreteValidity ev Expr Ty ExpansionTypeID 0).2.1 false
  have hp := PBEProbeLaterExamples_proj (fun s => s.Opts) (fun _ _ _ _ => rfl) C Expr Ty
    ExpansionTypeID s.PBETermExprs.length
  simp only [PBEAfterProbe, CEGSolver.log, SameButDiagnostics]
  simp only [] at k
  rw [k]
  simp [hp]

theorem PBEEnumTermExprs_diag (C : Collaborators)
    (chk : ConcreteEvaluator → Expression → Bool) (Expr : GenExpressionBase)
    (Ty : ESFixedTypeBase) (ExpansionTypeID : Nat) (s : CEGSolver) (l : Nat) :
    SameOutcome (PBEEnumTermExprs C Expr Ty ExpansionTypeID s)
      (PBEEnumTermExprs { C with CheckExampleValidity := chk } Expr Ty ExpansionTypeID
        { s with Opts := { s.Opts with StatsLevel := l } }) := by
  rcases hres : C.ResourceLimitExceeded s.Trace with _ | _
  · rcases hb : s.DTBuilder.GetQueueBack with _ | c
    · simp [PBEEnumTermExprs, CheckResourceLimits, hres, CEGSolver.log, hb, SameOutcome,
        SameButDiagnostics]
    · rcases hev : s.PBEEvalPtrs[c]? with _ | ev
      · simp [PBEEnumTermExprs, CheckResourceLimits, hres, CEGSolver.log, hb, hev,
          SameOutcome, SameButDiagnostics]
      · rcases hv : (C.CheckConcreteValidity ev Expr Ty ExpansionTypeID 0).1 with _ | _
        · by_cases hd : ((C.CheckConcreteValidity ev Expr Ty ExpansionTypeID 0).2.1 &&&
              C.CONCRETE_EVAL_DIST) = 0 <;>
            simp [PBEEnumTermExprs, CheckResourceLimits, hres, CEGSolver.log, hb, hev, hv, hd,
              SameOutcome, SameButDiagnostics]
        · rw [PBEEnumTermExprs_recorded C Expr Ty ExpansionTypeID s c ev hres hb hev hv,
            PBEEnumTermExprs_recorded { C with CheckExampleValidity := chk } Expr Ty
              ExpansionTypeID { s with Opts := { s.Opts with StatsLevel := l } } c ev hres hb
              hev hv]
          exact PBEEnumTermExprsFinish_diag C chk Ty _ _
            (PBEAfterProbe_diag C chk Expr Ty ExpansionTypeID s l c ev)
  · simp [PBEEnumTermExprs, CheckResourceLimits, hres, CEGSolver.log, SameOutcome,
      SameButDiagnostics]

theorem PBEEnumDecisionTreeFinish_diag (C : Collaborators)
    (chk : ConcreteEvaluator → Expression → Bool) (s1 s2 : CEGSolver)
    (h : SameButDiagnostics s1 s2) :
    SameOutcome (PBEEnumDecisionTreeFinish C s1)
      (PBEEnumDecisionTreeFinish { C with CheckExampleValidity := chk } s2) := by
  have hfuel : C.PendingSlots s2.DTBuilder = C.PendingSlots s1.DTBuilder := by
    rw [h]
  have k := PBENextWorkItem_diag C chk (C.PendingSlots s1.DTBuilder + 1) s1 s2 h
  simp only [PBEEnumDecisionTreeFinish, PBEValidateTree_eq, hfuel]
  rcases ho : PBENextWorkItem C (C.PendingSlots s1.DTBuilder + 1) s1 with ⟨b, s5⟩ | ⟨e, s5⟩ <;>
    rcases ho' : PBENextWorkItem { C with CheckExampleValidity := chk }
      (C.PendingSlots s1.DTBuilder + 1) s2 with ⟨b', s5'⟩ | ⟨e', s5'⟩ <;>
    rw [ho, ho'] at k <;> simp only [SameOutcome] at k
  · obtain ⟨rfl, k2⟩ := k
    obtain ⟨l5, t5, rfl⟩ := SameButDiagnostics_elim k2
    rcases b with _ | _
    · by_cases h2 : 2 ≤ s5.Opts.StatsLevel <;> by_cases h2' : 2 ≤ l5 <;>
        rcases hf : s5.SynthFuncs[0]? with _ | f <;>
        simp [h2, h2', hf, SameOutcome, SameButDiagnostics]
    · simp [SameOutcome, SameButDiagnostics]
  · simp [SameOutcome, k]

theorem PBEEnumDecisionTree_diag (C : Collaborators)
    (chk : ConcreteEvaluator → Expression → Bool) (Exp : GenExpressionBase)
    (Ty : ESFixedTypeBase) (ExpansionTypeID : Nat) (s : CEGSolver) (l : Nat) :
    SameOutcome (PBEEnumDecisionTree C Exp Ty ExpansionTypeID s)
      (PBEEnumDecisionTree { C with CheckExampleValidity := chk } Exp Ty ExpansionTypeID
        { s with Opts := { s.Opts with StatsLevel := l } }) := by
  rcases hres : C.ResourceLimitExceeded s.Trace with _ | _
  · simp only [PBEEnumDecisionTree, CheckResourceLimits, hres, CEGSolver.log,
      Bool.false_eq_true, ↓reduceIte]
    split
    · simp [SameOutcome, SameButDiagnostics]
    · split
      · simp [SameOutcome, SameButDiagnostics]
      · split
        · split
          · repeat' split
            all_goals simp [SameOutcome, SameButDiagnostics]
          · split
            · change SameOutcome (PBEEnumDecisionTreeFinish C _)
                (PBEEnumDecisionTreeFinish { C with CheckExampleValidity := chk } _)
              exact PBEEnumDecisionTreeFinish_diag C chk _ _ (by simp [SameButDiagnostics])
            · simp [SameOutcome, SameButDiagnostics]
        · simp [SameOutcome, SameButDiagnostics]
  · simp [PBEEnumDecisionTree, CheckResourceLimits, hres, CEGSolver.log, SameOutcome,
      SameButDiagnostics]

theorem ExpressionCallBack_diag (C : Collaborators)
    (chk : ConcreteEvaluator → Expression → Bool) (Exp : GenExpressionBase)
    (Ty : ESFixedTypeBase) (ExpansionTypeID EnumeratorIndex : Nat) (s : CEGSolver) (l : Nat) :
    SameOutcome (ExpressionCallBack C Exp Ty ExpansionTypeID EnumeratorIndex s)
      (ExpressionCallBack { C with CheckExampleValidity := chk } Exp Ty ExpansionTypeID
        EnumeratorIndex { s with Opts := { s.Opts with StatsLevel := l } }) := by
  by_cases hm : s.TheMode = .PBE
  · by_cases hp : s.PBEPhase = .BuildTermExprs
    · unfold ExpressionCallBack
      rw [if_pos hm, if_pos hp, if_pos (show _ = CEGSolverMode.PBE from hm),
        if_pos (show _ = PBESolvePhase.BuildTermExprs from hp)]
      exact PBEEnumTermExprs_diag C chk Exp Ty ExpansionTypeID s l
    · unfold ExpressionCallBack
      rw [if_pos hm, if_neg hp, if_pos (show _ = CEGSolverMode.PBE from hm),
        if_neg (show ¬ _ = PBESolvePhase.BuildTermExprs from hp)]
      exact PBEEnumDecisionTree_diag C chk Exp Ty ExpansionTypeID s l
  · exact ExpressionCallBack_ceg_diag C chk Exp Ty ExpansionTypeID EnumeratorIndex s l hm

theorem CallBack_diag (C : Collaborators) (chk : ConcreteEvaluator → Expression → Bool)
    (req : CallbackRequest) (s : CEGSolver) (l : Nat) :
    SameOutcome (CallBack C req s)
      (CallBack { C with CheckExampleValidity := chk } req
        { s with Opts := { s.Opts with StatsLevel := l } }) := by
  cases req with
  | Expression Exp Ty ExpansionTypeID EnumeratorIndex =>
    exact ExpressionCallBack_diag C chk Exp Ty ExpansionTypeID EnumeratorIndex s l
  | SubExpression Exp Ty ExpansionTypeID =>
    exact SubExpressionCallBack_diag C chk Exp Ty ExpansionTypeID s l
  | ExpressionTuple Exps Types ExpansionTypeIDs =>
    exact ExpressionCallBackTuple_diag C chk Exps Types ExpansionTypeIDs s l

theorem SameOutcome_fields {α : Type} {o1 o2 : Outcome α} (h : SameOutcome o1 o2) :
    o2.val? = o1.val? ∧ o2.exception? = o1.exception? ∧
    o2.state.Solutions = o1.state.Solutions ∧ o2.state.Complete = o1.state.Complete ∧
    o2.state.Restart = o1.state.Restart ∧ o2.state.PBEPhase = o1.state.PBEPhase ∧
    o2.state.PBETermExprs = o1.state.PBETermExprs ∧
    o2.state.PBEEval2TermExpIdxMap = o1.state.PBEEval2TermExpIdxMap ∧
    o2.state.NumExpressionsTried = o1.state.NumExpressionsTried ∧
    o2.state.NumDistExpressions = o1.state.NumDistExpressions := by
  rcases o1 with ⟨v1, s1⟩ | ⟨e1, s1⟩ <;> rcases o2 with ⟨v2, s2⟩ | ⟨e2, s2⟩ <;>
    simp only [SameOutcome] at h
  · obtain ⟨rfl, k⟩ := h
    obtain ⟨l, t, rfl⟩ := SameButDiagnostics_elim k
    simp [Outcome.val?, Outcome.exception?, Outcome.state]
  · obtain ⟨rfl, k⟩ := h
    obtain ⟨l, t, rfl⟩ := SameButDiagnostics_elim k
    simp [Outcome.val?, Outcome.exception?, Outcome.state]

/-! ## The claims -/

/-- Claim C1, amended to CEG mode.  When `Solve` runs in CEG mode (the solver was not left
in PBE mode and the constraint does not have the PBE shape) and returns, every solution
in the returned map is backed by an oracle query made during this solve and answered
`SOLVE_VALID`: the solution pairs the synth functions, in order, with the user expressions
of the expressions of that query.  This holds for the single-function and for the tuple
callback, whatever the enumerator does. -/
theorem Solve_CEG_solutions_are_oracle_valid (C : Collaborators) (inp : SolveInput)
    (fuel : Nat) (s s' : CEGSolver) (sols : List (List (SynthFuncOperator × Expression)))
    (hmode : s.TheMode = .CEG)
    (hceg : (inp.ConstRelevantVars.length ==
        (InsertRelevantVars s.RelevantVars inp.BaseAuxVars).length &&
      inp.ConstRelevantVars.length == inp.PBEAntecedentExprs.length) = false)
    (h : Solve C inp fuel s = .ret sols s') :
    s'.TheMode = .CEG ∧
    ∃ t, s'.Trace = s.Trace ++ t ∧
      ∀ sol ∈ sols, ∃ Exps, (Exps, SolveStatus.SOLVE_VALID) ∈ OracleQueries t ∧
        C.CheckValidity Exps = .SOLVE_VALID ∧
        sol = List.zip inp.SFSet (Exps.map C.ToUserExpression) := by
  simp only [Solve] at h
  split at h
  · cases h
  · rename_i u s1 hsetup
    obtain ⟨m1, f1, sol1, c1, o1, t1, -, -⟩ := SolveSetup_ceg C inp s s1 hceg hsetup
    split at h
    · cases h
    · rename_i n2 s2 hloop
      split at h
      · cases h
      rename_i u3 s3 hstat
      obtain rfl := SolveStatistics_ret _ _ _ hstat
      simp only [Outcome.ret.injEq] at h
      obtain ⟨rfl, rfl⟩ := h
      have hs := SolveDoWhile_sound C _ _ _ _ _ _ _
        (show (s1.log .PreSolve).TheMode = .CEG from m1.trans hmode) hloop
      obtain ⟨m2, f2, t, ht, hv⟩ := hs
      refine ⟨by simpa [EndSolve, CEGSolver.log] using m2.trans (m1.trans hmode),
        [.GenExpressionInitialize, .PreSolve] ++ t ++ [.PostSolve, .EndSolve], ?_, ?_⟩
      · simp [EndSolve, CEGSolver.log, ht, t1]
      · intro sol hsol
        have hsol' : sol ∈ s2.Solutions := by simpa [EndSolve, CEGSolver.log] using hsol
        rcases hv sol hsol' with h0 | h0
        · simp [CEGSolver.log, sol1] at h0
        · have := h0.mono [.GenExpressionInitialize, .PreSolve] [.PostSolve, .EndSolve]
          simpa [Validated, CEGSolver.log, f1] using this

/-- Claim C1, amended: the theorem at a CEG solve whose first candidate the oracle
accepts. -/
theorem Solve_CEG_solutions_are_oracle_valid_witness :
    ∃ t, (Solve (demoCollaborators true 0 .SOLVE_VALID) demoInputCEG 2
          (freshSolver { StatsLevel := 0, NoDist := false, CostBudget := 3 })).state.Trace
        = (freshSolver { StatsLevel := 0, NoDist := false, CostBudget := 3 }).Trace ++ t ∧
      ∀ sol ∈ [[((7 : SynthFuncOperator), (105 : Expression))]],
        ∃ Exps, (Exps, SolveStatus.SOLVE_VALID) ∈ OracleQueries t ∧
          (demoCollaborators true 0 .SOLVE_VALID).CheckValidity Exps = .SOLVE_VALID ∧
          sol = List.zip demoInputCEG.SFSet
            (Exps.map (demoCollaborators true 0 .SOLVE_VALID).ToUserExpression) :=
  (Solve_CEG_solutions_are_oracle_valid (demoCollaborators true 0 .SOLVE_VALID) demoInputCEG 2
    (freshSolver { StatsLevel := 0, NoDist := false, CostBudget := 3 })
    (Solve (demoCollaborators true 0 .SOLVE_VALID) demoInputCEG 2
      (freshSolver { StatsLevel := 0, NoDist := false, CostBudget := 3 })).state
    [[(7, 105)]] rfl rfl rfl).2

/-- Claim C1 as stated fails in PBE mode.  On a constraint of PBE shape with one example,
`Solve` returns the pair `(7, 105)` although no oracle query was made during the solve,
and the oracle of this run answers `SOLVE_INVALID` when asked about the candidate. -/
theorem Solve_PBE_solution_without_oracle_query :
    (Solve (demoCollaborators true 0 .SOLVE_INVALID) demoInputPBE 2
        (freshSolver { StatsLevel := 0, NoDist := false, CostBudget := 3 })).val?
      = some [[(7, 105)]] ∧
    OracleQueries (Solve (demoCollaborators true 0 .SOLVE_INVALID) demoInputPBE 2
        (freshSolver { StatsLevel := 0, NoDist := false, CostBudget := 3 })).state.Trace = [] ∧
    (demoCollaborators true 0 .SOLVE_INVALID).CheckValidity [5] = .SOLVE_INVALID := by
  decide

/-- Claim C2.  In CEG mode, for a candidate that the evaluator reports concretely valid
and the oracle reports valid, the single-function `ExpressionCallBack` returns
`STOP_ENUMERATION`, appends exactly one solution holding the single pair
(`SynthFuncs[0]`, user expression of the candidate), sets `Complete`, leaves `Restart`
alone, and adds no point: the evaluator's points are as before and the only collaborator
call recorded is the oracle query. -/
theorem ExpressionCallBack_valid_records_solution (C : Collaborators)
    (Exp : GenExpressionBase) (Ty : ESFixedTypeBase) (ExpansionTypeID EnumeratorIndex : Nat)
    (s : CEGSolver) (ev : ConcreteEvaluator) (f : SynthFuncOperator)
    (hmode : s.TheMode = .CEG) (hev : s.ConcEval = some ev)
    (hf : s.SynthFuncs[0]? = some f)
    (hconc : (C.CheckConcreteValidity ev Exp Ty ExpansionTypeID 0).1 = true)
    (horacle : C.CheckValidity [Exp] = .SOLVE_VALID) :
    ∃ s', ExpressionCallBack C Exp Ty ExpansionTypeID EnumeratorIndex s
        = .ret .STOP_ENUMERATION s' ∧
      s'.Solutions = s.Solutions ++ [[(f, C.ToUserExpression Exp)]] ∧
      s'.Complete = true ∧
      s'.Restart = s.Restart ∧
      s'.ConcEval.map (fun e => e.Points) = some ev.Points ∧
      s'.Trace = s.Trace ++ [.CheckValidity [Exp] .SOLVE_VALID] := by
  simp [ExpressionCallBack, hmode, hev, hconc, CheckSymbolicValidity, horacle, CEGSolver.log, hf]

/-- Claim C2: the theorem at a solver with one synth function, an evaluator that accepts
the candidate and an oracle that answers `SOLVE_VALID`. -/
theorem ExpressionCallBack_valid_records_solution_witness :
    ∃ s', ExpressionCallBack (demoCollaborators true 0 .SOLVE_VALID) 5 0 0 0
          (demoSolverCEG false [7]) = .ret .STOP_ENUMERATION s' ∧
      s'.Solutions = (demoSolverCEG false [7]).Solutions ++ [[(7, 105)]] ∧
      s'.Complete = true ∧
      s'.Restart = (demoSolverCEG false [7]).Restart ∧
      s'.ConcEval.map (fun e => e.Points) = some [] ∧
      s'.Trace = (demoSolverCEG false [7]).Trace ++ [.CheckValidity [5] .SOLVE_VALID] :=
  ExpressionCallBack_valid_records_solution (demoCollaborators true 0 .SOLVE_VALID) 5 0 0 0
    (demoSolverCEG false [7]) { Id := 0, Points := [], SigStore := [] } 7 rfl rfl rfl rfl rfl

/-- Claim C3.  In CEG mode, for a candidate that is concretely valid but for which the
oracle answers `SOLVE_INVALID`, the single-function `ExpressionCallBack` fetches the
model, adds exactly that point to the evaluator and then resets the evaluator's signature
store, in this order; `Solutions` and `Complete` are unchanged; with `NoDist` clear it
sets `Restart` and returns `STOP_ENUMERATION`, with `NoDist` set it leaves `Restart` alone
and returns `NONE_STATUS`. -/
theorem ExpressionCallBack_invalid_adds_point (C : Collaborators)
    (Exp : GenExpressionBase) (Ty : ESFixedTypeBase) (ExpansionTypeID EnumeratorIndex : Nat)
    (s : CEGSolver) (ev : ConcreteEvaluator)
    (hmode : s.TheMode = .CEG) (hev : s.ConcEval = some ev)
    (hconc : (C.CheckConcreteValidity ev Exp Ty ExpansionTypeID 0).1 = true)
    (horacle : C.CheckValidity [Exp] = .SOLVE_INVALID) :
    ∃ s', ExpressionCallBack C Exp Ty ExpansionTypeID EnumeratorIndex s
        = .ret (if s.Opts.NoDist then .NONE_STATUS else .STOP_ENUMERATION) s' ∧
      s'.ConcEval = some
        (({ ev with SigStore := (C.CheckConcreteValidity ev Exp Ty ExpansionTypeID 0).2.2 }
          : ConcreteEvaluator).AddPoint (C.GetConcreteModel [Exp])).ResetSigStore ∧
      s'.Trace = s.Trace ++ [.CheckValidity [Exp] .SOLVE_INVALID] ++
        (if s.Opts.StatsLevel ≥ 4 then [.GetConcreteModel [Exp]] else []) ++
        [.GetConcreteModel [Exp], .AddPoint ev.Id (C.GetConcreteModel [Exp]),
          .ResetSigStore ev.Id] ∧
      s'.Solutions = s.Solutions ∧
      s'.Complete = s.Complete ∧
      s'.Restart = (if s.Opts.NoDist then s.Restart else true) := by
  by_cases hst : s.Opts.StatsLevel ≥ 4 <;> by_cases hnd : s.Opts.NoDist = true <;>
    simp [ExpressionCallBack, hmode, hev, hconc, CheckSymbolicValidity, horacle,
      CEGSolver.log, hst, hnd]

/-- Claim C3: the theorem at a solver with `NoDist` clear, an evaluator that accepts the
candidate and an oracle that answers `SOLVE_INVALID`. -/
theorem ExpressionCallBack_invalid_adds_point_witness :
    (demoSolverCEG false [7]).TheMode = .CEG ∧
    ∃ s', ExpressionCallBack (demoCollaborators true 0 .SOLVE_INVALID) 5 0 0 0
          (demoSolverCEG false [7]) = .ret .STOP_ENUMERATION s' ∧
      s'.ConcEval = some { Id := 0, Points := [[42]], SigStore := [] } ∧
      s'.Restart = true := by
  obtain ⟨s', h1, h2, -, -, -, h6⟩ :=
    ExpressionCallBack_invalid_adds_point (demoCollaborators true 0 .SOLVE_INVALID) 5 0 0 0
      (demoSolverCEG false [7]) { Id := 0, Points := [], SigStore := [] } rfl rfl rfl rfl
  exact ⟨rfl, s', h1, h2, h6⟩

/-- Claim C4.  In CEG mode the single-function `ExpressionCallBack` returns
`DELETE_EXPRESSION` if and only if the evaluator reports the candidate concretely invalid
and the `CONCRETE_EVAL_DIST` bit is clear in the returned flags; in that case no
collaborator call is recorded (the oracle is not queried, no point is added), the
evaluator's points are as before, and `Solutions`, `Complete`, `Restart` and
`NumDistExpressions` are unchanged. -/
theorem ExpressionCallBack_delete_iff (C : Collaborators)
    (Exp : GenExpressionBase) (Ty : ESFixedTypeBase) (ExpansionTypeID EnumeratorIndex : Nat)
    (s : CEGSolver) (ev : ConcreteEvaluator)
    (hmode : s.TheMode = .CEG) (hev : s.ConcEval = some ev) :
    ((ExpressionCallBack C Exp Ty ExpansionTypeID EnumeratorIndex s).val?
        = some .DELETE_EXPRESSION ↔
      ((C.CheckConcreteValidity ev Exp Ty ExpansionTypeID 0).1 = false ∧
        (C.CheckConcreteValidity ev Exp Ty ExpansionTypeID 0).2.1 &&& C.CONCRETE_EVAL_DIST
          = 0)) ∧
    ((ExpressionCallBack C Exp Ty ExpansionTypeID EnumeratorIndex s).val?
        = some .DELETE_EXPRESSION →
      (ExpressionCallBack C Exp Ty ExpansionTypeID EnumeratorIndex s).state.Trace = s.Trace ∧
      (ExpressionCallBack C Exp Ty ExpansionTypeID EnumeratorIndex s).state.ConcEval.map
        (fun e => e.Points) = some ev.Points ∧
      (ExpressionCallBack C Exp Ty ExpansionTypeID EnumeratorIndex s).state.Solutions
        = s.Solutions ∧
      (ExpressionCallBack C Exp Ty ExpansionTypeID EnumeratorIndex s).state.Complete
        = s.Complete ∧
      (ExpressionCallBack C Exp Ty ExpansionTypeID EnumeratorIndex s).state.Restart
        = s.Restart ∧
      (ExpressionCallBack C Exp Ty ExpansionTypeID EnumeratorIndex s).state.NumDistExpressions
        = s.NumDistExpressions) := by
  rcases hv : (C.CheckConcreteValidity ev Exp Ty ExpansionTypeID 0).1 with _ | _
  · by_cases hd : (C.CheckConcreteValidity ev Exp Ty ExpansionTypeID 0).2.1 &&&
        C.CONCRETE_EVAL_DIST = 0
    · simp [ExpressionCallBack, hmode, hev, hv, hd, Outcome.val?, Outcome.state]
    · simp [ExpressionCallBack, hmode, hev, hv, hd, Outcome.val?, Outcome.state]
  · rcases ho : C.CheckValidity [Exp] with _ | _ | code
    · rcases hf : s.SynthFuncs[0]? with _ | f <;>
        simp [ExpressionCallBack, hmode, hev, hv, CheckSymbolicValidity, ho, hf,
          CEGSolver.log, Outcome.val?, Outcome.state]
    · by_cases hst : s.Opts.StatsLevel ≥ 4 <;> by_cases hnd : s.Opts.NoDist = true <;>
        simp [ExpressionCallBack, hmode, hev, hv, CheckSymbolicValidity, ho,
          CEGSolver.log, hst, hnd, Outcome.val?, Outcome.state]
    · simp [ExpressionCallBack, hmode, hev, hv, CheckSymbolicValidity, ho,
          CEGSolver.log, Outcome.val?, Outcome.state]

/-- Claim C4: the theorem at an evaluator that reports the candidate invalid with no
flag set. -/
theorem ExpressionCallBack_delete_iff_witness :
    (ExpressionCallBack (demoCollaborators false 0 .SOLVE_VALID) 5 0 0 0
        (demoSolverCEG false [7])).val? = some .DELETE_EXPRESSION :=
  (ExpressionCallBack_delete_iff (demoCollaborators false 0 .SOLVE_VALID) 5 0 0 0
    (demoSolverCEG false [7]) { Id := 0, Points := [], SigStore := [] } rfl rfl).1.mpr
    ⟨rfl, rfl⟩

/-- Claim C5.  `CheckSymbolicValidity` returns `true` exactly when the oracle answers
`SOLVE_VALID`, returns `false` exactly when it answers `SOLVE_INVALID`, and throws
`Z3Exception` for every other oracle result.  When that exception leaves a CEG callback,
single-function or tuple, no solution has been recorded, no point has been added (the
evaluator's points are as before and the trace holds only the resource probe of the tuple
callback and the oracle query), and `Complete` and `Restart` are unchanged. -/
theorem CheckSymbolicValidity_unknown_is_fatal (C : Collaborators) :
    (∀ (Exps : List GenExpressionBase) (s : CEGSolver),
      ((CheckSymbolicValidity C Exps s).val? = some true ↔
        C.CheckValidity Exps = .SOLVE_VALID) ∧
      ((CheckSymbolicValidity C Exps s).val? = some false ↔
        C.CheckValidity Exps = .SOLVE_INVALID) ∧
      ((∃ s', CheckSymbolicValidity C Exps s = .throw .Z3Exception s') ↔
        (C.CheckValidity Exps ≠ .SOLVE_VALID ∧ C.CheckValidity Exps ≠ .SOLVE_INVALID))) ∧
    (∀ (Exp : GenExpressionBase) (Ty : ESFixedTypeBase) (ExpansionTypeID EnumeratorIndex : Nat)
        (s s' : CEGSolver), s.TheMode = .CEG →
      ExpressionCallBack C Exp Ty ExpansionTypeID EnumeratorIndex s = .throw .Z3Exception s' →
        s'.Solutions = s.Solutions ∧
        s'.ConcEval.map (fun e => e.Points) = s.ConcEval.map (fun e => e.Points) ∧
        s'.Trace = s.Trace ++ [.CheckValidity [Exp] (C.CheckValidity [Exp])] ∧
        s'.Complete = s.Complete ∧ s'.Restart = s.Restart) ∧
    (∀ (Exps : Nat → GenExpressionBase) (Types : Nat → ESFixedTypeBase)
        (ExpansionTypeIDs : Nat → Nat) (s s' : CEGSolver),
      ExpressionCallBackTuple C Exps Types ExpansionTypeIDs s = .throw .Z3Exception s' →
        s'.Solutions = s.Solutions ∧
        s'.ConcEval.map (fun e => e.Points) = s.ConcEval.map (fun e => e.Points) ∧
        s'.Trace = s.Trace ++ [.CheckResourceLimits,
          .CheckValidity ((List.range s.SynthFuncs.length).map Exps)
            (C.CheckValidity ((List.range s.SynthFuncs.length).map Exps))] ∧
        s'.Complete = s.Complete ∧ s'.Restart = s.Restart) := by
  refine ⟨?_, ?_, ?_⟩
  · intro Exps s
    rcases ho : C.CheckValidity Exps with _ | _ | code
    · simp [CheckSymbolicValidity, ho, Outcome.val?]
    · by_cases hst : s.Opts.StatsLevel ≥ 4 <;>
        simp [CheckSymbolicValidity, ho, Outcome.val?, CEGSolver.log, hst]
    · simp [CheckSymbolicValidity, ho, Outcome.val?]
  · intro Exp Ty ExpansionTypeID EnumeratorIndex s s' hmode
    rcases hev : s.ConcEval with _ | ev
    · simp [ExpressionCallBack, hmode, hev]
    rcases hv : (C.CheckConcreteValidity ev Exp Ty ExpansionTypeID 0).1 with _ | _
    · by_cases hd : (C.CheckConcreteValidity ev Exp Ty ExpansionTypeID 0).2.1 &&&
          C.CONCRETE_EVAL_DIST = 0 <;>
        simp [ExpressionCallBack, hmode, hev, hv, hd]
    · rcases ho : C.CheckValidity [Exp] with _ | _ | code
      · rcases hf : s.SynthFuncs[0]? with _ | f <;>
          simp [ExpressionCallBack, hmode, hev, hv, CheckSymbolicValidity, ho, hf,
            CEGSolver.log]
      · by_cases hst : s.Opts.StatsLevel ≥ 4 <;> by_cases hnd : s.Opts.NoDist = true <;>
          simp [ExpressionCallBack, hmode, hev, hv, CheckSymbolicValidity, ho,
            CEGSolver.log, hst, hnd]
      · simp only [ExpressionCallBack, hmode, hev, hv, CheckSymbolicValidity, ho,
            CEGSolver.log]
        simp
        rintro rfl
        simp
  · intro Exps Types ExpansionTypeIDs s s'
    by_cases hr : C.ResourceLimitExceeded s.Trace = true
    · simp [ExpressionCallBackTuple, CheckResourceLimits, hr, CEGSolver.log]
    rcases hev : s.ConcEval with _ | ev
    · simp [ExpressionCallBackTuple, CheckResourceLimits, hr, CEGSolver.log, hev]
    rcases hv : (C.CheckConcreteValidityTuple ev ((List.range s.SynthFuncs.length).map Exps)
      ((List.range s.SynthFuncs.length).map Types)
      ((List.range s.SynthFuncs.length).map ExpansionTypeIDs)).1 with _ | _
    · simp [ExpressionCallBackTuple, CheckResourceLimits, hr, CEGSolver.log, hev, hv]
    · rcases ho : C.CheckValidity ((List.range s.SynthFuncs.length).map Exps) with _ | _ | code
      · simp [ExpressionCallBackTuple, CheckResourceLimits, hr, CEGSolver.log, hev, hv,
          CheckSymbolicValidity, ho]
      · by_cases hst : s.Opts.StatsLevel ≥ 4 <;>
          simp [ExpressionCallBackTuple, CheckResourceLimits, hr, CEGSolver.log, hev, hv,
            CheckSymbolicValidity, ho, hst]
      · simp [ExpressionCallBackTuple, CheckResourceLimits, hr, CEGSolver.log, hev, hv,
          CheckSymbolicValidity, ho]
        rintro rfl
        simp

/-- Claim C5: the theorem at a single-function callback whose oracle answers neither
valid nor invalid. -/
theorem CheckSymbolicValidity_unknown_is_fatal_witness :
    (ExpressionCallBack (demoCollaborators true 0 (.SOLVE_UNKNOWN 3)) 5 0 0 0
        (demoSolverCEG false [7])).state.Solutions = (demoSolverCEG false [7]).Solutions ∧
    (ExpressionCallBack (demoCollaborators true 0 (.SOLVE_UNKNOWN 3)) 5 0 0 0
        (demoSolverCEG false [7])).state.Complete = (demoSolverCEG false [7]).Complete :=
  have h := (CheckSymbolicValidity_unknown_is_fatal
    (demoCollaborators true 0 (.SOLVE_UNKNOWN 3))).2.1 5 0 0 0 (demoSolverCEG false [7])
    (ExpressionCallBack (demoCollaborators true 0 (.SOLVE_UNKNOWN 3)) 5 0 0 0
        (demoSolverCEG false [7])).state rfl rfl
  ⟨h.1, h.2.2.2.1⟩

/-- Claim C6 fails at `Opts.CostBudget = 4294967295`.  The loop counter of `Solve` is a
`uint32`, so `i <= Opts.CostBudget` holds for every value of the counter and `++i` wraps
to zero.  With an evaluator that rejects every candidate as indistinguishable (so that no
callback ever sets `Complete` or `Restart`), `Solve` never returns: however many rounds
are followed, the loop is still running, with no restart made and no solution
recorded. -/
theorem Solve_never_returns_at_max_budget :
    ∀ fuel : Nat, ∃ s',
      Solve (demoCollaborators false 0 .SOLVE_INVALID) demoInputCEG fuel
          (freshSolver { StatsLevel := 0, NoDist := false, CostBudget := 4294967295 })
        = .throw .LoopBoundExceeded s' ∧
      s'.Complete = false ∧ s'.Restart = false ∧ s'.Solutions = [] ∧
      ResetCount s'.Trace = 0 := by
  intro fuel
  have hsetup : ∃ s1, SolveSetup (demoCollaborators false 0 .SOLVE_INVALID) demoInputCEG
      (freshSolver { StatsLevel := 0, NoDist := false, CostBudget := 4294967295 })
      = .ret () s1 ∧ StuckAtMaxBudget (s1.log .PreSolve) ∧ s1.SynthFuncs = [7] := by
    refine ⟨_, rfl, ?_, rfl⟩
    refine ⟨rfl, ⟨_, rfl⟩, rfl, rfl, rfl, ⟨_, rfl⟩, rfl, ?_⟩
    decide
  obtain ⟨s1, h1, hstuck, hf⟩ := hsetup
  cases fuel with
  | zero =>
    obtain ⟨-, -, hc, hr, -, -, hsol, hrc⟩ := hstuck
    exact ⟨s1.log .PreSolve, by simp [Solve, h1, SolveDoWhile], hc, hr, hsol, hrc⟩
  | succ f =>
    have hstuck' : StuckAtMaxBudget { (s1.log .PreSolve) with Restart := false } := by
      obtain ⟨hm, hev, hc, -, hb, hen, hsol, hrc⟩ := hstuck
      exact ⟨hm, hev, hc, rfl, hb, hen, hsol, hrc⟩
    obtain ⟨s2, h2, -, -, hc, hr, -, -, hsol, hrc⟩ :=
      SolveForLoop_stuck .SOLVE_INVALID (f + 1) 1 0 _ hstuck' (by norm_num)
    refine ⟨s2, ?_, hc, hr, hsol, hrc⟩
    have he : SolveEnumerator (demoCollaborators false 0 .SOLVE_INVALID) 1
        = (demoCollaborators false 0 .SOLVE_INVALID).EnumeratorSingle := rfl
    simp only [Solve, h1, hf, SolveDoWhile, List.length_singleton,
      Nat.one_mod_two_pow_eq_one]
    simp [he, h2]

/-- Claim C7.  Take a round of the `for` loop of `Solve`: the counter `i` is within the
budget, `Complete` is clear, and the `EnumerateOfCost(i)` call returns the solver `s1`
with `Complete` still clear.  If `Restart` is set in `s1`, the loop resets the enumerator
once, adds one to the restart count and ends the pass there; the `do`-`while` then goes
round again, and the next collaborator calls are that one `Reset` followed by
`EnumerateOfCost(NumSynthFuncs)`.  If `Restart` is clear in `s1`, the loop goes on with
the counter `i + 1`, and when that is within the budget (a `uint32`) the next call is
`EnumerateOfCost(i + 1)`. -/
theorem Solve_loop_restart_or_next_cost (C : Collaborators) (E : CFGEnumerator)
    (N fuel i n : Nat) (s s1 : CEGSolver) (st : Nat)
    (hB : s.Opts.CostBudget < 2 ^ 32)
    (hi : i ≤ s.Opts.CostBudget) (hc : s.Complete = false)
    (he : s.ExpEnumerator = some st)
    (hrun : RunEnumeration C (E.EnumerateOfCost st i) (s.log (.EnumerateOfCost i))
      = .ret () s1)
    (hc1 : s1.Complete = false) :
    (s1.Restart = true →
      SolveForLoop C E (fuel + 1) i n s = .ret (n + 1)
        ({ s1 with ExpEnumerator := s1.ExpEnumerator.map E.Reset }.log .EnumeratorReset) ∧
      (∀ (s0 : CEGSolver) (n0 : Nat),
        SolveForLoop C E (fuel + 1) N n0 { s0 with Restart := false } = .ret (n + 1)
          ({ s1 with ExpEnumerator := s1.ExpEnumerator.map E.Reset }.log .EnumeratorReset) →
        SolveDoWhile C E N (fuel + 1) n0 s0 = SolveDoWhile C E N fuel (n + 1)
          ({ s1 with ExpEnumerator := s1.ExpEnumerator.map E.Reset }.log .EnumeratorReset)) ∧
      (N ≤ s.Opts.CostBudget → ∀ fuel' : Nat, ∃ t,
        (SolveDoWhile C E N (fuel' + 1) (n + 1)
          ({ s1 with ExpEnumerator := s1.ExpEnumerator.map E.Reset }.log
            .EnumeratorReset)).state.Trace
          = s1.Trace ++ .EnumeratorReset :: .EnumerateOfCost N :: t)) ∧
    (s1.Restart = false →
      SolveForLoop C E (fuel + 1) i n s = SolveForLoop C E fuel ((i + 1) % 2 ^ 32) n s1 ∧
      (i + 1 ≤ s.Opts.CostBudget → ∀ fuel' : Nat, ∃ t,
        (SolveForLoop C E (fuel' + 1) ((i + 1) % 2 ^ 32) n s1).state.Trace
          = s1.Trace ++ .EnumerateOfCost (i + 1) :: t)) :=
  ⟨fun hr => SolveForLoop_restart_step C E N fuel i n s s1 st hi hc he hrun hc1 hr,
    fun hr => SolveForLoop_next_step C E fuel i n s s1 st hB hi hc he hrun hc1 hr⟩

/-- Claim C7: the theorem at a round that ends with a counter-example (restart) and at a
round in which the candidate is rejected (next cost). -/
theorem Solve_loop_restart_or_next_cost_witness :
    SolveForLoop (demoCollaborators true 0 .SOLVE_INVALID)
        (demoCollaborators true 0 .SOLVE_INVALID).EnumeratorSingle 1 1 0
        (demoSolverCEG false [7])
      = .ret 1 ({ (RunEnumeration (demoCollaborators true 0 .SOLVE_INVALID)
          ((demoCollaborators true 0 .SOLVE_INVALID).EnumeratorSingle.EnumerateOfCost 0 1)
          ((demoSolverCEG false [7]).log (.EnumerateOfCost 1))).state with
            ExpEnumerator := some 0 }.log .EnumeratorReset) ∧
    SolveForLoop (demoCollaborators false 1 .SOLVE_INVALID)
        (demoCollaborators false 1 .SOLVE_INVALID).EnumeratorSingle 1 1 0
        (demoSolverCEG false [7])
      = SolveForLoop (demoCollaborators false 1 .SOLVE_INVALID)
        (demoCollaborators false 1 .SOLVE_INVALID).EnumeratorSingle 0 2 0
        (RunEnumeration (demoCollaborators false 1 .SOLVE_INVALID)
          ((demoCollaborators false 1 .SOLVE_INVALID).EnumeratorSingle.EnumerateOfCost 0 1)
          ((demoSolverCEG false [7]).log (.EnumerateOfCost 1))).state :=
  ⟨((Solve_loop_restart_or_next_cost (demoCollaborators true 0 .SOLVE_INVALID)
      (demoCollaborators true 0 .SOLVE_INVALID).EnumeratorSingle 1 0 1 0
      (demoSolverCEG false [7])
      (RunEnumeration (demoCollaborators true 0 .SOLVE_INVALID)
          ((demoCollaborators true 0 .SOLVE_INVALID).EnumeratorSingle.EnumerateOfCost 0 1)
          ((demoSolverCEG false [7]).log (.EnumerateOfCost 1))).state
      0 (by decide) (by decide) rfl rfl rfl rfl).1 rfl).1,
   ((Solve_loop_restart_or_next_cost (demoCollaborators false 1 .SOLVE_INVALID)
      (demoCollaborators false 1 .SOLVE_INVALID).EnumeratorSingle 1 0 1 0
      (demoSolverCEG false [7])
      (RunEnumeration (demoCollaborators false 1 .SOLVE_INVALID)
          ((demoCollaborators false 1 .SOLVE_INVALID).EnumeratorSingle.EnumerateOfCost 0 1)
          ((demoSolverCEG false [7]).log (.EnumerateOfCost 1))).state
      0 (by decide) (by decide) rfl rfl rfl rfl).2 rfl).1⟩

/-- Claim C8, amended to the single-function callback.  In CEG mode with `NoDist` clear,
when the candidate is concretely valid and the oracle answers `SOLVE_INVALID`, the
single-function `ExpressionCallBack` returns `STOP_ENUMERATION` with `Restart` set, and the
evaluator then holds every earlier point and the counter-example (one point more when the
counter-example is new).  When the enumerator ends the `EnumerateOfCost` call on that
verdict, `Solve` resets the enumerator, and its next call is
`EnumerateOfCost(NumSynthFuncs)`, made with that evaluator. -/
theorem ExpressionCallBack_counterexample_restarts (C : Collaborators)
    (Exp : GenExpressionBase) (Ty : ESFixedTypeBase) (ExpansionTypeID EnumeratorIndex : Nat)
    (s : CEGSolver) (ev : ConcreteEvaluator)
    (E : CFGEnumerator) (N fuel i n : Nat) (sa : CEGSolver) (st st' : Nat)
    (hmode : s.TheMode = .CEG) (hev : s.ConcEval = some ev)
    (hconc : (C.CheckConcreteValidity ev Exp Ty ExpansionTypeID 0).1 = true)
    (horacle : C.CheckValidity [Exp] = .SOLVE_INVALID)
    (hnd : s.Opts.NoDist = false) (hcomplete : s.Complete = false)
    (hi : i ≤ sa.Opts.CostBudget) (hN : N ≤ sa.Opts.CostBudget)
    (hca : sa.Complete = false) (he : sa.ExpEnumerator = some st)
    (hrun : RunEnumeration C (E.EnumerateOfCost st i) (sa.log (.EnumerateOfCost i))
      = .ret () { (ExpressionCallBack C Exp Ty ExpansionTypeID EnumeratorIndex s).state with
          ExpEnumerator := some st' }) :
    ∃ s' ev', ExpressionCallBack C Exp Ty ExpansionTypeID EnumeratorIndex s
        = .ret .STOP_ENUMERATION s' ∧
      s'.Restart = true ∧ s'.Complete = false ∧ s'.ConcEval = some ev' ∧
      (∀ q ∈ ev.Points, q ∈ ev'.Points) ∧ C.GetConcreteModel [Exp] ∈ ev'.Points ∧
      (C.GetConcreteModel [Exp] ∉ ev.Points → ev'.Points.length = ev.Points.length + 1) ∧
      SolveForLoop C E (fuel + 1) i n sa = .ret (n + 1)
        ({ s' with ExpEnumerator := some (E.Reset st') }.log .EnumeratorReset) ∧
      (∀ fuel' : Nat, ∃ t,
        (SolveDoWhile C E N (fuel' + 1) (n + 1)
          ({ s' with ExpEnumerator := some (E.Reset st') }.log .EnumeratorReset)).state.Trace
          = s'.Trace ++ .EnumeratorReset :: .EnumerateOfCost N :: t) := by
  have hcb : ∃ s', ExpressionCallBack C Exp Ty ExpansionTypeID EnumeratorIndex s
      = .ret .STOP_ENUMERATION s' ∧ s'.Restart = true ∧ s'.Complete = false ∧
      s'.ConcEval = some
        (({ ev with SigStore := (C.CheckConcreteValidity ev Exp Ty ExpansionTypeID 0).2.2 }
          : ConcreteEvaluator).AddPoint (C.GetConcreteModel [Exp])).ResetSigStore := by
    by_cases hst : s.Opts.StatsLevel ≥ 4 <;>
      simp [ExpressionCallBack, hmode, hev, hconc, CheckSymbolicValidity, horacle,
        CEGSolver.log, hst, hnd, hcomplete]
  obtain ⟨s', h1, h2, h3, h4⟩ := hcb
  rw [h1] at hrun
  obtain ⟨p1, p2, p3, -⟩ := AddPoint_points
    ({ ev with SigStore := (C.CheckConcreteValidity ev Exp Ty ExpansionTypeID 0).2.2 })
    (C.GetConcreteModel [Exp])
  obtain ⟨g1, -, g3⟩ := SolveForLoop_restart_step C E N fuel i n sa
    { s' with ExpEnumerator := some st' } st hi hca he hrun h3 h2
  refine ⟨s', _, h1, h2, h3, h4, p1, p2, p3, by simpa using g1, ?_⟩
  intro fuel'
  obtain ⟨t, ht⟩ := g3 hN fuel'
  exact ⟨t, by simpa using ht⟩

/-- Claim C8, amended: the theorem at the first round of a single-function solve whose
candidate the oracle refutes. -/
theorem ExpressionCallBack_counterexample_restarts_witness :
    ∃ s' ev', ExpressionCallBack (demoCollaborators true 0 .SOLVE_INVALID) 5 0 0 0
          ((demoSolverCEG false [7]).log (.EnumerateOfCost 1))
        = .ret .STOP_ENUMERATION s' ∧
      s'.Restart = true ∧ s'.ConcEval = some ev' ∧ [42] ∈ ev'.Points ∧
      SolveForLoop (demoCollaborators true 0 .SOLVE_INVALID)
          (demoCollaborators true 0 .SOLVE_INVALID).EnumeratorSingle 1 1 0
          (demoSolverCEG false [7])
        = .ret 1 ({ s' with ExpEnumerator := some 0 }.log .EnumeratorReset) := by
  obtain ⟨s', ev', h1, h2, -, h4, -, h6, -, h8, -⟩ :=
    ExpressionCallBack_counterexample_restarts (demoCollaborators true 0 .SOLVE_INVALID)
      5 0 0 0 ((demoSolverCEG false [7]).log (.EnumerateOfCost 1))
      { Id := 0, Points := [], SigStore := [] }
      (demoCollaborators true 0 .SOLVE_INVALID).EnumeratorSingle 1 0 1 0
      (demoSolverCEG false [7]) 0 0 rfl rfl rfl rfl rfl rfl (by decide) (by decide) rfl rfl rfl
  exact ⟨s', ev', h1, h2, h4, h6, h8⟩

/-- Claim C8 as stated fails for the tuple callback.  With `NoDist` clear, a concretely
valid tuple and an oracle that answers `SOLVE_INVALID`, the tuple `ExpressionCallBack`
adds the counter-example `[42]` to the evaluator, leaves `Restart` clear and returns
`NONE_STATUS`; in the solve for two synth functions with budget 3 the calls are
`EnumerateOfCost(2)` and then `EnumerateOfCost(3)`, with the point added in between and
no enumerator reset. -/
theorem ExpressionCallBackTuple_adds_point_without_restart :
    (ExpressionCallBackTuple (demoCollaborators true 0 .SOLVE_INVALID)
        (fun i => 5 + i) (fun _ => 0) (fun _ => 0) (demoSolverCEG false [7, 8])).val?
      = some .NONE_STATUS ∧
    (ExpressionCallBackTuple (demoCollaborators true 0 .SOLVE_INVALID)
        (fun i => 5 + i) (fun _ => 0) (fun _ => 0) (demoSolverCEG false [7, 8])).state.Restart
      = false ∧
    (ExpressionCallBackTuple (demoCollaborators true 0 .SOLVE_INVALID)
        (fun i => 5 + i) (fun _ => 0) (fun _ => 0) (demoSolverCEG false [7, 8])).state.ConcEval
      = some { Id := 0, Points := [[42]], SigStore := [] } ∧
    (demoSolverCEG false [7, 8]).Opts.NoDist = false ∧
    (demoSolverCEG false [7, 8]).ConcEval = some { Id := 0, Points := [], SigStore := [] } ∧
    EnumCosts (Solve (demoCollaborators true 0 .SOLVE_INVALID) demoInputCEG2 5
        (freshSolver { StatsLevel := 0, NoDist := false, CostBudget := 3 })).state.Trace
      = [2, 3] ∧
    ResetCount (Solve (demoCollaborators true 0 .SOLVE_INVALID) demoInputCEG2 5
        (freshSolver { StatsLevel := 0, NoDist := false, CostBudget := 3 })).state.Trace = 0 ∧
    Event.AddPoint 0 [42] ∈ (Solve (demoCollaborators true 0 .SOLVE_INVALID) demoInputCEG2 5
        (freshSolver { StatsLevel := 0, NoDist := false, CostBudget := 3 })).state.Trace := by
  decide

/-- Claim C9, amended to CEG mode for the origin of the solution.  Assume the enumerator
ends an `EnumerateOfCost` call as soon as a callback returns `STOP_ENUMERATION`.  Then a
returning `Solve` returns the empty map with `Complete` clear, or a map with exactly one
solution with `Complete` set; in CEG mode that solution pairs the synth functions with the
expressions of the first oracle query of the solve answered `SOLVE_VALID`, which is also
the last query made.  And in any mode, once an `EnumerateOfCost` call returns with
`Complete` set, the `for` loop and the `do`-`while` loop end without a further
`EnumerateOfCost` call and with `Solutions` as that call left them. -/
theorem Solve_first_valid_candidate_wins (C : Collaborators) (inp : SolveInput)
    (fuel : Nat) (s s' : CEGSolver) (sols : List (List (SynthFuncOperator × Expression)))
    (hstop : ∀ st cost,
      StopsOnStop ((SolveEnumerator C (inp.SFSet.length % 2 ^ 32)).EnumerateOfCost st cost))
    (h : Solve C inp fuel s = .ret sols s') :
    ((s'.Complete = false ∧ sols = []) ∨
      (s'.Complete = true ∧ ∃ sol, sols = [sol] ∧
        (s'.TheMode = .CEG → ∃ t Exps pre, s'.Trace = s.Trace ++ t ∧
          OracleQueries t = pre ++ [(Exps, SolveStatus.SOLVE_VALID)] ∧
          (∀ q ∈ pre, q.2 ≠ SolveStatus.SOLVE_VALID) ∧
          C.CheckValidity Exps = .SOLVE_VALID ∧
          sol = List.zip inp.SFSet (Exps.map C.ToUserExpression)))) ∧
    (∀ (E : CFGEnumerator) (N fuel' i n : Nat) (sa s1 : CEGSolver) (st : Nat),
      i ≤ sa.Opts.CostBudget → sa.Complete = false → sa.ExpEnumerator = some st →
      RunEnumeration C (E.EnumerateOfCost st i) (sa.log (.EnumerateOfCost i)) = .ret () s1 →
      s1.Complete = true →
      ∃ n' sf, SolveForLoop C E (fuel' + 2) i n sa = .ret n' sf ∧ sf.Complete = true ∧
        sf.Solutions = s1.Solutions ∧ EnumCosts sf.Trace = EnumCosts s1.Trace ∧
        ∀ (s0 : CEGSolver) (n0 : Nat),
          SolveForLoop C E (fuel' + 2) N n0 { s0 with Restart := false } = .ret n' sf →
          SolveDoWhile C E N (fuel' + 2) n0 s0 = .ret n' sf) := by
  constructor
  · simp only [Solve] at h
    split at h
    · cases h
    · rename_i u s1 hsetup
      obtain ⟨hsol, hc, hf, -, t0, ht0, hq0, -, -⟩ := SolveSetup_ret C inp s s1 u hsetup
      split at h
      · cases h
      · rename_i n2 s2 hloop
        split at h
        · cases h
        rename_i u3 s3 hstat
        obtain rfl := SolveStatistics_ret _ _ _ hstat
        simp only [Outcome.ret.injEq] at h
        obtain ⟨rfl, rfl⟩ := h
        rw [hf] at hloop
        rcases SolveDoWhile_pending_or_finished C _ _ hstop _ _ _ _ _ hloop with hp | hfin
        · obtain ⟨-, -, c2, sol2, -⟩ := hp
          exact Or.inl ⟨by simpa [EndSolve, CEGSolver.log, hc] using c2,
            by simpa [EndSolve, CEGSolver.log, hsol] using sol2⟩
        · obtain ⟨m2, f2, c2, t, sol, ht, hs2, hq⟩ := hfin
          refine Or.inr ⟨by simpa [EndSolve, CEGSolver.log] using c2, sol,
            by simpa [EndSolve, CEGSolver.log, hsol] using hs2, ?_⟩
          intro hmode
          have hmode1 : (s1.log .PreSolve).TheMode = .CEG := by
            rw [← m2]; simpa [EndSolve, CEGSolver.log] using hmode
          obtain ⟨Exps, pre, h1, h2, h3, h4⟩ := hq hmode1
          refine ⟨t0 ++ [.PreSolve] ++ t ++ [.PostSolve, .EndSolve], Exps, pre, ?_, ?_, h2, h3,
            by simpa [CEGSolver.log, hf] using h4⟩
          · simp [EndSolve, CEGSolver.log, ht, ht0]
          · simp [OracleQueries_append, hq0, h1, OracleQueries]
  · intro E N fuel' i n sa s1 st hi hc he hrun hc1
    by_cases hr : s1.Restart = true
    · refine ⟨n + 1, { s1 with ExpEnumerator := s1.ExpEnumerator.map E.Reset }.log
          .EnumeratorReset, by simp [SolveForLoop, hi, hc, he, hrun, hr],
        by simpa [CEGSolver.log] using hc1, rfl,
        by simp [CEGSolver.log, EnumCosts_append, EnumCosts], ?_⟩
      intro s0 n0 hpass
      simp [SolveDoWhile, hpass, CEGSolver.log, hc1]
    · refine ⟨n, s1, ?_, hc1, rfl, rfl, ?_⟩
      · have := SolveForLoop_complete C E fuel' ((i + 1) % 2 ^ 32) n s1 hc1
        simp only [SolveForLoop, hi, hc, he, hrun, hr] at this ⊢
        simpa using this
      · intro s0 n0 hpass
        simp [SolveDoWhile, hpass, hc1]

/-- Claim C9, amended: the theorem at a CEG solve whose first candidate the oracle
accepts. -/
theorem Solve_first_valid_candidate_wins_witness :
    (Solve (demoCollaborators true 0 .SOLVE_VALID) demoInputCEG 2
        (freshSolver { StatsLevel := 0, NoDist := false, CostBudget := 3 })).state.Complete
      = true ∧
    ∃ sol, [[((7 : SynthFuncOperator), (105 : Expression))]] = [sol] := by
  have h := (Solve_first_valid_candidate_wins (demoCollaborators true 0 .SOLVE_VALID)
    demoInputCEG 2 (freshSolver { StatsLevel := 0, NoDist := false, CostBudget := 3 })
    (Solve (demoCollaborators true 0 .SOLVE_VALID) demoInputCEG 2
      (freshSolver { StatsLevel := 0, NoDist := false, CostBudget := 3 })).state
    [[(7, 105)]] (fun st _ => ⟨⟨st, rfl⟩, fun _ => trivial⟩) rfl).1
  rcases h with ⟨_, h⟩ | ⟨h1, sol, h2, _⟩
  · cases h
  · exact ⟨h1, sol, h2⟩

/-- Claim C9 as stated fails in PBE mode.  On a constraint of PBE shape with two examples
that one candidate covers, a callback sets `Complete` and `Solve` returns one solution,
but no candidate was ever submitted to the oracle (which in this run would not even
decide the query). -/
theorem Solve_PBE_winner_never_oracle_checked :
    (Solve (demoCollaborators true 0 (.SOLVE_UNKNOWN 0)) demoInputPBE2 2
        (freshSolver { StatsLevel := 0, NoDist := false, CostBudget := 3 })).val?
      = some [[(7, 105)]] ∧
    (Solve (demoCollaborators true 0 (.SOLVE_UNKNOWN 0)) demoInputPBE2 2
        (freshSolver { StatsLevel := 0, NoDist := false, CostBudget := 3 })).state.Complete
      = true ∧
    OracleQueries (Solve (demoCollaborators true 0 (.SOLVE_UNKNOWN 0)) demoInputPBE2 2
        (freshSolver { StatsLevel := 0, NoDist := false, CostBudget := 3 })).state.Trace
      = [] := by
  decide

/-- Claim C10.  The tuple `ExpressionCallBack` never returns `DELETE_EXPRESSION` and
never changes `Restart`, whatever the input and the setting of `NoDist`.  It returns
`STOP_ENUMERATION` exactly when the resource probe passes, the evaluator exists and
reports the tuple concretely valid, and the oracle answers `SOLVE_VALID`; it then sets
`Complete` and appends one solution with exactly `SynthFuncs.size()` pairs, the pair at
index `i` being (`SynthFuncs[i]`, user expression of `Exps[i]`).  Whenever it returns
anything else, it returns `NONE_STATUS`. -/
theorem ExpressionCallBackTuple_never_deletes_or_restarts (C : Collaborators)
    (Exps : Nat → GenExpressionBase) (Types : Nat → ESFixedTypeBase)
    (ExpansionTypeIDs : Nat → Nat) (s : CEGSolver) :
    (ExpressionCallBackTuple C Exps Types ExpansionTypeIDs s).val?
      ≠ some .DELETE_EXPRESSION ∧
    (ExpressionCallBackTuple C Exps Types ExpansionTypeIDs s).state.Restart = s.Restart ∧
    ((ExpressionCallBackTuple C Exps Types ExpansionTypeIDs s).val?
        = some .STOP_ENUMERATION ↔
      (C.ResourceLimitExceeded s.Trace = false ∧
        ∃ ev, s.ConcEval = some ev ∧
          (C.CheckConcreteValidityTuple ev ((List.range s.SynthFuncs.length).map Exps)
            ((List.range s.SynthFuncs.length).map Types)
            ((List.range s.SynthFuncs.length).map ExpansionTypeIDs)).1 = true ∧
          C.CheckValidity ((List.range s.SynthFuncs.length).map Exps) = .SOLVE_VALID)) ∧
    ((ExpressionCallBackTuple C Exps Types ExpansionTypeIDs s).val?
        = some .STOP_ENUMERATION →
      (ExpressionCallBackTuple C Exps Types ExpansionTypeIDs s).state.Complete = true ∧
      ∃ sol, (ExpressionCallBackTuple C Exps Types ExpansionTypeIDs s).state.Solutions
          = s.Solutions ++ [sol] ∧
        sol.length = s.SynthFuncs.length ∧
        ∀ i f, s.SynthFuncs[i]? = some f →
          sol[i]? = some (f, C.ToUserExpression (Exps i))) ∧
    (∀ st, (ExpressionCallBackTuple C Exps Types ExpansionTypeIDs s).val? = some st →
      st ≠ .STOP_ENUMERATION → st = .NONE_STATUS) := by
  by_cases hr : C.ResourceLimitExceeded s.Trace = true
  · simp [ExpressionCallBackTuple, CheckResourceLimits, hr, CEGSolver.log, Outcome.val?,
      Outcome.state]
  rcases hev : s.ConcEval with _ | ev
  · simp [ExpressionCallBackTuple, CheckResourceLimits, hr, CEGSolver.log, hev, Outcome.val?,
      Outcome.state]
  rcases hv : (C.CheckConcreteValidityTuple ev ((List.range s.SynthFuncs.length).map Exps)
    ((List.range s.SynthFuncs.length).map Types)
    ((List.range s.SynthFuncs.length).map ExpansionTypeIDs)).1 with _ | _
  · simp [ExpressionCallBackTuple, CheckResourceLimits, hr, CEGSolver.log, hev, hv,
      Outcome.val?, Outcome.state]
  · rcases ho : C.CheckValidity ((List.range s.SynthFuncs.length).map Exps) with _ | _ | code
    · simp [ExpressionCallBackTuple, CheckResourceLimits, hr, CEGSolver.log, hev, hv,
        CheckSymbolicValidity, ho, Outcome.val?, Outcome.state]
      intro i f hi
      have hlt : i < s.SynthFuncs.length := by
        rcases List.getElem?_eq_some.mp hi with ⟨h, _⟩
        exact h
      simp [hlt, List.getD_eq_getElem?_getD, hi]
    · by_cases hst : s.Opts.StatsLevel ≥ 4 <;>
        simp [ExpressionCallBackTuple, CheckResourceLimits, hr, CEGSolver.log, hev, hv,
          CheckSymbolicValidity, ho, hst, Outcome.val?, Outcome.state]
    · simp [ExpressionCallBackTuple, CheckResourceLimits, hr, CEGSolver.log, hev, hv,
        CheckSymbolicValidity, ho, Outcome.val?, Outcome.state]

/-- Claim C10: the theorem at a concretely valid tuple for two synth functions that the
oracle accepts, with `NoDist` set. -/
theorem ExpressionCallBackTuple_never_deletes_or_restarts_witness :
    (ExpressionCallBackTuple (demoCollaborators true 0 .SOLVE_VALID)
        (fun i => 5 + i) (fun _ => 0) (fun _ => 0) (demoSolverCEG true [7, 8])).val?
      = some .STOP_ENUMERATION :=
  (ExpressionCallBackTuple_never_deletes_or_restarts (demoCollaborators true 0 .SOLVE_VALID)
    (fun i => 5 + i) (fun _ => 0) (fun _ => 0) (demoSolverCEG true [7, 8])).2.2.1.mpr
    ⟨rfl, _, rfl, rfl, rfl⟩

/-- Claim C11, amended.  The value of `NoDist` does not change when the two callbacks
prune.  Whatever `NoDist` is set to, in CEG mode the single-function `ExpressionCallBack`
returns `DELETE_EXPRESSION` exactly when the evaluator reports the candidate concretely
invalid with the `CONCRETE_EVAL_DIST` bit clear, and `SubExpressionCallBack` returns
`DELETE_EXPRESSION` exactly when the resource probe passes and `CheckSubExpression`
reports the sub-expression not distinguishable.  So neither returns `DELETE_EXPRESSION`
for a candidate that the evaluator reports valid or distinguishable. -/
theorem Callbacks_delete_whatever_NoDist (C : Collaborators)
    (Exp : GenExpressionBase) (Ty : ESFixedTypeBase) (ExpansionTypeID EnumeratorIndex : Nat)
    (s : CEGSolver) (ev : ConcreteEvaluator) (NoDist : Bool)
    (hmode : s.TheMode = .CEG) (hev : s.ConcEval = some ev) :
    ((ExpressionCallBack C Exp Ty ExpansionTypeID EnumeratorIndex
          { s with Opts := { s.Opts with NoDist := NoDist } }).val?
        = some .DELETE_EXPRESSION ↔
      ((C.CheckConcreteValidity ev Exp Ty ExpansionTypeID 0).1 = false ∧
        (C.CheckConcreteValidity ev Exp Ty ExpansionTypeID 0).2.1 &&& C.CONCRETE_EVAL_DIST
          = 0)) ∧
    ((SubExpressionCallBack C Exp Ty ExpansionTypeID
          { s with Opts := { s.Opts with NoDist := NoDist } }).val?
        = some .DELETE_EXPRESSION ↔
      (C.ResourceLimitExceeded s.Trace = false ∧
        (C.CheckSubExpression ev s.PBEEvalPtrs Exp Ty ExpansionTypeID 0).1 = false)) := by
  constructor
  · rcases hv : (C.CheckConcreteValidity ev Exp Ty ExpansionTypeID 0).1 with _ | _
    · by_cases hd : (C.CheckConcreteValidity ev Exp Ty ExpansionTypeID 0).2.1 &&&
          C.CONCRETE_EVAL_DIST = 0
      · simp [ExpressionCallBack, hmode, hev, hv, hd, Outcome.val?]
      · simp [ExpressionCallBack, hmode, hev, hv, hd, Outcome.val?]
    · rcases ho : C.CheckValidity [Exp] with _ | _ | code
      · rcases hf : s.SynthFuncs[0]? with _ | f <;>
          simp [ExpressionCallBack, hmode, hev, hv, CheckSymbolicValidity, ho, hf,
            CEGSolver.log, Outcome.val?]
      · by_cases hst : s.Opts.StatsLevel ≥ 4 <;> rcases NoDist with _ | _ <;>
          simp [ExpressionCallBack, hmode, hev, hv, CheckSymbolicValidity, ho,
            CEGSolver.log, hst, Outcome.val?]
      · simp [ExpressionCallBack, hmode, hev, hv, CheckSymbolicValidity, ho,
            CEGSolver.log, Outcome.val?]
  · rcases hr : C.ResourceLimitExceeded s.Trace with _ | _
    · rcases hd : (C.CheckSubExpression ev s.PBEEvalPtrs Exp Ty ExpansionTypeID 0).1
        with _ | _ <;>
        simp [SubExpressionCallBack, CheckResourceLimits, hr, hev, hd, CEGSolver.log,
          Outcome.val?]
    · simp [SubExpressionCallBack, CheckResourceLimits, hr, CEGSolver.log, Outcome.val?]

/-- Claim C11, amended: the theorem at a solver with `NoDist` set and an evaluator that
reports the sub-expression not distinguishable. -/
theorem Callbacks_delete_whatever_NoDist_witness :
    (SubExpressionCallBack demoCollaboratorsIndist 5 0 0
        { demoSolverCEG false [7] with
          Opts := { (demoSolverCEG false [7]).Opts with NoDist := true } }).val?
      = some .DELETE_EXPRESSION :=
  (Callbacks_delete_whatever_NoDist demoCollaboratorsIndist 5 0 0 0
    (demoSolverCEG false [7]) { Id := 0, Points := [], SigStore := [] } true rfl rfl).2.mpr
    ⟨rfl, rfl⟩

/-- Claim C11 as stated fails.  With `NoDist` set and the solver in CEG mode, both
callbacks return `DELETE_EXPRESSION` for a candidate that the evaluator reports
concretely invalid with no flag set, respectively not distinguishable: the code of the
callbacks reads `Opts.NoDist` only to decide about the restart. -/
theorem Callbacks_delete_although_NoDist :
    (demoSolverCEG true [7]).Opts.NoDist = true ∧
    (demoSolverCEG true [7]).TheMode = .CEG ∧
    (ExpressionCallBack demoCollaboratorsIndist 5 0 0 0 (demoSolverCEG true [7])).val?
      = some .DELETE_EXPRESSION ∧
    (SubExpressionCallBack demoCollaboratorsIndist 5 0 0 (demoSolverCEG true [7])).val?
      = some .DELETE_EXPRESSION := by
  decide

/-- Claim C12.  On a freshly constructed solver whose constraint passes the let-binding
check, the part of `Solve` before the loop leaves the mode at PBE if and only if the
number of constant relevant variables equals both the number of relevant variables and the
number of PBE antecedent expressions.  When it returns in PBE mode, `PBEEvalPtrs` holds
exactly one evaluator per antecedent, the evaluator at index `i` has identity `i` and
exactly one point, the unique-example queue holds exactly evaluator 0, and there is no CEG
evaluator.  When the mode is not PBE, it returns in CEG mode with exactly one evaluator,
`ConcEval`, which holds no point; there is no PBE evaluator and the unique queue is
empty. -/
theorem SolveSetup_fresh_mode_and_evaluators (C : Collaborators) (inp : SolveInput)
    (Opts : ESolverOpts) (hlet : inp.LetBindingError = false) :
    ((SolveSetup C inp (freshSolver Opts)).state.TheMode = .PBE ↔
      (inp.ConstRelevantVars.length
          = (SolveSetup C inp (freshSolver Opts)).state.RelevantVars.length ∧
        inp.ConstRelevantVars.length = inp.PBEAntecedentExprs.length)) ∧
    (∀ s', SolveSetup C inp (freshSolver Opts) = .ret () s' → s'.TheMode = .PBE →
      s'.PBEEvalPtrs.length = inp.PBEAntecedentExprs.length ∧
      (∀ (i : Nat) (ev : ConcreteEvaluator), s'.PBEEvalPtrs[i]? = some ev →
        ev.Id = i ∧ ev.Points.length = 1) ∧
      s'.DTBuilder.UniqQueue = [0] ∧ s'.ConcEval = none) ∧
    ((SolveSetup C inp (freshSolver Opts)).state.TheMode ≠ .PBE →
      ∃ s', SolveSetup C inp (freshSolver Opts) = .ret () s' ∧ s'.TheMode = .CEG ∧
        s'.ConcEval = some { Id := 0, Points := [], SigStore := [] } ∧
        s'.PBEEvalPtrs = [] ∧ s'.DTBuilder.UniqQueue = []) := by
  by_cases hc : (inp.ConstRelevantVars.length ==
      (InsertRelevantVars [] inp.BaseAuxVars).length &&
      inp.ConstRelevantVars.length == inp.PBEAntecedentExprs.length) = true
  · have hc' := hc
    simp only [Bool.and_eq_true, beq_iff_eq] at hc'
    have hst := SolveSetup_pbe C inp (freshSolver Opts) hlet hc
    refine ⟨?_, ?_, ?_⟩
    · rw [hst.2.1]
      exact ⟨fun _ => hc', fun _ => hst.1⟩
    · intro s' h _
      obtain ⟨s5, h5, rfl⟩ := hst.2.2 s' () h
      obtain ⟨p1, p2, -, -, -, -, p3, -⟩ := PBEInitializeEvals_fresh C inp _ s5 () rfl h5
      refine ⟨?_, ?_, p2, p3⟩
      · show s5.PBEEvalPtrs.length = _
        rw [p1, PBEMakeEvals_length, hc'.2]
      · intro i ev hi
        have hi' : (PBEMakeEvals C 0 inp.ConstRelevantVars)[i]? = some ev := by
          rw [← p1]; exact hi
        have := PBEMakeEvals_get C _ 0 i ev hi'
        exact ⟨by omega, this.2.1⟩
    · intro hne
      exact absurd hst.1 hne
  · simp only [Bool.not_eq_true] at hc
    have hs : SolveSetup C inp (freshSolver Opts) = .ret ()
        ({ freshSolver Opts with
            SynthFuncs := inp.SFSet,
            RelevantVars := InsertRelevantVars [] inp.BaseAuxVars,
            ExpEnumerator := some (SolveEnumerator C (inp.SFSet.length % 2 ^ 32)).Init,
            ConcEval := some { Id := 0, Points := [], SigStore := [] } }.log
          .GenExpressionInitialize) := by
      simp [SolveSetup, hlet, freshSolver, hc, CEGSolver.log]
    rw [hs]
    refine ⟨?_, ?_, ?_⟩
    · simp only [Outcome.state, CEGSolver.log, freshSolver]
      constructor
      · intro h; cases h
      · intro h
        simp only [Bool.and_eq_false_imp, beq_iff_eq] at hc
        have := hc h.1
        simp [h.2] at this
    · intro s' h hm
      simp only [Outcome.ret.injEq, true_and] at h
      rw [← h] at hm
      cases hm
    · intro _
      exact ⟨_, rfl, rfl, rfl, rfl, rfl⟩

/-- Claim C12: the theorem at a constraint of PBE shape with two examples. -/
theorem SolveSetup_fresh_mode_and_evaluators_witness :
    (SolveSetup (demoCollaborators true 0 .SOLVE_VALID) demoInputPBE2
        (freshSolver { StatsLevel := 0, NoDist := false, CostBudget := 3 })).state.TheMode
      = .PBE ∧
    (SolveSetup (demoCollaborators true 0 .SOLVE_VALID) demoInputPBE2
        (freshSolver { StatsLevel := 0, NoDist := false, CostBudget := 3 })).state.PBEEvalPtrs.length
      = 2 ∧
    (SolveSetup (demoCollaborators true 0 .SOLVE_VALID) demoInputPBE2
        (freshSolver { StatsLevel := 0, NoDist := false, CostBudget := 3 })).state.DTBuilder.UniqQueue
      = [0] :=
  ⟨(SolveSetup_fresh_mode_and_evaluators (demoCollaborators true 0 .SOLVE_VALID) demoInputPBE2
      { StatsLevel := 0, NoDist := false, CostBudget := 3 } rfl).1.mpr ⟨by decide, by decide⟩,
   ((SolveSetup_fresh_mode_and_evaluators (demoCollaborators true 0 .SOLVE_VALID) demoInputPBE2
      { StatsLevel := 0, NoDist := false, CostBudget := 3 } rfl).2.1 _ rfl (by decide)).1,
   ((SolveSetup_fresh_mode_and_evaluators (demoCollaborators true 0 .SOLVE_VALID) demoInputPBE2
      { StatsLevel := 0, NoDist := false, CostBudget := 3 } rfl).2.1 _ rfl (by decide)).2.2.1⟩

/-- Claim C13.  In `PBEEnumTermExprs`, let the identities of the evaluators be their
positions, the resource probe pass, the front evaluator (`GetQueueBack`) be `ev` at
position `c`, and the candidate be concretely valid on it; the verdict of
`CheckConcreteValidity` does not depend on the value that its out-parameter `StatusRet`
holds on entry.  Then, however the call ends: the identity of `ev` is `c`; the terminals
are those recorded before the call followed by the user expression of the candidate (with
`k` terminals before, `k + 1` after, the candidate at index `k`); example `c` is mapped to
`k`; every example `i > c` that had no terminal before the call is mapped to `k` if and
only if the candidate is concretely valid on it, and still has none otherwise; and the
terminal of every example other than `c` that was mapped before the call is unchanged,
hence of every example mapped before the call when `c` itself had none. -/
theorem PBEEnumTermExprs_records_terminal (C : Collaborators) (Expr : GenExpressionBase)
    (Ty : ESFixedTypeBase) (ExpansionTypeID : Nat) (s : CEGSolver) (c : Nat)
    (ev : ConcreteEvaluator)
    (hids : PBEIdsAreIndices s)
    (hres : C.ResourceLimitExceeded s.Trace = false)
    (hback : s.DTBuilder.GetQueueBack = some c) (hev : s.PBEEvalPtrs[c]? = some ev)
    (hpure : ∀ e st, (C.CheckConcreteValidity e Expr Ty ExpansionTypeID st).1
      = (C.CheckConcreteValidity e Expr Ty ExpansionTypeID 0).1)
    (hvalid : (C.CheckConcreteValidity ev Expr Ty ExpansionTypeID 0).1 = true) :
    ev.Id = c ∧
    (PBEEnumTermExprs C Expr Ty ExpansionTypeID s).state.PBETermExprs
      = s.PBETermExprs ++ [C.ToUserExpression Expr] ∧
    MapFind (PBEEnumTermExprs C Expr Ty ExpansionTypeID s).state.PBEEval2TermExpIdxMap c
      = some s.PBETermExprs.length ∧
    (∀ (i : Nat) (evi : ConcreteEvaluator), c < i → s.PBEEvalPtrs[i]? = some evi →
      MapFind s.PBEEval2TermExpIdxMap i = none →
      (MapFind (PBEEnumTermExprs C Expr Ty ExpansionTypeID s).state.PBEEval2TermExpIdxMap i
          = some s.PBETermExprs.length ↔
        (C.CheckConcreteValidity evi Expr Ty ExpansionTypeID 0).1 = true) ∧
      ((C.CheckConcreteValidity evi Expr Ty ExpansionTypeID 0).1 = false →
        MapFind (PBEEnumTermExprs C Expr Ty ExpansionTypeID s).state.PBEEval2TermExpIdxMap i
          = none)) ∧
    (∀ e t, e ≠ c → MapFind s.PBEEval2TermExpIdxMap e = some t →
      MapFind (PBEEnumTermExprs C Expr Ty ExpansionTypeID s).state.PBEEval2TermExpIdxMap e
        = some t) ∧
    (MapFind s.PBEEval2TermExpIdxMap c = none →
      ∀ e t, MapFind s.PBEEval2TermExpIdxMap e = some t →
        MapFind (PBEEnumTermExprs C Expr Ty ExpansionTypeID s).state.PBEEval2TermExpIdxMap e
          = some t) := by
  rw [PBEEnumTermExprs_recorded C Expr Ty ExpansionTypeID s c ev hres hback hev hvalid]
  obtain ⟨-, f2, f3⟩ := PBEEnumTermExprsFinish_fields C Ty
    (PBEAfterProbe C Expr Ty ExpansionTypeID s c ev)
  obtain ⟨p1, p2, -⟩ := PBEAfterProbe_pure C Expr Ty ExpansionTypeID s c ev hids hev hpure
  rw [f2, f3]
  have hkeep : ∀ e t, e ≠ c → MapFind s.PBEEval2TermExpIdxMap e = some t →
      MapFind (PBEAfterProbe C Expr Ty ExpansionTypeID s c ev).PBEEval2TermExpIdxMap e
        = some t := by
    intro e t hec he
    rw [p2 e]
    have hU : PBEUnmapped s e = false := by simp [PBEUnmapped, he]
    simp [hec, hU, he]
  refine ⟨hids c ev hev, p1, by rw [p2 c]; simp, ?_, hkeep, ?_⟩
  · intro i evi hci hevi hnone
    have hilt : i < s.PBEEvalPtrs.length := by
      rcases Nat.lt_or_ge i s.PBEEvalPtrs.length with h | h
      · exact h
      · rw [List.getElem?_eq_none h] at hevi; cases hevi
    have hic : ¬ i = c := by omega
    have hU : PBEUnmapped s i = true := by simp [PBEUnmapped, hnone]
    have hV : PBEValidOn C Expr Ty ExpansionTypeID s i
        = (C.CheckConcreteValidity evi Expr Ty ExpansionTypeID 0).1 := by
      simp [PBEValidOn, hevi]
    rw [p2 i]
    rcases hv : (C.CheckConcreteValidity evi Expr Ty ExpansionTypeID 0).1 with _ | _
    · simp [hic, hV, hv, hnone]
    · simp [hic, hci, hilt, hU, hV, hv]
  · intro hopen e t he
    have hec : e ≠ c := by
      intro h
      subst h
      rw [hopen] at he
      cases he
    exact hkeep e t hec he

/-- Claim C13: the theorem at the start of a PBE solve with three examples and a candidate
that is valid on the examples 0 and 2. -/
theorem PBEEnumTermExprs_records_terminal_witness :
    MapFind (PBEEnumTermExprs demoCollaboratorsPBE 5 0 0 demoSolverPBE).state.PBEEval2TermExpIdxMap
        0 = some 0 ∧
    (MapFind (PBEEnumTermExprs demoCollaboratorsPBE 5 0 0
        demoSolverPBE).state.PBEEval2TermExpIdxMap 2 = some 0 ↔
      (demoCollaboratorsPBE.CheckConcreteValidity { Id := 2, Points := [[0]], SigStore := [] }
        5 0 0 0).1 = true) ∧
    MapFind (PBEEnumTermExprs demoCollaboratorsPBE 5 0 0 demoSolverPBE).state.PBEEval2TermExpIdxMap
        1 = none :=
  have h := PBEEnumTermExprs_records_terminal demoCollaboratorsPBE 5 0 0 demoSolverPBE 0
    { Id := 0, Points := [[0]], SigStore := [] }
    (PBETermReachable_inv _ _ _ _ demoSolverPBE_reachable).2.1.1
    rfl rfl rfl (fun _ _ => rfl) rfl
  ⟨h.2.2.1,
   (h.2.2.2.1 2 { Id := 2, Points := [[0]], SigStore := [] } (by decide) rfl rfl).1,
   (h.2.2.2.1 1 { Id := 1, Points := [[0]], SigStore := [] } (by decide) rfl rfl).2 rfl⟩

/-- Claim C14.  In `PBEEnumTermExprs`, under the conditions of claim C13 (identities are
positions, the resource probe passes, the candidate is concretely valid on the front
evaluator at position `c`, the verdict of `CheckConcreteValidity` does not depend on the
incoming `StatusRet`), the call is the recording of the terminal and the probing loop
(`PBEAfterProbe`) followed by the rest of the function (`PBEEnumTermExprsFinish`).  At the
end of the probing loop the unique queue is the queue before the call followed by the
lowest-index example after `c` that had no terminal and on which the candidate is not
concretely valid, if there is one, and by nothing otherwise; the duplicates are those
before the call followed by exactly the examples after `c` that had no terminal and on
which the candidate is valid.  The example added to the queue is its new back
(`GetQueueBack`), and whenever the call returns with the phase still `BuildTermExprs` the
builder is the one the probing loop left. -/
theorem PBEEnumTermExprs_next_front (C : Collaborators) (Expr : GenExpressionBase)
    (Ty : ESFixedTypeBase) (ExpansionTypeID : Nat) (s : CEGSolver) (c : Nat)
    (ev : ConcreteEvaluator)
    (hids : PBEIdsAreIndices s)
    (hres : C.ResourceLimitExceeded s.Trace = false)
    (hback : s.DTBuilder.GetQueueBack = some c) (hev : s.PBEEvalPtrs[c]? = some ev)
    (hpure : ∀ e st, (C.CheckConcreteValidity e Expr Ty ExpansionTypeID st).1
      = (C.CheckConcreteValidity e Expr Ty ExpansionTypeID 0).1)
    (hvalid : (C.CheckConcreteValidity ev Expr Ty ExpansionTypeID 0).1 = true) :
    PBEEnumTermExprs C Expr Ty ExpansionTypeID s =
      PBEEnumTermExprsFinish C Ty (PBEAfterProbe C Expr Ty ExpansionTypeID s c ev) ∧
    (PBEAfterProbe C Expr Ty ExpansionTypeID s c ev).DTBuilder.UniqQueue =
      s.DTBuilder.UniqQueue ++
        ((List.range' (c + 1) (s.PBEEvalPtrs.length - (c + 1))).find?
          (fun i => PBEUnmapped s i && !PBEValidOn C Expr Ty ExpansionTypeID s i)).toList ∧
    (PBEAfterProbe C Expr Ty ExpansionTypeID s c ev).DTBuilder.DupExamples =
      s.DTBuilder.DupExamples ++
        (List.range' (c + 1) (s.PBEEvalPtrs.length - (c + 1))).filter
          (fun i => PBEUnmapped s i && PBEValidOn C Expr Ty ExpansionTypeID s i) ∧
    (∀ j, (List.range' (c + 1) (s.PBEEvalPtrs.length - (c + 1))).find?
          (fun i => PBEUnmapped s i && !PBEValidOn C Expr Ty ExpansionTypeID s i) = some j →
      c < j ∧ j < s.PBEEvalPtrs.length ∧ PBEUnmapped s j = true ∧
      PBEValidOn C Expr Ty ExpansionTypeID s j = false ∧
      (∀ i, c < i → i < j →
        (PBEUnmapped s i && !PBEValidOn C Expr Ty ExpansionTypeID s i) = false) ∧
      (PBEAfterProbe C Expr Ty ExpansionTypeID s c ev).DTBuilder.GetQueueBack = some j) ∧
    (∀ st s', PBEEnumTermExprs C Expr Ty ExpansionTypeID s = .ret st s' →
      s'.PBEPhase = .BuildTermExprs →
      s'.DTBuilder = (PBEAfterProbe C Expr Ty ExpansionTypeID s c ev).DTBuilder) := by
  have hrec := PBEEnumTermExprs_recorded C Expr Ty ExpansionTypeID s c ev hres hback hev hvalid
  obtain ⟨-, -, p3⟩ := PBEAfterProbe_pure C Expr Ty ExpansionTypeID s c ev hids hev hpure
  have hclt : c < s.PBEEvalPtrs.length := by
    rcases Nat.lt_or_ge c s.PBEEvalPtrs.length with h | h
    · exact h
    · rw [List.getElem?_eq_none h] at hev; cases hev
  refine ⟨hrec, by rw [p3], by rw [p3], ?_, ?_⟩
  · intro j hj
    obtain ⟨j1, j2, j3, j4⟩ := range_find_some _ _ _ j hj
    rw [Nat.add_sub_cancel' hclt] at j2
    simp only [Bool.and_eq_true, Bool.not_eq_true'] at j3
    refine ⟨j1, j2, j3.1, j3.2, fun i h1 h2 => j4 i h1 h2, ?_⟩
    rw [p3, hj]
    simp [DecisionTreeBuilder.GetQueueBack]
  · intro st s' hret hph1
    rw [hrec] at hret
    obtain ⟨-, hcases⟩ := PBEEnumTermExprsFinish_ret C Ty _ s' st hret
    rcases hcases with ⟨-, hd, -⟩ | ⟨-, -, hd, -⟩ | ⟨-, -, -, hp, -⟩
    · exact hd
    · exact hd
    · rw [hp] at hph1
      cases hph1

/-- Claim C14: the theorem at the start of a PBE solve with three examples and a candidate
that is valid on the examples 0 and 2: example 1 joins the unique queue, example 2 the
duplicates. -/
theorem PBEEnumTermExprs_next_front_witness :
    (PBEAfterProbe demoCollaboratorsPBE 5 0 0 demoSolverPBE 0
        { Id := 0, Points := [[0]], SigStore := [] }).DTBuilder.UniqQueue = [0] ++ [1] ∧
    (PBEAfterProbe demoCollaboratorsPBE 5 0 0 demoSolverPBE 0
        { Id := 0, Points := [[0]], SigStore := [] }).DTBuilder.DupExamples = [] ++ [2] :=
  have h := PBEEnumTermExprs_next_front demoCollaboratorsPBE 5 0 0 demoSolverPBE 0
    { Id := 0, Points := [[0]], SigStore := [] }
    (PBETermReachable_inv _ _ _ _ demoSolverPBE_reachable).2.1.1
    rfl rfl rfl (fun _ _ => rfl) rfl
  ⟨h.2.1, h.2.2.1⟩

/-- Claim C15.  Let the bookkeeping of the terminals hold (`PBETermInv`), the front
evaluator be `ev` at position `c` with every example before it mapped (`PBEFrontInv`) and
itself without a terminal (`PBEFrontOpen`), as in every state in which the solve makes a
`BuildTermExprs` callback; let the resource probe pass, the candidate be concretely valid
on `ev` and `SynthFuncs[0]` exist.  For the phase switch (every example has a terminal
and there is more than one terminal) let the builder, once initialised, locate a pair:
`LocateNextEvalNode` returns `true` and sets the first pointer of the pair to an
evaluator of the solver, whatever the pair variable held before the call (the code
leaves it null until then).  Then `PBEEnumTermExprs` records the candidate as a
terminal and returns `STOP_ENUMERATION`, in exactly one of three ways: (1) some example
still has no terminal: `Restart` is set, the phase, `Complete` and `Solutions` are
unchanged; (2) every example has a terminal and there is exactly one terminal: `Complete`
is set, the single pair (`SynthFuncs[0]`, that terminal) is appended to `Solutions`, the
phase and `Restart` are unchanged; (3) every example has a terminal and there is more than
one terminal: the phase becomes `BuildDecisionTree`, `Restart` is set, `Complete` and
`Solutions` are unchanged. -/
theorem PBEEnumTermExprs_three_outcomes (C : Collaborators) (Expr : GenExpressionBase)
    (Ty : ESFixedTypeBase) (ExpansionTypeID : Nat) (s : CEGSolver) (c : Nat)
    (ev : ConcreteEvaluator) (f : SynthFuncOperator)
    (hinv : PBETermInv s) (hfront : PBEFrontInv s) (hopen : PBEFrontOpen s)
    (hres : C.ResourceLimitExceeded s.Trace = false)
    (hback : s.DTBuilder.GetQueueBack = some c) (hev : s.PBEEvalPtrs[c]? = some ev)
    (hvalid : (C.CheckConcreteValidity ev Expr Ty ExpansionTypeID 0).1 = true)
    (hf : s.SynthFuncs[0]? = some f)
    (hloc : (PBEAfterProbe C Expr Ty ExpansionTypeID s c ev).PBEEval2TermExpIdxMap.length
        = (PBEAfterProbe C Expr Ty ExpansionTypeID s c ev).PBEEvalPtrs.length →
      (PBEAfterProbe C Expr Ty ExpansionTypeID s c ev).PBETermExprs.length ≠ 1 →
      ∀ p : EvalPtr × EvalPtr,
        (C.LocateNextEvalNode
          (C.DTInit (PBEAfterProbe C Expr Ty ExpansionTypeID s c ev).DTBuilder Ty)
          s.DTCurLocation p).1 = true ∧
        (C.LocateNextEvalNode
          (C.DTInit (PBEAfterProbe C Expr Ty ExpansionTypeID s c ev).DTBuilder Ty)
          s.DTCurLocation p).2.2.1.1 < s.PBEEvalPtrs.length) :
    ∃ s', PBEEnumTermExprs C Expr Ty ExpansionTypeID s = .ret .STOP_ENUMERATION s' ∧
      s'.PBETermExprs = s.PBETermExprs ++ [C.ToUserExpression Expr] ∧
      (((∃ i, i < s.PBEEvalPtrs.length ∧ MapFind s'.PBEEval2TermExpIdxMap i = none) ∧
          s'.Restart = true ∧ s'.PBEPhase = s.PBEPhase ∧ s'.Complete = s.Complete ∧
          s'.Solutions = s.Solutions) ∨
        ((∀ i, i < s.PBEEvalPtrs.length → MapFind s'.PBEEval2TermExpIdxMap i ≠ none) ∧
          s'.PBETermExprs.length = 1 ∧ s'.Complete = true ∧
          s'.Solutions = s.Solutions ++ [[(f, C.ToUserExpression Expr)]] ∧
          s'.PBEPhase = s.PBEPhase ∧ s'.Restart = s.Restart) ∨
        ((∀ i, i < s.PBEEvalPtrs.length → MapFind s'.PBEEval2TermExpIdxMap i ≠ none) ∧
          1 < s'.PBETermExprs.length ∧ s'.PBEPhase = .BuildDecisionTree ∧
          s'.Restart = true ∧ s'.Complete = s.Complete ∧ s'.Solutions = s.Solutions)) := by
  obtain ⟨c1, hback1, hclt, hsmall⟩ := hfront
  rw [hback] at hback1
  cases hback1
  obtain ⟨c2, hback2, hcopen, hk⟩ := hopen
  rw [hback] at hback2
  cases hback2
  rw [PBEEnumTermExprs_recorded C Expr Ty ExpansionTypeID s c ev hres hback hev hvalid]
  obtain ⟨-, hiff, -, j, hj1, hj2⟩ :=
    PBEAfterProbe_inv C Expr Ty ExpansionTypeID s c ev hinv hback hev hsmall hcopen hk
  obtain ⟨V, -, v1, v2, -, -, -, v6, -⟩ :=
    PBEAfterProbe_spec C Expr Ty ExpansionTypeID s c ev hinv.1 hev
  have hlen4 := EvalCores_length v1
  simp only [PBEFrame, Prod.mk.injEq] at v6
  obtain ⟨-, -, -, -, w5, w6, w7, w8, w9, -, w10, w11, -⟩ := v6
  obtain ⟨s', hs'⟩ := PBEEnumTermExprsFinish_returns C Ty
    (PBEAfterProbe C Expr Ty ExpansionTypeID s c ev) j f hj1 (by rw [hlen4]; exact hj2)
    (by rw [w9]; exact hf) (by rw [v2]; simp)
    (fun hall hmany => by rw [hlen4, w10]; exact hloc hall hmany _)
  have hfields := PBEEnumTermExprsFinish_fields C Ty
    (PBEAfterProbe C Expr Ty ExpansionTypeID s c ev)
  rw [hs'] at hfields
  simp only [Outcome.state] at hfields
  obtain ⟨-, f2, f3⟩ := hfields
  obtain ⟨-, hcases⟩ := PBEEnumTermExprsFinish_ret C Ty _ s' _ hs'
  have hall : (PBEAfterProbe C Expr Ty ExpansionTypeID s c ev).PBEEval2TermExpIdxMap.length
      = (PBEAfterProbe C Expr Ty ExpansionTypeID s c ev).PBEEvalPtrs.length →
      ∀ i, i < s.PBEEvalPtrs.length → MapFind s'.PBEEval2TermExpIdxMap i ≠ none := by
    intro heq i hi hnone
    rw [f2] at hnone
    exact (hiff.mpr ⟨i, hi, hnone⟩) heq
  refine ⟨s', hs', by rw [f3, v2], ?_⟩
  rcases hcases with ⟨hne, -, r1, r2, r3, r4⟩ | ⟨heq, h1, -, r1, r2, r3, g, t, hg, ht, r4⟩ |
      ⟨heq, h1, r1, r2, r3, r4⟩
  · refine Or.inl ⟨?_, r1, r2.trans w5, r3.trans w6, r4.trans w8⟩
    obtain ⟨i, hi, hnone⟩ := hiff.mp hne
    exact ⟨i, hi, by rw [f2]; exact hnone⟩
  · refine Or.inr (Or.inl ⟨hall heq, by rw [f3]; exact h1, r3, ?_, r2.trans w5, r1.trans w7⟩)
    rw [w9, hf] at hg
    cases hg
    rw [v2] at ht
    simp at ht
    subst ht
    rw [r4, w8]
  · refine Or.inr (Or.inr ⟨hall heq, ?_, r2, r1, r3.trans w6, r4.trans w8⟩)
    rw [f3]
    have : 0 < (PBEAfterProbe C Expr Ty ExpansionTypeID s c ev).PBETermExprs.length := by
      rw [v2]; simp
    omega

/-- Claim C15: the theorem in the worked PBE example with three examples, at the callback
for candidate 2 after candidate 5 gave the terminal of the examples 0 and 2.  Candidate 2
is valid on the front example 1; with it every example has a terminal and there are two
terminals, the builder locates the pair (0, 1), and the callback makes the phase switch
of outcome (3). -/
theorem PBEEnumTermExprs_three_outcomes_witness :
    (∃ s', PBEEnumTermExprs demoCollaboratorsPBE 2 0 0
        (PBEEnumTermExprs demoCollaboratorsPBE 5 0 0 demoSolverPBE).state
        = .ret .STOP_ENUMERATION s' ∧ s'.PBETermExprs = [105] ++ [102]) ∧
      (PBEEnumTermExprs demoCollaboratorsPBE 2 0 0
        (PBEEnumTermExprs demoCollaboratorsPBE 5 0 0 demoSolverPBE).state).state.PBEPhase
        = .BuildDecisionTree :=
  have hr : PBETermReachable demoCollaboratorsPBE demoInputPBE3
      { StatsLevel := 0, NoDist := false, CostBudget := 3 }
      (PBEEnumTermExprs demoCollaboratorsPBE 5 0 0 demoSolverPBE).state :=
    PBETermReachable.callback demoSolverPBE _ 5 0 0 0 .STOP_ENUMERATION
      demoSolverPBE_reachable rfl rfl rfl
  have h := PBEEnumTermExprs_three_outcomes demoCollaboratorsPBE 2 0 0
    (PBEEnumTermExprs demoCollaboratorsPBE 5 0 0 demoSolverPBE).state 1
    { Id := 1, Points := [[0]], SigStore := [] } 7
    (PBETermReachable_inv _ _ _ _ hr).2.1
    ((PBETermReachable_inv _ _ _ _ hr).2.2.1 rfl)
    ((PBETermReachable_inv _ _ _ _ hr).2.2.2 rfl rfl)
    rfl rfl rfl rfl rfl (fun _ _ _ => ⟨rfl, Nat.succ_pos 2⟩)
  ⟨h.imp (fun _ hs => ⟨hs.1, hs.2.1⟩), rfl⟩

/-- Claim C16, amended.  In every state that a PBE solve on a freshly constructed solver
reaches from the initialization through `BuildTermExprs` callbacks (`PBETermReachable`):
every entry of the map sends an example of the solver to a valid index into the list of
terminals, and there are no more terminals than examples; while the phase is
`BuildTermExprs`, the front evaluator exists, every example with a smaller index has a
terminal, and, as long as `Complete` is clear, the front evaluator has none.  Every
callback made from such a state with the phase `BuildTermExprs` and `Complete` clear
overwrites no entry of the map, and when it records a terminal, the candidate is
concretely valid on the front evaluator, which had no terminal before the call and is
mapped to the new terminal after it. -/
theorem PBE_terminal_invariant (C : Collaborators) (inp : SolveInput) (Opts : ESolverOpts)
    (s : CEGSolver) (h : PBETermReachable C inp Opts s) :
    (∀ e t, MapFind s.PBEEval2TermExpIdxMap e = some t →
      e < s.PBEEvalPtrs.length ∧ t < s.PBETermExprs.length) ∧
    s.PBETermExprs.length ≤ s.PBEEvalPtrs.length ∧
    (s.PBEPhase = .BuildTermExprs →
      ∃ c, s.DTBuilder.GetQueueBack = some c ∧ c < s.PBEEvalPtrs.length ∧
        (∀ i, i < c → MapFind s.PBEEval2TermExpIdxMap i ≠ none) ∧
        (s.Complete = false → MapFind s.PBEEval2TermExpIdxMap c = none)) ∧
    (∀ (Exp : GenExpressionBase) (Ty : ESFixedTypeBase) (ExpansionTypeID EnumeratorIndex : Nat)
        (st : CallbackStatus) (s' : CEGSolver),
      s.PBEPhase = .BuildTermExprs → s.Complete = false →
      ExpressionCallBack C Exp Ty ExpansionTypeID EnumeratorIndex s = .ret st s' →
      (∀ e t, MapFind s.PBEEval2TermExpIdxMap e = some t →
        MapFind s'.PBEEval2TermExpIdxMap e = some t) ∧
      (s'.PBETermExprs = s.PBETermExprs ∨
        ∃ c ev, s.DTBuilder.GetQueueBack = some c ∧ s.PBEEvalPtrs[c]? = some ev ∧
          MapFind s.PBEEval2TermExpIdxMap c = none ∧
          (C.CheckConcreteValidity ev Exp Ty ExpansionTypeID 0).1 = true ∧
          s'.PBETermExprs = s.PBETermExprs ++ [C.ToUserExpression Exp] ∧
          MapFind s'.PBEEval2TermExpIdxMap c = some s.PBETermExprs.length)) := by
  obtain ⟨hm, hinv, hfront, hopen⟩ := PBETermReachable_inv C inp Opts s h
  refine ⟨hinv.2.2.1, hinv.2.2.2, ?_, ?_⟩
  · intro hphase
    obtain ⟨c, h1, h2, h3⟩ := hfront hphase
    refine ⟨c, h1, h2, h3, ?_⟩
    intro hcomp
    obtain ⟨c', h1', h2', -⟩ := hopen hphase hcomp
    rw [h1] at h1'
    cases h1'
    exact h2'
  · intro Exp Ty ExpansionTypeID EnumeratorIndex st s' hphase hcomp hcall
    have hcall' : PBEEnumTermExprs C Exp Ty ExpansionTypeID s = .ret st s' := by
      simpa [ExpressionCallBack, hm, hphase] using hcall
    obtain ⟨-, -, -, q4, q5⟩ := PBEEnumTermExprs_step C Exp Ty ExpansionTypeID s s' st hinv
      (hfront hphase) (hopen hphase hcomp) hcall'
    exact ⟨q4, q5⟩

/-- Claim C16, amended: the theorem at the state that PBE initialization leaves for two
examples. -/
theorem PBE_terminal_invariant_witness :
    PBETermReachable (demoCollaborators true 0 .SOLVE_VALID) demoInputPBE2
        { StatsLevel := 0, NoDist := false, CostBudget := 3 }
      (SolveSetup (demoCollaborators true 0 .SOLVE_VALID) demoInputPBE2
        (freshSolver { StatsLevel := 0, NoDist := false, CostBudget := 3 })).state ∧
    (SolveSetup (demoCollaborators true 0 .SOLVE_VALID) demoInputPBE2
        (freshSolver { StatsLevel := 0, NoDist := false, CostBudget := 3 })).state.PBETermExprs.length
      ≤ (SolveSetup (demoCollaborators true 0 .SOLVE_VALID) demoInputPBE2
        (freshSolver { StatsLevel := 0, NoDist := false, CostBudget := 3 })).state.PBEEvalPtrs.length :=
  ⟨PBETermReachable.init _ rfl rfl,
    (PBE_terminal_invariant (demoCollaborators true 0 .SOLVE_VALID) demoInputPBE2
      { StatsLevel := 0, NoDist := false, CostBudget := 3 } _
      (PBETermReachable.init _ rfl rfl)).2.1⟩

/-- Claim C16 as stated fails in the state after the callback that maps the last example.
With one example and a candidate that is concretely valid on it, the state after the
first `BuildTermExprs` callback is reachable, its front evaluator is still evaluator 0,
and evaluator 0 has the terminal 0 assigned. -/
theorem PBE_front_mapped_after_last_terminal :
    PBETermReachable (demoCollaborators true 0 .SOLVE_VALID) demoInputPBE
        { StatsLevel := 0, NoDist := false, CostBudget := 3 }
      (ExpressionCallBack (demoCollaborators true 0 .SOLVE_VALID) 5 0 0 0
        (SolveSetup (demoCollaborators true 0 .SOLVE_VALID) demoInputPBE
          (freshSolver { StatsLevel := 0, NoDist := false, CostBudget := 3 })).state).state ∧
    (ExpressionCallBack (demoCollaborators true 0 .SOLVE_VALID) 5 0 0 0
        (SolveSetup (demoCollaborators true 0 .SOLVE_VALID) demoInputPBE
          (freshSolver { StatsLevel := 0, NoDist := false, CostBudget := 3 })).state).state.DTBuilder.GetQueueBack
      = some 0 ∧
    MapFind (ExpressionCallBack (demoCollaborators true 0 .SOLVE_VALID) 5 0 0 0
        (SolveSetup (demoCollaborators true 0 .SOLVE_VALID) demoInputPBE
          (freshSolver { StatsLevel := 0, NoDist := false, CostBudget := 3 })).state).state.PBEEval2TermExpIdxMap
      0 = some 0 :=
  ⟨PBETermReachable.callback _ _ 5 0 0 0 .STOP_ENUMERATION (PBETermReachable.init _ rfl rfl)
      rfl rfl rfl,
    by decide, by decide⟩

/-- Claim C17.  In the `BuildDecisionTree` phase, for a candidate whose sub-expression
values at the two evaluators of the current pair are `v1` and `v2` (the resource probe
passing, the terminals of both evaluators on record): the callback calls
`InsertDecisionNode`, once, if and only if `v1` and `v2` are unequal and one of them is 1;
otherwise the builder is left as it was and the callback returns `DELETE_EXPRESSION` when
`CheckSubExpression` reported the candidate not distinguishable or left the DIST flag
clear, and `NONE_STATUS` otherwise. -/
theorem PBEEnumDecisionTree_inserts_iff_separates (C : Collaborators)
    (Exp : GenExpressionBase) (Ty : ESFixedTypeBase) (ExpansionTypeID : Nat) (s : CEGSolver)
    (e1 e2 : ConcreteEvaluator) (v1 v2 : Int) (t1 t2 : Nat) (x1 x2 : Expression)
    (hres : C.ResourceLimitExceeded s.Trace = false)
    (he1 : s.PBEEvalPtrs[s.DTCurEvalPtrs.1]? = some e1)
    (he2 : s.PBEEvalPtrs[s.DTCurEvalPtrs.2]? = some e2)
    (hv1 : List.lookup e1.Id
      (C.CheckSubExpression e1 s.PBEEvalPtrs Exp Ty ExpansionTypeID 0).2.2.2 = some v1)
    (hv2 : List.lookup e2.Id
      (C.CheckSubExpression e1 s.PBEEvalPtrs Exp Ty ExpansionTypeID 0).2.2.2 = some v2)
    (hm1 : MapFind s.PBEEval2TermExpIdxMap e1.Id = some t1)
    (hm2 : MapFind s.PBEEval2TermExpIdxMap e2.Id = some t2)
    (hx1 : s.PBETermExprs[t1]? = some x1) (hx2 : s.PBETermExprs[t2]? = some x2)
    (hD : C.CONCRETE_EVAL_DIST < 2 ^ 32) :
    (∃ t, (PBEEnumDecisionTree C Exp Ty ExpansionTypeID s).state.Trace = s.Trace ++ t ∧
      (DecisionNodes t ≠ [] ↔ v1 ≠ v2 ∧ (v1 = 1 ∨ v2 = 1)) ∧
      (DecisionNodes t).length ≤ 1) ∧
    (¬ (v1 ≠ v2 ∧ (v1 = 1 ∨ v2 = 1)) →
      (PBEEnumDecisionTree C Exp Ty ExpansionTypeID s).state.DTBuilder = s.DTBuilder ∧
      (PBEEnumDecisionTree C Exp Ty ExpansionTypeID s).val? = some
        (if (C.CheckSubExpression e1 s.PBEEvalPtrs Exp Ty ExpansionTypeID 0).1 = false ∨
            (C.CheckSubExpression e1 s.PBEEvalPtrs Exp Ty ExpansionTypeID 0).2.1 &&&
              C.CONCRETE_EVAL_DIST = 0
          then .DELETE_EXPRESSION else .NONE_STATUS)) := by
  by_cases hvalid : v1 ≠ v2 ∧ (v1 = 1 ∨ v2 = 1)
  · refine ⟨?_, fun h => absurd hvalid h⟩
    obtain ⟨t, ht, hn⟩ := PBEEnumDecisionTreeFinish_trace C
      (PBEAfterInsert C Exp Ty ExpansionTypeID s e1 (v1 != 1)
        (if v1 = 1 then x1 else x2) (if v1 = 1 then x2 else x1))
    rw [← PBEEnumDecisionTree_inserted C Exp Ty ExpansionTypeID s e1 e2 v1 v2 t1 t2 x1 x2
      hres he1 he2 hv1 hv2 hm1 hm2 hx1 hx2 hvalid] at ht
    refine ⟨_, by rw [ht]; simp only [PBEAfterInsert, List.append_assoc]; rfl, ?_, ?_⟩
    · simp [DecisionNodes_append, DecisionNodes, hn, hvalid]
    · simp [DecisionNodes_append, DecisionNodes, hn]
  · obtain ⟨n, hn⟩ := PBEEnumDecisionTree_not_inserted C Exp Ty ExpansionTypeID s e1 e2 v1 v2
      hres he1 he2 hv1 hv2 hD hvalid
    refine ⟨⟨[.CheckResourceLimits], by rw [hn]; rfl, ?_, by simp [DecisionNodes]⟩,
      fun _ => ⟨by rw [hn]; rfl, by rw [hn]; rfl⟩⟩
    simp [DecisionNodes, hvalid]

theorem PBEEnumDecisionTree_inserts_iff_separates_witness :
    ∃ t, (PBEEnumDecisionTree demoCollaboratorsPBE 1 0 0 demoSolverPBETree).state.Trace
        = demoSolverPBETree.Trace ++ t ∧ DecisionNodes t ≠ [] :=
  (PBEEnumDecisionTree_inserts_iff_separates demoCollaboratorsPBE 1 0 0 demoSolverPBETree
    { Id := 0, Points := [[0]], SigStore := [] } { Id := 1, Points := [[0]], SigStore := [] }
    1 0 0 1 105 102 rfl rfl rfl rfl rfl rfl rfl rfl rfl (by decide)).1.imp
    (fun _ h => ⟨h.1, h.2.1.mpr ⟨by decide, Or.inl rfl⟩⟩)

/-- Claim C18.  When `PBEEnumDecisionTree` inserts a decision node (the candidate's values
`v1`, `v2` at the two evaluators of the current pair are unequal and one of them is 1),
`InsertDecisionNode` is called once, at the current location, with a pair `(p, q)` that is
the entry pair in one of its two orders, such that the candidate's value at the evaluator
`p` points to is 1 and its value at the evaluator `q` points to is not 1, and with the
expressions [user expression of the candidate, terminal mapped to the evaluator at `p`,
terminal mapped to the evaluator at `q`]. -/
theorem PBEEnumDecisionTree_node_orientation (C : Collaborators)
    (Exp : GenExpressionBase) (Ty : ESFixedTypeBase) (ExpansionTypeID : Nat) (s : CEGSolver)
    (e1 e2 : ConcreteEvaluator) (v1 v2 : Int) (t1 t2 : Nat) (x1 x2 : Expression)
    (hres : C.ResourceLimitExceeded s.Trace = false)
    (he1 : s.PBEEvalPtrs[s.DTCurEvalPtrs.1]? = some e1)
    (he2 : s.PBEEvalPtrs[s.DTCurEvalPtrs.2]? = some e2)
    (hv1 : List.lookup e1.Id
      (C.CheckSubExpression e1 s.PBEEvalPtrs Exp Ty ExpansionTypeID 0).2.2.2 = some v1)
    (hv2 : List.lookup e2.Id
      (C.CheckSubExpression e1 s.PBEEvalPtrs Exp Ty ExpansionTypeID 0).2.2.2 = some v2)
    (hm1 : MapFind s.PBEEval2TermExpIdxMap e1.Id = some t1)
    (hm2 : MapFind s.PBEEval2TermExpIdxMap e2.Id = some t2)
    (hx1 : s.PBETermExprs[t1]? = some x1) (hx2 : s.PBETermExprs[t2]? = some x2)
    (hvalid : v1 ≠ v2 ∧ (v1 = 1 ∨ v2 = 1)) :
    ∃ (p q : EvalPtr) (ep eq : ConcreteEvaluator) (w : Int) (tp tq : Nat)
        (xp xq : Expression) (t : List Event) (s4 : CEGSolver),
      ((p, q) = s.DTCurEvalPtrs ∨ (q, p) = s.DTCurEvalPtrs) ∧
      s.PBEEvalPtrs[p]? = some ep ∧ s.PBEEvalPtrs[q]? = some eq ∧
      List.lookup ep.Id
        (C.CheckSubExpression e1 s.PBEEvalPtrs Exp Ty ExpansionTypeID 0).2.2.2 = some 1 ∧
      List.lookup eq.Id
        (C.CheckSubExpression e1 s.PBEEvalPtrs Exp Ty ExpansionTypeID 0).2.2.2 = some w ∧
      w ≠ 1 ∧
      MapFind s.PBEEval2TermExpIdxMap ep.Id = some tp ∧ s.PBETermExprs[tp]? = some xp ∧
      MapFind s.PBEEval2TermExpIdxMap eq.Id = some tq ∧ s.PBETermExprs[tq]? = some xq ∧
      (PBEEnumDecisionTree C Exp Ty ExpansionTypeID s).state.Trace = s.Trace ++ t ∧
      DecisionNodes t = [(s.DTCurLocation, p, q, [C.ToUserExpression Exp, xp, xq])] ∧
      PBEEnumDecisionTree C Exp Ty ExpansionTypeID s = PBEEnumDecisionTreeFinish C s4 ∧
      s4.DTBuilder = C.InsertDecisionNode s.DTBuilder s.DTCurLocation (p, q)
        [C.ToUserExpression Exp, xp, xq] ∧
      s4.DTCurEvalPtrs = (p, q) := by
  have hins := PBEEnumDecisionTree_inserted C Exp Ty ExpansionTypeID s e1 e2 v1 v2 t1 t2 x1 x2
    hres he1 he2 hv1 hv2 hm1 hm2 hx1 hx2 hvalid
  obtain ⟨t, ht, hn⟩ := PBEEnumDecisionTreeFinish_trace C
    (PBEAfterInsert C Exp Ty ExpansionTypeID s e1 (v1 != 1)
      (if v1 = 1 then x1 else x2) (if v1 = 1 then x2 else x1))
  rw [← hins] at ht
  by_cases h1 : v1 = 1
  · subst h1
    refine ⟨s.DTCurEvalPtrs.1, s.DTCurEvalPtrs.2, e1, e2, v2, t1, t2, x1, x2,
      [.CheckResourceLimits, .InsertDecisionNode s.DTCurLocation s.DTCurEvalPtrs.1
        s.DTCurEvalPtrs.2 [C.ToUserExpression Exp, x1, x2]] ++ t, _,
      Or.inl rfl, he1, he2, hv1, hv2, fun h => hvalid.1 h.symm, hm1, hx1, hm2, hx2, ?_, ?_,
      hins, ?_, ?_⟩
    · rw [ht]; simp [PBEAfterInsert]
    · simp [DecisionNodes_append, DecisionNodes, hn]
    · simp [PBEAfterInsert]
    · simp [PBEAfterInsert]
  · have h2 : v2 = 1 := hvalid.2.resolve_left h1
    subst h2
    have hb : (v1 != 1) = true := by simpa using h1
    refine ⟨s.DTCurEvalPtrs.2, s.DTCurEvalPtrs.1, e2, e1, v1, t2, t1, x2, x1,
      [.CheckResourceLimits, .InsertDecisionNode s.DTCurLocation s.DTCurEvalPtrs.2
        s.DTCurEvalPtrs.1 [C.ToUserExpression Exp, x2, x1]] ++ t, _,
      Or.inr rfl, he2, he1, hv2, hv1, h1, hm2, hx2, hm1, hx1, ?_, ?_, hins, ?_, ?_⟩
    · rw [ht]; simp [PBEAfterInsert, hb, h1]
    · simp [DecisionNodes_append, DecisionNodes, hn]
    · simp [PBEAfterInsert, hb, h1]
    · simp [PBEAfterInsert, hb]

theorem PBEEnumDecisionTree_node_orientation_witness :
    ∃ t, (PBEEnumDecisionTree demoCollaboratorsPBE 2 0 0 demoSolverPBETree).state.Trace
        = demoSolverPBETree.Trace ++ t ∧ DecisionNodes t = [(1, 1, 0, [102, 102, 105])] := by
  obtain ⟨p, q, ep, eq, w, tp, tq, xp, xq, t, s4, _, _, _, _, _, _, _, _, _, _, ht, _⟩ :=
    PBEEnumDecisionTree_node_orientation demoCollaboratorsPBE 2 0 0 demoSolverPBETree
      { Id := 0, Points := [[0]], SigStore := [] } { Id := 1, Points := [[0]], SigStore := [] }
      0 1 0 1 105 102 rfl rfl rfl rfl rfl rfl rfl rfl rfl ⟨by decide, Or.inr rfl⟩
  have hc : (PBEEnumDecisionTree demoCollaboratorsPBE 2 0 0 demoSolverPBETree).state.Trace
      = demoSolverPBETree.Trace ++ [.CheckResourceLimits,
        .InsertDecisionNode 1 1 0 [102, 102, 105], .ResetSigStore 1] := by decide
  have hteq := List.append_cancel_left (ht.symm.trans hc)
  subst hteq
  exact ⟨_, ht, by decide⟩

/-- Claim C19.  After `PBEEnumDecisionTree` has inserted a decision node, with every
example mapped to a terminal and a builder whose pairs point into the example list and
whose pending slots decrease with every shared node (`I` is an invariant of the builder
that says so), the callback returns `STOP_ENUMERATION` after consuming frontier pairs as
`FrontierPairsConsumed` describes: pairs with the same terminal index are collapsed with
`InsertSharedDecisionNode`, in the order `LocateNextEvalNode` yields them and without a
change to `Restart`; if a pair with different terminal indices comes up, the signature
store of its first evaluator is reset, `Restart` is set, and `Solutions` and `Complete`
are as on entry; if no pair remains, `Complete` is set, the single pair (`SynthFuncs[0]`,
tree expression) is appended as the solution, and `Restart` is as on entry. -/
theorem PBEEnumDecisionTree_consumes_frontier (C : Collaborators)
    (Exp : GenExpressionBase) (Ty : ESFixedTypeBase) (ExpansionTypeID : Nat) (s : CEGSolver)
    (e1 e2 : ConcreteEvaluator) (v1 v2 : Int) (t1 t2 : Nat) (x1 x2 : Expression)
    (f : SynthFuncOperator) (I : DecisionTreeBuilder → Prop)
    (hres : C.ResourceLimitExceeded s.Trace = false)
    (he1 : s.PBEEvalPtrs[s.DTCurEvalPtrs.1]? = some e1)
    (he2 : s.PBEEvalPtrs[s.DTCurEvalPtrs.2]? = some e2)
    (hv1 : List.lookup e1.Id
      (C.CheckSubExpression e1 s.PBEEvalPtrs Exp Ty ExpansionTypeID 0).2.2.2 = some v1)
    (hv2 : List.lookup e2.Id
      (C.CheckSubExpression e1 s.PBEEvalPtrs Exp Ty ExpansionTypeID 0).2.2.2 = some v2)
    (hm1 : MapFind s.PBEEval2TermExpIdxMap e1.Id = some t1)
    (hm2 : MapFind s.PBEEval2TermExpIdxMap e2.Id = some t2)
    (hx1 : s.PBETermExprs[t1]? = some x1) (hx2 : s.PBETermExprs[t2]? = some x2)
    (hvalid : v1 ≠ v2 ∧ (v1 = 1 ∨ v2 = 1))
    (hf : s.SynthFuncs[0]? = some f)
    (hmapped : ∀ ev ∈ s.PBEEvalPtrs, MapFind s.PBEEval2TermExpIdxMap ev.Id ≠ none)
    (hI0 : I (PBEAfterInsert C Exp Ty ExpansionTypeID s e1 (v1 != 1)
      (if v1 = 1 then x1 else x2) (if v1 = 1 then x2 else x1)).DTBuilder)
    (hstep : ∀ b l p, I b → (C.LocateNextEvalNode b l p).1 = true →
      (C.LocateNextEvalNode b l p).2.2.1.1 < s.PBEEvalPtrs.length ∧
      (C.LocateNextEvalNode b l p).2.2.1.2 < s.PBEEvalPtrs.length ∧
      I (C.InsertSharedDecisionNode (C.LocateNextEvalNode b l p).2.2.2
        (C.LocateNextEvalNode b l p).2.1 (C.LocateNextEvalNode b l p).2.2.1) ∧
      C.PendingSlots (C.InsertSharedDecisionNode (C.LocateNextEvalNode b l p).2.2.2
        (C.LocateNextEvalNode b l p).2.1 (C.LocateNextEvalNode b l p).2.2.1) <
        C.PendingSlots b) :
    ∃ b s5,
      FrontierPairsConsumed C (PBEAfterInsert C Exp Ty ExpansionTypeID s e1 (v1 != 1)
        (if v1 = 1 then x1 else x2) (if v1 = 1 then x2 else x1)) b s5 ∧
      (b = true →
        PBEEnumDecisionTree C Exp Ty ExpansionTypeID s = .ret .STOP_ENUMERATION s5 ∧
        s5.Restart = true ∧ s5.Solutions = s.Solutions ∧ s5.Complete = s.Complete) ∧
      (b = false → ∃ s',
        PBEEnumDecisionTree C Exp Ty ExpansionTypeID s = .ret .STOP_ENUMERATION s' ∧
        s'.Complete = true ∧
        s'.Solutions = s.Solutions ++ [[(f, C.GetTreeExpr (C.DTDo s5.DTBuilder))]] ∧
        s'.DTBuilder = C.DTDo s5.DTBuilder ∧
        s'.Restart = s.Restart) := by
  have hins := PBEEnumDecisionTree_inserted C Exp Ty ExpansionTypeID s e1 e2 v1 v2 t1 t2 x1 x2
    hres he1 he2 hv1 hv2 hm1 hm2 hx1 hx2 hvalid
  have hmem1 : e1 ∈ s.PBEEvalPtrs := List.getElem?_mem he1
  have hmap4 : ∀ ev ∈ (PBEAfterInsert C Exp Ty ExpansionTypeID s e1 (v1 != 1)
      (if v1 = 1 then x1 else x2) (if v1 = 1 then x2 else x1)).PBEEvalPtrs,
      MapFind (PBEAfterInsert C Exp Ty ExpansionTypeID s e1 (v1 != 1)
        (if v1 = 1 then x1 else x2) (if v1 = 1 then x2 else x1)).PBEEval2TermExpIdxMap ev.Id
        ≠ none := by
    intro ev hev
    rcases List.mem_or_eq_of_mem_set hev with h | h
    · exact hmapped ev h
    · subst h; exact hmapped e1 hmem1
  obtain ⟨b, s5, hr, hc⟩ := PBENextWorkItem_consumes C I s.PBEEvalPtrs.length hstep
    (C.PendingSlots (PBEAfterInsert C Exp Ty ExpansionTypeID s e1 (v1 != 1)
      (if v1 = 1 then x1 else x2) (if v1 = 1 then x2 else x1)).DTBuilder + 1)
    (PBEAfterInsert C Exp Ty ExpansionTypeID s e1 (v1 != 1)
      (if v1 = 1 then x1 else x2) (if v1 = 1 then x2 else x1))
    hI0 (List.length_set _ _ _) hmap4 (Nat.lt_succ_self _)
  have hfl := FrontierPairsConsumed_fields C _ b s5 hc
  refine ⟨b, s5, hc, ?_, ?_⟩
  · intro hb
    subst hb
    refine ⟨?_, hfl.2.2.2.2.2.2.2.2.1 rfl, hfl.1, hfl.2.1⟩
    rw [hins]
    simp only [PBEEnumDecisionTreeFinish, hr]
  · intro hb
    subst hb
    have hf5 : s5.SynthFuncs[0]? = some f := by rw [hfl.2.2.1]; exact hf
    refine ⟨_, hins.trans (PBEEnumDecisionTreeFinish_complete C _ s5 f hr hf5), rfl, ?_, rfl,
      ?_⟩
    · show s5.Solutions ++ _ = _
      rw [hfl.1]; rfl
    · exact hfl.2.2.2.2.2.2.2.2.2.1 rfl

theorem PBEEnumDecisionTree_consumes_frontier_witness :
    ∃ s', PBEEnumDecisionTree demoCollaboratorsPBE 2 0 0 demoSolverPBETree2
        = .ret .STOP_ENUMERATION s' ∧
      s'.Complete = true ∧ s'.Solutions = [[(7, 1000)]] ∧ s'.Restart = false := by
  obtain ⟨b, s5, _, ht, hf⟩ :=
    PBEEnumDecisionTree_consumes_frontier demoCollaboratorsPBE 2 0 0 demoSolverPBETree2
      { Id := 1, Points := [[0]], SigStore := [] } { Id := 2, Points := [[0]], SigStore := [] }
      1 0 1 0 102 105 7 (fun b => ∀ x ∈ b.Tree, x < 3)
      rfl rfl rfl rfl rfl rfl rfl rfl rfl ⟨by decide, Or.inl rfl⟩ rfl (by decide) (by decide)
      (by
        intro b l p hb hl
        rcases b with ⟨u, d, T⟩
        rcases T with _ | ⟨a, _ | ⟨c, r⟩⟩
        · simp [demoCollaboratorsPBE] at hl
        · simp [demoCollaboratorsPBE] at hl
        · have ha := hb a (by simp)
          have hc := hb c (by simp)
          refine ⟨ha, hc, ?_, ?_⟩
          · intro x hx
            exact hb x (List.mem_cons_of_mem _ hx)
          · simp [demoCollaboratorsPBE])
  have hcomp : (PBEEnumDecisionTree demoCollaboratorsPBE 2 0 0
      demoSolverPBETree2).state.Complete = true := by decide
  rcases b with _ | _
  · obtain ⟨s', hs', hc', hsol, _, hr⟩ := hf rfl
    exact ⟨s', hs', hc', hsol, hr⟩
  · obtain ⟨hs5, _, _, hc5⟩ := ht rfl
    rw [hs5] at hcomp
    rw [show s5.Complete = true from hcomp] at hc5
    exact absurd hc5 (by decide)

/-- Claim C21.  With the resource probe passing and the solver-wide evaluator present,
`SubExpressionCallBack` returns, with `NONE_STATUS` exactly when `CheckSubExpression`
reports the sub-expression distinguishable and `DELETE_EXPRESSION` exactly when it does
not (the flags it returns play no part); `NumDistExpressions` goes up by one in the
first case and stays in the second, and `NumExpressionsTried`, `Solutions`, `Complete` and
`Restart` are as on entry. -/
theorem SubExpressionCallBack_status_and_counters (C : Collaborators)
    (Exp : GenExpressionBase) (Ty : ESFixedTypeBase) (ExpansionTypeID : Nat) (s : CEGSolver)
    (ev : ConcreteEvaluator)
    (hres : C.ResourceLimitExceeded s.Trace = false) (hev : s.ConcEval = some ev) :
    ∃ st s', SubExpressionCallBack C Exp Ty ExpansionTypeID s = .ret st s' ∧
      (st = .NONE_STATUS ↔
        (C.CheckSubExpression ev s.PBEEvalPtrs Exp Ty ExpansionTypeID 0).1 = true) ∧
      (st = .DELETE_EXPRESSION ↔
        (C.CheckSubExpression ev s.PBEEvalPtrs Exp Ty ExpansionTypeID 0).1 = false) ∧
      s'.NumDistExpressions = s.NumDistExpressions +
        (if (C.CheckSubExpression ev s.PBEEvalPtrs Exp Ty ExpansionTypeID 0).1 then 1
          else 0) ∧
      s'.NumExpressionsTried = s.NumExpressionsTried ∧ s'.Solutions = s.Solutions ∧
      s'.Complete = s.Complete ∧ s'.Restart = s.Restart := by
  rcases hd : (C.CheckSubExpression ev s.PBEEvalPtrs Exp Ty ExpansionTypeID 0).1 with _ | _
  · refine ⟨.DELETE_EXPRESSION,
      { s with
        Trace := s.Trace ++ [.CheckResourceLimits],
        ConcEval := some { ev with SigStore :=
          (C.CheckSubExpression ev s.PBEEvalPtrs Exp Ty ExpansionTypeID 0).2.2.1 },
        SubExprEvalPoints :=
          (C.CheckSubExpression ev s.PBEEvalPtrs Exp Ty ExpansionTypeID 0).2.2.2 },
      ?_, by simp, by simp, by simp, rfl, rfl, rfl, rfl⟩
    simp only [SubExpressionCallBack, CheckResourceLimits, hres, CEGSolver.log, hev, hd,
      Bool.false_eq_true, ↓reduceIte]
  · refine ⟨.NONE_STATUS,
      { s with
        Trace := s.Trace ++ [.CheckResourceLimits],
        ConcEval := some { ev with SigStore :=
          (C.CheckSubExpression ev s.PBEEvalPtrs Exp Ty ExpansionTypeID 0).2.2.1 },
        SubExprEvalPoints :=
          (C.CheckSubExpression ev s.PBEEvalPtrs Exp Ty ExpansionTypeID 0).2.2.2,
        NumDistExpressions := s.NumDistExpressions + 1 },
      ?_, by simp, by simp, by simp, rfl, rfl, rfl, rfl⟩
    simp only [SubExpressionCallBack, CheckResourceLimits, hres, CEGSolver.log, hev, hd,
      Bool.false_eq_true, ↓reduceIte]

theorem SubExpressionCallBack_status_and_counters_witness :
    ∃ st s', SubExpressionCallBack (demoCollaborators true 0 .SOLVE_VALID) 5 0 0
        (demoSolverCEG false [7]) = .ret st s' ∧ st = .NONE_STATUS ∧
      s'.NumDistExpressions = 1 := by
  obtain ⟨st, s', h, hn, _, hc, _⟩ :=
    SubExpressionCallBack_status_and_counters (demoCollaborators true 0 .SOLVE_VALID) 5 0 0
      (demoSolverCEG false [7]) { Id := 0, Points := [], SigStore := [] } rfl rfl
  exact ⟨st, s', h, hn.mpr rfl, hc⟩

/-- Claim C22 fails on the code.  With the resource limits exceeded, the single-function
`ExpressionCallBack` in CEG mode raises nothing: it never calls `CheckResourceLimits`,
evaluates the candidate, queries the oracle and records a solution.  The tuple
`ExpressionCallBack` raises the error, but only after it has incremented both counters. -/
theorem ExpressionCallBack_skips_resource_probe :
    (∃ s', ExpressionCallBack demoCollaboratorsExhausted 5 0 0 0 (demoSolverCEG false [7])
        = .ret .STOP_ENUMERATION s' ∧
      s'.Complete = true ∧ s'.Solutions = [[(7, 105)]] ∧ s'.NumExpressionsTried = 1 ∧
      s'.Trace = [.CheckValidity [5] .SOLVE_VALID]) ∧
    (∃ s', ExpressionCallBackTuple demoCollaboratorsExhausted (fun i => 5 + i) (fun _ => 0)
        (fun _ => 0) (demoSolverCEG false [7, 8]) = .throw .ResourceLimitExceeded s' ∧
      (demoSolverCEG false [7, 8]).NumExpressionsTried = 0 ∧
      (demoSolverCEG false [7, 8]).NumDistExpressions = 0 ∧
      s'.NumExpressionsTried = 1 ∧ s'.NumDistExpressions = 1) ∧
    demoCollaboratorsExhausted.ResourceLimitExceeded (demoSolverCEG false [7]).Trace = true :=
  ⟨⟨_, rfl, rfl, rfl, rfl, rfl⟩, ⟨_, rfl, rfl, rfl, rfl, rfl⟩, rfl⟩

/-- Claim C23 as stated fails.  With an oracle that answers Unknown, `Solve` on a CEG
constraint ends by the error raised in the callback (`Z3Exception`): neither `PostSolve`
nor `EndSolve` has been called, and the evaluator and the enumerator are still held. -/
theorem Solve_oracle_unknown_skips_teardown :
    ∃ s', Solve (demoCollaborators true 0 (.SOLVE_UNKNOWN 0)) demoInputCEG 2
        (freshSolver { StatsLevel := 0, NoDist := false, CostBudget := 3 })
        = .throw .Z3Exception s' ∧
      s'.Trace = [.GenExpressionInitialize, .PreSolve, .EnumerateOfCost 1,
        .CheckValidity [5] (.SOLVE_UNKNOWN 0)] ∧
      s'.ConcEval = some { Id := 0, Points := [], SigStore := [] } ∧
      s'.ExpEnumerator = some 0 :=
  ⟨_, rfl, rfl, rfl, rfl⟩

/-- The statistics report reads past the end of an empty solution.  With no synth
function the enumerator over the empty list of grammars delivers the empty tuple; the
oracle accepts it and the solution recorded is the empty vector.  At `StatsLevel = 1` the
report then reads `Solutions[0][0]`: `Solve` ends there, after `PostSolve` and before
`EndSolve`, with the evaluator and the enumerator still held. -/
theorem Solve_statistics_read_out_of_range :
    ∃ s', Solve (demoCollaborators true 0 .SOLVE_VALID) { demoInputCEG with SFSet := [] } 2
        (freshSolver { StatsLevel := 1, NoDist := false, CostBudget := 3 })
        = .throw .UndefinedBehaviour s' ∧
      s'.Solutions = [[]] ∧
      s'.Trace = [.GenExpressionInitialize, .PreSolve, .EnumerateOfCost 0,
        .CheckResourceLimits, .CheckValidity [] .SOLVE_VALID, .PostSolve] ∧
      s'.ConcEval = some { Id := 0, Points := [], SigStore := [] } ∧
      s'.ExpEnumerator = some 0 :=
  ⟨_, rfl, rfl, rfl, rfl, rfl⟩

/-- Claim C23, amended.  A `Solve` that returns has called `PostSolve` and then `EndSolve`,
once each, `EndSolve` being its last call, and has released the evaluator and the
enumerator.  A `Solve` that ends by an error has not called `EndSolve`; it has called
`PostSolve` only when the error is the out-of-range read of the statistics report, which
runs after `PostSolve` (at `StatsLevel >= 1`, on a first solution that is the empty
vector).  In particular an error raised by a callback during enumeration (`Z3Exception`
for an oracle answer Unknown, `ResourceLimitExceeded`) ends `Solve` with neither call
made. -/
theorem Solve_teardown_on_return_only (C : Collaborators) (inp : SolveInput) (fuel : Nat)
    (s : CEGSolver) :
    (∀ sols s', Solve C inp fuel s = .ret sols s' →
      (∃ t, s'.Trace = t ++ [.EndSolve]) ∧
      TeardownCalls s'.Trace = TeardownCalls s.Trace ++ [.PostSolve, .EndSolve] ∧
      s'.ConcEval = none ∧ s'.ExpEnumerator = none) ∧
    (∀ e s', Solve C inp fuel s = .throw e s' →
      (TeardownCalls s'.Trace = TeardownCalls s.Trace ∨
        (TeardownCalls s'.Trace = TeardownCalls s.Trace ++ [.PostSolve] ∧
          e = .UndefinedBehaviour ∧ 1 ≤ s'.Opts.StatsLevel ∧
          s'.Solutions.head? = some [])) ∧
      (e = .Z3Exception ∨ e = .ResourceLimitExceeded →
        TeardownCalls s'.Trace = TeardownCalls s.Trace)) := by
  have hsetup := SolveSetup_teardown C inp s
  constructor
  · intro sols s' h
    simp only [Solve] at h
    split at h
    · cases h
    · rename_i u s1 h1
      rw [h1] at hsetup
      have hloop := SolveDoWhile_teardown C
        (SolveEnumerator C (s1.SynthFuncs.length % 2 ^ 32)) (s1.SynthFuncs.length % 2 ^ 32)
        fuel 0 (s1.log .PreSolve)
      split at h
      · cases h
      · rename_i n s2 h2
        rw [h2] at hloop
        split at h
        · cases h
        rename_i u3 s3 hstat
        obtain rfl := SolveStatistics_ret _ _ _ hstat
        cases h
        refine ⟨⟨s2.Trace ++ [.PostSolve], by simp [EndSolve, CEGSolver.log]⟩, ?_, rfl, rfl⟩
        simp only [Outcome.state] at hsetup hloop
        simp only [EndSolve, CEGSolver.log, TeardownCalls_append, hloop, hsetup]
        simp [TeardownCalls]
  · intro e s' h
    simp only [Solve] at h
    split at h
    · rename_i e1 s1 h1
      rw [h1] at hsetup
      cases h
      exact ⟨Or.inl hsetup, fun _ => hsetup⟩
    · rename_i u s1 h1
      rw [h1] at hsetup
      have hloop := SolveDoWhile_teardown C
        (SolveEnumerator C (s1.SynthFuncs.length % 2 ^ 32)) (s1.SynthFuncs.length % 2 ^ 32)
        fuel 0 (s1.log .PreSolve)
      split at h
      · rename_i e2 s2 h2
        rw [h2] at hloop
        cases h
        simp only [Outcome.state] at hsetup hloop
        have hk : TeardownCalls s'.Trace = TeardownCalls s.Trace := by
          rw [hloop]
          simp only [CEGSolver.log, TeardownCalls_append, hsetup]
          simp [TeardownCalls]
        exact ⟨Or.inl hk, fun _ => hk⟩
      · rename_i n s2 h2
        rw [h2] at hloop
        split at h
        · rename_i e3 s3 hstat
          obtain ⟨rfl, rfl, hlevel, hsol⟩ := SolveStatistics_throw _ _ _ hstat
          cases h
          simp only [Outcome.state] at hsetup hloop
          refine ⟨Or.inr ⟨?_, rfl, hlevel, hsol⟩, fun hc => ?_⟩
          · simp only [CEGSolver.log, TeardownCalls_append, hloop, hsetup]
            simp [TeardownCalls]
          · rcases hc with hc | hc <;> cases hc
        · cases h

/-- Claim C23: the theorem at a CEG solve whose first candidate the oracle accepts; the
solve returns the solution and its record holds `PostSolve` and `EndSolve`, once each, in
this order. -/
theorem Solve_teardown_on_return_only_witness :
    TeardownCalls (Solve (demoCollaborators true 0 .SOLVE_VALID) demoInputCEG 2
        (freshSolver { StatsLevel := 0, NoDist := false, CostBudget := 3 })).state.Trace
      = [] ++ [.PostSolve, .EndSolve] :=
  ((Solve_teardown_on_return_only (demoCollaborators true 0 .SOLVE_VALID) demoInputCEG 2
    (freshSolver { StatsLevel := 0, NoDist := false, CostBudget := 3 })).1
    [[(7, 105)]] _ rfl).2.1

/-- Claim C24.  Every call of the single-function `ExpressionCallBack` that returns, in
CEG mode and in both PBE phases, has increased `NumExpressionsTried` by one, and
`NumDistExpressions` by one if the returned status is not `DELETE_EXPRESSION` and by zero
if it is.  In particular a candidate that the evaluator reports concretely invalid with
the DIST flag set (in CEG mode on the solver-wide evaluator, in the `BuildTermExprs` phase
on the front evaluator) yields `NONE_STATUS` and so is counted as distinguishable. -/
theorem ExpressionCallBack_counts (C : Collaborators) (Exp : GenExpressionBase)
    (Ty : ESFixedTypeBase) (ExpansionTypeID EnumeratorIndex : Nat) (s : CEGSolver)
    (st : CallbackStatus) (s' : CEGSolver)
    (h : ExpressionCallBack C Exp Ty ExpansionTypeID EnumeratorIndex s = .ret st s') :
    s'.NumExpressionsTried = s.NumExpressionsTried + 1 ∧
    s'.NumDistExpressions = s.NumDistExpressions +
      (if st = .DELETE_EXPRESSION then 0 else 1) ∧
    (∀ ev, s.TheMode = .CEG → s.ConcEval = some ev →
      (C.CheckConcreteValidity ev Exp Ty ExpansionTypeID 0).1 = false →
      (C.CheckConcreteValidity ev Exp Ty ExpansionTypeID 0).2.1 &&& C.CONCRETE_EVAL_DIST ≠ 0 →
      st = .NONE_STATUS) ∧
    (∀ c ev, s.TheMode = .PBE → s.PBEPhase = .BuildTermExprs →
      s.DTBuilder.GetQueueBack = some c → s.PBEEvalPtrs[c]? = some ev →
      (C.CheckConcreteValidity ev Exp Ty ExpansionTypeID 0).1 = false →
      (C.CheckConcreteValidity ev Exp Ty ExpansionTypeID 0).2.1 &&& C.CONCRETE_EVAL_DIST ≠ 0 →
      st = .NONE_STATUS) := by
  obtain ⟨⟨h1, h2⟩, _⟩ :=
    ExpressionCallBack_report C Exp Ty ExpansionTypeID EnumeratorIndex s st s' h
  refine ⟨h1, h2, ?_, ?_⟩
  · intro ev hm hev hv hd
    simp [ExpressionCallBack, hm, hev, hv, hd] at h
    exact h.1.symm
  · intro c ev hm hp hc hev hv hd
    rcases hres : C.ResourceLimitExceeded s.Trace with _ | _
    · simp [ExpressionCallBack, PBEEnumTermExprs, CheckResourceLimits, hres, CEGSolver.log,
        hm, hp, hc, hev, hv, hd] at h
      exact h.1.symm
    · simp [ExpressionCallBack, PBEEnumTermExprs, CheckResourceLimits, hres, hm, hp] at h

theorem ExpressionCallBack_counts_witness :
    ∃ s', ExpressionCallBack (demoCollaborators false 1 .SOLVE_VALID) 5 0 0 0
        (demoSolverCEG false [7]) = .ret .NONE_STATUS s' ∧
      s'.NumExpressionsTried = 1 ∧ s'.NumDistExpressions = 1 :=
  ⟨_, rfl,
    (ExpressionCallBack_counts (demoCollaborators false 1 .SOLVE_VALID) 5 0 0 0
      (demoSolverCEG false [7]) .NONE_STATUS _ rfl).1,
    (ExpressionCallBack_counts (demoCollaborators false 1 .SOLVE_VALID) 5 0 0 0
      (demoSolverCEG false [7]) .NONE_STATUS _ rfl).2.1⟩

/-- Claim C25.  For every callback (sub-expression, single-function in any mode and
phase, tuple) entered with `Restart` and `Complete` both clear and returning: the status
is `STOP_ENUMERATION` if and only if exactly one of `Restart` and `Complete` is set on
return; with any other status both are still clear and `Solutions` is as on entry; and
one solution has been appended when `Complete` is set, none when it is not. -/
theorem CallBack_stop_status (C : Collaborators) (req : CallbackRequest) (s : CEGSolver)
    (st : CallbackStatus) (s' : CEGSolver)
    (hR : s.Restart = false) (hC : s.Complete = false)
    (h : CallBack C req s = .ret st s') :
    (st = .STOP_ENUMERATION ↔
      (s'.Restart = true ∧ s'.Complete = false) ∨ (s'.Restart = false ∧ s'.Complete = true)) ∧
    (st ≠ .STOP_ENUMERATION →
      s'.Restart = false ∧ s'.Complete = false ∧ s'.Solutions = s.Solutions) ∧
    (s'.Complete = true → ∃ sol, s'.Solutions = s.Solutions ++ [sol]) ∧
    (s'.Complete = false → s'.Solutions = s.Solutions) := by
  rcases CallBack_report C req s st s' h with ⟨h1, h2, h3, h4⟩ | ⟨h1, h2, h3, h4⟩ |
      ⟨h1, h2, h3, sol, h4⟩
  · rw [hR] at h2
    rw [hC] at h3
    refine ⟨⟨fun e => absurd e h1, ?_⟩, fun _ => ⟨h2, h3, h4⟩, ?_, fun _ => h4⟩
    · rintro (⟨a, _⟩ | ⟨_, a⟩)
      · rw [h2] at a; cases a
      · rw [h3] at a; cases a
    · intro a; rw [h3] at a; cases a
  · rw [hC] at h3
    refine ⟨⟨fun _ => Or.inl ⟨h2, h3⟩, fun _ => h1⟩, fun e => absurd h1 e, ?_, fun _ => h4⟩
    intro a; rw [h3] at a; cases a
  · rw [hR] at h2
    refine ⟨⟨fun _ => Or.inr ⟨h2, h3⟩, fun _ => h1⟩, fun e => absurd h1 e,
      fun _ => ⟨sol, h4⟩, ?_⟩
    intro a; rw [h3] at a; cases a

theorem CallBack_stop_status_witness :
    ∃ s', CallBack (demoCollaborators true 0 .SOLVE_INVALID) (.Expression 5 0 0 0)
        (demoSolverCEG false [7]) = .ret .STOP_ENUMERATION s' ∧
      ((s'.Restart = true ∧ s'.Complete = false) ∨
        (s'.Restart = false ∧ s'.Complete = true)) :=
  ⟨_, rfl,
    (CallBack_stop_status (demoCollaborators true 0 .SOLVE_INVALID) (.Expression 5 0 0 0)
      (demoSolverCEG false [7]) .STOP_ENUMERATION _ rfl rfl rfl).1.mp rfl⟩

/-- Claim C26.  Run a callback (sub-expression, single-function in any mode and phase,
tuple) from the same solver with the same collaborators at two statistics levels, and with
any two results of the example validation: both runs end the same way (the same status
returned or the same error raised), and they leave solvers that agree on everything but
the statistics level and the record of collaborator calls, in particular on `Solutions`,
`Complete`, `Restart`, the PBE phase, the terminal list and mapping, and the two counters.
The run at the second level may so be one in which the validation of the finished tree
fails on every example: the solution is emitted all the same. -/
theorem CallBack_diagnostics_do_not_change_outcome (C : Collaborators)
    (chk : ConcreteEvaluator → Expression → Bool) (req : CallbackRequest) (s : CEGSolver)
    (l : Nat) :
    SameOutcome (CallBack C req s)
      (CallBack { C with CheckExampleValidity := chk } req
        { s with Opts := { s.Opts with StatsLevel := l } }) ∧
    (CallBack { C with CheckExampleValidity := chk } req
        { s with Opts := { s.Opts with StatsLevel := l } }).val?
      = (CallBack C req s).val? ∧
    (CallBack { C with CheckExampleValidity := chk } req
        { s with Opts := { s.Opts with StatsLevel := l } }).exception?
      = (CallBack C req s).exception? ∧
    (CallBack { C with CheckExampleValidity := chk } req
        { s with Opts := { s.Opts with StatsLevel := l } }).state.Solutions
      = (CallBack C req s).state.Solutions ∧
    (CallBack { C with CheckExampleValidity := chk } req
        { s with Opts := { s.Opts with StatsLevel := l } }).state.Complete
      = (CallBack C req s).state.Complete ∧
    (CallBack { C with CheckExampleValidity := chk } req
        { s with Opts := { s.Opts with StatsLevel := l } }).state.Restart
      = (CallBack C req s).state.Restart ∧
    (CallBack { C with CheckExampleValidity := chk } req
        { s with Opts := { s.Opts with StatsLevel := l } }).state.PBEPhase
      = (CallBack C req s).state.PBEPhase ∧
    (CallBack { C with CheckExampleValidity := chk } req
        { s with Opts := { s.Opts with StatsLevel := l } }).state.PBETermExprs
      = (CallBack C req s).state.PBETermExprs ∧
    (CallBack { C with CheckExampleValidity := chk } req
        { s with Opts := { s.Opts with StatsLevel := l } }).state.PBEEval2TermExpIdxMap
      = (CallBack C req s).state.PBEEval2TermExpIdxMap ∧
    (CallBack { C with CheckExampleValidity := chk } req
        { s with Opts := { s.Opts with StatsLevel := l } }).state.NumExpressionsTried
      = (CallBack C req s).state.NumExpressionsTried ∧
    (CallBack { C with CheckExampleValidity := chk } req
        { s with Opts := { s.Opts with StatsLevel := l } }).state.NumDistExpressions
      = (CallBack C req s).state.NumDistExpressions :=
  ⟨CallBack_diag C chk req s l, SameOutcome_fields (CallBack_diag C chk req s l)⟩

/-- Claim C27 fails on the code.  On a constraint of PBE shape `Solve` creates the
per-example evaluators and leaves the solver-wide `ConcEval` absent; when the enumerator
then invokes `SubExpressionCallBack`, the callback runs with `ConcEval` absent and
dereferences it. -/
theorem Solve_PBE_SubExpressionCallBack_without_evaluator :
    (SolveSetup demoCollaboratorsPBESub demoInputPBE3
      (freshSolver { StatsLevel := 0, NoDist := false, CostBudget := 3 })).state.TheMode
      = .PBE ∧
    (SolveSetup demoCollaboratorsPBESub demoInputPBE3
      (freshSolver { StatsLevel := 0, NoDist := false, CostBudget := 3 })).state.ConcEval
      = none ∧
    (∃ s', Solve demoCollaboratorsPBESub demoInputPBE3 8
        (freshSolver { StatsLevel := 0, NoDist := false, CostBudget := 3 })
        = .throw .UndefinedBehaviour s' ∧
      s'.ConcEval = none ∧
      s'.Trace = [.ResetSigStore 0, .GenExpressionInitialize, .PreSolve, .EnumerateOfCost 1,
        .CheckResourceLimits]) :=
  ⟨rfl, rfl, _, rfl, rfl, rfl⟩

/-- Claim C28 fails on the code.  The sets {1, 4} and {2, 3} have the same size; comparing
{1, 4} with {2, 3} stops at the first position (1 < 2) and returns `true`, and comparing
{2, 3} with {1, 4} passes the first position, where 2 is the larger element, without
returning `false`, and returns `true` at the second (3 < 4).  Both lists are in ascending
order without duplicates, as the iteration of a `set` yields them. -/
theorem SetCompare_both_orders_true :
    SetCompare [1, 4] [2, 3] = true ∧ SetCompare [2, 3] [1, 4] = true ∧
      List.Sorted (fun a b : Nat => a < b) [1, 4] ∧
      List.Sorted (fun a b : Nat => a < b) [2, 3] := by
  refine ⟨by decide, by decide, by simp, by simp⟩

end ESolver
